import Mathlib

/-!
# llaisys: a shallow embedding of the CPU kernels and their entry points

The embedding follows the C++ sources function by function.

* A buffer the code stores into is a `Buf T`: the element values (element index
  relative to the pointer) together with the number of stores performed at every
  index, so that "written once" and "not written" can be stated.
* A buffer the code only reads is seen through a typed pointer `const T*`.  No
  entry point compares the addresses of its arguments, so an input may share
  memory with the output.  For rearrange, linear, embedding and rope the input
  is a `Src T`, which records for every element whether it lies in the output
  buffer, and every read sees the stores made before it.  For argmax and
  self_attention the input is a function `Nat → T`, its contents when the call
  is made: these kernels have read every input element before the first store
  to an output buffer.  For rms_norm and swiglu the input is a function
  `Nat → T` as well, and the input buffers are taken to lie outside the output
  buffer.
* A `for (size_t i = 0; i < n; ++i)` loop is `forLoop n body s`.
* The storage element type `T` and the accumulation type `F` (`float` in the
  sources) are parameters, with `toFloat : T → F` standing for
  `utils::cast<float>` and `cast : F → T` for `utils::cast<T>`.
* The float arithmetic of linear, rope and self_attention is that of `F`, given
  by its operations only (no law is built into a definition), so that the
  definitions can be evaluated in exact arithmetic and in an arithmetic with
  infinities and a NaN alike.
* An entry point returns an `Outcome`: the exception thrown (if any) and the
  contents of the output buffers when control leaves the function.
-/

namespace llaisys

/-! ## Data model -/

/-- Modelled from the spec: the dtype enumeration `llaisysDataType_t` is declared in a header
that is not among the sources; the tags are the ones the dispatch in `debug_print` names, and
the compute dtypes are F32, F16 and BF16, the index dtype is I64. -/
inductive llaisysDataType_t where
  | INVALID | BYTE | BOOL | I8 | I16 | I32 | I64 | U8 | U16 | U32 | U64 | F16 | F32 | F64 | BF16
  deriving DecidableEq, Repr

/-- Modelled from the spec: the device enumeration `llaisysDeviceType_t` is declared in a
header that is not among the sources; only the CPU path is implemented. -/
inductive llaisysDeviceType_t where
  | CPU | NVIDIA
  deriving DecidableEq, Repr

/-- The C++ exception classes the sources throw, and `fault` for an execution that has no
defined result (integer division by zero). -/
inductive Error where
  | invalid_argument | out_of_range | runtime_error | fault
  deriving DecidableEq, Repr

/-- What a call leaves behind: the exception thrown, if any, and the output buffers. -/
structure Outcome (σ : Type) where
  err : Option Error
  out : σ

/-- A buffer that is stored into: element values and per-index store counts. -/
structure Buf (T : Type) where
  val : Nat → T
  stores : Nat → Nat

/-- One store `p[i] = v`. -/
def Buf.store {T : Type} (b : Buf T) (i : Nat) (v : T) : Buf T :=
  { val := Function.update b.val i v
    stores := Function.update b.stores i (b.stores i + 1) }

/-- A buffer holding `f` on which no store has been performed yet. -/
def Buf.fresh {T : Type} (f : Nat → T) : Buf T := { val := f, stores := fun _ => 0 }

/-- A buffer the call only reads, seen through a typed pointer `const T*`. The entry points
never compare the addresses of their arguments, so an input may share memory with the output:
element `k` of the input is element `p` of the output buffer when `overlap k = some p`, and a
read then returns what the output buffer holds at `p` at the time of the read; when
`overlap k = none` the element lies outside the output buffer and holds `mem k` throughout
the call. -/
structure Src (T : Type) where
  overlap : Nat → Option Nat
  mem : Nat → T

/-- One read `p[k]` through an input pointer while the output buffer is in state `o`. -/
def Src.read {T : Type} (s : Src T) (o : Buf T) (k : Nat) : T :=
  match s.overlap k with
  | some p => o.val p
  | none => s.mem k

/-- An input buffer that shares no element with the output buffer and holds `f`. -/
def Src.ofFun {T : Type} (f : Nat → T) : Src T := { overlap := fun _ => none, mem := f }

/-- The first `n` elements of the input lie outside the output buffer. -/
def Src.Apart {T : Type} (s : Src T) (n : Nat) : Prop := ∀ k, k < n → s.overlap k = none

/-- The loop `for (size_t i = 0; i < n; ++i) s = body i s`. -/
def forLoop {σ : Type} : Nat → (Nat → σ → σ) → σ → σ
  | 0, _, s => s
  | n + 1, body, s => body n (forLoop n body s)

/-- A counting loop whose body may throw: once an exception is raised the remaining
iterations do not run and the state is the one at the throw. -/
def forLoopE {σ : Type} (n : Nat) (body : Nat → σ → Outcome σ) (s : σ) : Outcome σ :=
  forLoop n (fun i st => match st.err with
    | some _ => st
    | none => body i st.out) ⟨none, s⟩

/-- The struct `TensorMeta`, built in tensor.cpp as `TensorMeta meta{dtype, shape, strides}`:
the strides are `ptrdiff_t` steps in elements. -/
structure TensorMeta where
  dtype : llaisysDataType_t
  shape : List Nat
  strides : List Int
  deriving DecidableEq, Repr

/-- Modelled from the spec: the storage class is declared outside the sources; a storage
block is the shared buffer of the data model, of which tensor.cpp uses `deviceType()`,
`deviceId()`, `memory()` (here the identity of the block) and `size()`. -/
structure Storage where
  deviceType : llaisysDeviceType_t
  deviceId : Int
  memory : Nat
  size : Nat
  deriving DecidableEq, Repr

/-- Modelled from the spec: `utils::dsize` is not among the sources; it is the size in bytes
of one element of the dtype (`elementSize(dtype)` of the data model). -/
def utils.dsize : llaisysDataType_t → Nat
  | .INVALID => 0
  | .BYTE | .BOOL | .I8 | .U8 => 1
  | .I16 | .U16 | .F16 | .BF16 => 2
  | .I32 | .U32 | .F32 => 4
  | .I64 | .U64 | .F64 => 8

/-- A tensor as the constructor in tensor.cpp builds it: `_meta`, the shared `_storage` and
the `_offset` that `data()` adds to `memory()`. -/
structure Tensor where
  meta : TensorMeta
  storage : Storage
  offset : Nat
  deriving DecidableEq, Repr

namespace Tensor

def ndim (t : Tensor) : Nat := t.meta.shape.length

def shape (t : Tensor) : List Nat := t.meta.shape

def strides (t : Tensor) : List Int := t.meta.strides

def dtype (t : Tensor) : llaisysDataType_t := t.meta.dtype

def deviceType (t : Tensor) : llaisysDeviceType_t := t.storage.deviceType

def deviceId (t : Tensor) : Int := t.storage.deviceId

/-- The product `std::accumulate(shape.begin(), shape.end(), 1, multiplies)`. -/
def numel (t : Tensor) : Nat := t.meta.shape.foldl (fun acc s => acc * s) 1

/-- The backward walk of `isContiguous`: `i` dimensions are still to be checked, the next one
is `dim = i - 1`. -/
def isContiguousLoop (shape_ : List Nat) (strides_ : List Int) : Nat → Int → Bool
  | 0, _ => true
  | dim + 1, expected_stride =>
    if strides_.getD dim 0 ≠ expected_stride then false
    else isContiguousLoop shape_ strides_ dim
      (if dim > 0 then expected_stride * (shape_.getD dim 0 : Int) else expected_stride)

def isContiguous (t : Tensor) : Bool :=
  if t.ndim ≤ 1 then true else isContiguousLoop t.shape t.strides t.ndim 1

/-- The stride loop of `create` (and of `view`): iteration `k` is `i = k + 1`; the state is
the strides vector and the running `stride`. -/
def strideLoop (shape : List Nat) : List Int × Nat :=
  forLoop shape.length
    (fun k st => (st.1.set (shape.length - (k + 1)) (st.2 : Int),
      st.2 * shape.getD (shape.length - (k + 1)) 0))
    (List.replicate shape.length 0, 1)

/-- Modelled from the spec: the default value of the constructor's `offset` argument, which
`create` leaves out, is declared in a header that is not among the sources; a fresh tensor
starts at the beginning of its buffer, offset 0. The remaining steps follow `Tensor::create`:
`memory` is the block the allocator hands out for the requested `total_elems * dtype_size`
bytes, which is recorded as the storage size. Both allocation branches build the same
tensor. -/
def create (shape : List Nat) (dtype : llaisysDataType_t) (device_type : llaisysDeviceType_t)
    (device : Int) (memory : Nat) : Tensor :=
  let r := strideLoop shape
  let total_elems := r.2
  let dtype_size := utils.dsize dtype
  { meta := { dtype := dtype, shape := shape, strides := r.1 }
    storage := { deviceType := device_type, deviceId := device, memory := memory,
                 size := total_elems * dtype_size }
    offset := 0 }

/-- The validation loop of `permute` over the entries of `order`, with the `dim_used` flags. -/
def permuteCheck (ndim_ : Nat) : List Nat → List Bool → Option Error
  | [], _ => none
  | dim :: rest, dim_used =>
    if dim ≥ ndim_ then some .invalid_argument
    else if dim_used.getD dim false then some .invalid_argument
    else permuteCheck ndim_ rest (dim_used.set dim true)

/-- The call `std::vector::resize(n)`: truncate, or pad with zeros. -/
def resize {α : Type} [Zero α] (l : List α) (n : Nat) : List α :=
  l.take n ++ List.replicate (n - l.length) 0

/-- The method `Tensor::permute`: `EXCEPTION_INVALID_ORDER` throws `std::invalid_argument`;
the new tensor shares the storage and the offset. -/
def permute (t : Tensor) (order : List Nat) : Except Error Tensor :=
  let ndim_ := t.ndim
  if order.length ≠ ndim_ then .error .invalid_argument
  else match permuteCheck ndim_ order (List.replicate ndim_ false) with
    | some e => .error e
    | none =>
      let new_meta := forLoop ndim_
        (fun i (m : TensorMeta) =>
          let original_dim := order.getD i 0
          { m with shape := m.shape.set i (t.meta.shape.getD original_dim 0)
                   strides := m.strides.set i (t.meta.strides.getD original_dim 0) })
        { t.meta with shape := resize t.meta.shape ndim_
                      strides := resize t.meta.strides ndim_ }
      .ok { meta := new_meta, storage := t.storage, offset := t.offset }

/-- The element offset of the multi-index `idx` relative to `data()`: `Σ idx[i] * strides[i]`
(the addressing `print_data` performs). -/
def elemOffset (t : Tensor) (idx : List Nat) : Int :=
  (List.zipWith (fun (i : Nat) (s : Int) => (i : Int) * s) idx t.strides).sum

/-- The logical element of `t` at `idx`, read from the elements `D` seen through `data()`. -/
def elemAt {T : Type} (t : Tensor) (D : Nat → T) (idx : List Nat) : T :=
  D (t.elemOffset idx).toNat

end Tensor

/-! ## rearrange -/

/-- The loop `out[idx] = in[idx]`, in increasing order of `idx`; each read sees the stores
made before it. -/
def copy_elementwise {T : Type} (out : Buf T) (inp : Src T) (total_elements : Nat) : Buf T :=
  forLoop total_elements (fun idx o => o.store idx (inp.read o idx)) out

def rearrange_ {T : Type} (out : Buf T) (inp : Src T) (total_elements : Nat) : Buf T :=
  copy_elementwise out inp total_elements

namespace ops.cpu

def rearrange {T : Type} (out : Buf T) (inp : Src T) (data_type : llaisysDataType_t)
    (total_elements elem_size : Nat) : Outcome (Buf T) :=
  if total_elements = 0 ∨ elem_size = 0 then ⟨some .invalid_argument, out⟩
  else match data_type with
    | .F32 | .F16 | .BF16 => ⟨none, rearrange_ out inp total_elements⟩
    | _ => ⟨some .runtime_error, out⟩

end ops.cpu

namespace ops

/-- The helper `get_dtype_size` of rearrange/op.cpp; `none` is the `std::runtime_error` of
the default branch. -/
def get_dtype_size : llaisysDataType_t → Option Nat
  | .F32 => some 4
  | .F16 => some 2
  | .BF16 => some 2
  | _ => none

/-- The checks of `ops::rearrange`, in source order; strides and contiguity are not looked
at. -/
def rearrange {T : Type} (out inp : Tensor) (outD : Buf T) (inD : Src T) : Outcome (Buf T) :=
  let fail : Outcome (Buf T) := ⟨some .invalid_argument, outD⟩
  if out.deviceType ≠ inp.deviceType ∨ out.deviceId ≠ inp.deviceId then fail
  else if out.shape ≠ inp.shape then fail
  else
    let total_elements := out.shape.foldl (fun acc dim => acc * dim) 1
    if inp.dtype ≠ out.dtype then fail
    else match get_dtype_size out.dtype with
      | none => ⟨some .runtime_error, outD⟩
      | some elem_size =>
        if out.deviceType = .CPU then
          cpu.rearrange outD inD out.dtype total_elements elem_size
        else ⟨some .runtime_error, outD⟩

end ops

/-! ## linear -/

/-- Both branches of the `if constexpr` perform the same computation: accumulate in `F`
from `0.0f`, then one `utils::cast<T>`. -/
def matmul_element {T F : Type} [Add F] [Mul F] [Zero F] (cast : F → T) (toFloat : T → F)
    (in_row weight : Nat → T) (in_features out_feature_idx : Nat) : T :=
  cast (forLoop in_features
    (fun k sum => sum + toFloat (in_row k) * toFloat (weight (out_feature_idx * in_features + k)))
    0)

/-- The row pointer `out_row = out_ptr + row`; both branches are the same loop. The bias
element is read when its turn comes, after the stores of the earlier iterations. -/
def add_bias {T F : Type} [Add F] (cast : F → T) (toFloat : T → F)
    (out : Buf T) (row : Nat) (bias : Src T) (out_features : Nat) : Buf T :=
  forLoop out_features
    (fun j o => o.store (row + j) (cast (toFloat (o.val (row + j)) + toFloat (bias.read o j))))
    out

/-- The null `bias` pointer is `none`. Each call of `matmul_element` reads the row
`in_row = in_ptr + i * in_features` and the weights from memory as the stores made so far
have left it. -/
def linear_ {T F : Type} [Add F] [Mul F] [Zero F] (cast : F → T) (toFloat : T → F)
    (out : Buf T) (inp weight : Src T) (bias : Option (Src T))
    (N in_features out_features : Nat) : Buf T :=
  forLoop N (fun i o =>
    let o1 := forLoop out_features
      (fun j o' =>
        let in_row : Nat → T := fun k => inp.read o' (i * in_features + k)
        let weight_ptr : Nat → T := fun k => weight.read o' k
        o'.store (i * out_features + j)
          (matmul_element cast toFloat in_row weight_ptr in_features j)) o
    match bias with
    | none => o1
    | some b => add_bias cast toFloat o1 (i * out_features) b out_features) out

namespace ops.cpu

def linear {T F : Type} [Add F] [Mul F] [Zero F] (cast : F → T) (toFloat : T → F)
    (out : Buf T) (inp weight : Src T) (bias : Option (Src T))
    (data_type : llaisysDataType_t) (N in_features out_features : Nat) : Outcome (Buf T) :=
  if N = 0 ∨ in_features = 0 ∨ out_features = 0 then ⟨some .invalid_argument, out⟩
  else match data_type with
    | .F32 | .F16 | .BF16 =>
      ⟨none, linear_ cast toFloat out inp weight bias N in_features out_features⟩
    | _ => ⟨some .runtime_error, out⟩

end ops.cpu

namespace ops

/-- A null handle is `none`. -/
def is_tensor_null (tensor : Option Tensor) : Bool :=
  match tensor with
  | none => true
  | some t => t.numel = 0

/-- The checks of `ops::linear`, in source order; `outD`, `inD`, `weightD`, `biasD` are the
elements seen through `data()` of each tensor. -/
def linear {T F : Type} [Add F] [Mul F] [Zero F] (cast : F → T) (toFloat : T → F)
    (out inp weight : Tensor) (bias : Option Tensor)
    (outD : Buf T) (inD weightD biasD : Src T) : Outcome (Buf T) :=
  let fail : Outcome (Buf T) := ⟨some .invalid_argument, outD⟩
  let bias_t : Tensor := bias.getD out
  if out.deviceType ≠ inp.deviceType ∨ out.deviceType ≠ weight.deviceType ∨
      out.deviceId ≠ inp.deviceId ∨ out.deviceId ≠ weight.deviceId then fail
  else if ¬ is_tensor_null bias ∧
      (out.deviceType ≠ bias_t.deviceType ∨ out.deviceId ≠ bias_t.deviceId) then fail
  else if out.shape.length ≠ 2 then fail
  else if inp.shape.length ≠ 2 then fail
  else if weight.shape.length ≠ 2 then fail
  else if ¬ is_tensor_null bias ∧ bias_t.shape.length ≠ 1 then fail
  else
    let N := inp.shape.getD 0 0
    let in_features := inp.shape.getD 1 0
    let out_features := weight.shape.getD 0 0
    let weight_in_features := weight.shape.getD 1 0
    if in_features ≠ weight_in_features then fail
    else if out.shape.getD 0 0 ≠ N then fail
    else if out.shape.getD 1 0 ≠ out_features then fail
    else if ¬ is_tensor_null bias ∧ bias_t.numel ≠ out_features then fail
    else if inp.dtype ≠ out.dtype ∨ weight.dtype ≠ out.dtype then fail
    else if ¬ is_tensor_null bias ∧ bias_t.dtype ≠ out.dtype then fail
    else if ¬ out.isContiguous ∨ ¬ inp.isContiguous ∨ ¬ weight.isContiguous then fail
    else if ¬ is_tensor_null bias ∧ ¬ bias_t.isContiguous then fail
    else
      let bias_data : Option (Src T) := if is_tensor_null bias then none else some biasD
      if out.deviceType = .CPU then
        cpu.linear cast toFloat outD inD weightD bias_data out.dtype N in_features out_features
      else ⟨some .runtime_error, outD⟩

end ops

/-! ## embedding -/

/-- The call `std::memcpy(out_row, weight_row, hidden_dim * sizeof(T))` with `out_row = out + orow` and
`weight_row = weight + wrow`: `hidden_dim` elements are copied unchanged, here in increasing
order of the element index. (`memcpy` has a defined result only when the source row and
the destination row do not overlap; every statement below that speaks of copied values is
about calls in which they do not.) -/
def copy_embedding_row {T : Type} (out : Buf T) (orow : Nat) (weight : Src T) (wrow : Nat)
    (hidden_dim : Nat) : Buf T :=
  forLoop hidden_dim (fun c o => o.store (orow + c) (weight.read o (wrow + c))) out

/-- The index buffer holds `int64_t` values; `static_cast<size_t>(idx)` of a non-negative
`idx` is `idx.toNat`. -/
def embedding_ {T : Type} (out : Buf T) (index : Nat → Int) (weight : Src T)
    (batch_size hidden_dim vocab_size : Nat) : Outcome (Buf T) :=
  forLoopE batch_size (fun i o =>
    let idx := index i
    if idx < 0 ∨ vocab_size ≤ idx.toNat then ⟨some .out_of_range, o⟩
    else ⟨none, copy_embedding_row o (i * hidden_dim) weight (idx.toNat * hidden_dim)
      hidden_dim⟩) out

namespace ops.cpu

def embedding {T : Type} (out : Buf T) (index : Nat → Int) (weight : Src T)
    (data_type : llaisysDataType_t) (batch_size hidden_dim vocab_size : Nat) :
    Outcome (Buf T) :=
  if batch_size = 0 ∨ hidden_dim = 0 ∨ vocab_size = 0 then ⟨some .invalid_argument, out⟩
  else match data_type with
    | .F32 | .BF16 | .F16 => embedding_ out index weight batch_size hidden_dim vocab_size
    | _ => ⟨some .runtime_error, out⟩

end ops.cpu

namespace ops

/-- The constant `LLAISYS_DTYPE_INT64` is defined in op.cpp as the dtype with value 6, which is `I64`. -/
def LLAISYS_DTYPE_INT64 : llaisysDataType_t := .I64

/-- The checks of `ops::embedding`, in source order. -/
def embedding {T : Type} (out index weight : Tensor) (outD : Buf T) (indexD : Nat → Int)
    (weightD : Src T) : Outcome (Buf T) :=
  let fail : Outcome (Buf T) := ⟨some .invalid_argument, outD⟩
  if out.deviceType ≠ index.deviceType ∨ out.deviceType ≠ weight.deviceType ∨
      out.deviceId ≠ index.deviceId ∨ out.deviceId ≠ weight.deviceId then fail
  else if out.shape.length ≠ 2 then fail
  else if index.shape.length ≠ 1 then fail
  else if weight.shape.length ≠ 2 then fail
  else
    let batch_size := index.numel
    let hidden_dim := weight.shape.getD 1 0
    let vocab_size := weight.shape.getD 0 0
    if out.shape.getD 0 0 ≠ batch_size then fail
    else if out.shape.getD 1 0 ≠ hidden_dim then fail
    else if index.dtype ≠ LLAISYS_DTYPE_INT64 then fail
    else if out.dtype ≠ weight.dtype then fail
    else if ¬ out.isContiguous ∨ ¬ index.isContiguous ∨ ¬ weight.isContiguous then fail
    else if out.deviceType = .CPU then
      cpu.embedding outD indexD weightD weight.dtype batch_size hidden_dim vocab_size
    else ⟨some .runtime_error, outD⟩

end ops

/-! ## argmax -/

/-- For the 16-bit types both operands are converted with `utils::cast<float>` and compared;
for `float` the operands are compared directly, which is the case `toFloat = id`. -/
def is_greater {T F : Type} [LT F] [DecidableRel (fun a b : F => a < b)] (toFloat : T → F)
    (a b : T) : Bool :=
  decide (toFloat b < toFloat a)

/-- The loop `for (size_t i = 1; i < numel; ++i)` runs `numel - 1` times, iteration `k` being
`i = k + 1`; the state is `(current_max, current_idx)`. The index is stored as one `size_t`. -/
def argmax_ {T F : Type} [LT F] [DecidableRel (fun a b : F => a < b)] (toFloat : T → F)
    (max_idx : Buf Nat) (max_val : Buf T) (vals : Nat → T) (numel : Nat) : Buf Nat × Buf T :=
  let r := forLoop (numel - 1)
    (fun k (st : T × Nat) =>
      if is_greater toFloat (vals (k + 1)) st.1 then (vals (k + 1), k + 1) else st)
    (vals 0, 0)
  (max_idx.store 0 r.2, max_val.store 0 r.1)

namespace ops.cpu

/-- The default branch is `EXCEPTION_UNSUPPORTED_DATATYPE`. -/
def argmax {T F : Type} [LT F] [DecidableRel (fun a b : F => a < b)] (toFloat : T → F)
    (max_idx : Buf Nat) (max_val : Buf T) (vals : Nat → T) (val_type : llaisysDataType_t)
    (numel : Nat) : Outcome (Buf Nat × Buf T) :=
  if numel = 0 then ⟨some .invalid_argument, (max_idx, max_val)⟩
  else match val_type with
    | .F32 | .BF16 | .F16 => ⟨none, argmax_ toFloat max_idx max_val vals numel⟩
    | _ => ⟨some .runtime_error, (max_idx, max_val)⟩

end ops.cpu

namespace ops

/-- Modelled from the spec: the macros `CHECK_SAME_DEVICE` and `ASSERT` used by `ops::argmax`
are not among the sources; a failed check is an InvalidArgument failure (device, rank, shape
or contiguity mismatch), raised before any kernel runs. The remaining steps follow op.cpp. -/
def argmax {T F : Type} [LT F] [DecidableRel (fun a b : F => a < b)] (toFloat : T → F)
    (max_idx max_val vals : Tensor) (max_idxD : Buf Nat) (max_valD : Buf T)
    (valsD : Nat → T) : Outcome (Buf Nat × Buf T) :=
  let fail : Outcome (Buf Nat × Buf T) := ⟨some .invalid_argument, (max_idxD, max_valD)⟩
  if max_idx.deviceType ≠ max_val.deviceType ∨ max_idx.deviceType ≠ vals.deviceType ∨
      max_idx.deviceId ≠ max_val.deviceId ∨ max_idx.deviceId ≠ vals.deviceId then fail
  else if max_val.dtype ≠ vals.dtype then fail
  else if ¬ (vals.shape.length = 1) then fail
  else if ¬ (max_idx.shape.length = 1 ∧ max_idx.numel = 1) then fail
  else if ¬ (max_val.shape.length = 1 ∧ max_val.numel = 1) then fail
  else if ¬ (max_idx.isContiguous ∧ max_val.isContiguous ∧ vals.isContiguous) then fail
  else if vals.deviceType = .CPU then
    cpu.argmax toFloat max_idxD max_valD valsD vals.dtype vals.numel
  else ⟨some .runtime_error, (max_idxD, max_valD)⟩

end ops

/-! ## rms_norm -/

/-- The output row pointer is `out + orow`; `sqrt` stands for `std::sqrt`, and the division by
`hidden_dim` converts the `size_t` to float. -/
def rms_norm_row {T F : Type} [Field F] (cast : F → T) (toFloat : T → F) (sqrt : F → F)
    (out : Buf T) (orow : Nat) (in_row weight : Nat → T) (hidden_dim : Nat) (eps : F) : Buf T :=
  let sum_sq := forLoop hidden_dim
    (fun j acc => let val := toFloat (in_row j); acc + val * val) 0
  let rms := sqrt (sum_sq / (hidden_dim : F) + eps)
  forLoop hidden_dim
    (fun j o =>
      let in_val := toFloat (in_row j)
      let weight_val := toFloat (weight j)
      o.store (orow + j) (cast ((in_val / rms) * weight_val))) out

/-- The buffers `in` and `weight` are taken to lie outside the output buffer. -/
def rms_norm_ {T F : Type} [Field F] (cast : F → T) (toFloat : T → F) (sqrt : F → F)
    (out : Buf T) (inp weight : Nat → T) (batch_size hidden_dim : Nat) (eps : F) : Buf T :=
  forLoop batch_size
    (fun i o => rms_norm_row cast toFloat sqrt o (i * hidden_dim)
      (fun j => inp (i * hidden_dim + j)) weight hidden_dim eps) out

namespace ops.cpu

def rms_norm {T F : Type} [Field F] (cast : F → T) (toFloat : T → F) (sqrt : F → F)
    (out : Buf T) (inp weight : Nat → T) (data_type : llaisysDataType_t)
    (batch_size hidden_dim : Nat) (eps : F) : Outcome (Buf T) :=
  if batch_size = 0 ∨ hidden_dim = 0 then ⟨some .invalid_argument, out⟩
  else match data_type with
    | .F32 | .F16 | .BF16 =>
      ⟨none, rms_norm_ cast toFloat sqrt out inp weight batch_size hidden_dim eps⟩
    | _ => ⟨some .runtime_error, out⟩

end ops.cpu

namespace ops

/-- The checks of `ops::rms_norm`, in source order. -/
def rms_norm {T F : Type} [Field F] (cast : F → T) (toFloat : T → F) (sqrt : F → F)
    (out inp weight : Tensor) (outD : Buf T) (inD weightD : Nat → T) (eps : F) :
    Outcome (Buf T) :=
  let fail : Outcome (Buf T) := ⟨some .invalid_argument, outD⟩
  if out.deviceType ≠ inp.deviceType ∨ out.deviceType ≠ weight.deviceType ∨
      out.deviceId ≠ inp.deviceId ∨ out.deviceId ≠ weight.deviceId then fail
  else if out.shape.length ≠ 2 ∨ inp.shape.length ≠ 2 then fail
  else if weight.shape.length ≠ 1 then fail
  else
    let batch_size := inp.shape.getD 0 0
    let hidden_dim := inp.shape.getD 1 0
    if out.shape.getD 0 0 ≠ batch_size ∨ out.shape.getD 1 0 ≠ hidden_dim then fail
    else if weight.shape.getD 0 0 ≠ hidden_dim then fail
    else if inp.dtype ≠ out.dtype ∨ weight.dtype ≠ out.dtype then fail
    else if ¬ out.isContiguous ∨ ¬ inp.isContiguous ∨ ¬ weight.isContiguous then fail
    else if out.deviceType = .CPU then
      cpu.rms_norm cast toFloat sqrt outD inD weightD out.dtype batch_size hidden_dim eps
    else ⟨some .runtime_error, outD⟩

end ops

/-! ## rope -/

/-- Conversion of an `int64_t` to `size_t`: the value modulo `2^64`. -/
def toSizeT (x : Int) : Nat := (x % 2 ^ 64).toNat

/-- The vectors are `out_vec = out + off` and `in_vec = in + off`; `pos` arrives as a
`size_t`. Here `cos`, `sin`, `pow` stand for `std::cos`, `std::sin`, `std::pow`, and
`sizeToFloat` for the conversion of a `size_t` to `float`: `static_cast<float>(pos)`, and the
conversions of `j` and `d` in `2.0f * j / d`, which is evaluated in float. The arithmetic is
that of `F`, of which no law is assumed. Each read of `in_vec` sees the stores made before
it. -/
def rotate_vector {T F : Type} [Add F] [Sub F] [Mul F] [Div F] [OfNat F 2]
    (cast : F → T) (toFloat : T → F) (sizeToFloat : Nat → F)
    (cos sin : F → F) (pow : F → F → F)
    (out : Buf T) (off : Nat) (inp : Src T) (pos : Nat) (d : Nat) (theta : F) : Buf T :=
  let half_d := d / 2
  forLoop half_d
    (fun j o =>
      let phi := sizeToFloat pos / pow theta (2 * sizeToFloat j / sizeToFloat d)
      let cos_phi := cos phi
      let sin_phi := sin phi
      let a := toFloat (inp.read o (off + j))
      let b := toFloat (inp.read o (off + (j + half_d)))
      let a_rot := a * cos_phi - b * sin_phi
      let b_rot := b * cos_phi + a * sin_phi
      (o.store (off + j) (cast a_rot)).store (off + (j + half_d)) (cast b_rot)) out

/-- The position ids are `int64_t`; passing `pos` to `rotate_vector` converts it to
`size_t`. -/
def rope_ {T F : Type} [Add F] [Sub F] [Mul F] [Div F] [OfNat F 2]
    (cast : F → T) (toFloat : T → F) (sizeToFloat : Nat → F)
    (cos sin : F → F) (pow : F → F → F)
    (out : Buf T) (inp : Src T) (pos_ids : Nat → Int)
    (seq_len n_head d : Nat) (theta : F) : Buf T :=
  forLoop seq_len
    (fun seq_idx o =>
      let pos : Int := pos_ids seq_idx
      forLoop n_head
        (fun head_idx o =>
          let vec_start := seq_idx * n_head * d + head_idx * d
          rotate_vector cast toFloat sizeToFloat cos sin pow o vec_start inp
            (toSizeT pos) d theta) o) out

namespace ops.cpu

def rope {T F : Type} [Add F] [Sub F] [Mul F] [Div F] [OfNat F 2]
    (cast : F → T) (toFloat : T → F) (sizeToFloat : Nat → F)
    (cos sin : F → F) (pow : F → F → F)
    (out : Buf T) (inp : Src T) (pos_ids : Nat → Int) (data_type : llaisysDataType_t)
    (seq_len n_head d : Nat) (theta : F) : Outcome (Buf T) :=
  if seq_len = 0 ∨ n_head = 0 ∨ d = 0 ∨ d % 2 ≠ 0 then ⟨some .invalid_argument, out⟩
  else match data_type with
    | .F32 | .F16 | .BF16 =>
      ⟨none, rope_ cast toFloat sizeToFloat cos sin pow out inp pos_ids seq_len n_head d theta⟩
    | _ => ⟨some .runtime_error, out⟩

end ops.cpu

namespace ops

/-- The checks of `ops::rope`, in source order; the dtype of `pos_ids` is not checked. -/
def rope {T F : Type} [Add F] [Sub F] [Mul F] [Div F] [OfNat F 2]
    (cast : F → T) (toFloat : T → F) (sizeToFloat : Nat → F)
    (cos sin : F → F) (pow : F → F → F)
    (out inp pos_ids : Tensor) (outD : Buf T) (inD : Src T) (pos_idsD : Nat → Int)
    (theta : F) : Outcome (Buf T) :=
  let fail : Outcome (Buf T) := ⟨some .invalid_argument, outD⟩
  if out.deviceType ≠ inp.deviceType ∨ out.deviceType ≠ pos_ids.deviceType ∨
      out.deviceId ≠ inp.deviceId ∨ out.deviceId ≠ pos_ids.deviceId then fail
  else if out.shape.length ≠ 3 ∨ inp.shape.length ≠ 3 ∨ pos_ids.shape.length ≠ 1 then fail
  else
    let seq_len := inp.shape.getD 0 0
    let n_head := inp.shape.getD 1 0
    let d := inp.shape.getD 2 0
    if out.shape ≠ inp.shape then fail
    else if pos_ids.shape.getD 0 0 ≠ seq_len then fail
    else if d % 2 ≠ 0 then fail
    else if inp.dtype ≠ out.dtype then fail
    else if ¬ out.isContiguous ∨ ¬ inp.isContiguous ∨ ¬ pos_ids.isContiguous then fail
    else if out.deviceType = .CPU then
      cpu.rope cast toFloat sizeToFloat cos sin pow outD inD pos_idsD out.dtype seq_len n_head d
        theta
    else ⟨some .runtime_error, outD⟩

end ops

/-! ## self_attention -/

/-- GQA head expansion `[total_len, nkvhead, d] → [total_len, nhead, d]`. -/
def repeat_kv_heads {T : Type} (expanded_kv : Buf T) (kv : Nat → T)
    (total_len nkvhead d nhead : Nat) : Buf T :=
  let heads_per_group := nhead / nkvhead
  forLoop total_len
    (fun t o =>
      forLoop nkvhead
        (fun kv_h o =>
          forLoop heads_per_group
            (fun r o =>
              let target_h := kv_h * heads_per_group + r
              forLoop d
                (fun k o =>
                  o.store (t * nhead * d + target_h * d + k)
                    (kv (t * nkvhead * d + kv_h * d + k))) o) o) o) expanded_kv

def compute_qk_t {T F : Type} [Add F] [Mul F] [Zero F] (toFloat : T → F)
    (qk_t : Buf F) (q k_expanded : Nat → T) (seqlen nhead d total_len : Nat) : Buf F :=
  forLoop seqlen
    (fun i o =>
      forLoop nhead
        (fun h o =>
          forLoop total_len
            (fun j o =>
              let sum := forLoop d
                (fun k_idx sum =>
                  let q_val := toFloat (q (i * nhead * d + h * d + k_idx))
                  let k_val := toFloat (k_expanded (j * nhead * d + h * d + k_idx))
                  sum + q_val * k_val) 0
              o.store (i * nhead * total_len + h * total_len + j) sum) o) o) qk_t

/-- The update `std::max(max_val, x)` for a running maximum that starts at `-infinity`, which is
`none`. -/
def maxNegInf {F : Type} [Max F] : Option F → F → Option F
  | none, x => some x
  | some m, x => some (max m x)

/-- The running maximum read back as a float. The maximum loop runs `max_j + 1 ≥ 1` times, so
the value is never `-infinity` when it is read; `0` stands in for that unreachable case. -/
def finiteMax {F : Type} [Zero F] (m : Option F) : F := m.getD 0

/-- Here `exp` stands for `std::exp`; `for (j = 0; j <= max_j; ++j)` runs `max_j + 1` times.
The arithmetic and `std::max` are those of `F`, of which no law is assumed. -/
def apply_causal_softmax {F : Type} [Zero F] [Add F] [Sub F] [Div F] [Max F] (exp : F → F)
    (attn_weights : Buf F) (seqlen nhead total_len : Nat) : Buf F :=
  let kv_offset := total_len - seqlen
  forLoop seqlen
    (fun i o =>
      let max_j := kv_offset + i
      forLoop nhead
        (fun h o =>
          let max_val := finiteMax (forLoop (max_j + 1)
            (fun j m => maxNegInf m (o.val (i * nhead * total_len + h * total_len + j))) none)
          let sum_exp := forLoop (max_j + 1)
            (fun j sum_exp =>
              let val := o.val (i * nhead * total_len + h * total_len + j)
              sum_exp + exp (val - max_val)) 0
          forLoop total_len
            (fun j o =>
              if j > max_j then o.store (i * nhead * total_len + h * total_len + j) 0
              else
                let val := o.val (i * nhead * total_len + h * total_len + j)
                o.store (i * nhead * total_len + h * total_len + j)
                  (exp (val - max_val) / sum_exp)) o) o) attn_weights

def compute_attn_v {T F : Type} [Zero F] [Add F] [Mul F] [DecidableEq F] (cast : F → T)
    (toFloat : T → F)
    (attn_val : Buf T) (attn_weights : Nat → F) (v_expanded : Nat → T)
    (seqlen nhead total_len dv : Nat) : Buf T :=
  forLoop seqlen
    (fun i o =>
      forLoop nhead
        (fun h o =>
          forLoop dv
            (fun v_idx o =>
              let sum := forLoop total_len
                (fun j sum =>
                  let weight := attn_weights (i * nhead * total_len + h * total_len + j)
                  if weight ≠ 0 then
                    let v_val := toFloat (v_expanded (j * nhead * dv + h * dv + v_idx))
                    sum + weight * v_val
                  else sum) 0
              o.store (i * nhead * dv + h * dv + v_idx) (cast sum)) o) o) attn_val

/-- Here `k_alloc`, `v_alloc`, `qk_alloc` are the results of the three `malloc` calls: `none` for a
null pointer, otherwise the scratch block with whatever it holds. -/
def self_attention_ {T F : Type} [Zero F] [Add F] [Sub F] [Mul F] [Div F] [Max F]
    [DecidableEq F] (cast : F → T) (toFloat : T → F)
    (exp : F → F) (attn_val : Buf T) (q k v : Nat → T)
    (seqlen nhead d total_len nkvhead dv : Nat) (scale : F)
    (k_alloc v_alloc : Option (Buf T)) (qk_alloc : Option (Buf F)) : Outcome (Buf T) :=
  match k_alloc, v_alloc, qk_alloc with
  | some k_expanded, some v_expanded, some qk_t =>
    let k_expanded := repeat_kv_heads k_expanded k total_len nkvhead d nhead
    let v_expanded := repeat_kv_heads v_expanded v total_len nkvhead dv nhead
    let qk_t := compute_qk_t toFloat qk_t q k_expanded.val seqlen nhead d total_len
    let qk_t := forLoop (seqlen * nhead * total_len)
      (fun idx o => o.store idx (o.val idx * scale)) qk_t
    let qk_t := apply_causal_softmax exp qk_t seqlen nhead total_len
    ⟨none, compute_attn_v cast toFloat attn_val qk_t.val v_expanded.val seqlen nhead
      total_len dv⟩
  | _, _, _ => ⟨some .runtime_error, attn_val⟩

namespace ops.cpu

def self_attention {T F : Type} [Zero F] [Add F] [Sub F] [Mul F] [Div F] [Max F]
    [DecidableEq F] (cast : F → T) (toFloat : T → F)
    (exp : F → F) (attn_val : Buf T) (q k v : Nat → T) (data_type : llaisysDataType_t)
    (seqlen nhead d total_len nkvhead dv : Nat) (scale : F)
    (k_alloc v_alloc : Option (Buf T)) (qk_alloc : Option (Buf F)) : Outcome (Buf T) :=
  if seqlen = 0 ∨ nhead = 0 ∨ d = 0 ∨ total_len = 0 ∨ nkvhead = 0 ∨ dv = 0 then
    ⟨some .invalid_argument, attn_val⟩
  else if nhead % nkvhead ≠ 0 then ⟨some .invalid_argument, attn_val⟩
  else if total_len < seqlen then ⟨some .invalid_argument, attn_val⟩
  else match data_type with
    | .F32 | .F16 | .BF16 =>
      self_attention_ cast toFloat exp attn_val q k v seqlen nhead d total_len nkvhead dv scale
        k_alloc v_alloc qk_alloc
    | _ => ⟨some .runtime_error, attn_val⟩

end ops.cpu

namespace ops

/-- The checks of `ops::self_attention`, in source order. `nhead % nkvhead` is evaluated
before any test that `nkvhead` is nonzero; a zero divisor is the `fault` outcome. -/
def self_attention {T F : Type} [Zero F] [Add F] [Sub F] [Mul F] [Div F] [Max F]
    [DecidableEq F] (cast : F → T) (toFloat : T → F)
    (exp : F → F) (attn_val q k v : Tensor) (attn_valD : Buf T) (qD kD vD : Nat → T)
    (scale : F) (k_alloc v_alloc : Option (Buf T)) (qk_alloc : Option (Buf F)) :
    Outcome (Buf T) :=
  let fail : Outcome (Buf T) := ⟨some .invalid_argument, attn_valD⟩
  if attn_val.deviceType ≠ q.deviceType ∨ attn_val.deviceType ≠ k.deviceType ∨
      attn_val.deviceType ≠ v.deviceType ∨ attn_val.deviceId ≠ q.deviceId ∨
      attn_val.deviceId ≠ k.deviceId ∨ attn_val.deviceId ≠ v.deviceId then fail
  else if attn_val.shape.length ≠ 3 ∨ q.shape.length ≠ 3 ∨ k.shape.length ≠ 3 ∨
      v.shape.length ≠ 3 then fail
  else
    let seqlen := q.shape.getD 0 0
    let nhead := q.shape.getD 1 0
    let d := q.shape.getD 2 0
    let total_len := k.shape.getD 0 0
    let nkvhead := k.shape.getD 1 0
    let dv := v.shape.getD 2 0
    if attn_val.shape ≠ [seqlen, nhead, dv] then fail
    else if k.shape.getD 2 0 ≠ d then fail
    else if v.shape.getD 0 0 ≠ total_len ∨ v.shape.getD 1 0 ≠ nkvhead then fail
    else if nkvhead = 0 then ⟨some .fault, attn_valD⟩
    else if nhead % nkvhead ≠ 0 then fail
    else if q.dtype ≠ attn_val.dtype ∨ k.dtype ≠ attn_val.dtype ∨ v.dtype ≠ attn_val.dtype then
      fail
    else if ¬ attn_val.isContiguous ∨ ¬ q.isContiguous ∨ ¬ k.isContiguous ∨
        ¬ v.isContiguous then fail
    else if attn_val.deviceType = .CPU then
      cpu.self_attention cast toFloat exp attn_valD qD kD vD attn_val.dtype seqlen nhead d
        total_len nkvhead dv scale k_alloc v_alloc qk_alloc
    else ⟨some .runtime_error, attn_valD⟩

end ops

/-! ## swiglu -/

/-- Here `exp` stands for `std::exp`; the literals `1.0f` are the `1` of `F`. The buffers
`gate` and `up` are taken to lie outside the output buffer. -/
def swiglu_elementwise {T F : Type} [Field F] (cast : F → T) (toFloat : T → F) (exp : F → F)
    (out : Buf T) (gate up : Nat → T) (seqlen intermediate_size : Nat) : Buf T :=
  let total_elements := seqlen * intermediate_size
  forLoop total_elements
    (fun idx o =>
      let gate_val := toFloat (gate idx)
      let up_val := toFloat (up idx)
      let sigmoid := 1 / (1 + exp (-gate_val))
      let silu := gate_val * sigmoid
      let out_val := silu * up_val
      o.store idx (cast out_val)) out

def swiglu_ {T F : Type} [Field F] (cast : F → T) (toFloat : T → F) (exp : F → F)
    (out : Buf T) (gate up : Nat → T) (seqlen intermediate_size : Nat) : Buf T :=
  swiglu_elementwise cast toFloat exp out gate up seqlen intermediate_size

namespace ops.cpu

def swiglu {T F : Type} [Field F] (cast : F → T) (toFloat : T → F) (exp : F → F)
    (out : Buf T) (gate up : Nat → T) (data_type : llaisysDataType_t)
    (seqlen intermediate_size : Nat) : Outcome (Buf T) :=
  if seqlen = 0 ∨ intermediate_size = 0 then ⟨some .invalid_argument, out⟩
  else match data_type with
    | .F32 | .F16 | .BF16 =>
      ⟨none, swiglu_ cast toFloat exp out gate up seqlen intermediate_size⟩
    | _ => ⟨some .runtime_error, out⟩

end ops.cpu

namespace ops

/-- The checks of `ops::swiglu`, in source order. -/
def swiglu {T F : Type} [Field F] (cast : F → T) (toFloat : T → F) (exp : F → F)
    (out gate up : Tensor) (outD : Buf T) (gateD upD : Nat → T) : Outcome (Buf T) :=
  let fail : Outcome (Buf T) := ⟨some .invalid_argument, outD⟩
  if out.deviceType ≠ gate.deviceType ∨ out.deviceType ≠ up.deviceType ∨
      out.deviceId ≠ gate.deviceId ∨ out.deviceId ≠ up.deviceId then fail
  else if out.shape.length ≠ 2 ∨ gate.shape.length ≠ 2 ∨ up.shape.length ≠ 2 then fail
  else
    let seqlen := out.shape.getD 0 0
    let intermediate_size := out.shape.getD 1 0
    if gate.shape ≠ out.shape ∨ up.shape ≠ out.shape then fail
    else if gate.dtype ≠ out.dtype ∨ up.dtype ≠ out.dtype then fail
    else if ¬ out.isContiguous ∨ ¬ gate.isContiguous ∨ ¬ up.isContiguous then fail
    else if out.deviceType = .CPU then
      cpu.swiglu cast toFloat exp outD gateD upD out.dtype seqlen intermediate_size
    else ⟨some .runtime_error, outD⟩

end ops

/-! ## view and slice -/

namespace Tensor

/-- The method `Tensor::view`: `EXCEPTION_INCOMPATIBLE_VIEW` throws `std::invalid_argument`.
Both successful branches run the stride loop of `create` on `new_shape` and share the storage
and the offset. -/
def view (t : Tensor) (new_shape : List Nat) : Except Error Tensor :=
  let original_numel := t.numel
  let new_numel := new_shape.foldl (fun acc s => acc * s) 1
  if original_numel ≠ new_numel then .error .invalid_argument
  else if original_numel = 0 then
    let new_strides := (strideLoop new_shape).1
    .ok { meta := { t.meta with shape := new_shape, strides := new_strides }
          storage := t.storage, offset := t.offset }
  else if ¬ t.isContiguous then .error .invalid_argument
  else
    let new_strides := (strideLoop new_shape).1
    .ok { meta := { t.meta with shape := new_shape, strides := new_strides }
          storage := t.storage, offset := t.offset }

/-- The method `Tensor::slice`: `EXCEPTION_INVALID_DIM` throws `std::out_of_range`. The new
offset is computed in `size_t`: the `ptrdiff_t` stride is converted to `size_t` and the sum
is taken modulo `2^64`. -/
def slice (t : Tensor) (dim start end_ : Nat) : Except Error Tensor :=
  let ndim_ := t.ndim
  if dim ≥ ndim_ then .error .out_of_range
  else
    let dim_size := t.shape.getD dim 0
    if start > end_ then .error .out_of_range
    else if end_ > dim_size then .error .out_of_range
    else if start = end_ then
      .ok { meta := { t.meta with shape := t.meta.shape.set dim 0 }
            storage := t.storage, offset := t.offset }
    else
      let element_size := utils.dsize t.meta.dtype
      let new_offset :=
        (t.offset + start * toSizeT (t.meta.strides.getD dim 0) * element_size) % 2 ^ 64
      .ok { meta := { t.meta with shape := t.meta.shape.set dim (end_ - start) }
            storage := t.storage, offset := new_offset }

end Tensor

/-! ## Element addresses -/

namespace Tensor

/-- The accessor `Tensor::data`: the byte pointer `_storage->memory() + _offset`, with
`memory` read as the byte address of the block. -/
def data (t : Tensor) : Nat := t.storage.memory + t.offset

/-- The accessor `Tensor::elementSize`. -/
def elementSize (t : Tensor) : Nat := utils.dsize t.meta.dtype

/-- The byte address of the element at multi-index `idx`: the typed pointer obtained from
`data()` is advanced by `Σ idx[i] * strides[i]` elements (the addressing of `print_data`). -/
def elemAddr (t : Tensor) (idx : List Nat) : Int :=
  (t.data : Int) + t.elemOffset idx * (t.elementSize : Int)

end Tensor

/-! ## Reference definitions -/

/-- The sum `f 0 + f 1 + … + f (n - 1)` accumulated from `0` in increasing order of the index
with the addition of `F`, which is how a float accumulation loop forms `Σ_{k < n} f k`; no law
of addition is assumed. In exact arithmetic it is the sum over `k < n`. -/
def seqSum {F : Type} [Add F] [Zero F] (f : Nat → F) : Nat → F
  | 0 => 0
  | n + 1 => seqSum f n + f n

/-- The canonical row-major strides of a shape, as the data model describes them: the
trailing stride is 1 and each preceding stride is the product of all following sizes. -/
def rowMajorStrides : List Nat → List Int
  | [] => []
  | _ :: rest => (rest.prod : Int) :: rowMajorStrides rest

/-- The row-major rank of the multi-index `idx` in a tensor of the given shape: the number of
elements that precede it in row-major order, `Σ idx[i] * (shape[i+1] * … * shape[ndim-1])`. -/
def rowMajorRank (shape idx : List Nat) : Int :=
  (List.zipWith (fun (i : Nat) (s : Int) => (i : Int) * s) idx (rowMajorStrides shape)).sum

/-- The representation invariant of the tensors the view engine builds: one stride per
dimension, no negative stride, and stride 1 for a rank-1 tensor. `create` establishes it and
`permute`, `view` and `slice` preserve it. -/
def Tensor.Valid (t : Tensor) : Prop :=
  t.strides.length = t.ndim ∧ (∀ s ∈ t.strides, 0 ≤ s) ∧ (t.ndim = 1 → t.strides = [1])

/-! ## Sample data for the concrete instances -/

/-- A sample storage format on the rationals: round to the nearest multiple of `1/128`, ties
to the even multiple. On `[1, 2)` this is round-to-nearest-even with an 8-bit significand,
the rounding of bfloat16 there. Used as `utils::cast<T>` in concrete instances, with the
identity as `utils::cast<float>`. -/
def roundToEven128 (x : ℚ) : ℚ :=
  let y := x * 128
  let f : ℤ := Rat.floor y
  let r := y - f
  ((if r < 1 / 2 then f else if 1 / 2 < r then f + 1 else if f % 2 = 0 then f else f + 1 : ℤ) : ℚ)
    / 128

/-- A sample float format for the instances that leave the finite numbers: the rationals
together with `+∞`, `-∞` and a not-a-number value. Arithmetic on the rationals is exact; the
special values follow the IEEE 754 rules (`∞ - ∞`, `0 * ∞`, `0 / 0` and `∞ / ∞` are `nan`,
`nan` propagates, a nonzero number over zero is an infinity, every comparison with `nan` is
false). Rounding, overflow and the sign of zero are not represented. -/
inductive XFloat where
  | nan | ninf | pinf | num (q : ℚ)
  deriving DecidableEq

namespace XFloat

def neg : XFloat → XFloat
  | nan => nan
  | ninf => pinf
  | pinf => ninf
  | num q => num (-q)

def add : XFloat → XFloat → XFloat
  | num a, num b => num (a + b)
  | nan, _ => nan
  | _, nan => nan
  | pinf, ninf => nan
  | ninf, pinf => nan
  | pinf, _ => pinf
  | _, pinf => pinf
  | ninf, _ => ninf
  | _, ninf => ninf

def sub (x y : XFloat) : XFloat := add x (neg y)

/-- The sign of a value: `1`, `-1`, and `0` for zero and for `nan`. -/
def sgn : XFloat → Int
  | nan => 0
  | ninf => -1
  | pinf => 1
  | num q => if 0 < q then 1 else if q < 0 then -1 else 0

def mul : XFloat → XFloat → XFloat
  | num a, num b => num (a * b)
  | nan, _ => nan
  | _, nan => nan
  | x, y => if sgn x * sgn y = 0 then nan else if 0 < sgn x * sgn y then pinf else ninf

def div : XFloat → XFloat → XFloat
  | num a, num b =>
    if b = 0 then (if a = 0 then nan else if 0 < a then pinf else ninf) else num (a / b)
  | nan, _ => nan
  | _, nan => nan
  | num _, _ => num 0
  | x, num b => if 0 ≤ b then x else neg x
  | _, _ => nan

def lt : XFloat → XFloat → Bool
  | num a, num b => decide (a < b)
  | ninf, num _ => true
  | ninf, pinf => true
  | num _, pinf => true
  | _, _ => false

/-- The function `std::max(a, b)`, which is `(a < b) ? b : a`. -/
def max (x y : XFloat) : XFloat := if lt x y then y else x

instance instZero : Zero XFloat := ⟨num 0⟩

instance instOne : One XFloat := ⟨num 1⟩

instance instOfNatTwo : OfNat XFloat 2 := ⟨num 2⟩

instance instAdd : Add XFloat := ⟨add⟩

instance instSub : Sub XFloat := ⟨sub⟩

instance instMul : Mul XFloat := ⟨mul⟩

instance instDiv : Div XFloat := ⟨div⟩

instance instMax : Max XFloat := ⟨max⟩

end XFloat

/-- The transpose view of a contiguous `[2, 2]` float tensor: shape `[2, 2]`, strides
`[1, 2]`, what `permute [1, 0]` returns for `create [2, 2]`. -/
def transposed2x2 : Tensor :=
  { meta := { dtype := .F32, shape := [2, 2], strides := [1, 2] }
    storage := { deviceType := .CPU, deviceId := 0, memory := 1, size := 16 }
    offset := 0 }

/-- The transpose view of an empty contiguous `[0, 2]` float tensor: shape `[2, 0]`, strides
`[1, 2]`, what `permute [1, 0]` returns for `create [0, 2]`. -/
def emptyTransposed : Tensor :=
  { meta := { dtype := .F32, shape := [2, 0], strides := [1, 2] }
    storage := { deviceType := .CPU, deviceId := 0, memory := 1, size := 0 }
    offset := 0 }

/-! # Lemmas and theorems -/

/-! ## Loop lemmas -/

theorem forLoop_succ {σ : Type} (n : Nat) (body : Nat → σ → σ) (s : σ) :
    forLoop (n + 1) body s = body n (forLoop n body s) := rfl

theorem forLoop_sum {F : Type} [AddCommMonoid F] (f : Nat → F) (n : Nat) :
    forLoop n (fun k acc => acc + f k) 0 = ∑ k in Finset.range n, f k := by
  induction n with
  | zero => simp [forLoop]
  | succ n ih => rw [forLoop_succ, ih, Finset.sum_range_succ]

theorem forLoop_congr {σ : Type} (n : Nat) (b1 b2 : Nat → σ → σ) (s : σ)
    (h : ∀ i, i < n → ∀ t, b1 i t = b2 i t) : forLoop n b1 s = forLoop n b2 s := by
  induction n with
  | zero => rfl
  | succ n ih =>
    rw [forLoop_succ, forLoop_succ, ih (fun i hi t => h i (Nat.lt_succ_of_lt hi) t),
      h n (Nat.lt_succ_self n)]

@[simp] theorem Src.read_ofFun {T : Type} (f : Nat → T) (o : Buf T) (k : Nat) :
    (Src.ofFun f).read o k = f k := rfl

@[simp] theorem Src.mem_ofFun {T : Type} (f : Nat → T) : (Src.ofFun f).mem = f := rfl

/-- A read of an element that lies outside the output buffer does not depend on the stores. -/
theorem Src.read_of_apart {T : Type} (s : Src T) (n : Nat) (h : s.Apart n) (o : Buf T)
    (k : Nat) (hk : k < n) : s.read o k = s.mem k := by
  unfold Src.read
  rw [h k hk]

theorem Src.apart_ofFun {T : Type} (f : Nat → T) (n : Nat) : (Src.ofFun f).Apart n :=
  fun _ _ => rfl

theorem forLoop_seqSum {F : Type} [Add F] [Zero F] (f : Nat → F) (n : Nat) :
    forLoop n (fun k acc => acc + f k) 0 = seqSum f n := by
  induction n with
  | zero => rfl
  | succ n ih => rw [forLoop_succ, ih]; rfl

theorem seqSum_congr {F : Type} [Add F] [Zero F] (f g : Nat → F) (n : Nat)
    (h : ∀ k, k < n → f k = g k) : seqSum f n = seqSum g n := by
  induction n with
  | zero => rfl
  | succ n ih =>
    show seqSum f n + f n = seqSum g n + g n
    rw [ih (fun k hk => h k (Nat.lt_succ_of_lt hk)), h n (Nat.lt_succ_self n)]

/-- In exact arithmetic the accumulated sum is the sum over the index range. -/
theorem seqSum_eq_sum {F : Type} [AddCommMonoid F] (f : Nat → F) (n : Nat) :
    seqSum f n = ∑ k in Finset.range n, f k := by
  induction n with
  | zero => simp [seqSum]
  | succ n ih => rw [Finset.sum_range_succ, ← ih]; rfl

@[simp] theorem Buf.store_val {T : Type} (b : Buf T) (i : Nat) (v : T) (p : Nat) :
    (b.store i v).val p = if p = i then v else b.val p := by
  simp [Buf.store, Function.update_apply]

@[simp] theorem Buf.store_stores {T : Type} (b : Buf T) (i : Nat) (v : T) (p : Nat) :
    (b.store i v).stores p = b.stores p + if p = i then 1 else 0 := by
  by_cases h : p = i <;> simp [Buf.store, Function.update_apply, h]

/-- A loop that rewrites `p[base + j]` from its own previous value, for `j < n`. -/
theorem storeLoop_val {T : Type} (base : Nat) (f : Nat → T → T) (n : Nat) (o : Buf T) (p : Nat) :
    (forLoop n (fun j o => o.store (base + j) (f j (o.val (base + j)))) o).val p =
      if base ≤ p ∧ p < base + n then f (p - base) (o.val p) else o.val p := by
  induction n with
  | zero => rw [if_neg (by omega)]; rfl
  | succ n ih =>
    rw [forLoop_succ, Buf.store_val]
    by_cases h : p = base + n
    · subst h
      rw [ih]
      simp
    · rw [if_neg h, ih]
      by_cases h2 : base ≤ p ∧ p < base + n
      · rw [if_pos h2, if_pos ⟨h2.1, by omega⟩]
      · rw [if_neg h2, if_neg (by omega)]

theorem storeLoop_stores {T : Type} (base : Nat) (f : Nat → Buf T → T) (n : Nat) (o : Buf T)
    (p : Nat) :
    (forLoop n (fun j o => o.store (base + j) (f j o)) o).stores p =
      o.stores p + if base ≤ p ∧ p < base + n then 1 else 0 := by
  induction n with
  | zero => simp [forLoop]
  | succ n ih =>
    rw [forLoop_succ, Buf.store_stores, ih]
    by_cases h : p = base + n
    · subst h
      simp
    · rw [if_neg h]
      by_cases h2 : base ≤ p ∧ p < base + n
      · rw [if_pos h2, if_pos ⟨h2.1, by omega⟩]
      · rw [if_neg h2, if_neg (by omega)]

theorem row_div {w n p : Nat} (h1 : n * w ≤ p) (h2 : p < n * w + w) : p / w = n := by
  have hw : 0 < w := by
    rcases Nat.eq_zero_or_pos w with h | h
    · subst h; omega
    · exact h
  apply Nat.div_eq_of_lt_le
  · exact h1
  · rw [Nat.succ_mul]; exact h2

theorem row_mod {w n p : Nat} (h1 : n * w ≤ p) (h2 : p < n * w + w) : p % w = p - n * w := by
  have hd := row_div h1 h2
  have := Nat.div_add_mod p w
  rw [hd, Nat.mul_comm] at this
  omega

theorem flat_div {w i j : Nat} (hj : j < w) : (i * w + j) / w = i :=
  row_div (Nat.le_add_right _ _) (by omega)

theorem flat_mod {w i j : Nat} (hj : j < w) : (i * w + j) % w = j := by
  rw [row_mod (n := i) (Nat.le_add_right _ _) (by omega)]; omega

theorem flat_lt {n w i j : Nat} (hi : i < n) (hj : j < w) : i * w + j < n * w := by
  have : (i + 1) * w ≤ n * w := Nat.mul_le_mul_right w hi
  rw [Nat.succ_mul] at this
  omega

/-- A loop over rows of width `w` in which iteration `i` rewrites row `i` from the row's own
previous contents and leaves everything else alone. -/
theorem forLoop_rowwise_val {T : Type} (w : Nat) (body : Nat → Buf T → Buf T)
    (g : Nat → (Nat → T) → Nat → T) (n : Nat)
    (hbody : ∀ i, i < n → ∀ o p, (body i o).val p =
      if i * w ≤ p ∧ p < i * w + w then g i (fun j => o.val (i * w + j)) (p - i * w)
      else o.val p)
    (o : Buf T) (p : Nat) :
    (forLoop n body o).val p =
      if p < n * w then g (p / w) (fun j => o.val (p / w * w + j)) (p % w) else o.val p := by
  induction n generalizing p with
  | zero => simp [forLoop]
  | succ n ih =>
    have ih := ih (fun i hi => hbody i (Nat.lt_succ_of_lt hi))
    rw [forLoop_succ, hbody n (Nat.lt_succ_self n)]
    by_cases h : n * w ≤ p ∧ p < n * w + w
    · rw [if_pos h, if_pos (by rw [Nat.succ_mul]; exact h.2), row_div h.1 h.2, row_mod h.1 h.2]
      congr 1
      funext j
      rw [ih, if_neg (by omega)]
    · rw [if_neg h, ih]
      by_cases h2 : p < n * w
      · rw [if_pos h2, if_pos (by rw [Nat.succ_mul]; omega)]
      · rw [if_neg h2, if_neg (by rw [Nat.succ_mul]; omega)]

theorem forLoop_rowwise_stores {T : Type} (w : Nat) (body : Nat → Buf T → Buf T) (n : Nat)
    (hbody : ∀ i, i < n → ∀ o p, (body i o).stores p =
      o.stores p + if i * w ≤ p ∧ p < i * w + w then 1 else 0)
    (o : Buf T) (p : Nat) :
    (forLoop n body o).stores p = o.stores p + if p < n * w then 1 else 0 := by
  induction n generalizing p with
  | zero => simp [forLoop]
  | succ n ih =>
    have ih := ih (fun i hi => hbody i (Nat.lt_succ_of_lt hi))
    rw [forLoop_succ, hbody n (Nat.lt_succ_self n), ih, Nat.succ_mul]
    split_ifs <;> omega

theorem forLoop_add {σ : Type} (a k : Nat) (body : Nat → σ → σ) (s : σ) :
    forLoop (a + k) body s = forLoop k (fun h t => body (a + h) t) (forLoop a body s) := by
  induction k with
  | zero => rfl
  | succ k ih => rw [← Nat.add_assoc, forLoop_succ, forLoop_succ, ih]

/-- Two nested counting loops are one loop over the flattened index. -/
theorem forLoop_flatten {σ : Type} (n m : Nat) (body : Nat → Nat → σ → σ) (s : σ) :
    forLoop n (fun i s => forLoop m (fun h s => body i h s) s) s =
      forLoop (n * m) (fun r s => body (r / m) (r % m) s) s := by
  induction n with
  | zero => simp [forLoop]
  | succ n ih =>
    rw [forLoop_succ, ih, Nat.succ_mul, forLoop_add]
    apply forLoop_congr
    intro h hh t
    rw [flat_div hh, flat_mod hh]

theorem forLoopE_succ {σ : Type} (n : Nat) (body : Nat → σ → Outcome σ) (s : σ) :
    forLoopE (n + 1) body s =
      match (forLoopE n body s).err with
      | some _ => forLoopE n body s
      | none => body n (forLoopE n body s).out := rfl

/-- If no iteration throws, the loop is the plain loop over the bodies' results. -/
theorem forLoopE_ok {σ : Type} (n : Nat) (body : Nat → σ → Outcome σ) (s : σ)
    (h : ∀ i, i < n → ∀ t, (body i t).err = none) :
    forLoopE n body s = ⟨none, forLoop n (fun i t => (body i t).out) s⟩ := by
  induction n with
  | zero => rfl
  | succ n ih =>
    rw [forLoopE_succ, ih (fun i hi t => h i (Nat.lt_succ_of_lt hi) t)]
    simp only [forLoop_succ]
    have := h n (Nat.lt_succ_self n) (forLoop n (fun i t => (body i t).out) s)
    generalize body n (forLoop n (fun i t => (body i t).out) s) = r at this ⊢
    cases r
    simp_all

/-- When the exception of iteration `i` does not depend on the state, the loop ends normally
exactly when no iteration throws. -/
theorem forLoopE_err_none_iff {σ : Type} (n : Nat) (body : Nat → σ → Outcome σ)
    (e : Nat → Option Error) (he : ∀ i t, (body i t).err = e i) (s : σ) :
    (forLoopE n body s).err = none ↔ ∀ i, i < n → e i = none := by
  induction n with
  | zero => simp [forLoopE, forLoop]
  | succ n ih =>
    rw [forLoopE_succ]
    cases hprev : (forLoopE n body s).err with
    | some x =>
      simp only [hprev]
      constructor
      · intro h; simp at h
      · intro h
        exact absurd (ih.mpr (fun i hi => h i (Nat.lt_succ_of_lt hi))) (by simp [hprev])
    | none =>
      simp only [he]
      constructor
      · intro h i hi
        rcases Nat.lt_succ_iff_lt_or_eq.mp hi with h1 | h1
        · exact ih.mp hprev i h1
        · subst h1; exact h
      · intro h
        exact h n (Nat.lt_succ_self n)

theorem forLoopE_err_some {σ : Type} (n : Nat) (body : Nat → σ → Outcome σ)
    (e : Nat → Option Error) (he : ∀ i t, (body i t).err = e i) (s : σ) (x : Error)
    (hx : (forLoopE n body s).err = some x) : ∃ i, i < n ∧ e i = some x := by
  induction n with
  | zero => simp [forLoopE, forLoop] at hx
  | succ n ih =>
    rw [forLoopE_succ] at hx
    cases hprev : (forLoopE n body s).err with
    | some y =>
      have hx' : (forLoopE n body s).err = some x := by simpa [hprev] using hx
      obtain ⟨i, hi, hie⟩ := ih hx'
      exact ⟨i, Nat.lt_succ_of_lt hi, hie⟩
    | none =>
      simp only [hprev, he] at hx
      exact ⟨n, Nat.lt_succ_self n, hx⟩

/-! ## Canonical strides -/

theorem strideLoop_steps (shape : List Nat) (k : Nat) (hk : k ≤ shape.length) :
    forLoop k
      (fun k st => (st.1.set (shape.length - (k + 1)) (st.2 : Int),
        st.2 * shape.getD (shape.length - (k + 1)) 0))
      (List.replicate shape.length (0 : Int), 1) =
    (List.replicate (shape.length - k) 0 ++ rowMajorStrides (shape.drop (shape.length - k)),
      (shape.drop (shape.length - k)).prod) := by
  induction k with
  | zero => simp [forLoop, rowMajorStrides]
  | succ k ih =>
    rw [forLoop_succ, ih (by omega)]
    have hm : shape.length - (k + 1) < shape.length := by omega
    have e1 : shape.length - k = (shape.length - (k + 1)) + 1 := by omega
    generalize shape.length - (k + 1) = m at hm e1 ⊢
    rw [e1, List.drop_eq_getElem_cons hm]
    simp only [rowMajorStrides, List.prod_cons]
    rw [List.replicate_succ', List.append_assoc, List.set_append_right _ _ (by simp)]
    simp [List.getElem?_eq_getElem hm, Nat.mul_comm]

/-- The stride loop of `create` computes the canonical row-major strides and the element
count. -/
theorem strideLoop_eq (shape : List Nat) :
    Tensor.strideLoop shape = (rowMajorStrides shape, shape.prod) := by
  unfold Tensor.strideLoop
  rw [strideLoop_steps shape shape.length (Nat.le_refl _)]
  simp

theorem numel_eq_prod (t : Tensor) : t.numel = t.shape.prod := by
  unfold Tensor.numel Tensor.shape
  rw [List.prod_eq_foldl]

/-- With canonical strides an in-range multi-index addresses an element below `numel`. -/
theorem rowMajor_offset_bound (idx shape : List Nat)
    (h : List.Forall₂ (fun i s => i < s) idx shape) :
    0 ≤ (List.zipWith (fun (i : Nat) (s : Int) => (i : Int) * s) idx
      (rowMajorStrides shape)).sum ∧
    (List.zipWith (fun (i : Nat) (s : Int) => (i : Int) * s) idx (rowMajorStrides shape)).sum
      < (shape.prod : Int) := by
  induction h with
  | nil => simp [rowMajorStrides]
  | @cons i s is ss his _ ih =>
    simp only [rowMajorStrides, List.zipWith_cons_cons, List.sum_cons, List.prod_cons]
    obtain ⟨h0, h1⟩ := ih
    have hP : (0 : Int) ≤ (ss.prod : Int) := by positivity
    have hi : (i : Int) + 1 ≤ s := by exact_mod_cast his
    rw [Nat.cast_mul]
    generalize (ss.prod : Int) = P at *
    generalize (List.zipWith (fun (i : Nat) (s : Int) => (i : Int) * s) is
      (rowMajorStrides ss)).sum = R at *
    have hi0 : (0 : Int) ≤ i := Int.natCast_nonneg i
    constructor
    · positivity
    · nlinarith

/-! ## linear: what the kernel stores -/

theorem matmul_element_eq_seqSum {T F : Type} [Add F] [Mul F] [Zero F] (cast : F → T)
    (toFloat : T → F) (in_row weight : Nat → T) (in_features j : Nat) :
    matmul_element cast toFloat in_row weight in_features j =
      cast (seqSum (fun k => toFloat (in_row k) * toFloat (weight (j * in_features + k)))
        in_features) := by
  unfold matmul_element
  rw [forLoop_seqSum]

theorem matmul_element_eq_sum {T F : Type} [Semiring F] (cast : F → T) (toFloat : T → F)
    (in_row weight : Nat → T) (in_features j : Nat) :
    matmul_element cast toFloat in_row weight in_features j =
      cast (∑ k in Finset.range in_features,
        toFloat (in_row k) * toFloat (weight (j * in_features + k))) := by
  unfold matmul_element
  rw [forLoop_sum]

/-- The dot product reads `in_features` elements of the row and of weight row `j`. -/
theorem matmul_element_congr {T F : Type} [Add F] [Mul F] [Zero F] (cast : F → T)
    (toFloat : T → F) (in_row in_row2 weight weight2 : Nat → T) (in_features j : Nat)
    (h1 : ∀ k, k < in_features → in_row k = in_row2 k)
    (h2 : ∀ k, k < in_features →
      weight (j * in_features + k) = weight2 (j * in_features + k)) :
    matmul_element cast toFloat in_row weight in_features j =
      matmul_element cast toFloat in_row2 weight2 in_features j := by
  rw [matmul_element_eq_seqSum, matmul_element_eq_seqSum]
  congr 1
  apply seqSum_congr
  intro k hk
  rw [h1 k hk, h2 k hk]

/-- When the elements the kernel reads lie outside the output buffer, the reads return the
contents the inputs had when the call was made. -/
theorem linear_apart {T F : Type} [Add F] [Mul F] [Zero F] (cast : F → T) (toFloat : T → F)
    (out : Buf T) (inp weight : Src T) (bias : Option (Src T))
    (N in_features out_features : Nat)
    (hi : inp.Apart (N * in_features)) (hw : weight.Apart (out_features * in_features))
    (hb : ∀ b, bias = some b → b.Apart out_features) :
    linear_ cast toFloat out inp weight bias N in_features out_features =
      linear_ cast toFloat out (Src.ofFun inp.mem) (Src.ofFun weight.mem)
        (bias.map fun b => Src.ofFun b.mem) N in_features out_features := by
  unfold linear_
  apply forLoop_congr
  intro i hiN t
  have hmat : forLoop out_features
      (fun j o' => o'.store (i * out_features + j)
        (matmul_element cast toFloat (fun k => inp.read o' (i * in_features + k))
          (fun k => weight.read o' k) in_features j)) t =
      forLoop out_features
      (fun j o' => o'.store (i * out_features + j)
        (matmul_element cast toFloat (fun k => (Src.ofFun inp.mem).read o' (i * in_features + k))
          (fun k => (Src.ofFun weight.mem).read o' k) in_features j)) t := by
    apply forLoop_congr
    intro j hj o'
    rw [matmul_element_congr cast toFloat _
      (fun k => (Src.ofFun inp.mem).read o' (i * in_features + k)) _
      (fun k => (Src.ofFun weight.mem).read o' k) in_features j
      (fun k hk => Src.read_of_apart inp _ hi o' _ (flat_lt hiN hk))
      (fun k hk => Src.read_of_apart weight _ hw o' _ (flat_lt hj hk))]
  cases bias with
  | none => exact hmat
  | some b =>
    simp only [Option.map]
    rw [hmat]
    unfold add_bias
    apply forLoop_congr
    intro j hj o'
    rw [Src.read_of_apart b _ (hb b rfl) o' j hj]
    rfl

/-- The value `linear_` leaves at `[i, j]` when no input shares memory with the output: the
cast dot product, and with a bias the cast of (that stored value read back as float, plus the
bias). -/
theorem linear_val {T F : Type} [Add F] [Mul F] [Zero F] (cast : F → T) (toFloat : T → F)
    (out : Buf T) (inp weight : Nat → T) (bias : Option (Nat → T))
    (N in_features out_features i j : Nat) (hi : i < N) (hj : j < out_features) :
    (linear_ cast toFloat out (Src.ofFun inp) (Src.ofFun weight) (bias.map Src.ofFun)
        N in_features out_features).val (i * out_features + j) =
      match bias with
      | none => matmul_element cast toFloat (fun k => inp (i * in_features + k)) weight
          in_features j
      | some b => cast (toFloat (matmul_element cast toFloat
          (fun k => inp (i * in_features + k)) weight in_features j) + toFloat (b j)) := by
  unfold linear_
  simp only [Src.read_ofFun]
  rw [forLoop_rowwise_val out_features _
    (fun i _ c => match bias with
      | none => matmul_element cast toFloat (fun k => inp (i * in_features + k)) weight
          in_features c
      | some b => cast (toFloat (matmul_element cast toFloat
          (fun k => inp (i * in_features + k)) weight in_features c) + toFloat (b c)))]
  · rw [if_pos (flat_lt hi hj), flat_div hj, flat_mod hj]
  · intro r _ o p
    cases bias with
    | none =>
      exact storeLoop_val (r * out_features) (fun c _ => matmul_element cast toFloat
        (fun k => inp (r * in_features + k)) weight in_features c) out_features o p
    | some b =>
      simp only [add_bias, Option.map, Src.read_ofFun]
      rw [storeLoop_val (r * out_features) (fun c x => cast (toFloat x + toFloat (b c)))]
      by_cases h : r * out_features ≤ p ∧ p < r * out_features + out_features
      · rw [if_pos h, if_pos h]
        rw [storeLoop_val (r * out_features) (fun c _ => matmul_element cast toFloat
          (fun k => inp (r * in_features + k)) weight in_features c), if_pos h]
      · rw [if_neg h, if_neg h]
        rw [storeLoop_val (r * out_features) (fun c _ => matmul_element cast toFloat
          (fun k => inp (r * in_features + k)) weight in_features c), if_neg h]

/-! ## linear: the entry point -/

/-- A call that passes every check of `ops::linear` with a null bias runs the kernel. -/
theorem ops_linear_null_bias {T F : Type} [Add F] [Mul F] [Zero F] (cast : F → T)
    (toFloat : T → F) (out inp weight : Tensor) (bias : Option Tensor) (outD : Buf T)
    (inD weightD biasD : Src T) (N inF outF : Nat)
    (hbias : ops.is_tensor_null bias = true)
    (hin : inp.shape = [N, inF]) (hw : weight.shape = [outF, inF]) (hout : out.shape = [N, outF])
    (hN : 0 < N) (hinF : 0 < inF) (houtF : 0 < outF)
    (hcpu : out.deviceType = .CPU) (hdi : inp.deviceType = .CPU) (hdw : weight.deviceType = .CPU)
    (hii : inp.deviceId = out.deviceId) (hiw : weight.deviceId = out.deviceId)
    (hdt : out.dtype = .F32 ∨ out.dtype = .F16 ∨ out.dtype = .BF16)
    (hti : inp.dtype = out.dtype) (htw : weight.dtype = out.dtype)
    (hco : out.isContiguous = true) (hci : inp.isContiguous = true)
    (hcw : weight.isContiguous = true) :
    ops.linear cast toFloat out inp weight bias outD inD weightD biasD =
      ⟨none, linear_ cast toFloat outD inD weightD none N inF outF⟩ := by
  have h1 : ¬ (N = 0 ∨ inF = 0 ∨ outF = 0) := by omega
  unfold ops.linear ops.cpu.linear
  simp only [hbias, hin, hw, hout, hcpu, hdi, hdw, hii, hiw, hti, htw, hco, hci, hcw]
  rcases hdt with h | h | h <;> simp [h, h1]

/-- A call that passes every check of `ops::linear` with a bias of shape `[outF]` runs the
kernel with the bias pointer. -/
theorem ops_linear_with_bias {T F : Type} [Add F] [Mul F] [Zero F] (cast : F → T)
    (toFloat : T → F) (out inp weight bias : Tensor) (outD : Buf T)
    (inD weightD biasD : Src T) (N inF outF : Nat)
    (hin : inp.shape = [N, inF]) (hw : weight.shape = [outF, inF]) (hout : out.shape = [N, outF])
    (hb : bias.shape = [outF])
    (hN : 0 < N) (hinF : 0 < inF) (houtF : 0 < outF)
    (hcpu : out.deviceType = .CPU) (hdi : inp.deviceType = .CPU) (hdw : weight.deviceType = .CPU)
    (hdb : bias.deviceType = .CPU)
    (hii : inp.deviceId = out.deviceId) (hiw : weight.deviceId = out.deviceId)
    (hib : bias.deviceId = out.deviceId)
    (hdt : out.dtype = .F32 ∨ out.dtype = .F16 ∨ out.dtype = .BF16)
    (hti : inp.dtype = out.dtype) (htw : weight.dtype = out.dtype) (htb : bias.dtype = out.dtype)
    (hco : out.isContiguous = true) (hci : inp.isContiguous = true)
    (hcw : weight.isContiguous = true) :
    ops.linear cast toFloat out inp weight (some bias) outD inD weightD biasD =
      ⟨none, linear_ cast toFloat outD inD weightD (some biasD) N inF outF⟩ := by
  have h1 : ¬ (N = 0 ∨ inF = 0 ∨ outF = 0) := by omega
  have hb' : bias.meta.shape = [outF] := hb
  have hnum : bias.numel = outF := by simp [Tensor.numel, hb']
  have hnull : ops.is_tensor_null (some bias) = false := by
    simp [ops.is_tensor_null, hnum]; omega
  have hcb : bias.isContiguous = true := by simp [Tensor.isContiguous, Tensor.ndim, hb']
  unfold ops.linear ops.cpu.linear
  simp only [hnull, hin, hw, hout, hb, hnum, hcpu, hdi, hdw, hdb, hii, hiw, hib, hti, htw, htb,
    hco, hci, hcw, hcb, Option.getD_some]
  rcases hdt with h | h | h <;> simp [h, h1]

/-- C4 (as amended): a validated linear call without a bias, whose `in` and `weight` elements
lie outside the output buffer, succeeds and stores at `[i, j]` the cast of
`Σ_{k < inF} toFloat(in[i,k]) * toFloat(weight[j,k])`, the sum being accumulated in `F` from
`0` in increasing order of `k` (`seqSum`) and the weight element `[j, k]` being read at flat
index `j * inF + k` (row `j` of `weight` is the coefficient vector of output `j`). No law of
the float arithmetic is assumed. -/
theorem linear_without_bias_spec {T F : Type} [Add F] [Mul F] [Zero F] (cast : F → T)
    (toFloat : T → F) (out inp weight : Tensor) (outD : Buf T)
    (inD weightD biasD : Src T) (N inF outF : Nat)
    (hin : inp.shape = [N, inF]) (hw : weight.shape = [outF, inF]) (hout : out.shape = [N, outF])
    (hN : 0 < N) (hinF : 0 < inF) (houtF : 0 < outF)
    (hcpu : out.deviceType = .CPU) (hdi : inp.deviceType = .CPU) (hdw : weight.deviceType = .CPU)
    (hii : inp.deviceId = out.deviceId) (hiw : weight.deviceId = out.deviceId)
    (hdt : out.dtype = .F32 ∨ out.dtype = .F16 ∨ out.dtype = .BF16)
    (hti : inp.dtype = out.dtype) (htw : weight.dtype = out.dtype)
    (hco : out.isContiguous = true) (hci : inp.isContiguous = true)
    (hcw : weight.isContiguous = true)
    (hsi : inD.Apart (N * inF)) (hsw : weightD.Apart (outF * inF))
    (i j : Nat) (hi : i < N) (hj : j < outF) :
    (ops.linear cast toFloat out inp weight none outD inD weightD biasD).err = none ∧
    (ops.linear cast toFloat out inp weight none outD inD weightD biasD).out.val
        (i * outF + j) =
      cast (seqSum (fun k => toFloat (inD.mem (i * inF + k)) *
        toFloat (weightD.mem (j * inF + k))) inF) := by
  rw [ops_linear_null_bias cast toFloat out inp weight none outD inD weightD biasD N inF outF
    rfl hin hw hout hN hinF houtF hcpu hdi hdw hii hiw hdt hti htw hco hci hcw]
  refine ⟨rfl, ?_⟩
  simp only []
  rw [linear_apart cast toFloat outD inD weightD none N inF outF hsi hsw
    (fun b hb => by cases hb)]
  rw [show (Option.map (fun b : Src T => Src.ofFun b.mem) none) =
    (none : Option (Nat → T)).map Src.ofFun from rfl]
  rw [linear_val cast toFloat outD inD.mem weightD.mem none N inF outF i j hi hj]
  exact matmul_element_eq_seqSum cast toFloat _ weightD.mem inF j

/-- C4 (as amended), a concrete instance: `in = [[1,2],[3,4]]`, `weight = [[5,6]]` in buffers
of their own gives `out[1,0] = 39`. -/
theorem linear_without_bias_spec_witness :
    (ops.linear (T := ℤ) (F := ℤ) id id
      (Tensor.create [2, 1] .F32 .CPU 0 0) (Tensor.create [2, 2] .F32 .CPU 0 1)
      (Tensor.create [1, 2] .F32 .CPU 0 2) none (Buf.fresh fun _ => 0)
      (Src.ofFun fun k => [1, 2, 3, 4].getD k 0) (Src.ofFun fun k => [5, 6].getD k 0)
      (Src.ofFun fun _ => 0)).out.val 1 = 39 := by
  have h := (linear_without_bias_spec (T := ℤ) (F := ℤ) id id
    (Tensor.create [2, 1] .F32 .CPU 0 0) (Tensor.create [2, 2] .F32 .CPU 0 1)
    (Tensor.create [1, 2] .F32 .CPU 0 2) (Buf.fresh fun _ => 0)
    (Src.ofFun fun k => [1, 2, 3, 4].getD k 0) (Src.ofFun fun k => [5, 6].getD k 0)
    (Src.ofFun fun _ => 0) 2 2 1
    rfl rfl rfl (by decide) (by decide) (by decide) rfl rfl rfl rfl rfl (Or.inl rfl) rfl rfl
    (by decide) (by decide) (by decide) (Src.apart_ofFun _ _) (Src.apart_ofFun _ _)
    1 0 (by decide) (by decide)).2
  simpa [seqSum] using h

/-- C4 as stated fails when the output tensor is also the input: `linear(out = x, in = x,
weight = [[0,1],[1,0]])` with `x = [[1,2]]` passes every check, stores `out[0,0] = 2` and then
reads the row `[2,2]` for `out[0,1]`, which becomes `2`, whereas the claim's formula gives
`in[0,0] * weight[1,0] + in[0,1] * weight[1,1] = 1 * 1 + 2 * 0 = 1`. -/
theorem linear_output_is_input :
    (ops.linear (T := ℤ) (F := ℤ) id id
      (Tensor.create [1, 2] .F32 .CPU 0 0) (Tensor.create [1, 2] .F32 .CPU 0 0)
      (Tensor.create [2, 2] .F32 .CPU 0 1) none (Buf.fresh fun k => [1, 2].getD k 0)
      { overlap := fun k => some k, mem := fun k => [1, 2].getD k 0 }
      (Src.ofFun fun k => [0, 1, 1, 0].getD k 0) (Src.ofFun fun _ => 0)).out.val (0 * 2 + 1) ≠
    id (∑ k in Finset.range 2,
      id ([1, 2].getD (0 * 2 + k) (0 : ℤ)) * id ([0, 1, 1, 0].getD (1 * 2 + k) (0 : ℤ))) := by
  rw [ops_linear_null_bias (T := ℤ) (F := ℤ) id id
    (Tensor.create [1, 2] .F32 .CPU 0 0) (Tensor.create [1, 2] .F32 .CPU 0 0)
    (Tensor.create [2, 2] .F32 .CPU 0 1) none (Buf.fresh fun k => [1, 2].getD k 0)
    { overlap := fun k => some k, mem := fun k => [1, 2].getD k 0 }
    (Src.ofFun fun k => [0, 1, 1, 0].getD k 0) (Src.ofFun fun _ => 0) 1 2 2
    rfl rfl rfl rfl (by decide) (by decide) (by decide) rfl rfl rfl rfl rfl (Or.inl rfl) rfl rfl
    (by decide) (by decide) (by decide)]
  simp [linear_, matmul_element, forLoop, Src.read, Src.ofFun, Buf.fresh, Finset.sum_range_succ]

/-- C3 (as amended): a validated linear call with a bias, whose `in`, `weight` and `bias`
elements lie outside the output buffer, succeeds and stores at `[i, j]`
`cast(toFloat(cast(Σ_k toFloat(in[i,k]) * toFloat(weight[j,k]))) + toFloat(bias[j]))`: the dot
product (accumulated in `F` in increasing order of `k`) is cast to the storage dtype, stored,
read back, and the sum with the bias is cast again. When reading back a cast value is exact
(`toFloat (cast x) = x`, as for 32-bit float storage) this is the single cast
`cast(Σ_k … + toFloat(bias[j]))`. No law of the float arithmetic is assumed. -/
theorem linear_with_bias_spec {T F : Type} [Add F] [Mul F] [Zero F] (cast : F → T)
    (toFloat : T → F) (out inp weight bias : Tensor) (outD : Buf T)
    (inD weightD biasD : Src T) (N inF outF : Nat)
    (hin : inp.shape = [N, inF]) (hw : weight.shape = [outF, inF]) (hout : out.shape = [N, outF])
    (hb : bias.shape = [outF])
    (hN : 0 < N) (hinF : 0 < inF) (houtF : 0 < outF)
    (hcpu : out.deviceType = .CPU) (hdi : inp.deviceType = .CPU) (hdw : weight.deviceType = .CPU)
    (hdb : bias.deviceType = .CPU)
    (hii : inp.deviceId = out.deviceId) (hiw : weight.deviceId = out.deviceId)
    (hib : bias.deviceId = out.deviceId)
    (hdt : out.dtype = .F32 ∨ out.dtype = .F16 ∨ out.dtype = .BF16)
    (hti : inp.dtype = out.dtype) (htw : weight.dtype = out.dtype) (htb : bias.dtype = out.dtype)
    (hco : out.isContiguous = true) (hci : inp.isContiguous = true)
    (hcw : weight.isContiguous = true)
    (hsi : inD.Apart (N * inF)) (hsw : weightD.Apart (outF * inF)) (hsb : biasD.Apart outF)
    (i j : Nat) (hi : i < N) (hj : j < outF) :
    (ops.linear cast toFloat out inp weight (some bias) outD inD weightD biasD).err = none ∧
    (ops.linear cast toFloat out inp weight (some bias) outD inD weightD biasD).out.val
        (i * outF + j) =
      cast (toFloat (cast (seqSum (fun k => toFloat (inD.mem (i * inF + k)) *
        toFloat (weightD.mem (j * inF + k))) inF)) + toFloat (biasD.mem j)) ∧
    ((∀ x, toFloat (cast x) = x) →
      (ops.linear cast toFloat out inp weight (some bias) outD inD weightD biasD).out.val
          (i * outF + j) =
        cast (seqSum (fun k => toFloat (inD.mem (i * inF + k)) *
          toFloat (weightD.mem (j * inF + k))) inF + toFloat (biasD.mem j))) := by
  rw [ops_linear_with_bias cast toFloat out inp weight bias outD inD weightD biasD N inF outF
    hin hw hout hb hN hinF houtF hcpu hdi hdw hdb hii hiw hib hdt hti htw htb hco hci hcw]
  have ha := linear_apart cast toFloat outD inD weightD (some biasD) N inF outF hsi hsw
    (fun b hb => by cases hb; exact hsb)
  have hv := linear_val cast toFloat outD inD.mem weightD.mem (some biasD.mem) N inF outF i j
    hi hj
  simp only [] at hv
  rw [matmul_element_eq_seqSum] at hv
  refine ⟨rfl, ?_, fun hexact => ?_⟩
  · simp only []
    rw [ha]
    exact hv
  · simp only []
    rw [ha]
    exact hv.trans (by rw [hexact])

theorem roundToEven128_product : roundToEven128 (129 / 128 * (129 / 128)) = 65 / 64 := by
  simp [roundToEven128, Rat.floor]
  norm_num

theorem roundToEven128_double : roundToEven128 (65 / 64 + 1 / 256) = 65 / 64 := by
  simp [roundToEven128, Rat.floor]
  norm_num

theorem roundToEven128_single :
    roundToEven128 (129 / 128 * (129 / 128) + 1 / 256) = 131 / 128 := by
  simp [roundToEven128, Rat.floor]
  norm_num

/-- C3 (as amended), a concrete instance with 8-bit-significand rounding: `in = [[129/128]]`,
`weight = [[129/128]]`, `bias = [1/256]`, each in a buffer of its own, stores `65/64`. -/
theorem linear_with_bias_spec_witness :
    (ops.linear (T := ℚ) (F := ℚ) roundToEven128 id
      (Tensor.create [1, 1] .BF16 .CPU 0 0) (Tensor.create [1, 1] .BF16 .CPU 0 1)
      (Tensor.create [1, 1] .BF16 .CPU 0 2) (some (Tensor.create [1] .BF16 .CPU 0 3))
      (Buf.fresh fun _ => 0) (Src.ofFun fun _ => 129 / 128) (Src.ofFun fun _ => 129 / 128)
      (Src.ofFun fun _ => 1 / 256)).out.val 0 = 65 / 64 := by
  have h := (linear_with_bias_spec (T := ℚ) (F := ℚ) roundToEven128 id
    (Tensor.create [1, 1] .BF16 .CPU 0 0) (Tensor.create [1, 1] .BF16 .CPU 0 1)
    (Tensor.create [1, 1] .BF16 .CPU 0 2) (Tensor.create [1] .BF16 .CPU 0 3)
    (Buf.fresh fun _ => 0) (Src.ofFun fun _ => 129 / 128) (Src.ofFun fun _ => 129 / 128)
    (Src.ofFun fun _ => 1 / 256) 1 1 1
    rfl rfl rfl rfl (by decide) (by decide) (by decide) rfl rfl rfl rfl rfl rfl rfl
    (Or.inr (Or.inr rfl)) rfl rfl rfl (by decide) (by decide) (by decide)
    (Src.apart_ofFun _ _) (Src.apart_ofFun _ _) (Src.apart_ofFun _ _)
    0 0 (by decide) (by decide)).2.1
  simp only [seqSum, Src.mem_ofFun, id, Nat.zero_mul, Nat.zero_add, zero_add] at h
  rw [h, roundToEven128_product, roundToEven128_double]

/-- C3 as stated fails: with `in = [[129/128]]`, `weight = [[129/128]]`, `bias = [1/256]` and
8-bit-significand round-to-nearest-even storage the kernel stores `65/64` (the product is
rounded to `65/64` before the bias is added, and `65/64 + 1/256` is a tie that rounds back to
`65/64`), whereas the single cast of the float sum `129²/128² + 1/256` is `131/128`. -/
theorem linear_with_bias_double_cast :
    (ops.linear (T := ℚ) (F := ℚ) roundToEven128 id
      (Tensor.create [1, 1] .BF16 .CPU 0 0) (Tensor.create [1, 1] .BF16 .CPU 0 1)
      (Tensor.create [1, 1] .BF16 .CPU 0 2) (some (Tensor.create [1] .BF16 .CPU 0 3))
      (Buf.fresh fun _ => 0) (Src.ofFun fun _ => 129 / 128) (Src.ofFun fun _ => 129 / 128)
      (Src.ofFun fun _ => 1 / 256)).out.val (0 * 1 + 0) ≠
    roundToEven128 ((∑ k in Finset.range 1,
      id ((fun _ => (129 / 128 : ℚ)) (0 * 1 + k)) * id ((fun _ => (129 / 128 : ℚ)) (0 * 1 + k)))
      + id ((fun _ => (1 / 256 : ℚ)) 0)) := by
  rw [ops_linear_with_bias (T := ℚ) (F := ℚ) roundToEven128 id
    (Tensor.create [1, 1] .BF16 .CPU 0 0) (Tensor.create [1, 1] .BF16 .CPU 0 1)
    (Tensor.create [1, 1] .BF16 .CPU 0 2) (Tensor.create [1] .BF16 .CPU 0 3)
    (Buf.fresh fun _ => 0) (Src.ofFun fun _ => 129 / 128) (Src.ofFun fun _ => 129 / 128)
    (Src.ofFun fun _ => 1 / 256) 1 1 1
    rfl rfl rfl rfl (by decide) (by decide) (by decide) rfl rfl rfl rfl rfl rfl rfl
    (Or.inr (Or.inr rfl)) rfl rfl rfl (by decide) (by decide) (by decide)]
  simp only []
  rw [show (some (Src.ofFun fun _ => (1 / 256 : ℚ))) =
    (some fun _ => (1 / 256 : ℚ)).map Src.ofFun from rfl]
  rw [linear_val (T := ℚ) (F := ℚ) roundToEven128 id _ _ _ _ 1 1 1 0 0 (by decide) (by decide)]
  simp only [matmul_element_eq_sum, Finset.sum_range_one, id]
  rw [roundToEven128_product, roundToEven128_double, roundToEven128_single]
  norm_num

/-! ## embedding -/

theorem copy_embedding_row_val {T : Type} (out : Buf T) (orow : Nat) (weight : Nat → T)
    (wrow hidden_dim p : Nat) :
    (copy_embedding_row out orow (Src.ofFun weight) wrow hidden_dim).val p =
      if orow ≤ p ∧ p < orow + hidden_dim then weight (wrow + (p - orow)) else out.val p :=
  storeLoop_val orow (fun c _ => weight (wrow + c)) hidden_dim out p

/-- A row copy stores once into each element of its row and nowhere else. -/
theorem copy_embedding_row_stores {T : Type} (out : Buf T) (orow : Nat) (weight : Src T)
    (wrow hidden_dim p : Nat) :
    (copy_embedding_row out orow weight wrow hidden_dim).stores p =
      out.stores p + if orow ≤ p ∧ p < orow + hidden_dim then 1 else 0 :=
  storeLoop_stores orow (fun c o => weight.read o (wrow + c)) hidden_dim out p

/-- A row copy leaves the elements outside its row alone. -/
theorem copy_embedding_row_frame {T : Type} (out : Buf T) (orow : Nat) (weight : Src T)
    (wrow hidden_dim p : Nat) (hp : ¬ (orow ≤ p ∧ p < orow + hidden_dim)) :
    (copy_embedding_row out orow weight wrow hidden_dim).val p = out.val p := by
  unfold copy_embedding_row
  induction hidden_dim with
  | zero => rfl
  | succ n ih =>
    rw [forLoop_succ, Buf.store_val, if_neg (by omega)]
    exact ih (by omega)

/-- When the rows the kernel reads lie outside the output buffer, the reads return the
contents `weight` had when the call was made. -/
theorem embedding_apart {T : Type} (out : Buf T) (index : Nat → Int) (weight : Src T)
    (batch hidden vocab : Nat) (hw : weight.Apart (vocab * hidden)) :
    embedding_ out index weight batch hidden vocab =
      embedding_ out index (Src.ofFun weight.mem) batch hidden vocab := by
  unfold embedding_ forLoopE
  apply forLoop_congr
  intro i _ st
  cases st.err with
  | some e => rfl
  | none =>
    simp only []
    by_cases hc : index i < 0 ∨ vocab ≤ (index i).toNat
    · rw [if_pos hc, if_pos hc]
    · rw [if_neg hc, if_neg hc]
      congr 1
      unfold copy_embedding_row
      apply forLoop_congr
      intro c hcl o
      rw [Src.read_of_apart weight _ hw o _ (flat_lt (by omega) hcl)]
      rfl

/-- A call that passes every check of `ops::embedding` runs the kernel. -/
theorem ops_embedding_run {T : Type} (out index weight : Tensor) (outD : Buf T)
    (indexD : Nat → Int) (weightD : Src T) (batch hidden vocab : Nat)
    (hidx : index.shape = [batch]) (hw : weight.shape = [vocab, hidden])
    (hout : out.shape = [batch, hidden])
    (hb : 0 < batch) (hh : 0 < hidden) (hv : 0 < vocab)
    (hcpu : out.deviceType = .CPU) (hdi : index.deviceType = .CPU) (hdw : weight.deviceType = .CPU)
    (hii : index.deviceId = out.deviceId) (hiw : weight.deviceId = out.deviceId)
    (hti : index.dtype = .I64)
    (hdt : weight.dtype = .F32 ∨ weight.dtype = .F16 ∨ weight.dtype = .BF16)
    (hto : out.dtype = weight.dtype)
    (hco : out.isContiguous = true) (hcw : weight.isContiguous = true) :
    ops.embedding out index weight outD indexD weightD =
      embedding_ outD indexD weightD batch hidden vocab := by
  have h1 : ¬ (batch = 0 ∨ hidden = 0 ∨ vocab = 0) := by omega
  have hidx' : index.meta.shape = [batch] := hidx
  have hnum : index.numel = batch := by simp [Tensor.numel, hidx']
  have hci : index.isContiguous = true := by simp [Tensor.isContiguous, Tensor.ndim, hidx']
  unfold ops.embedding ops.cpu.embedding
  simp only [hidx, hw, hout, hnum, hcpu, hdi, hdw, hii, hiw, hti, hto, hco, hci, hcw,
    ops.LLAISYS_DTYPE_INT64]
  rcases hdt with h | h | h <;> simp [h, h1]

/-- With every index in range the kernel returns normally. -/
theorem embedding_ok {T : Type} (out : Buf T) (index : Nat → Int) (weight : Src T)
    (batch hidden vocab : Nat)
    (hrange : ∀ i, i < batch → 0 ≤ index i ∧ index i < vocab) :
    (embedding_ out index weight batch hidden vocab).err = none := by
  unfold embedding_
  rw [forLoopE_ok]
  intro i hi t
  have := hrange i hi
  rw [if_neg (by omega)]

/-- With every index in range and `weight` outside the output buffer the kernel returns
normally and row `i` of `out` is row `index[i]` of `weight`. -/
theorem embedding_in_range {T : Type} (out : Buf T) (index : Nat → Int) (weight : Nat → T)
    (batch hidden vocab : Nat)
    (hrange : ∀ i, i < batch → 0 ≤ index i ∧ index i < vocab) :
    (embedding_ out index (Src.ofFun weight) batch hidden vocab).err = none ∧
    ∀ i c, i < batch → c < hidden →
      (embedding_ out index (Src.ofFun weight) batch hidden vocab).out.val (i * hidden + c) =
        weight ((index i).toNat * hidden + c) := by
  unfold embedding_
  rw [forLoopE_ok]
  · refine ⟨rfl, fun i c hi hc => ?_⟩
    simp only []
    rw [forLoop_rowwise_val hidden _
      (fun i _ c => weight ((index i).toNat * hidden + c))]
    · rw [if_pos (flat_lt hi hc), flat_div hc, flat_mod hc]
    · intro r hr o p
      have := hrange r hr
      rw [if_neg (by omega)]
      exact copy_embedding_row_val o (r * hidden) weight _ hidden p
  · intro i hi t
    have := hrange i hi
    rw [if_neg (by omega)]

theorem embedding_err_iff {T : Type} (out : Buf T) (index : Nat → Int) (weight : Src T)
    (batch hidden vocab : Nat) :
    (embedding_ out index weight batch hidden vocab).err = some .out_of_range ↔
      ∃ i, i < batch ∧ (index i < 0 ∨ (vocab : Int) ≤ index i) := by
  have he : ∀ i (t : Buf T),
      (if index i < 0 ∨ vocab ≤ (index i).toNat then
          (⟨some .out_of_range, t⟩ : Outcome (Buf T))
        else ⟨none, copy_embedding_row t (i * hidden) weight ((index i).toNat * hidden)
          hidden⟩).err =
        if index i < 0 ∨ (vocab : Int) ≤ index i then some Error.out_of_range else none := by
    intro i t
    by_cases h : index i < 0 ∨ vocab ≤ (index i).toNat
    · rw [if_pos h, if_pos (by omega)]
    · rw [if_neg h, if_neg (by omega)]
  unfold embedding_
  constructor
  · intro h
    obtain ⟨i, hi, hie⟩ := forLoopE_err_some batch _ _ he out _ h
    refine ⟨i, hi, ?_⟩
    by_contra hn
    rw [if_neg hn] at hie
    exact absurd hie (by simp)
  · rintro ⟨i, hi, hbad⟩
    cases hr : (forLoopE batch (fun i o =>
        if index i < 0 ∨ vocab ≤ (index i).toNat then
          (⟨some .out_of_range, o⟩ : Outcome (Buf T))
        else ⟨none, copy_embedding_row o (i * hidden) weight ((index i).toNat * hidden)
          hidden⟩) out).err with
    | none =>
      have := (forLoopE_err_none_iff batch _ _ he out).mp hr i hi
      rw [if_pos hbad] at this
      exact absurd this (by simp)
    | some x =>
      obtain ⟨k, _, hke⟩ := forLoopE_err_some batch _ _ he out x hr
      by_cases hk : index k < 0 ∨ (vocab : Int) ≤ index k
      · rw [if_pos hk] at hke
        rw [← Option.some.inj hke]
      · rw [if_neg hk] at hke
        exact absurd hke (by simp)

/-- C5 (as amended): a validated embedding call whose indices all satisfy
`0 ≤ index[i] < vocab` succeeds; when the rows of `weight` lie outside the output buffer it
copies row `index[i]` of `weight` into row `i` of `out`, element for element. -/
theorem embedding_spec {T : Type} (out index weight : Tensor) (outD : Buf T)
    (indexD : Nat → Int) (weightD : Src T) (batch hidden vocab : Nat)
    (hidx : index.shape = [batch]) (hw : weight.shape = [vocab, hidden])
    (hout : out.shape = [batch, hidden])
    (hb : 0 < batch) (hh : 0 < hidden) (hv : 0 < vocab)
    (hcpu : out.deviceType = .CPU) (hdi : index.deviceType = .CPU) (hdw : weight.deviceType = .CPU)
    (hii : index.deviceId = out.deviceId) (hiw : weight.deviceId = out.deviceId)
    (hti : index.dtype = .I64)
    (hdt : weight.dtype = .F32 ∨ weight.dtype = .F16 ∨ weight.dtype = .BF16)
    (hto : out.dtype = weight.dtype)
    (hco : out.isContiguous = true) (hcw : weight.isContiguous = true)
    (hrange : ∀ i, i < batch → 0 ≤ indexD i ∧ indexD i < vocab) :
    (ops.embedding out index weight outD indexD weightD).err = none ∧
    (weightD.Apart (vocab * hidden) → ∀ i c, i < batch → c < hidden →
      (ops.embedding out index weight outD indexD weightD).out.val (i * hidden + c) =
        weightD.mem ((indexD i).toNat * hidden + c)) := by
  rw [ops_embedding_run out index weight outD indexD weightD batch hidden vocab hidx hw hout
    hb hh hv hcpu hdi hdw hii hiw hti hdt hto hco hcw]
  refine ⟨embedding_ok outD indexD weightD batch hidden vocab hrange, fun hsw => ?_⟩
  rw [embedding_apart outD indexD weightD batch hidden vocab hsw]
  exact (embedding_in_range outD indexD weightD.mem batch hidden vocab hrange).2

/-- C5 (as amended), the instance of the spec: `weight = [[0,0],[1,1],[2,2],[3,3]]` in a buffer
of its own and `index = [2,0]` give `out = [[2,2],[0,0]]`. -/
theorem embedding_spec_witness :
    (ops.embedding (T := ℤ) (Tensor.create [2, 2] .F32 .CPU 0 0)
      (Tensor.create [2] .I64 .CPU 0 1) (Tensor.create [4, 2] .F32 .CPU 0 2)
      (Buf.fresh fun _ => 7) (fun i => [2, 0].getD i 0)
      (Src.ofFun fun k => [0, 0, 1, 1, 2, 2, 3, 3].getD k 0)).err = none ∧
    (List.range 4).map (ops.embedding (T := ℤ) (Tensor.create [2, 2] .F32 .CPU 0 0)
      (Tensor.create [2] .I64 .CPU 0 1) (Tensor.create [4, 2] .F32 .CPU 0 2)
      (Buf.fresh fun _ => 7) (fun i => [2, 0].getD i 0)
      (Src.ofFun fun k => [0, 0, 1, 1, 2, 2, 3, 3].getD k 0)).out.val = [2, 2, 0, 0] := by
  have h := embedding_spec (T := ℤ) (Tensor.create [2, 2] .F32 .CPU 0 0)
      (Tensor.create [2] .I64 .CPU 0 1) (Tensor.create [4, 2] .F32 .CPU 0 2)
      (Buf.fresh fun _ => 7) (fun i => [2, 0].getD i 0)
      (Src.ofFun fun k => [0, 0, 1, 1, 2, 2, 3, 3].getD k 0) 2 2 4 rfl rfl rfl
      (by decide) (by decide) (by decide) rfl rfl rfl rfl rfl rfl (Or.inl rfl) rfl
      (by decide) (by decide) (by decide)
  refine ⟨h.1, ?_⟩
  have h2 := h.2 (Src.apart_ofFun _ _)
  have h00 := h2 0 0 (by decide) (by decide)
  have h01 := h2 0 1 (by decide) (by decide)
  have h10 := h2 1 0 (by decide) (by decide)
  have h11 := h2 1 1 (by decide) (by decide)
  simp only [List.range, List.range.loop, List.map] at *
  simp at h00 h01 h10 h11
  simp [h00, h01, h10, h11]

/-- C5 as stated fails when the output tensor is also the weight table:
`embedding(out = w, index = [1, 0], weight = w)` with `w = [[10],[20]]` passes every check;
row 0 becomes `[20]`, and row 1 is then copied from the overwritten row 0, so `out[1,0] = 20`,
whereas `weight[index[1], 0] = weight[0, 0] = 10`. -/
theorem embedding_output_is_weight :
    (ops.embedding (T := ℤ) (Tensor.create [2, 1] .F32 .CPU 0 0)
      (Tensor.create [2] .I64 .CPU 0 1) (Tensor.create [2, 1] .F32 .CPU 0 0)
      (Buf.fresh fun k => [10, 20].getD k 0) (fun i => [1, 0].getD i 0)
      { overlap := fun k => some k, mem := fun k => [10, 20].getD k 0 }).err = none ∧
    (ops.embedding (T := ℤ) (Tensor.create [2, 1] .F32 .CPU 0 0)
      (Tensor.create [2] .I64 .CPU 0 1) (Tensor.create [2, 1] .F32 .CPU 0 0)
      (Buf.fresh fun k => [10, 20].getD k 0) (fun i => [1, 0].getD i 0)
      { overlap := fun k => some k, mem := fun k => [10, 20].getD k 0 }).out.val (1 * 1 + 0) ≠
    [10, 20].getD (([1, 0].getD 1 (0 : ℤ)).toNat * 1 + 0) (0 : ℤ) := by
  rw [ops_embedding_run (T := ℤ) (Tensor.create [2, 1] .F32 .CPU 0 0)
      (Tensor.create [2] .I64 .CPU 0 1) (Tensor.create [2, 1] .F32 .CPU 0 0)
      (Buf.fresh fun k => [10, 20].getD k 0) (fun i => [1, 0].getD i 0)
      { overlap := fun k => some k, mem := fun k => [10, 20].getD k 0 } 2 1 2 rfl rfl rfl
      (by decide) (by decide) (by decide) rfl rfl rfl rfl rfl rfl (Or.inl rfl) rfl
      (by decide) (by decide)]
  simp [embedding_, forLoopE, copy_embedding_row, forLoop, Src.read, Buf.fresh]

/-- C6: a validated embedding call (nonzero batch, hidden, vocab) fails with an OutOfRange
error if and only if some index value is negative or `≥ vocab`. -/
theorem embedding_out_of_range_iff {T : Type} (out index weight : Tensor) (outD : Buf T)
    (indexD : Nat → Int) (weightD : Src T) (batch hidden vocab : Nat)
    (hidx : index.shape = [batch]) (hw : weight.shape = [vocab, hidden])
    (hout : out.shape = [batch, hidden])
    (hb : 0 < batch) (hh : 0 < hidden) (hv : 0 < vocab)
    (hcpu : out.deviceType = .CPU) (hdi : index.deviceType = .CPU) (hdw : weight.deviceType = .CPU)
    (hii : index.deviceId = out.deviceId) (hiw : weight.deviceId = out.deviceId)
    (hti : index.dtype = .I64)
    (hdt : weight.dtype = .F32 ∨ weight.dtype = .F16 ∨ weight.dtype = .BF16)
    (hto : out.dtype = weight.dtype)
    (hco : out.isContiguous = true) (hcw : weight.isContiguous = true) :
    (ops.embedding out index weight outD indexD weightD).err = some .out_of_range ↔
      ∃ i, i < batch ∧ (indexD i < 0 ∨ (vocab : Int) ≤ indexD i) := by
  rw [ops_embedding_run out index weight outD indexD weightD batch hidden vocab hidx hw hout
    hb hh hv hcpu hdi hdw hii hiw hti hdt hto hco hcw]
  exact embedding_err_iff outD indexD weightD batch hidden vocab

/-- C6, the instance of the spec: `vocab = 4`, `index = [5]` fails with OutOfRange. -/
theorem embedding_out_of_range_iff_witness :
    (ops.embedding (T := ℤ) (Tensor.create [1, 2] .F32 .CPU 0 0)
      (Tensor.create [1] .I64 .CPU 0 1) (Tensor.create [4, 2] .F32 .CPU 0 2)
      (Buf.fresh fun _ => 7) (fun _ => 5)
      (Src.ofFun fun k => [0, 0, 1, 1, 2, 2, 3, 3].getD k 0)).err = some .out_of_range :=
  (embedding_out_of_range_iff (T := ℤ) (Tensor.create [1, 2] .F32 .CPU 0 0)
      (Tensor.create [1] .I64 .CPU 0 1) (Tensor.create [4, 2] .F32 .CPU 0 2)
      (Buf.fresh fun _ => 7) (fun _ => 5)
      (Src.ofFun fun k => [0, 0, 1, 1, 2, 2, 3, 3].getD k 0) 1 2 4 rfl rfl rfl
      (by decide) (by decide) (by decide) rfl rfl rfl rfl rfl rfl (Or.inl rfl) rfl
      (by decide) (by decide)).mpr ⟨0, by decide, by decide⟩

/-! ## argmax -/

/-- The scan invariant of `argmax_`: after `k` iterations the state is `(vals[m], m)` for the
first index `m ≤ k` at which the largest of `vals[0..k]` occurs. -/
theorem argmax_scan {T F : Type} [LinearOrder F] (toFloat : T → F) (vals : Nat → T) (k : Nat) :
    (forLoop k (fun k (st : T × Nat) =>
        if is_greater toFloat (vals (k + 1)) st.1 then (vals (k + 1), k + 1) else st)
      (vals 0, 0)).2 ≤ k ∧
    (forLoop k (fun k (st : T × Nat) =>
        if is_greater toFloat (vals (k + 1)) st.1 then (vals (k + 1), k + 1) else st)
      (vals 0, 0)).1 =
      vals (forLoop k (fun k (st : T × Nat) =>
        if is_greater toFloat (vals (k + 1)) st.1 then (vals (k + 1), k + 1) else st)
      (vals 0, 0)).2 ∧
    (∀ i, i ≤ k → toFloat (vals i) ≤ toFloat (forLoop k (fun k (st : T × Nat) =>
        if is_greater toFloat (vals (k + 1)) st.1 then (vals (k + 1), k + 1) else st)
      (vals 0, 0)).1) ∧
    (∀ i, i < (forLoop k (fun k (st : T × Nat) =>
        if is_greater toFloat (vals (k + 1)) st.1 then (vals (k + 1), k + 1) else st)
      (vals 0, 0)).2 → toFloat (vals i) < toFloat (forLoop k (fun k (st : T × Nat) =>
        if is_greater toFloat (vals (k + 1)) st.1 then (vals (k + 1), k + 1) else st)
      (vals 0, 0)).1) := by
  induction k with
  | zero =>
    refine ⟨Nat.le_refl 0, rfl, fun i hi => ?_, fun i hi => absurd hi (Nat.not_lt_zero i)⟩
    rw [Nat.le_zero.mp hi]; exact le_refl _
  | succ k ih =>
    rw [forLoop_succ]
    generalize forLoop k (fun k (st : T × Nat) =>
        if is_greater toFloat (vals (k + 1)) st.1 then (vals (k + 1), k + 1) else st)
      (vals 0, 0) = st at ih ⊢
    obtain ⟨h1, h2, h3, h4⟩ := ih
    by_cases hg : toFloat st.1 < toFloat (vals (k + 1))
    · have : is_greater toFloat (vals (k + 1)) st.1 = true := by simp [is_greater, hg]
      simp only [this, if_true]
      refine ⟨Nat.le_refl _, trivial, fun i hi => ?_, fun i hi => ?_⟩
      · rcases Nat.lt_succ_iff_lt_or_eq.mp (Nat.lt_succ_of_le hi) with h | h
        · exact le_of_lt (lt_of_le_of_lt (h3 i (Nat.le_of_lt_succ h)) hg)
        · rw [h]
      · exact lt_of_le_of_lt (h3 i (Nat.le_of_lt_succ hi)) hg
    · have : is_greater toFloat (vals (k + 1)) st.1 = false := by simp [is_greater, hg]
      simp only [this]
      refine ⟨Nat.le_succ_of_le h1, h2, fun i hi => ?_, h4⟩
      rcases Nat.lt_succ_iff_lt_or_eq.mp (Nat.lt_succ_of_le hi) with h | h
      · exact h3 i (Nat.le_of_lt_succ h)
      · rw [h]; exact not_lt.mp hg

/-- A call that passes every check of `ops::argmax` on a non-empty input runs the kernel. -/
theorem ops_argmax_run {T F : Type} [LinearOrder F] (toFloat : T → F)
    (max_idx max_val vals : Tensor) (max_idxD : Buf Nat) (max_valD : Buf T) (valsD : Nat → T)
    (n : Nat) (hvals : vals.shape = [n]) (hn : 0 < n)
    (hmi : max_idx.shape = [1]) (hmv : max_val.shape = [1])
    (hcpu : vals.deviceType = .CPU) (hdi : max_idx.deviceType = .CPU)
    (hdv : max_val.deviceType = .CPU)
    (hii : max_val.deviceId = max_idx.deviceId) (hiv : vals.deviceId = max_idx.deviceId)
    (hdt : vals.dtype = .F32 ∨ vals.dtype = .F16 ∨ vals.dtype = .BF16)
    (htv : max_val.dtype = vals.dtype) :
    ops.argmax toFloat max_idx max_val vals max_idxD max_valD valsD =
      ⟨none, argmax_ toFloat max_idxD max_valD valsD n⟩ := by
  have hvals' : vals.meta.shape = [n] := hvals
  have hmi' : max_idx.meta.shape = [1] := hmi
  have hmv' : max_val.meta.shape = [1] := hmv
  have hn0 : n ≠ 0 := by omega
  unfold ops.argmax ops.cpu.argmax
  simp only [hvals, hmi, hmv, hcpu, hdi, hdv, hii, hiv, htv, Tensor.numel, Tensor.isContiguous,
    Tensor.ndim, hvals', hmi', hmv']
  rcases hdt with h | h | h <;> simp [h, hn0]

/-- C7: on a non-empty 1-D input a validated argmax call succeeds, `maxIdx` is an index of
`vals`, `maxVal = vals[maxIdx]`, no element of `vals` is greater than `maxVal`, and every
element before `maxIdx` is strictly smaller: `maxVal` is the maximum and `maxIdx` the smallest
index at which it occurs (values compared as floats, a total order). -/
theorem argmax_spec {T F : Type} [LinearOrder F] (toFloat : T → F)
    (max_idx max_val vals : Tensor) (max_idxD : Buf Nat) (max_valD : Buf T) (valsD : Nat → T)
    (n : Nat) (hvals : vals.shape = [n]) (hn : 0 < n)
    (hmi : max_idx.shape = [1]) (hmv : max_val.shape = [1])
    (hcpu : vals.deviceType = .CPU) (hdi : max_idx.deviceType = .CPU)
    (hdv : max_val.deviceType = .CPU)
    (hii : max_val.deviceId = max_idx.deviceId) (hiv : vals.deviceId = max_idx.deviceId)
    (hdt : vals.dtype = .F32 ∨ vals.dtype = .F16 ∨ vals.dtype = .BF16)
    (htv : max_val.dtype = vals.dtype) :
    (ops.argmax toFloat max_idx max_val vals max_idxD max_valD valsD).err = none ∧
    (ops.argmax toFloat max_idx max_val vals max_idxD max_valD valsD).out.1.val 0 < n ∧
    (ops.argmax toFloat max_idx max_val vals max_idxD max_valD valsD).out.2.val 0 =
      valsD ((ops.argmax toFloat max_idx max_val vals max_idxD max_valD valsD).out.1.val 0) ∧
    (∀ i, i < n → toFloat (valsD i) ≤
      toFloat ((ops.argmax toFloat max_idx max_val vals max_idxD max_valD valsD).out.2.val 0)) ∧
    (∀ i, i < (ops.argmax toFloat max_idx max_val vals max_idxD max_valD valsD).out.1.val 0 →
      toFloat (valsD i) <
      toFloat ((ops.argmax toFloat max_idx max_val vals max_idxD max_valD valsD).out.2.val 0)) := by
  rw [ops_argmax_run toFloat max_idx max_val vals max_idxD max_valD valsD n hvals hn hmi hmv
    hcpu hdi hdv hii hiv hdt htv]
  obtain ⟨h1, h2, h3, h4⟩ := argmax_scan toFloat valsD (n - 1)
  simp only [argmax_, Buf.store_val, if_true]
  exact ⟨trivial, by omega, h2, fun i hi => h3 i (by omega), h4⟩

/-- C7, the instances of the spec: `[3, 5, 1]` gives value 5 at index 1, and `[2, 2]` gives
index 0. -/
theorem argmax_spec_witness :
    ((ops.argmax (T := ℤ) (F := ℤ) id (Tensor.create [1] .I64 .CPU 0 0)
      (Tensor.create [1] .F32 .CPU 0 1) (Tensor.create [3] .F32 .CPU 0 2)
      (Buf.fresh fun _ => 9) (Buf.fresh fun _ => 0) (fun k => [3, 5, 1].getD k 0)).out.1.val 0 = 1 ∧
    (ops.argmax (T := ℤ) (F := ℤ) id (Tensor.create [1] .I64 .CPU 0 0)
      (Tensor.create [1] .F32 .CPU 0 1) (Tensor.create [3] .F32 .CPU 0 2)
      (Buf.fresh fun _ => 9) (Buf.fresh fun _ => 0) (fun k => [3, 5, 1].getD k 0)).out.2.val 0 = 5) ∧
    (ops.argmax (T := ℤ) (F := ℤ) id (Tensor.create [1] .I64 .CPU 0 0)
      (Tensor.create [1] .F32 .CPU 0 1) (Tensor.create [2] .F32 .CPU 0 2)
      (Buf.fresh fun _ => 9) (Buf.fresh fun _ => 0) (fun _ => 2)).out.1.val 0 = 0 := by
  constructor
  · obtain ⟨_, h1, h2, h3, _⟩ := argmax_spec (T := ℤ) (F := ℤ) id
      (Tensor.create [1] .I64 .CPU 0 0)
      (Tensor.create [1] .F32 .CPU 0 1) (Tensor.create [3] .F32 .CPU 0 2)
      (Buf.fresh fun _ => 9) (Buf.fresh fun _ => 0) (fun k => [3, 5, 1].getD k 0) 3 rfl
      (by decide) rfl rfl rfl rfl rfl rfl rfl (Or.inl rfl) rfl
    have h5 := h3 1 (by decide)
    generalize (ops.argmax (T := ℤ) (F := ℤ) id (Tensor.create [1] .I64 .CPU 0 0)
      (Tensor.create [1] .F32 .CPU 0 1) (Tensor.create [3] .F32 .CPU 0 2)
      (Buf.fresh fun _ => 9) (Buf.fresh fun _ => 0) (fun k => [3, 5, 1].getD k 0)).out.1.val 0 = m
      at h1 h2 h5 ⊢
    rw [h2] at h5 ⊢
    interval_cases m <;> simp_all
  · obtain ⟨_, h1, h2, _, h4⟩ := argmax_spec (T := ℤ) (F := ℤ) id
      (Tensor.create [1] .I64 .CPU 0 0)
      (Tensor.create [1] .F32 .CPU 0 1) (Tensor.create [2] .F32 .CPU 0 2)
      (Buf.fresh fun _ => 9) (Buf.fresh fun _ => 0) (fun _ => 2) 2 rfl
      (by decide) rfl rfl rfl rfl rfl rfl rfl (Or.inl rfl) rfl
    generalize (ops.argmax (T := ℤ) (F := ℤ) id (Tensor.create [1] .I64 .CPU 0 0)
      (Tensor.create [1] .F32 .CPU 0 1) (Tensor.create [2] .F32 .CPU 0 2)
      (Buf.fresh fun _ => 9) (Buf.fresh fun _ => 0) (fun _ => 2)).out.1.val 0 = m
      at h1 h2 h4 ⊢
    rw [h2] at h4
    by_contra hm
    have := h4 0 (Nat.pos_of_ne_zero hm)
    simp at this

/-- C8: argmax on an input with `numel = 0` fails, leaves `maxIdx` and `maxVal` exactly as
they were (values and store counts), and its outcome does not depend on the contents of
`vals`. -/
theorem argmax_empty_fails {T F : Type} [LinearOrder F] (toFloat : T → F)
    (max_idx max_val vals : Tensor) (max_idxD : Buf Nat) (max_valD : Buf T) (valsD : Nat → T)
    (hempty : vals.numel = 0) :
    (ops.argmax toFloat max_idx max_val vals max_idxD max_valD valsD).err ≠ none ∧
    (ops.argmax toFloat max_idx max_val vals max_idxD max_valD valsD).out =
      (max_idxD, max_valD) ∧
    ∀ valsD' : Nat → T,
      ops.argmax toFloat max_idx max_val vals max_idxD max_valD valsD' =
        ops.argmax toFloat max_idx max_val vals max_idxD max_valD valsD := by
  unfold ops.argmax ops.cpu.argmax
  simp only [hempty, if_true]
  refine ⟨?_, ?_, fun _ => trivial⟩ <;> split_ifs <;> simp

/-- C8, the instance of the spec: `argmax([])` is an error. -/
theorem argmax_empty_fails_witness :
    (ops.argmax (T := ℤ) (F := ℤ) id (Tensor.create [1] .I64 .CPU 0 0)
      (Tensor.create [1] .F32 .CPU 0 1) (Tensor.create [0] .F32 .CPU 0 2)
      (Buf.fresh fun _ => 9) (Buf.fresh fun _ => 0) (fun _ => 0)).err ≠ none :=
  (argmax_empty_fails (T := ℤ) (F := ℤ) id (Tensor.create [1] .I64 .CPU 0 0)
      (Tensor.create [1] .F32 .CPU 0 1) (Tensor.create [0] .F32 .CPU 0 2)
      (Buf.fresh fun _ => 9) (Buf.fresh fun _ => 0) (fun _ => 0) (by decide)).1

/-! ## rms_norm -/

/-- A loop that stores the pair `p[off + j]`, `p[off + j + half]` in iteration `j`. -/
theorem pairLoop_val {T : Type} (off half : Nat) (A B : Nat → T) (n : Nat) (hn : n ≤ half)
    (o : Buf T) (p : Nat) :
    (forLoop n (fun j o => (o.store (off + j) (A j)).store (off + (j + half)) (B j)) o).val p =
      if off ≤ p ∧ p < off + n then A (p - off)
      else if off + half ≤ p ∧ p < off + half + n then B (p - off - half)
      else o.val p := by
  induction n with
  | zero => rw [if_neg (by omega), if_neg (by omega)]; rfl
  | succ n ih =>
    rw [forLoop_succ, Buf.store_val, Buf.store_val, ih (by omega)]
    split_ifs <;> first | rfl | (exfalso; omega) | (congr 1; omega)

theorem pairLoop_stores {T : Type} (off half : Nat) (A B : Nat → Buf T → T) (n : Nat)
    (hn : n ≤ half) (o : Buf T) (p : Nat) :
    (forLoop n (fun j o => (o.store (off + j) (A j o)).store (off + (j + half)) (B j o))
        o).stores p =
      o.stores p +
        if (off ≤ p ∧ p < off + n) ∨ (off + half ≤ p ∧ p < off + half + n) then 1 else 0 := by
  induction n with
  | zero => rw [if_neg (by omega)]; rfl
  | succ n ih =>
    rw [forLoop_succ, Buf.store_stores, Buf.store_stores, ih (by omega)]
    split_ifs <;> omega

/-- The value `rotate_vector` leaves at `off + c`, `c < d`, for even `d`, when the input lies
outside the output buffer. -/
theorem rotate_vector_val {T F : Type} [Add F] [Sub F] [Mul F] [Div F] [OfNat F 2]
    (cast : F → T) (toFloat : T → F) (sizeToFloat : Nat → F)
    (cos sin : F → F) (pow : F → F → F) (out : Buf T) (off : Nat) (inp : Nat → T)
    (pos d : Nat) (theta : F) (hd : d % 2 = 0) (p : Nat) :
    (rotate_vector cast toFloat sizeToFloat cos sin pow out off (Src.ofFun inp) pos d theta).val
        p =
      if off ≤ p ∧ p < off + d then
        (if p - off < d / 2 then
          cast (toFloat (inp (off + (p - off))) *
              cos (sizeToFloat pos / pow theta (2 * sizeToFloat (p - off) / sizeToFloat d)) -
            toFloat (inp (off + (p - off + d / 2))) *
              sin (sizeToFloat pos / pow theta (2 * sizeToFloat (p - off) / sizeToFloat d)))
        else
          cast (toFloat (inp (off + (p - off - d / 2 + d / 2))) *
              cos (sizeToFloat pos /
                pow theta (2 * sizeToFloat (p - off - d / 2) / sizeToFloat d)) +
            toFloat (inp (off + (p - off - d / 2))) *
              sin (sizeToFloat pos /
                pow theta (2 * sizeToFloat (p - off - d / 2) / sizeToFloat d))))
      else out.val p := by
  unfold rotate_vector
  simp only [Src.read_ofFun]
  rw [pairLoop_val off (d / 2)
    (fun j => cast (toFloat (inp (off + j)) *
        cos (sizeToFloat pos / pow theta (2 * sizeToFloat j / sizeToFloat d)) -
      toFloat (inp (off + (j + d / 2))) *
        sin (sizeToFloat pos / pow theta (2 * sizeToFloat j / sizeToFloat d))))
    (fun j => cast (toFloat (inp (off + (j + d / 2))) *
        cos (sizeToFloat pos / pow theta (2 * sizeToFloat j / sizeToFloat d)) +
      toFloat (inp (off + j)) *
        sin (sizeToFloat pos / pow theta (2 * sizeToFloat j / sizeToFloat d))))
    (d / 2) (Nat.le_refl _) out p]
  by_cases h1 : off ≤ p ∧ p < off + d / 2
  · rw [if_pos h1, if_pos (by omega), if_pos (by omega)]
  · rw [if_neg h1]
    by_cases h2 : off + d / 2 ≤ p ∧ p < off + d / 2 + d / 2
    · rw [if_pos h2, if_pos (by omega), if_neg (by omega)]
    · rw [if_neg h2, if_neg (by omega)]

theorem rotate_vector_stores {T F : Type} [Add F] [Sub F] [Mul F] [Div F] [OfNat F 2]
    (cast : F → T) (toFloat : T → F) (sizeToFloat : Nat → F)
    (cos sin : F → F) (pow : F → F → F) (out : Buf T) (off : Nat) (inp : Src T)
    (pos d : Nat) (theta : F) (hd : d % 2 = 0) (p : Nat) :
    (rotate_vector cast toFloat sizeToFloat cos sin pow out off inp pos d theta).stores p =
      out.stores p + if off ≤ p ∧ p < off + d then 1 else 0 := by
  unfold rotate_vector
  simp only []
  rw [pairLoop_stores off (d / 2) _ _ (d / 2) (Nat.le_refl _) out p]
  split_ifs <;> omega

theorem flat3 (s h nh d : Nat) : s * nh * d + h * d = (s * nh + h) * d := by
  rw [Nat.add_mul]

theorem unflat3 (r nh d : Nat) : r / nh * nh * d + r % nh * d = r * d := by
  rw [flat3, Nat.div_add_mod']

/-- The kernel `rope_` as one loop over the flattened vector index `r = seq_idx * n_head + head_idx`. -/
theorem rope_flat {T F : Type} [Add F] [Sub F] [Mul F] [Div F] [OfNat F 2]
    (cast : F → T) (toFloat : T → F) (sizeToFloat : Nat → F)
    (cos sin : F → F) (pow : F → F → F) (out : Buf T) (inp : Src T) (pos_ids : Nat → Int)
    (seq_len n_head d : Nat) (theta : F) :
    rope_ cast toFloat sizeToFloat cos sin pow out inp pos_ids seq_len n_head d theta =
      forLoop (seq_len * n_head)
        (fun r o => rotate_vector cast toFloat sizeToFloat cos sin pow o (r * d) inp
          (toSizeT (pos_ids (r / n_head))) d theta) out := by
  unfold rope_
  simp only []
  rw [forLoop_flatten seq_len n_head
    (fun i h o => rotate_vector cast toFloat sizeToFloat cos sin pow o (i * n_head * d + h * d)
      inp (toSizeT (pos_ids i)) d theta)]
  simp only [unflat3]

/-- When the elements the kernel reads lie outside the output buffer, the reads return the
contents `in` had when the call was made. -/
theorem rope_apart {T F : Type} [Add F] [Sub F] [Mul F] [Div F] [OfNat F 2]
    (cast : F → T) (toFloat : T → F) (sizeToFloat : Nat → F)
    (cos sin : F → F) (pow : F → F → F) (out : Buf T) (inp : Src T) (pos_ids : Nat → Int)
    (seq_len n_head d : Nat) (theta : F) (hd : d % 2 = 0)
    (h : inp.Apart (seq_len * n_head * d)) :
    rope_ cast toFloat sizeToFloat cos sin pow out inp pos_ids seq_len n_head d theta =
      rope_ cast toFloat sizeToFloat cos sin pow out (Src.ofFun inp.mem) pos_ids seq_len n_head
        d theta := by
  rw [rope_flat, rope_flat]
  apply forLoop_congr
  intro r hr o
  unfold rotate_vector
  apply forLoop_congr
  intro j hj o'
  have h1 : r * d + j < seq_len * n_head * d := flat_lt hr (by omega)
  have h2 : r * d + (j + d / 2) < seq_len * n_head * d := flat_lt hr (by omega)
  simp only [Src.read_of_apart inp _ h o' _ h1, Src.read_of_apart inp _ h o' _ h2,
    Src.read_ofFun]

theorem rope_val_flat {T F : Type} [Add F] [Sub F] [Mul F] [Div F] [OfNat F 2]
    (cast : F → T) (toFloat : T → F) (sizeToFloat : Nat → F)
    (cos sin : F → F) (pow : F → F → F) (out : Buf T) (inp : Nat → T) (pos_ids : Nat → Int)
    (seq_len n_head d : Nat) (theta : F) (hd : d % 2 = 0) (p : Nat) :
    (rope_ cast toFloat sizeToFloat cos sin pow out (Src.ofFun inp) pos_ids seq_len n_head d
        theta).val p =
      if p < seq_len * n_head * d then
        (if p % d < d / 2 then
          cast (toFloat (inp (p / d * d + p % d)) *
              cos (sizeToFloat (toSizeT (pos_ids (p / d / n_head))) /
                pow theta (2 * sizeToFloat (p % d) / sizeToFloat d)) -
            toFloat (inp (p / d * d + (p % d + d / 2))) *
              sin (sizeToFloat (toSizeT (pos_ids (p / d / n_head))) /
                pow theta (2 * sizeToFloat (p % d) / sizeToFloat d)))
        else
          cast (toFloat (inp (p / d * d + (p % d - d / 2 + d / 2))) *
              cos (sizeToFloat (toSizeT (pos_ids (p / d / n_head))) /
                pow theta (2 * sizeToFloat (p % d - d / 2) / sizeToFloat d)) +
            toFloat (inp (p / d * d + (p % d - d / 2))) *
              sin (sizeToFloat (toSizeT (pos_ids (p / d / n_head))) /
                pow theta (2 * sizeToFloat (p % d - d / 2) / sizeToFloat d))))
      else out.val p := by
  rw [rope_flat]
  exact forLoop_rowwise_val d _
    (fun r _ c =>
      if c < d / 2 then
        cast (toFloat (inp (r * d + c)) *
            cos (sizeToFloat (toSizeT (pos_ids (r / n_head))) /
              pow theta (2 * sizeToFloat c / sizeToFloat d)) -
          toFloat (inp (r * d + (c + d / 2))) *
            sin (sizeToFloat (toSizeT (pos_ids (r / n_head))) /
              pow theta (2 * sizeToFloat c / sizeToFloat d)))
      else
        cast (toFloat (inp (r * d + (c - d / 2 + d / 2))) *
            cos (sizeToFloat (toSizeT (pos_ids (r / n_head))) /
              pow theta (2 * sizeToFloat (c - d / 2) / sizeToFloat d)) +
          toFloat (inp (r * d + (c - d / 2))) *
            sin (sizeToFloat (toSizeT (pos_ids (r / n_head))) /
              pow theta (2 * sizeToFloat (c - d / 2) / sizeToFloat d))))
    (seq_len * n_head)
    (fun r _ o p => rotate_vector_val cast toFloat sizeToFloat cos sin pow o (r * d)
      inp (toSizeT (pos_ids (r / n_head))) d theta hd p)
    out p

/-- What `rope_` stores for the pair `j`, `j + d/2` of vector `(s, h)`. -/
theorem rope_val {T F : Type} [Add F] [Sub F] [Mul F] [Div F] [OfNat F 2]
    (cast : F → T) (toFloat : T → F) (sizeToFloat : Nat → F)
    (cos sin : F → F) (pow : F → F → F) (out : Buf T) (inp : Nat → T) (pos_ids : Nat → Int)
    (seq_len n_head d : Nat) (theta : F) (hd : d % 2 = 0)
    (s h j : Nat) (hs : s < seq_len) (hh : h < n_head) (hj : j < d / 2) :
    (rope_ cast toFloat sizeToFloat cos sin pow out (Src.ofFun inp) pos_ids seq_len n_head d
        theta).val (s * n_head * d + h * d + j) =
      cast (toFloat (inp (s * n_head * d + h * d + j)) *
          cos (sizeToFloat (toSizeT (pos_ids s)) /
            pow theta (2 * sizeToFloat j / sizeToFloat d)) -
        toFloat (inp (s * n_head * d + h * d + (j + d / 2))) *
          sin (sizeToFloat (toSizeT (pos_ids s)) /
            pow theta (2 * sizeToFloat j / sizeToFloat d))) ∧
    (rope_ cast toFloat sizeToFloat cos sin pow out (Src.ofFun inp) pos_ids seq_len n_head d
        theta).val (s * n_head * d + h * d + (j + d / 2)) =
      cast (toFloat (inp (s * n_head * d + h * d + (j + d / 2))) *
          cos (sizeToFloat (toSizeT (pos_ids s)) /
            pow theta (2 * sizeToFloat j / sizeToFloat d)) +
        toFloat (inp (s * n_head * d + h * d + j)) *
          sin (sizeToFloat (toSizeT (pos_ids s)) /
            pow theta (2 * sizeToFloat j / sizeToFloat d))) := by
  have hr : s * n_head + h < seq_len * n_head := flat_lt hs hh
  have hj1 : j < d := by omega
  have hj2 : j + d / 2 < d := by omega
  rw [rope_val_flat _ _ _ _ _ _ _ _ _ _ _ _ _ hd, rope_val_flat _ _ _ _ _ _ _ _ _ _ _ _ _ hd,
    flat3]
  rw [if_pos (flat_lt hr hj1), if_pos (flat_lt hr hj2), flat_div hj1, flat_mod hj1,
    flat_div hj2, flat_mod hj2, flat_div hh, if_pos hj, if_neg (by omega),
    Nat.add_sub_cancel]
  exact ⟨rfl, rfl⟩

theorem rope_stores {T F : Type} [Add F] [Sub F] [Mul F] [Div F] [OfNat F 2]
    (cast : F → T) (toFloat : T → F) (sizeToFloat : Nat → F)
    (cos sin : F → F) (pow : F → F → F) (out : Buf T) (inp : Src T) (pos_ids : Nat → Int)
    (seq_len n_head d : Nat) (theta : F) (hd : d % 2 = 0) (p : Nat) :
    (rope_ cast toFloat sizeToFloat cos sin pow out inp pos_ids seq_len n_head d theta).stores
        p =
      out.stores p + if p < seq_len * n_head * d then 1 else 0 := by
  rw [rope_flat]
  exact forLoop_rowwise_stores d _ (seq_len * n_head)
    (fun r _ o p => rotate_vector_stores cast toFloat sizeToFloat cos sin pow o (r * d)
      inp (toSizeT (pos_ids (r / n_head))) d theta hd p)
    out p

/-- A call that passes every check of `ops::rope` runs the kernel. -/
theorem ops_rope_run {T F : Type} [Add F] [Sub F] [Mul F] [Div F] [OfNat F 2]
    (cast : F → T) (toFloat : T → F) (sizeToFloat : Nat → F)
    (cos sin : F → F) (pow : F → F → F) (out inp pos_ids : Tensor) (outD : Buf T)
    (inD : Src T) (posD : Nat → Int) (theta : F) (seq nh d : Nat)
    (hin : inp.shape = [seq, nh, d]) (hout : out.shape = [seq, nh, d])
    (hpos : pos_ids.shape = [seq]) (hs : 0 < seq) (hn : 0 < nh) (hd0 : 0 < d)
    (hd : d % 2 = 0)
    (hcpu : out.deviceType = .CPU) (hdi : inp.deviceType = .CPU)
    (hdp : pos_ids.deviceType = .CPU)
    (hii : inp.deviceId = out.deviceId) (hip : pos_ids.deviceId = out.deviceId)
    (hdt : out.dtype = .F32 ∨ out.dtype = .F16 ∨ out.dtype = .BF16)
    (hti : inp.dtype = out.dtype)
    (hco : out.isContiguous = true) (hci : inp.isContiguous = true) :
    ops.rope cast toFloat sizeToFloat cos sin pow out inp pos_ids outD inD posD theta =
      ⟨none, rope_ cast toFloat sizeToFloat cos sin pow outD inD posD seq nh d theta⟩ := by
  have h1 : ¬ (seq = 0 ∨ nh = 0 ∨ d = 0 ∨ d % 2 ≠ 0) := by omega
  have hpos' : pos_ids.meta.shape = [seq] := hpos
  have hcp : pos_ids.isContiguous = true := by simp [Tensor.isContiguous, Tensor.ndim, hpos']
  unfold ops.rope ops.cpu.rope
  simp only [hin, hout, hpos, hcpu, hdi, hdp, hii, hip, hti, hco, hci, hcp]
  rcases hdt with h | h | h <;> simp [h, hd] <;> omega

theorem toSizeT_of_nonneg (x : Int) (h0 : 0 ≤ x) (h1 : x < 2 ^ 63) :
    toSizeT x = x.toNat := by
  unfold toSizeT
  rw [Int.emod_eq_of_lt h0 (by omega)]

theorem toSizeT_of_neg (x : Int) (h0 : x < 0) (h1 : -2 ^ 63 ≤ x) :
    toSizeT x = (x + 2 ^ 64).toNat := by
  unfold toSizeT
  rw [← Int.add_emod_self, Int.emod_eq_of_lt (by omega) (by omega)]

theorem toSizeT_wrap : toSizeT (-1099511627776) = 18446742974197923840 := by decide

/-- The cosines of `2^64 - 2^40` and of `-2^40` differ, since `π` is irrational. -/
theorem cos_wrap_ne : Real.cos 18446742974197923840 ≠ Real.cos (-1099511627776) := by
  intro h
  rw [Real.cos_eq_cos_iff] at h
  obtain ⟨k, hk | hk⟩ := h
  · have hk0 : (2 * k : ℤ) ≠ 0 := by
      intro h0
      have hz : (k : ℝ) = 0 := by
        have : k = 0 := by omega
        simp [this]
      rw [hz] at hk
      norm_num at hk
    apply (Irrational.int_mul irrational_pi hk0).ne_int (-18446744073709551616)
    push_cast
    linarith
  · have hk0 : (2 * k : ℤ) ≠ 0 := by
      intro h0
      have hz : (k : ℝ) = 0 := by
        have : k = 0 := by omega
        simp [this]
      rw [hz] at hk
      norm_num at hk
    apply (Irrational.int_mul irrational_pi hk0).ne_int 18446741874686296064
    push_cast
    linarith

/-- C10 (as amended): a validated rope call whose `in` elements lie outside the output
buffer succeeds; for every slot `s`, head `h` and `j < d/2`, with `pos` the position id
`posIds[s]` converted to `size_t` (the id itself when it is non-negative, the id plus `2^64`
when it is negative), `phi = float(pos) / theta^(2 * float(j) / float(d))` evaluated in the
float arithmetic `F`, `a = in[s,h,j]` and `b = in[s,h,j+d/2]`, the call stores
`out[s,h,j] = cast(a cos phi - b sin phi)` and `out[s,h,j+d/2] = cast(b cos phi + a sin phi)`
(the same `pos` for every head of the slot); and every element of `out` is stored exactly
once. Stated for any arithmetic `F`, any conversion `sizeToFloat` of a `size_t` to float and
any `cos`, `sin`, `pow`; no law of the arithmetic is assumed. -/
theorem rope_spec {T F : Type} [Add F] [Sub F] [Mul F] [Div F] [OfNat F 2]
    (cast : F → T) (toFloat : T → F) (sizeToFloat : Nat → F)
    (cos sin : F → F) (pow : F → F → F) (out inp pos_ids : Tensor) (outD : Buf T)
    (inD : Src T) (posD : Nat → Int) (theta : F) (seq nh d : Nat)
    (hin : inp.shape = [seq, nh, d]) (hout : out.shape = [seq, nh, d])
    (hpos : pos_ids.shape = [seq]) (hs : 0 < seq) (hn : 0 < nh) (hd0 : 0 < d)
    (hd : d % 2 = 0)
    (hcpu : out.deviceType = .CPU) (hdi : inp.deviceType = .CPU)
    (hdp : pos_ids.deviceType = .CPU)
    (hii : inp.deviceId = out.deviceId) (hip : pos_ids.deviceId = out.deviceId)
    (hdt : out.dtype = .F32 ∨ out.dtype = .F16 ∨ out.dtype = .BF16)
    (hti : inp.dtype = out.dtype)
    (hco : out.isContiguous = true) (hci : inp.isContiguous = true)
    (hsep : inD.Apart (seq * nh * d)) :
    (ops.rope cast toFloat sizeToFloat cos sin pow out inp pos_ids outD inD posD theta).err =
      none ∧
    (∀ s h j, s < seq → h < nh → j < d / 2 →
      (ops.rope cast toFloat sizeToFloat cos sin pow out inp pos_ids outD inD posD
          theta).out.val (s * nh * d + h * d + j) =
        cast (toFloat (inD.mem (s * nh * d + h * d + j)) *
            cos (sizeToFloat (toSizeT (posD s)) /
              pow theta (2 * sizeToFloat j / sizeToFloat d)) -
          toFloat (inD.mem (s * nh * d + h * d + (j + d / 2))) *
            sin (sizeToFloat (toSizeT (posD s)) /
              pow theta (2 * sizeToFloat j / sizeToFloat d))) ∧
      (ops.rope cast toFloat sizeToFloat cos sin pow out inp pos_ids outD inD posD
          theta).out.val (s * nh * d + h * d + (j + d / 2)) =
        cast (toFloat (inD.mem (s * nh * d + h * d + (j + d / 2))) *
            cos (sizeToFloat (toSizeT (posD s)) /
              pow theta (2 * sizeToFloat j / sizeToFloat d)) +
          toFloat (inD.mem (s * nh * d + h * d + j)) *
            sin (sizeToFloat (toSizeT (posD s)) /
              pow theta (2 * sizeToFloat j / sizeToFloat d)))) ∧
    (∀ s, s < seq →
      (0 ≤ posD s → posD s < 2 ^ 63 → toSizeT (posD s) = (posD s).toNat) ∧
      (posD s < 0 → -2 ^ 63 ≤ posD s → toSizeT (posD s) = (posD s + 2 ^ 64).toNat)) ∧
    (∀ p, p < seq * nh * d →
      (ops.rope cast toFloat sizeToFloat cos sin pow out inp pos_ids outD inD posD
          theta).out.stores p = outD.stores p + 1) := by
  rw [ops_rope_run cast toFloat sizeToFloat cos sin pow out inp pos_ids outD inD posD theta
    seq nh d hin hout hpos hs hn hd0 hd hcpu hdi hdp hii hip hdt hti hco hci]
  refine ⟨rfl, fun s h j hs' hh hj => ?_,
    fun s _ => ⟨toSizeT_of_nonneg (posD s), toSizeT_of_neg (posD s)⟩, fun p hp => ?_⟩
  · simp only []
    rw [rope_apart cast toFloat sizeToFloat cos sin pow outD inD posD seq nh d theta hd hsep]
    exact rope_val cast toFloat sizeToFloat cos sin pow outD inD.mem posD seq nh d theta hd
      s h j hs' hh hj
  · simp only []
    rw [rope_stores _ _ _ _ _ _ _ _ _ _ _ _ _ hd, if_pos hp]

/-- C10 (as amended), an instance over the reals with the exact conversion: one vector
`[1, 0]` at position 1 with `theta = 1` is rotated to `[cos 1, sin 1]`. -/
theorem rope_spec_witness :
    (ops.rope (T := ℝ) (F := ℝ) id id (fun n => (n : ℝ)) Real.cos Real.sin (fun x y => x ^ y)
      (Tensor.create [1, 1, 2] .F32 .CPU 0 0) (Tensor.create [1, 1, 2] .F32 .CPU 0 1)
      (Tensor.create [1] .I64 .CPU 0 2) (Buf.fresh fun _ => 0)
      (Src.ofFun fun k => if k = 0 then 1 else 0) (fun _ => 1) 1).out.val 0 = Real.cos 1 ∧
    (ops.rope (T := ℝ) (F := ℝ) id id (fun n => (n : ℝ)) Real.cos Real.sin (fun x y => x ^ y)
      (Tensor.create [1, 1, 2] .F32 .CPU 0 0) (Tensor.create [1, 1, 2] .F32 .CPU 0 1)
      (Tensor.create [1] .I64 .CPU 0 2) (Buf.fresh fun _ => 0)
      (Src.ofFun fun k => if k = 0 then 1 else 0) (fun _ => 1) 1).out.val 1 = Real.sin 1 := by
  have h := (rope_spec (T := ℝ) (F := ℝ) id id (fun n => (n : ℝ)) Real.cos Real.sin
      (fun x y => x ^ y)
      (Tensor.create [1, 1, 2] .F32 .CPU 0 0) (Tensor.create [1, 1, 2] .F32 .CPU 0 1)
      (Tensor.create [1] .I64 .CPU 0 2) (Buf.fresh fun _ => 0)
      (Src.ofFun fun k => if k = 0 then 1 else 0) (fun _ => 1) 1 1 1 2 rfl rfl rfl
      (by decide) (by decide) (by decide) (by decide) rfl rfl rfl rfl rfl (Or.inl rfl) rfl
      (by decide) (by decide) (Src.apart_ofFun _ _)).2.1 0 0 0 (by decide) (by decide)
      (by decide)
  have e : toSizeT 1 = 1 := by decide
  constructor
  · exact h.1.trans (by simp [e])
  · exact h.2.trans (by simp [e])

/-- C10 as stated fails for a negative position id: with `posIds = [-2^40]`, one vector
`[1, 0]` (`d = 2`) in a buffer of its own and `theta = 10000`, the kernel converts the id to
the unsigned `2^64 - 2^40`, a value with a 24-bit significand whose conversion to float is
exact, and stores `cos(2^64 - 2^40)` at `out[0,0,0]`, whereas the claim's formula with
`pos = -2^40` gives `1 * cos(-2^40 / theta^0) - 0 * sin(-2^40 / theta^0) = cos(-2^40)`. -/
theorem rope_negative_position :
    (ops.rope (T := ℝ) (F := ℝ) id id (fun n => (n : ℝ)) Real.cos Real.sin (fun x y => x ^ y)
      (Tensor.create [1, 1, 2] .F32 .CPU 0 0) (Tensor.create [1, 1, 2] .F32 .CPU 0 1)
      (Tensor.create [1] .I64 .CPU 0 2) (Buf.fresh fun _ => 0)
      (Src.ofFun fun k => if k = 0 then 1 else 0) (fun _ => -1099511627776) 10000).out.val
        (0 * 1 * 2 + 0 * 2 + 0) ≠
    id (1 * Real.cos (((-1099511627776 : ℤ) : ℝ) /
        (10000 : ℝ) ^ (2 * ((0 : ℕ) : ℝ) / ((2 : ℕ) : ℝ))) -
      0 * Real.sin (((-1099511627776 : ℤ) : ℝ) /
        (10000 : ℝ) ^ (2 * ((0 : ℕ) : ℝ) / ((2 : ℕ) : ℝ)))) := by
  rw [ops_rope_run (T := ℝ) (F := ℝ) id id (fun n => (n : ℝ)) Real.cos Real.sin
      (fun x y => x ^ y)
      (Tensor.create [1, 1, 2] .F32 .CPU 0 0) (Tensor.create [1, 1, 2] .F32 .CPU 0 1)
      (Tensor.create [1] .I64 .CPU 0 2) (Buf.fresh fun _ => 0)
      (Src.ofFun fun k => if k = 0 then 1 else 0) (fun _ => -1099511627776) 10000 1 1 2
      rfl rfl rfl
      (by decide) (by decide) (by decide) (by decide) rfl rfl rfl rfl rfl (Or.inl rfl) rfl
      (by decide) (by decide)]
  simp only []
  rw [(rope_val (T := ℝ) (F := ℝ) id id (fun n => (n : ℝ)) Real.cos Real.sin
      (fun x y => x ^ y)
      (Buf.fresh fun _ => 0) (fun k => if k = 0 then 1 else 0) (fun _ => -1099511627776)
      1 1 2 10000 (by decide) 0 0 0 (by decide) (by decide) (by decide)).1, toSizeT_wrap]
  simp only [id, Nat.cast_zero, mul_zero, zero_div, Real.rpow_zero, div_one, Nat.zero_mul,
    Nat.zero_add, if_true, one_mul, zero_mul, sub_zero, Int.reduceNeg, Int.cast_neg]
  norm_num
  have h := cos_wrap_ne
  rw [Real.cos_neg] at h
  exact h

/-! ## rearrange -/

theorem copy_elementwise_val {T : Type} (out : Buf T) (inp : Nat → T) (n p : Nat) :
    (copy_elementwise out (Src.ofFun inp) n).val p = if p < n then inp p else out.val p := by
  unfold copy_elementwise
  simp only [Src.read_ofFun]
  induction n with
  | zero => rfl
  | succ n ih =>
    rw [forLoop_succ, Buf.store_val, ih]
    split_ifs <;> first | rfl | (exfalso; omega) | (congr 1; omega)

/-- When the elements the copy reads lie outside the output buffer, the reads return the
contents `in` had when the call was made. -/
theorem copy_elementwise_apart {T : Type} (out : Buf T) (inp : Src T) (n : Nat)
    (h : inp.Apart n) :
    copy_elementwise out inp n = copy_elementwise out (Src.ofFun inp.mem) n := by
  unfold copy_elementwise
  apply forLoop_congr
  intro i hi o
  rw [Src.read_of_apart inp n h o i hi]
  rfl

/-- The copy stores once into each of the first `n` elements and nowhere else. -/
theorem copy_elementwise_stores {T : Type} (out : Buf T) (inp : Src T) (n p : Nat) :
    (copy_elementwise out inp n).stores p = out.stores p + if p < n then 1 else 0 := by
  unfold copy_elementwise
  induction n with
  | zero => rfl
  | succ n ih =>
    rw [forLoop_succ, Buf.store_stores, ih]
    split_ifs <;> omega

/-- The copy leaves the elements from `n` on alone. -/
theorem copy_elementwise_frame {T : Type} (out : Buf T) (inp : Src T) (n p : Nat)
    (hp : n ≤ p) : (copy_elementwise out inp n).val p = out.val p := by
  unfold copy_elementwise
  induction n with
  | zero => rfl
  | succ n ih =>
    rw [forLoop_succ, Buf.store_val, if_neg (by omega)]
    exact ih (by omega)

/-- A call that passes the checks of `ops::rearrange` runs the flat copy, whatever the
strides of the two tensors are. -/
theorem ops_rearrange_run {T : Type} (out inp : Tensor) (outD : Buf T) (inD : Src T)
    (hshape : out.shape = inp.shape) (hnum : 0 < out.numel)
    (hcpu : out.deviceType = .CPU) (hdi : inp.deviceType = .CPU)
    (hii : inp.deviceId = out.deviceId)
    (hdt : out.dtype = .F32 ∨ out.dtype = .F16 ∨ out.dtype = .BF16)
    (hti : inp.dtype = out.dtype) :
    ops.rearrange out inp outD inD = ⟨none, copy_elementwise outD inD out.numel⟩ := by
  have hn : ¬ (out.numel = 0) := by omega
  have hnum' : List.foldl (fun acc dim => acc * dim) 1 out.shape = out.numel := rfl
  unfold ops.rearrange ops.cpu.rearrange rearrange_
  simp only [← hshape, hcpu, hdi, hii, hti, hnum']
  rcases hdt with h | h | h <;> simp [h, hn, ops.get_dtype_size]

/-- C2 as stated fails for a permuted source: `in` is the transpose view (shape `[2,2]`,
strides `[1,2]`) of a buffer holding `10, 11, 12, 13`, `out` is a fresh contiguous `[2,2]`
tensor in a buffer of its own. The call succeeds and copies the buffer in storage order, so
the logical element `out[0,1]` is `11` while the logical element `in[0,1]` is `12`. -/
theorem rearrange_permuted_source :
    (Tensor.create [2, 2] .F32 .CPU 0 1).permute [1, 0] = .ok transposed2x2 ∧
    (ops.rearrange (T := ℤ) (Tensor.create [2, 2] .F32 .CPU 0 0) transposed2x2
      (Buf.fresh fun _ => 0) (Src.ofFun fun k => [10, 11, 12, 13].getD k 0)).err = none ∧
    (Tensor.create [2, 2] .F32 .CPU 0 0).elemAt
      (ops.rearrange (T := ℤ) (Tensor.create [2, 2] .F32 .CPU 0 0) transposed2x2
        (Buf.fresh fun _ => 0) (Src.ofFun fun k => [10, 11, 12, 13].getD k 0)).out.val
      [0, 1] = 11 ∧
    transposed2x2.elemAt (fun k => ([10, 11, 12, 13] : List ℤ).getD k 0) [0, 1] = 12 ∧
    (Tensor.create [2, 2] .F32 .CPU 0 0).elemAt
      (ops.rearrange (T := ℤ) (Tensor.create [2, 2] .F32 .CPU 0 0) transposed2x2
        (Buf.fresh fun _ => 0) (Src.ofFun fun k => [10, 11, 12, 13].getD k 0)).out.val
      [0, 1] ≠
      transposed2x2.elemAt (fun k => ([10, 11, 12, 13] : List ℤ).getD k 0) [0, 1] := by
  have hrun := ops_rearrange_run (T := ℤ) (Tensor.create [2, 2] .F32 .CPU 0 0) transposed2x2
    (Buf.fresh fun _ => 0) (Src.ofFun fun k => [10, 11, 12, 13].getD k 0) rfl (by decide)
    rfl rfl rfl (Or.inl rfl) rfl
  have hout : (Tensor.create [2, 2] .F32 .CPU 0 0).elemAt
      (ops.rearrange (T := ℤ) (Tensor.create [2, 2] .F32 .CPU 0 0) transposed2x2
        (Buf.fresh fun _ => 0) (Src.ofFun fun k => [10, 11, 12, 13].getD k 0)).out.val
      [0, 1] = 11 := by
    rw [hrun]
    simp only [Tensor.elemAt]
    rw [copy_elementwise_val]
    decide
  have hin : transposed2x2.elemAt (fun k => ([10, 11, 12, 13] : List ℤ).getD k 0) [0, 1] = 12 := by
    decide
  refine ⟨rfl, ?_, hout, hin, ?_⟩
  · rw [hrun]
  · rw [hout, hin]
    decide

/-- C2 (as amended): when `in` and `out` have identical shape and dtype, at least one
element, both carry the canonical row-major strides of that shape (the strides `create`
computes), and the elements of `in` lie outside the output buffer, rearrange succeeds and
the logical element of `out` at every in-range multi-index equals the logical element of `in`
there. -/
theorem rearrange_contiguous_spec {T : Type} (out inp : Tensor) (outD : Buf T) (inD : Src T)
    (hshape : out.shape = inp.shape) (hnum : 0 < out.numel)
    (hso : out.strides = (Tensor.strideLoop out.shape).1)
    (hsi : inp.strides = (Tensor.strideLoop inp.shape).1)
    (hcpu : out.deviceType = .CPU) (hdi : inp.deviceType = .CPU)
    (hii : inp.deviceId = out.deviceId)
    (hdt : out.dtype = .F32 ∨ out.dtype = .F16 ∨ out.dtype = .BF16)
    (hti : inp.dtype = out.dtype)
    (hsep : inD.Apart out.numel)
    (idx : List Nat) (hidx : List.Forall₂ (fun i s => i < s) idx out.shape) :
    (ops.rearrange out inp outD inD).err = none ∧
    out.elemAt (ops.rearrange out inp outD inD).out.val idx = inp.elemAt inD.mem idx := by
  rw [ops_rearrange_run out inp outD inD hshape hnum hcpu hdi hii hdt hti]
  refine ⟨rfl, ?_⟩
  obtain ⟨h0, h1⟩ := rowMajor_offset_bound idx out.shape hidx
  have hoff : inp.elemOffset idx = out.elemOffset idx := by
    unfold Tensor.elemOffset
    rw [hso, hsi, hshape]
  unfold Tensor.elemAt
  rw [hoff]
  simp only []
  rw [copy_elementwise_apart outD inD out.numel hsep, copy_elementwise_val, if_pos]
  unfold Tensor.elemOffset
  rw [hso, strideLoop_eq, numel_eq_prod]
  dsimp only
  omega

/-- C2 (as amended), a concrete instance: two contiguous `[2, 2]` tensors in separate
buffers, the source buffer holding `10, 11, 12, 13`; after the call `out[0,1]` is
`in[0,1]`. -/
theorem rearrange_contiguous_spec_witness :
    (Tensor.create [2, 2] .F32 .CPU 0 0).elemAt
      (ops.rearrange (T := ℤ) (Tensor.create [2, 2] .F32 .CPU 0 0)
        (Tensor.create [2, 2] .F32 .CPU 0 1) (Buf.fresh fun _ => 0)
        (Src.ofFun fun k => [10, 11, 12, 13].getD k 0)).out.val [0, 1] =
    (Tensor.create [2, 2] .F32 .CPU 0 1).elemAt
      (fun k => ([10, 11, 12, 13] : List ℤ).getD k 0) [0, 1] :=
  (rearrange_contiguous_spec (T := ℤ) (Tensor.create [2, 2] .F32 .CPU 0 0)
    (Tensor.create [2, 2] .F32 .CPU 0 1) (Buf.fresh fun _ => 0)
    (Src.ofFun fun k => [10, 11, 12, 13].getD k 0) rfl (by decide) rfl rfl rfl rfl rfl
    (Or.inl rfl) rfl (Src.apart_ofFun _ _)
    [0, 1] (List.Forall₂.cons (by decide) (List.Forall₂.cons (by decide) List.Forall₂.nil))).2

/-! ## self_attention: index arithmetic and flat loops -/

theorem flatStore_val {T : Type} (f : Nat → T) (n : Nat) (o : Buf T) (p : Nat) :
    (forLoop n (fun r s => s.store r (f r)) o).val p = if p < n then f p else o.val p := by
  induction n with
  | zero => rfl
  | succ n ih =>
    rw [forLoop_succ, Buf.store_val, ih]
    split_ifs <;> first | rfl | (exfalso; omega) | (congr 1; omega)

theorem flatStore_stores {T : Type} (f : Nat → Buf T → T) (n : Nat) (o : Buf T) (p : Nat) :
    (forLoop n (fun r s => s.store r (f r s)) o).stores p =
      o.stores p + if p < n then 1 else 0 := by
  induction n with
  | zero => rfl
  | succ n ih =>
    rw [forLoop_succ, Buf.store_stores, ih]
    split_ifs <;> omega

/-- A loop that rewrites every `p[r]`, `r < n`, from its own previous value. -/
theorem flatRmw_val {T : Type} (f : Nat → T → T) (n : Nat) (o : Buf T) (p : Nat) :
    (forLoop n (fun r s => s.store r (f r (s.val r))) o).val p =
      if p < n then f p (o.val p) else o.val p := by
  induction n with
  | zero => rfl
  | succ n ih =>
    rw [forLoop_succ, Buf.store_val]
    by_cases h : p = n
    · subst h
      rw [if_pos rfl, if_pos (Nat.lt_succ_self _), ih, if_neg (Nat.lt_irrefl _)]
    · rw [if_neg h, ih]
      split_ifs <;> first | rfl | (exfalso; omega)

/-- Decoding a flattened three-level index. -/
theorem decode3 (r n2 n3 : Nat) :
    r / (n2 * n3) * n2 * n3 + r % (n2 * n3) / n3 * n3 + r % (n2 * n3) % n3 = r := by
  rw [Nat.add_assoc, Nat.div_add_mod', Nat.mul_assoc, Nat.div_add_mod']

theorem encode3_lt {n1 n2 n3 a b c : Nat} (ha : a < n1) (hb : b < n2) (hc : c < n3) :
    a * n2 * n3 + b * n3 + c < n1 * n2 * n3 := by
  rw [flat3]
  exact flat_lt (flat_lt ha hb) hc

theorem encode3_div {n2 n3 a b c : Nat} (hb : b < n2) (hc : c < n3) :
    (a * n2 * n3 + b * n3 + c) / (n2 * n3) = a := by
  rw [Nat.mul_assoc, Nat.add_assoc]
  exact flat_div (flat_lt hb hc)

theorem encode3_mod {n2 n3 a b c : Nat} (hb : b < n2) (hc : c < n3) :
    (a * n2 * n3 + b * n3 + c) % (n2 * n3) = b * n3 + c := by
  rw [Nat.mul_assoc, Nat.add_assoc]
  exact flat_mod (flat_lt hb hc)

/-- A flat loop whose store index is the loop counter in disguise. -/
theorem idxStore_val {T : Type} (I : Nat → Nat) (f : Nat → T) (n : Nat)
    (hI : ∀ r, r < n → I r = r) (o : Buf T) (p : Nat) :
    (forLoop n (fun r s => s.store (I r) (f r)) o).val p = if p < n then f p else o.val p := by
  rw [forLoop_congr n _ (fun r s => s.store r (f r)) o (fun r hr s => by rw [hI r hr])]
  exact flatStore_val f n o p

theorem idxStore_stores {T : Type} (I : Nat → Nat) (f : Nat → T) (n : Nat)
    (hI : ∀ r, r < n → I r = r) (o : Buf T) (p : Nat) :
    (forLoop n (fun r s => s.store (I r) (f r)) o).stores p =
      o.stores p + if p < n then 1 else 0 := by
  rw [forLoop_congr n _ (fun r s => s.store r (f r)) o (fun r hr s => by rw [hI r hr])]
  exact flatStore_stores (fun r _ => f r) n o p

theorem decode4 (r nkv g d : Nat) :
    r / (nkv * (g * d)) * (nkv * g) * d +
        (r % (nkv * (g * d)) / (g * d) * g + r % (nkv * (g * d)) % (g * d) / d) * d +
      r % (nkv * (g * d)) % (g * d) % d = r := by
  have h1 := Nat.div_add_mod' r (nkv * (g * d))
  have h2 := Nat.div_add_mod' (r % (nkv * (g * d))) (g * d)
  have h3 := Nat.div_add_mod' (r % (nkv * (g * d)) % (g * d)) d
  calc _ = r / (nkv * (g * d)) * (nkv * (g * d)) +
        (r % (nkv * (g * d)) / (g * d) * (g * d) +
          (r % (nkv * (g * d)) % (g * d) / d * d + r % (nkv * (g * d)) % (g * d) % d)) := by
        ring
    _ = r := by rw [h3, h2, h1]

/-- GQA expansion: head `h` of the expanded tensor is kv head `h / (nhead / nkvhead)`. -/
theorem repeat_kv_heads_val {T : Type} (o : Buf T) (kv : Nat → T)
    (total_len nkvhead d nhead : Nat) (hdiv : nhead % nkvhead = 0)
    (t h k : Nat) (ht : t < total_len) (hh : h < nhead) (hk : k < d) :
    (repeat_kv_heads o kv total_len nkvhead d nhead).val (t * nhead * d + h * d + k) =
      kv (t * nkvhead * d + h / (nhead / nkvhead) * d + k) := by
  have hg : nkvhead * (nhead / nkvhead) = nhead :=
    Nat.mul_div_cancel' (Nat.dvd_of_mod_eq_zero hdiv)
  unfold repeat_kv_heads
  simp only [forLoop_flatten]
  generalize nhead / nkvhead = g at hg ⊢
  subst hg
  refine (idxStore_val _ _ _ (fun r _ => ?_) _ _).trans ?_
  · exact decode4 r nkvhead g d
  · have e : t * (nkvhead * g) * d + h * d + k = t * (nkvhead * (g * d)) + (h * d + k) := by
      ring
    have hlt : h * d + k < nkvhead * (g * d) := by
      have := flat_lt hh hk
      rwa [Nat.mul_assoc] at this
    have e2 : (h * d + k) / (g * d) = h / g := by
      rw [Nat.mul_comm g d, ← Nat.div_div_eq_div_mul, flat_div hk]
    have e3 : (h * d + k) % (g * d) % d = k := by
      rw [Nat.mod_mod_of_dvd _ (Dvd.intro_left g rfl), flat_mod hk]
    rw [e, if_pos (flat_lt ht hlt), flat_div hlt, flat_mod hlt, e2, e3]

theorem compute_qk_t_val {T F : Type} [LinearOrderedField F] (toFloat : T → F) (o : Buf F)
    (q kx : Nat → T) (seqlen nhead d total_len : Nat)
    (i h j : Nat) (hi : i < seqlen) (hh : h < nhead) (hj : j < total_len) :
    (compute_qk_t toFloat o q kx seqlen nhead d total_len).val
        (i * nhead * total_len + h * total_len + j) =
      ∑ t in Finset.range d,
        toFloat (q (i * nhead * d + h * d + t)) * toFloat (kx (j * nhead * d + h * d + t)) := by
  unfold compute_qk_t
  simp only [forLoop_flatten]
  refine (idxStore_val _ _ _ (fun r _ => decode3 r nhead total_len) _ _).trans ?_
  have hlt : i * nhead * total_len + h * total_len + j < seqlen * (nhead * total_len) := by
    rw [← Nat.mul_assoc]; exact encode3_lt hi hh hj
  rw [if_pos hlt, encode3_div hh hj, encode3_mod hh hj, flat_div hj, flat_mod hj, forLoop_sum]

/-- Skipping the terms whose weight is zero does not change the accumulated sum. -/
theorem skipZero_sum {F : Type} [LinearOrderedField F] (a b : Nat → F) (n : Nat) :
    forLoop n (fun j sum => if a j ≠ 0 then sum + a j * b j else sum) 0 =
      ∑ j in Finset.range n, a j * b j := by
  induction n with
  | zero => simp [forLoop]
  | succ n ih =>
    rw [forLoop_succ, ih, Finset.sum_range_succ]
    by_cases h : a n = 0
    · simp [h]
    · simp [h]

theorem compute_attn_v_val {T F : Type} [LinearOrderedField F] (cast : F → T)
    (toFloat : T → F) (o : Buf T) (w : Nat → F) (vx : Nat → T)
    (seqlen nhead total_len dv : Nat)
    (i h c : Nat) (hi : i < seqlen) (hh : h < nhead) (hc : c < dv) :
    (compute_attn_v cast toFloat o w vx seqlen nhead total_len dv).val
        (i * nhead * dv + h * dv + c) =
      cast (∑ j in Finset.range total_len,
        w (i * nhead * total_len + h * total_len + j) *
          toFloat (vx (j * nhead * dv + h * dv + c))) := by
  unfold compute_attn_v
  simp only [forLoop_flatten]
  refine (idxStore_val _ _ _ (fun r _ => decode3 r nhead dv) _ _).trans ?_
  have hlt : i * nhead * dv + h * dv + c < seqlen * (nhead * dv) := by
    rw [← Nat.mul_assoc]; exact encode3_lt hi hh hc
  rw [if_pos hlt, encode3_div hh hc, encode3_mod hh hc, flat_div hc, flat_mod hc]
  congr 1
  exact skipZero_sum (fun j => w (i * nhead * total_len + h * total_len + j))
    (fun j => toFloat (vx (j * nhead * dv + h * dv + c))) total_len

theorem store_ite {T : Type} (c : Prop) [Decidable c] (o : Buf T) (a : Nat) (x y : T) :
    (if c then o.store a x else o.store a y) = o.store a (if c then x else y) := by
  split_ifs <;> rfl

/-- One row of the causal softmax, as a function of the row's previous contents: `B` is the
causal bound `max_j`. -/
theorem softmax_row_val {F : Type} [Zero F] [Add F] [Sub F] [Div F] [Max F] (exp : F → F)
    (o : Buf F)
    (base B total_len p : Nat) :
    (forLoop total_len
      (fun j o' =>
        if j > B then o'.store (base + j) 0
        else o'.store (base + j)
          (exp (o'.val (base + j) -
              finiteMax (forLoop (B + 1) (fun j m => maxNegInf m (o.val (base + j))) none)) /
            forLoop (B + 1) (fun j sum_exp => sum_exp + exp (o.val (base + j) -
              finiteMax (forLoop (B + 1) (fun j m => maxNegInf m (o.val (base + j))) none))) 0))
      o).val p =
    if base ≤ p ∧ p < base + total_len then
      (fun (row : Nat → F) (c : Nat) =>
        if c > B then 0
        else exp (row c - finiteMax (forLoop (B + 1) (fun j m => maxNegInf m (row j)) none)) /
          forLoop (B + 1) (fun j sum_exp => sum_exp + exp (row j -
            finiteMax (forLoop (B + 1) (fun j m => maxNegInf m (row j)) none))) 0)
        (fun j => o.val (base + j)) (p - base)
    else o.val p := by
  simp only [store_ite]
  rw [storeLoop_val base (fun j x => if j > B then 0
    else exp (x - finiteMax (forLoop (B + 1) (fun j m => maxNegInf m (o.val (base + j))) none)) /
      forLoop (B + 1) (fun j sum_exp => sum_exp + exp (o.val (base + j) -
        finiteMax (forLoop (B + 1) (fun j m => maxNegInf m (o.val (base + j))) none))) 0)]
  by_cases h : base ≤ p ∧ p < base + total_len
  · rw [if_pos h, if_pos h]
    have e : base + (p - base) = p := by omega
    simp only [e]
  · rw [if_neg h, if_neg h]

theorem apply_causal_softmax_val {F : Type} [Zero F] [Add F] [Sub F] [Div F] [Max F]
    (exp : F → F) (o : Buf F)
    (seqlen nhead total_len : Nat) (i h j : Nat) (hi : i < seqlen) (hh : h < nhead)
    (hj : j < total_len) :
    (apply_causal_softmax exp o seqlen nhead total_len).val
        (i * nhead * total_len + h * total_len + j) =
      if j > total_len - seqlen + i then 0
      else exp (o.val (i * nhead * total_len + h * total_len + j) -
          finiteMax (forLoop (total_len - seqlen + i + 1)
            (fun j m => maxNegInf m (o.val (i * nhead * total_len + h * total_len + j))) none)) /
        forLoop (total_len - seqlen + i + 1)
          (fun j sum_exp => sum_exp + exp (o.val (i * nhead * total_len + h * total_len + j) -
            finiteMax (forLoop (total_len - seqlen + i + 1)
              (fun j m => maxNegInf m (o.val (i * nhead * total_len + h * total_len + j)))
              none))) 0 := by
  unfold apply_causal_softmax
  simp only [forLoop_flatten, unflat3]
  have hr : i * nhead + h < seqlen * nhead := flat_lt hi hh
  rw [flat3, forLoop_rowwise_val total_len _
    (fun r (row : Nat → F) (c : Nat) =>
      if c > total_len - seqlen + r / nhead then 0
      else exp (row c - finiteMax (forLoop (total_len - seqlen + r / nhead + 1)
          (fun j m => maxNegInf m (row j)) none)) /
        forLoop (total_len - seqlen + r / nhead + 1) (fun j sum_exp => sum_exp + exp (row j -
          finiteMax (forLoop (total_len - seqlen + r / nhead + 1)
            (fun j m => maxNegInf m (row j)) none))) 0)
    (seqlen * nhead)
    (fun r _ o p => softmax_row_val exp o (r * total_len) (total_len - seqlen + r / nhead)
      total_len p)]
  rw [if_pos (flat_lt hr hj), flat_div hj, flat_mod hj, flat_div hh]

/-- Subtracting any constant from all scores leaves the normalised exponentials unchanged. -/
theorem softmax_shift {F : Type} [LinearOrderedField F] (exp : F → F)
    (hexp : ∀ a b, exp (a - b) = exp a / exp b) (hne : ∀ a, exp a ≠ 0)
    (x : Nat → F) (m : F) (n j : Nat) :
    exp (x j - m) / ∑ j' in Finset.range n, exp (x j' - m) =
      exp (x j) / ∑ j' in Finset.range n, exp (x j') := by
  simp only [hexp]
  rw [← Finset.sum_div, div_div_div_cancel_right₀ (hne m)]

/-- Terms beyond the causal bound carry weight zero and drop out of the sum. -/
theorem sum_causal {F : Type} [LinearOrderedField F] (a b : Nat → F) (B n : Nat) (hB : B < n) :
    ∑ j in Finset.range n, (if j > B then 0 else a j) * b j =
      ∑ j in Finset.range (B + 1), a j * b j := by
  obtain ⟨k, rfl⟩ : ∃ k, n = B + 1 + k := ⟨n - (B + 1), by omega⟩
  clear hB
  induction k with
  | zero =>
    apply Finset.sum_congr rfl
    intro j hj
    rw [if_neg (by have := Finset.mem_range.mp hj; omega)]
  | succ k ih =>
    rw [← Nat.add_assoc, Finset.sum_range_succ, ih, if_pos (by omega), zero_mul, add_zero]

/-- What `self_attention_` stores at `[i, h, c]` when the three allocations succeed: the
softmax-weighted sum of the value rows of kv head `h / (nhead / nkvhead)` over the key
positions up to the causal bound. -/
theorem self_attention_val {T F : Type} [LinearOrderedField F] (cast : F → T)
    (toFloat : T → F) (exp : F → F)
    (hexp : ∀ a b, exp (a - b) = exp a / exp b) (hne : ∀ a, exp a ≠ 0)
    (out : Buf T) (q k v : Nat → T) (seqlen nhead d total_len nkvhead dv : Nat) (scale : F)
    (kx0 vx0 : Buf T) (qk0 : Buf F)
    (hdiv : nhead % nkvhead = 0) (hlen : seqlen ≤ total_len)
    (i h c : Nat) (hi : i < seqlen) (hh : h < nhead) (hc : c < dv) :
    (self_attention_ cast toFloat exp out q k v seqlen nhead d total_len nkvhead dv scale
        (some kx0) (some vx0) (some qk0)).out.val (i * nhead * dv + h * dv + c) =
      cast (∑ j in Finset.range (total_len - seqlen + i + 1),
        (exp (scale * ∑ t in Finset.range d,
            toFloat (q (i * nhead * d + h * d + t)) *
              toFloat (k (j * nkvhead * d + h / (nhead / nkvhead) * d + t))) /
          ∑ j' in Finset.range (total_len - seqlen + i + 1),
            exp (scale * ∑ t in Finset.range d,
              toFloat (q (i * nhead * d + h * d + t)) *
                toFloat (k (j' * nkvhead * d + h / (nhead / nkvhead) * d + t)))) *
        toFloat (v (j * nkvhead * dv + h / (nhead / nkvhead) * dv + c))) := by
  have hB : total_len - seqlen + i < total_len := by omega
  unfold self_attention_
  simp only []
  rw [compute_attn_v_val cast toFloat out _ _ seqlen nhead total_len dv i h c hi hh hc]
  congr 1
  -- the scaled scores of row (i, h)
  generalize hQ : forLoop (seqlen * nhead * total_len)
    (fun idx o => o.store idx (o.val idx * scale))
    (compute_qk_t toFloat qk0 q
      (repeat_kv_heads kx0 k total_len nkvhead d nhead).val seqlen nhead d total_len) = Q
  have hx : ∀ j, j < total_len →
      Q.val (i * nhead * total_len + h * total_len + j) =
      scale * ∑ t in Finset.range d,
        toFloat (q (i * nhead * d + h * d + t)) *
          toFloat (k (j * nkvhead * d + h / (nhead / nkvhead) * d + t)) := by
    intro j hj
    rw [← hQ, flatRmw_val (fun _ x => x * scale), if_pos (encode3_lt hi hh hj),
      compute_qk_t_val toFloat qk0 q _ seqlen nhead d total_len i h j hi hh hj, mul_comm]
    congr 1
    apply Finset.sum_congr rfl
    intro t ht
    rw [repeat_kv_heads_val kx0 k total_len nkvhead d nhead hdiv j h t hj hh
      (Finset.mem_range.mp ht)]
  -- rewrite the weights and the expanded values inside the sum
  have hterm : ∀ j, j ∈ Finset.range total_len →
      (apply_causal_softmax exp Q seqlen nhead total_len).val
          (i * nhead * total_len + h * total_len + j) *
        toFloat ((repeat_kv_heads vx0 v total_len nkvhead dv nhead).val
          (j * nhead * dv + h * dv + c)) =
      (if j > total_len - seqlen + i then 0
        else exp (scale * ∑ t in Finset.range d,
            toFloat (q (i * nhead * d + h * d + t)) *
              toFloat (k (j * nkvhead * d + h / (nhead / nkvhead) * d + t))) /
          ∑ j' in Finset.range (total_len - seqlen + i + 1),
            exp (scale * ∑ t in Finset.range d,
              toFloat (q (i * nhead * d + h * d + t)) *
                toFloat (k (j' * nkvhead * d + h / (nhead / nkvhead) * d + t)))) *
        toFloat (v (j * nkvhead * dv + h / (nhead / nkvhead) * dv + c)) := by
    intro j hj
    have hj' := Finset.mem_range.mp hj
    rw [apply_causal_softmax_val exp _ seqlen nhead total_len i h j hi hh hj',
      repeat_kv_heads_val vx0 v total_len nkvhead dv nhead hdiv j h c hj' hh hc]
    congr 1
    by_cases hjB : j > total_len - seqlen + i
    · rw [if_pos hjB, if_pos hjB]
    · rw [if_neg hjB, if_neg hjB, forLoop_sum]
      rw [softmax_shift exp hexp hne
        (fun j => Q.val (i * nhead * total_len + h * total_len + j)) _ _ j]
      rw [hx j hj']
      congr 1
      apply Finset.sum_congr rfl
      intro j' hj2
      rw [hx j' (by have := Finset.mem_range.mp hj2; omega)]
  rw [Finset.sum_congr rfl hterm]
  exact sum_causal _ _ _ _ hB

/-- A call that passes every check of `ops::self_attention` and of `cpu::self_attention`
runs the kernel. -/
theorem ops_self_attention_run {T F : Type} [Zero F] [Add F] [Sub F] [Mul F] [Div F] [Max F]
    [DecidableEq F] (cast : F → T) (toFloat : T → F) (exp : F → F) (attn_val q k v : Tensor) (attn_valD : Buf T)
    (qD kD vD : Nat → T) (scale : F) (k_alloc v_alloc : Option (Buf T))
    (qk_alloc : Option (Buf F)) (seqlen nhead d total_len nkvhead dv : Nat)
    (hq : q.shape = [seqlen, nhead, d]) (hk : k.shape = [total_len, nkvhead, d])
    (hv : v.shape = [total_len, nkvhead, dv]) (ho : attn_val.shape = [seqlen, nhead, dv])
    (hs : 0 < seqlen) (hn : 0 < nhead) (hd : 0 < d) (ht : 0 < total_len) (hkv : 0 < nkvhead)
    (hdv : 0 < dv) (hdiv : nhead % nkvhead = 0) (hlen : seqlen ≤ total_len)
    (hcpu : attn_val.deviceType = .CPU) (hdq : q.deviceType = .CPU) (hdk : k.deviceType = .CPU)
    (hdvv : v.deviceType = .CPU)
    (hiq : q.deviceId = attn_val.deviceId) (hik : k.deviceId = attn_val.deviceId)
    (hiv : v.deviceId = attn_val.deviceId)
    (hdt : attn_val.dtype = .F32 ∨ attn_val.dtype = .F16 ∨ attn_val.dtype = .BF16)
    (htq : q.dtype = attn_val.dtype) (htk : k.dtype = attn_val.dtype)
    (htv : v.dtype = attn_val.dtype)
    (hco : attn_val.isContiguous = true) (hcq : q.isContiguous = true)
    (hck : k.isContiguous = true) (hcv : v.isContiguous = true) :
    ops.self_attention cast toFloat exp attn_val q k v attn_valD qD kD vD scale
        k_alloc v_alloc qk_alloc =
      self_attention_ cast toFloat exp attn_valD qD kD vD seqlen nhead d total_len nkvhead dv
        scale k_alloc v_alloc qk_alloc := by
  have h1 : ¬ (seqlen = 0 ∨ nhead = 0 ∨ d = 0 ∨ total_len = 0 ∨ nkvhead = 0 ∨ dv = 0) := by
    omega
  have h2 : ¬ (nkvhead = 0) := by omega
  have h3 : ¬ (total_len < seqlen) := by omega
  unfold ops.self_attention ops.cpu.self_attention
  simp only [hq, hk, hv, ho, hcpu, hdq, hdk, hdvv, hiq, hik, hiv, htq, htk, htv, hco, hcq, hck,
    hcv]
  rcases hdt with h | h | h <;> simp [h, h2, h3, hdiv] <;> (intro hz; omega)

/-- C1: for a validated selfAttention call whose scratch allocations succeed, over the reals
(`exp` the real exponential), the call succeeds and stores at `[i, h, c]`
`cast(Σ_{j ≤ totalLen - seqLen + i} w(i,h,j) * v[j, h / groupSize, c])` with
`groupSize = nHead / nKvHead`, `s(i,h,j) = scale * Σ_t q[i,h,t] * k[j, h / groupSize, t]` and
`w(i,h,j) = exp(s(i,h,j)) / Σ_{j' ≤ totalLen - seqLen + i} exp(s(i,h,j'))`. -/
theorem self_attention_spec {T : Type} (cast : ℝ → T) (toFloat : T → ℝ)
    (attn_val q k v : Tensor) (attn_valD : Buf T) (qD kD vD : Nat → T) (scale : ℝ)
    (kx0 vx0 : Buf T) (qk0 : Buf ℝ) (seqlen nhead d total_len nkvhead dv : Nat)
    (hq : q.shape = [seqlen, nhead, d]) (hk : k.shape = [total_len, nkvhead, d])
    (hv : v.shape = [total_len, nkvhead, dv]) (ho : attn_val.shape = [seqlen, nhead, dv])
    (hs : 0 < seqlen) (hn : 0 < nhead) (hd : 0 < d) (ht : 0 < total_len) (hkv : 0 < nkvhead)
    (hdv : 0 < dv) (hdiv : nhead % nkvhead = 0) (hlen : seqlen ≤ total_len)
    (hcpu : attn_val.deviceType = .CPU) (hdq : q.deviceType = .CPU) (hdk : k.deviceType = .CPU)
    (hdvv : v.deviceType = .CPU)
    (hiq : q.deviceId = attn_val.deviceId) (hik : k.deviceId = attn_val.deviceId)
    (hiv : v.deviceId = attn_val.deviceId)
    (hdt : attn_val.dtype = .F32 ∨ attn_val.dtype = .F16 ∨ attn_val.dtype = .BF16)
    (htq : q.dtype = attn_val.dtype) (htk : k.dtype = attn_val.dtype)
    (htv : v.dtype = attn_val.dtype)
    (hco : attn_val.isContiguous = true) (hcq : q.isContiguous = true)
    (hck : k.isContiguous = true) (hcv : v.isContiguous = true)
    (i h c : Nat) (hi : i < seqlen) (hh : h < nhead) (hc : c < dv) :
    (ops.self_attention cast toFloat Real.exp attn_val q k v attn_valD qD kD vD scale
        (some kx0) (some vx0) (some qk0)).err = none ∧
    (ops.self_attention cast toFloat Real.exp attn_val q k v attn_valD qD kD vD scale
        (some kx0) (some vx0) (some qk0)).out.val (i * nhead * dv + h * dv + c) =
      cast (∑ j in Finset.range (total_len - seqlen + i + 1),
        (Real.exp (scale * ∑ t in Finset.range d,
            toFloat (qD (i * nhead * d + h * d + t)) *
              toFloat (kD (j * nkvhead * d + h / (nhead / nkvhead) * d + t))) /
          ∑ j' in Finset.range (total_len - seqlen + i + 1),
            Real.exp (scale * ∑ t in Finset.range d,
              toFloat (qD (i * nhead * d + h * d + t)) *
                toFloat (kD (j' * nkvhead * d + h / (nhead / nkvhead) * d + t)))) *
        toFloat (vD (j * nkvhead * dv + h / (nhead / nkvhead) * dv + c))) := by
  rw [ops_self_attention_run cast toFloat Real.exp attn_val q k v attn_valD qD kD vD scale
    (some kx0) (some vx0) (some qk0) seqlen nhead d total_len nkvhead dv hq hk hv ho hs hn hd
    ht hkv hdv hdiv hlen hcpu hdq hdk hdvv hiq hik hiv hdt htq htk htv hco hcq hck hcv]
  exact ⟨rfl, self_attention_val cast toFloat Real.exp Real.exp_sub Real.exp_ne_zero attn_valD
    qD kD vD seqlen nhead d total_len nkvhead dv scale kx0 vx0 qk0 hdiv hlen i h c hi hh hc⟩

/-- C1, a concrete instance over the reals: two queries over three keys, four query heads
on two kv heads (`groupSize = 2`), `d = dv = 1`, `scale = 1`, every `q` equal to 1,
`k = [[0,0],[0,1],[0,2]]` and `v = [[10,20],[30,40],[50,60]]`. Query 0 sees the keys 0 and 1
only, head 3 reads kv head 1, whose scores are `0` and `1`, so
`attnVal[0,3,0] = (exp 0 * 20 + exp 1 * 40) / (exp 0 + exp 1)`. -/
theorem self_attention_spec_witness :
    (ops.self_attention (T := ℝ) id id Real.exp
      (Tensor.create [2, 4, 1] .F32 .CPU 0 0) (Tensor.create [2, 4, 1] .F32 .CPU 0 1)
      (Tensor.create [3, 2, 1] .F32 .CPU 0 2) (Tensor.create [3, 2, 1] .F32 .CPU 0 3)
      (Buf.fresh fun _ => 0) (fun _ => 1) (fun n => ([0, 0, 0, 1, 0, 2] : List ℝ).getD n 0)
      (fun n => ([10, 20, 30, 40, 50, 60] : List ℝ).getD n 0) 1
      (some (Buf.fresh fun _ => 0)) (some (Buf.fresh fun _ => 0))
      (some (Buf.fresh fun _ => 0))).out.val (0 * 4 * 1 + 3 * 1 + 0) =
    (20 + 40 * Real.exp 1) / (1 + Real.exp 1) := by
  have h := (self_attention_spec (T := ℝ) id id
      (Tensor.create [2, 4, 1] .F32 .CPU 0 0) (Tensor.create [2, 4, 1] .F32 .CPU 0 1)
      (Tensor.create [3, 2, 1] .F32 .CPU 0 2) (Tensor.create [3, 2, 1] .F32 .CPU 0 3)
      (Buf.fresh fun _ => 0) (fun _ => 1) (fun n => ([0, 0, 0, 1, 0, 2] : List ℝ).getD n 0)
      (fun n => ([10, 20, 30, 40, 50, 60] : List ℝ).getD n 0) 1
      (Buf.fresh fun _ => 0) (Buf.fresh fun _ => 0) (Buf.fresh fun _ => 0) 2 4 1 3 2 1
      rfl rfl rfl rfl (by decide) (by decide) (by decide) (by decide) (by decide) (by decide)
      (by decide) (by decide) rfl rfl rfl rfl rfl rfl rfl (Or.inl rfl) rfl rfl rfl
      (by decide) (by decide) (by decide) (by decide) 0 3 0 (by decide) (by decide)
      (by decide)).2
  refine h.trans ?_
  have e1 : 3 / (4 / 2) = 1 := by decide
  have e2 : 3 - 2 + 0 + 1 = 2 := by decide
  simp only [e1, e2, Finset.sum_range_succ, Finset.sum_range_zero, id]
  norm_num
  have hpos : (0 : ℝ) < 1 + Real.exp 1 := by positivity
  field_simp
  ring

/-! ## swiglu -/

theorem toSizeT_zero : toSizeT 0 = 0 := by decide

/-- C11 (as amended): in a validated rope call whose `in` elements lie outside the output
buffer, a sequence slot whose position id is 0 is copied unchanged, `out[s,h,c] = in[s,h,c]`
for all heads and all `c < d`, provided that in the float arithmetic `F` the angle of
position 0 is 0 for every `j < d/2` (`0 / theta^(2j/d) = 0`, which holds when `theta^(2j/d)`
is neither `0` nor a NaN), that `cos 0 = 1` and `sin 0 = 0`, that the elements `x` of the slot
satisfy `x * 1 = x`, `x * 0 = 0`, `x - 0 = x` and `x + 0 = x` (as every finite float does),
and that storing a value read from storage gives the value back (`cast (toFloat x) = x`). No
other law of the arithmetic is assumed. -/
theorem rope_zero_position {T F : Type} [Zero F] [One F] [Add F] [Sub F] [Mul F] [Div F]
    [OfNat F 2] (cast : F → T) (toFloat : T → F) (sizeToFloat : Nat → F)
    (cos sin : F → F) (pow : F → F → F) (out inp pos_ids : Tensor) (outD : Buf T)
    (inD : Src T) (posD : Nat → Int) (theta : F) (seq nh d : Nat)
    (hin : inp.shape = [seq, nh, d]) (hout : out.shape = [seq, nh, d])
    (hpos : pos_ids.shape = [seq]) (hs : 0 < seq) (hn : 0 < nh) (hd0 : 0 < d)
    (hd : d % 2 = 0)
    (hcpu : out.deviceType = .CPU) (hdi : inp.deviceType = .CPU)
    (hdp : pos_ids.deviceType = .CPU)
    (hii : inp.deviceId = out.deviceId) (hip : pos_ids.deviceId = out.deviceId)
    (hdt : out.dtype = .F32 ∨ out.dtype = .F16 ∨ out.dtype = .BF16)
    (hti : inp.dtype = out.dtype)
    (hco : out.isContiguous = true) (hci : inp.isContiguous = true)
    (hsep : inD.Apart (seq * nh * d))
    (hzero : sizeToFloat 0 = 0)
    (hphi : ∀ j, j < d / 2 → (0 : F) / pow theta (2 * sizeToFloat j / sizeToFloat d) = 0)
    (hcos : cos 0 = 1) (hsin : sin 0 = 0)
    (harith : ∀ s h c, s < seq → h < nh → c < d → posD s = 0 →
      toFloat (inD.mem (s * nh * d + h * d + c)) * 1 =
        toFloat (inD.mem (s * nh * d + h * d + c)) ∧
      toFloat (inD.mem (s * nh * d + h * d + c)) * 0 = 0 ∧
      toFloat (inD.mem (s * nh * d + h * d + c)) - 0 =
        toFloat (inD.mem (s * nh * d + h * d + c)) ∧
      toFloat (inD.mem (s * nh * d + h * d + c)) + 0 =
        toFloat (inD.mem (s * nh * d + h * d + c)))
    (hround : ∀ x, cast (toFloat x) = x) :
    (ops.rope cast toFloat sizeToFloat cos sin pow out inp pos_ids outD inD posD theta).err =
      none ∧
    ∀ s h c, s < seq → h < nh → c < d → posD s = 0 →
      (ops.rope cast toFloat sizeToFloat cos sin pow out inp pos_ids outD inD posD
          theta).out.val (s * nh * d + h * d + c) = inD.mem (s * nh * d + h * d + c) := by
  rw [ops_rope_run cast toFloat sizeToFloat cos sin pow out inp pos_ids outD inD posD theta
    seq nh d hin hout hpos hs hn hd0 hd hcpu hdi hdp hii hip hdt hti hco hci]
  refine ⟨rfl, fun s h c hs' hh hc h0 => ?_⟩
  simp only []
  rw [rope_apart cast toFloat sizeToFloat cos sin pow outD inD posD seq nh d theta hd hsep]
  by_cases hlow : c < d / 2
  · obtain ⟨a1, _, a3, _⟩ := harith s h c hs' hh hc h0
    obtain ⟨_, b2, _, _⟩ := harith s h (c + d / 2) hs' hh (by omega) h0
    rw [(rope_val cast toFloat sizeToFloat cos sin pow outD inD.mem posD seq nh d theta hd
      s h c hs' hh hlow).1, h0, toSizeT_zero, hzero, hphi c hlow, hcos, hsin, a1, b2, a3,
      hround]
  · have hj : c - d / 2 < d / 2 := by omega
    have hc' : c - d / 2 + d / 2 = c := by omega
    obtain ⟨a1, _, _, a4⟩ := harith s h c hs' hh hc h0
    obtain ⟨_, b2, _, _⟩ := harith s h (c - d / 2) hs' hh (by omega) h0
    have h2 := (rope_val cast toFloat sizeToFloat cos sin pow outD inD.mem posD seq nh d theta
      hd s h (c - d / 2) hs' hh hj).2
    rw [hc'] at h2
    rw [h2, h0, toSizeT_zero, hzero, hphi _ hj, hcos, hsin, a1, b2, a4, hround]

/-- C11 (as amended), an instance over the reals: the vector `[3, 4]` at position 0 with
`theta = 10000` comes out as `[3, 4]`. -/
theorem rope_zero_position_witness :
    (ops.rope (T := ℝ) (F := ℝ) id id (fun n => (n : ℝ)) Real.cos Real.sin (fun x y => x ^ y)
      (Tensor.create [1, 1, 2] .F32 .CPU 0 0) (Tensor.create [1, 1, 2] .F32 .CPU 0 1)
      (Tensor.create [1] .I64 .CPU 0 2) (Buf.fresh fun _ => 0)
      (Src.ofFun fun k => if k = 0 then 3 else 4) (fun _ => 0) 10000).out.val 0 = 3 ∧
    (ops.rope (T := ℝ) (F := ℝ) id id (fun n => (n : ℝ)) Real.cos Real.sin (fun x y => x ^ y)
      (Tensor.create [1, 1, 2] .F32 .CPU 0 0) (Tensor.create [1, 1, 2] .F32 .CPU 0 1)
      (Tensor.create [1] .I64 .CPU 0 2) (Buf.fresh fun _ => 0)
      (Src.ofFun fun k => if k = 0 then 3 else 4) (fun _ => 0) 10000).out.val 1 = 4 := by
  have h := (rope_zero_position (T := ℝ) (F := ℝ) id id (fun n => (n : ℝ)) Real.cos Real.sin
      (fun x y => x ^ y)
      (Tensor.create [1, 1, 2] .F32 .CPU 0 0) (Tensor.create [1, 1, 2] .F32 .CPU 0 1)
      (Tensor.create [1] .I64 .CPU 0 2) (Buf.fresh fun _ => 0)
      (Src.ofFun fun k => if k = 0 then 3 else 4) (fun _ => 0) 10000 1 1 2 rfl rfl rfl
      (by decide) (by decide) (by decide) (by decide) rfl rfl rfl rfl rfl (Or.inl rfl) rfl
      (by decide) (by decide) (Src.apart_ofFun _ _) Nat.cast_zero
      (fun _ _ => zero_div _) Real.cos_zero Real.sin_zero
      (fun _ _ _ _ _ _ _ => ⟨mul_one _, mul_zero _, sub_zero _, add_zero _⟩)
      (fun _ => rfl)).2
  exact ⟨(h 0 0 0 (by decide) (by decide) (by decide) rfl).trans (by simp),
    (h 0 0 1 (by decide) (by decide) (by decide) rfl).trans (by simp)⟩

/-- C11 as stated fails at `theta = 0`: with one vector `[1, 2, 3, 4]` (`d = 4`) in a buffer
of its own at position 0, the pair `j = 1` has the exponent `2 * 1 / 4 = 1/2`, `pow(0, 1/2)`
is `0`, the angle is `0 / 0`, a NaN, and so are its cosine and sine; the call stores a NaN at
`out[0,0,1]`, not `in[0,0,1] = 2`. Evaluated in the sample format `XFloat`, for every `cos`,
`sin` and `pow` that map a NaN to a NaN and give `pow(0, 1/2) = 0`, as the C library
functions do. -/
theorem rope_zero_position_theta_zero :
    ¬ ∃ (cos sin : XFloat → XFloat) (pow : XFloat → XFloat → XFloat),
      cos .nan = .nan ∧ sin .nan = .nan ∧ pow (.num 0) (.num (1 / 2)) = .num 0 ∧
      (ops.rope (T := XFloat) (F := XFloat) id id (fun n => .num n) cos sin pow
        (Tensor.create [1, 1, 4] .F32 .CPU 0 0) (Tensor.create [1, 1, 4] .F32 .CPU 0 1)
        (Tensor.create [1] .I64 .CPU 0 2) (Buf.fresh fun _ => .num 0)
        (Src.ofFun fun k => .num ([1, 2, 3, 4].getD k 0)) (fun _ => 0) (.num 0)).out.val
          (0 * 1 * 4 + 0 * 4 + 1) =
        (Src.ofFun fun k => XFloat.num ([1, 2, 3, 4].getD k 0)).mem (0 * 1 * 4 + 0 * 4 + 1) := by
  rintro ⟨cos, sin, pow, hc, hs, hp, h⟩
  rw [ops_rope_run (T := XFloat) (F := XFloat) id id (fun n => .num n) cos sin pow
      (Tensor.create [1, 1, 4] .F32 .CPU 0 0) (Tensor.create [1, 1, 4] .F32 .CPU 0 1)
      (Tensor.create [1] .I64 .CPU 0 2) (Buf.fresh fun _ => .num 0)
      (Src.ofFun fun k => .num ([1, 2, 3, 4].getD k 0)) (fun _ => 0) (.num 0) 1 1 4
      rfl rfl rfl
      (by decide) (by decide) (by decide) (by decide) rfl rfl rfl rfl rfl (Or.inl rfl) rfl
      (by decide) (by decide)] at h
  simp only [] at h
  rw [(rope_val (T := XFloat) (F := XFloat) id id (fun n => .num n) cos sin pow
      (Buf.fresh fun _ => .num 0) (fun k => .num ([1, 2, 3, 4].getD k 0)) (fun _ => 0)
      1 1 4 (.num 0) (by decide) 0 0 1 (by decide) (by decide) (by decide)).1,
    toSizeT_zero] at h
  have e : (2 : XFloat) * XFloat.num ((1 : ℕ) : ℚ) / XFloat.num ((4 : ℕ) : ℚ) =
      XFloat.num (1 / 2) := by
    show XFloat.div (XFloat.mul (XFloat.num 2) (XFloat.num ((1 : ℕ) : ℚ)))
      (XFloat.num ((4 : ℕ) : ℚ)) = _
    simp [XFloat.div, XFloat.mul]
    norm_num
  have e0 : XFloat.num ((0 : ℕ) : ℚ) / XFloat.num 0 = XFloat.nan := by
    show XFloat.div (XFloat.num ((0 : ℕ) : ℚ)) (XFloat.num 0) = _
    simp [XFloat.div]
  rw [e, hp, e0, hc, hs] at h
  revert h
  simp only [id, Src.mem_ofFun]
  decide

/-! ## self_attention: the causal weights -/

/-- The weights `apply_causal_softmax` leaves in row `(i, h)`: zero beyond the causal bound,
a quotient of a positive exponential by a positive sum up to it. -/
theorem causal_weight_sign {F : Type} [LinearOrderedField F] (exp : F → F)
    (hpos : ∀ a, 0 < exp a) (Q : Buf F) (seqlen nhead total_len : Nat)
    (i h j : Nat) (hi : i < seqlen) (hh : h < nhead) (hj : j < total_len) :
    (total_len - seqlen + i < j →
      (apply_causal_softmax exp Q seqlen nhead total_len).val
        (i * nhead * total_len + h * total_len + j) = 0) ∧
    (j ≤ total_len - seqlen + i →
      0 < (apply_causal_softmax exp Q seqlen nhead total_len).val
        (i * nhead * total_len + h * total_len + j)) := by
  rw [apply_causal_softmax_val exp Q seqlen nhead total_len i h j hi hh hj]
  constructor
  · intro hgt
    rw [if_pos hgt]
  · intro hle
    rw [if_neg (by omega), forLoop_sum]
    apply div_pos (hpos _)
    apply Finset.sum_pos
    · intro k _
      exact hpos _
    · exact ⟨0, Finset.mem_range.mpr (Nat.succ_pos _)⟩

/-- C13: after the causal softmax (`totalLen ≥ seqLen`, real exponential), in the row of query
`i` and head `h` the weight at every key position `j` with `totalLen - seqLen + i < j <
totalLen` is exactly 0 and the weight at every `j ≤ totalLen - seqLen + i` is strictly
positive. -/
theorem causal_softmax_support (Q : Buf ℝ) (seqlen nhead total_len : Nat)
    (_hlen : seqlen ≤ total_len) (i h j : Nat) (hi : i < seqlen) (hh : h < nhead)
    (hj : j < total_len) :
    (total_len - seqlen + i < j →
      (apply_causal_softmax Real.exp Q seqlen nhead total_len).val
        (i * nhead * total_len + h * total_len + j) = 0) ∧
    (j ≤ total_len - seqlen + i →
      0 < (apply_causal_softmax Real.exp Q seqlen nhead total_len).val
        (i * nhead * total_len + h * total_len + j)) :=
  causal_weight_sign Real.exp Real.exp_pos Q seqlen nhead total_len i h j hi hh hj

/-- C13, a concrete instance: two queries over two keys, one head; query 0 has a positive
weight on key 0 and weight 0 on key 1. -/
theorem causal_softmax_support_witness :
    0 < (apply_causal_softmax Real.exp (Buf.fresh fun _ => 0) 2 1 2).val 0 ∧
    (apply_causal_softmax Real.exp (Buf.fresh fun _ => 0) 2 1 2).val 1 = 0 :=
  ⟨(causal_softmax_support (Buf.fresh fun _ => 0) 2 1 2 (by decide) 0 0 0 (by decide)
      (by decide) (by decide)).2 (by decide),
    (causal_softmax_support (Buf.fresh fun _ => 0) 2 1 2 (by decide) 0 0 1 (by decide)
      (by decide) (by decide)).1 (by decide)⟩

/-- What `compute_qk_t` stores at `[i, h, j]`: the products accumulated in increasing order
of the feature index. -/
theorem compute_qk_t_loop {T F : Type} [Add F] [Mul F] [Zero F] (toFloat : T → F) (o : Buf F)
    (q kx : Nat → T) (seqlen nhead d total_len : Nat)
    (i h j : Nat) (hi : i < seqlen) (hh : h < nhead) (hj : j < total_len) :
    (compute_qk_t toFloat o q kx seqlen nhead d total_len).val
        (i * nhead * total_len + h * total_len + j) =
      seqSum (fun t =>
        toFloat (q (i * nhead * d + h * d + t)) * toFloat (kx (j * nhead * d + h * d + t)))
        d := by
  unfold compute_qk_t
  simp only [forLoop_flatten]
  refine (idxStore_val _ _ _ (fun r _ => decode3 r nhead total_len) _ _).trans ?_
  have hlt : i * nhead * total_len + h * total_len + j < seqlen * (nhead * total_len) := by
    rw [← Nat.mul_assoc]; exact encode3_lt hi hh hj
  rw [if_pos hlt, encode3_div hh hj, encode3_mod hh hj, flat_div hj, flat_mod hj,
    forLoop_seqSum]

/-- What `compute_attn_v` stores at `[i, h, c]`: the cast of the accumulation loop, which
skips the weights that compare equal to zero. -/
theorem compute_attn_v_loop {T F : Type} [Zero F] [Add F] [Mul F] [DecidableEq F]
    (cast : F → T) (toFloat : T → F) (o : Buf T) (w : Nat → F) (vx : Nat → T)
    (seqlen nhead total_len dv : Nat)
    (i h c : Nat) (hi : i < seqlen) (hh : h < nhead) (hc : c < dv) :
    (compute_attn_v cast toFloat o w vx seqlen nhead total_len dv).val
        (i * nhead * dv + h * dv + c) =
      cast (forLoop total_len
        (fun j sum =>
          if w (i * nhead * total_len + h * total_len + j) ≠ 0 then
            sum + w (i * nhead * total_len + h * total_len + j) *
              toFloat (vx (j * nhead * dv + h * dv + c))
          else sum) 0) := by
  unfold compute_attn_v
  simp only [forLoop_flatten]
  refine (idxStore_val _ _ _ (fun r _ => decode3 r nhead dv) _ _).trans ?_
  have hlt : i * nhead * dv + h * dv + c < seqlen * (nhead * dv) := by
    rw [← Nat.mul_assoc]; exact encode3_lt hi hh hc
  rw [if_pos hlt, encode3_div hh hc, encode3_mod hh hc, flat_div hc, flat_mod hc]

/-- An accumulation that skips zero weights, when only the first weight is nonzero. -/
theorem skipZero_single {F : Type} [Zero F] [Add F] [Mul F] [DecidableEq F] (a b : Nat → F)
    (n : Nat) (h0 : a 0 ≠ 0) (hrest : ∀ j, 0 < j → j < n + 1 → a j = 0) :
    forLoop (n + 1) (fun j sum => if a j ≠ 0 then sum + a j * b j else sum) 0 =
      0 + a 0 * b 0 := by
  induction n with
  | zero =>
    show (if a 0 ≠ 0 then (0 : F) + a 0 * b 0 else 0) = _
    rw [if_pos h0]
  | succ n ih =>
    rw [forLoop_succ, ih (fun j hj hjn => hrest j hj (by omega))]
    rw [if_neg (by rw [hrest (n + 1) (by omega) (by omega)]; exact fun h => h rfl)]

/-- The weight the causal softmax gives the single visible key of query 0 when
`totalLen = seqLen`, in the arithmetic of `F`: `exp(x - x) / (0 + exp(x - x))` for the score
`x`. -/
theorem single_key_weight_loop {F : Type} [Zero F] [Add F] [Sub F] [Div F] [Max F]
    (exp : F → F) (Q : Buf F) (seqlen nhead h : Nat) (hs : 0 < seqlen) (hh : h < nhead) :
    (apply_causal_softmax exp Q seqlen nhead seqlen).val (0 * nhead * seqlen + h * seqlen + 0)
      = exp (Q.val (0 * nhead * seqlen + h * seqlen + 0) -
            Q.val (0 * nhead * seqlen + h * seqlen + 0)) /
          (0 + exp (Q.val (0 * nhead * seqlen + h * seqlen + 0) -
            Q.val (0 * nhead * seqlen + h * seqlen + 0))) := by
  rw [apply_causal_softmax_val exp Q seqlen nhead seqlen 0 h 0 hs hh hs]
  rw [if_neg (by omega)]
  have e : seqlen - seqlen + 0 + 1 = 1 := by omega
  rw [e]
  rfl

/-- C14 (as amended): in a validated selfAttention call with `totalLen = seqLen` whose
allocations succeed, query 0 sees the single key 0. In the float arithmetic `F`, when the
score `s = (Σ_t q[0,h,t] * k[0, h / groupSize, t]) * scale` satisfies `s - s = 0` (as every
finite float does; an infinite or NaN score does not), the softmax weight of that key is
exactly 1 and `attnVal[0,h,c] = v[0, h / groupSize, c]`. Assumed of the arithmetic are only
`exp 0 = 1`, `0 + 1 = 1`, `1 / 1 = 1`, `1 ≠ 0`, `1 * x = x` and `0 + x = x` for the value
element `x`, and that storing a value read from storage gives the value back
(`cast (toFloat x) = x`). -/
theorem single_visible_key {T F : Type} [Zero F] [One F] [Add F] [Sub F] [Mul F] [Div F]
    [Max F] [DecidableEq F] (cast : F → T) (toFloat : T → F) (exp : F → F)
    (attn_val q k v : Tensor) (attn_valD : Buf T) (qD kD vD : Nat → T) (scale : F)
    (kx0 vx0 : Buf T) (qk0 : Buf F) (seqlen nhead d nkvhead dv : Nat)
    (hq : q.shape = [seqlen, nhead, d]) (hk : k.shape = [seqlen, nkvhead, d])
    (hv : v.shape = [seqlen, nkvhead, dv]) (ho : attn_val.shape = [seqlen, nhead, dv])
    (hs : 0 < seqlen) (hn : 0 < nhead) (hd : 0 < d) (hkv : 0 < nkvhead)
    (hdv : 0 < dv) (hdiv : nhead % nkvhead = 0)
    (hcpu : attn_val.deviceType = .CPU) (hdq : q.deviceType = .CPU) (hdk : k.deviceType = .CPU)
    (hdvv : v.deviceType = .CPU)
    (hiq : q.deviceId = attn_val.deviceId) (hik : k.deviceId = attn_val.deviceId)
    (hiv : v.deviceId = attn_val.deviceId)
    (hdt : attn_val.dtype = .F32 ∨ attn_val.dtype = .F16 ∨ attn_val.dtype = .BF16)
    (htq : q.dtype = attn_val.dtype) (htk : k.dtype = attn_val.dtype)
    (htv : v.dtype = attn_val.dtype)
    (hco : attn_val.isContiguous = true) (hcq : q.isContiguous = true)
    (hck : k.isContiguous = true) (hcv : v.isContiguous = true)
    (hround : ∀ x, cast (toFloat x) = x)
    (hexp : exp 0 = 1) (h01 : (0 : F) + 1 = 1) (h11 : (1 : F) / 1 = 1) (hne : (1 : F) ≠ 0)
    (h c : Nat) (hh : h < nhead) (hc : c < dv)
    (hfin : seqSum (fun t => toFloat (qD (0 * nhead * d + h * d + t)) *
          toFloat (kD (0 * nkvhead * d + h / (nhead / nkvhead) * d + t))) d * scale -
        seqSum (fun t => toFloat (qD (0 * nhead * d + h * d + t)) *
          toFloat (kD (0 * nkvhead * d + h / (nhead / nkvhead) * d + t))) d * scale = 0)
    (hmul : 1 * toFloat (vD (0 * nkvhead * dv + h / (nhead / nkvhead) * dv + c)) =
      toFloat (vD (0 * nkvhead * dv + h / (nhead / nkvhead) * dv + c)))
    (hadd : 0 + toFloat (vD (0 * nkvhead * dv + h / (nhead / nkvhead) * dv + c)) =
      toFloat (vD (0 * nkvhead * dv + h / (nhead / nkvhead) * dv + c))) :
    (ops.self_attention cast toFloat exp attn_val q k v attn_valD qD kD vD scale
        (some kx0) (some vx0) (some qk0)).err = none ∧
    (ops.self_attention cast toFloat exp attn_val q k v attn_valD qD kD vD scale
        (some kx0) (some vx0) (some qk0)).out.val (0 * nhead * dv + h * dv + c) =
      vD (0 * nkvhead * dv + h / (nhead / nkvhead) * dv + c) ∧
    (∀ Q : Buf F,
      Q.val (0 * nhead * seqlen + h * seqlen + 0) -
        Q.val (0 * nhead * seqlen + h * seqlen + 0) = 0 →
      (apply_causal_softmax exp Q seqlen nhead seqlen).val
        (0 * nhead * seqlen + h * seqlen + 0) = 1) := by
  have hweight : ∀ Q : Buf F,
      Q.val (0 * nhead * seqlen + h * seqlen + 0) -
        Q.val (0 * nhead * seqlen + h * seqlen + 0) = 0 →
      (apply_causal_softmax exp Q seqlen nhead seqlen).val
        (0 * nhead * seqlen + h * seqlen + 0) = 1 := by
    intro Q hQ
    rw [single_key_weight_loop exp Q seqlen nhead h hs hh, hQ, hexp, h01, h11]
  rw [ops_self_attention_run cast toFloat exp attn_val q k v attn_valD qD kD vD scale
    (some kx0) (some vx0) (some qk0) seqlen nhead d seqlen nkvhead dv hq hk hv ho hs hn hd
    hs hkv hdv hdiv (Nat.le_refl _) hcpu hdq hdk hdvv hiq hik hiv hdt htq htk htv hco hcq hck
    hcv]
  refine ⟨rfl, ?_, hweight⟩
  unfold self_attention_
  simp only []
  rw [compute_attn_v_loop cast toFloat attn_valD _ _ seqlen nhead seqlen dv 0 h c hs hh hc]
  generalize hQ : forLoop (seqlen * nhead * seqlen)
    (fun idx o => o.store idx (o.val idx * scale))
    (compute_qk_t toFloat qk0 qD
      (repeat_kv_heads kx0 kD seqlen nkvhead d nhead).val seqlen nhead d seqlen) = Q
  have hx : Q.val (0 * nhead * seqlen + h * seqlen + 0) =
      seqSum (fun t => toFloat (qD (0 * nhead * d + h * d + t)) *
        toFloat (kD (0 * nkvhead * d + h / (nhead / nkvhead) * d + t))) d * scale := by
    rw [← hQ, flatRmw_val (fun _ x => x * scale), if_pos (encode3_lt hs hh hs),
      compute_qk_t_loop toFloat qk0 qD _ seqlen nhead d seqlen 0 h 0 hs hh hs]
    congr 1
    apply seqSum_congr
    intro t ht
    rw [repeat_kv_heads_val kx0 kD seqlen nkvhead d nhead hdiv 0 h t hs hh ht]
  have hw0 : (apply_causal_softmax exp Q seqlen nhead seqlen).val
      (0 * nhead * seqlen + h * seqlen + 0) = 1 := hweight Q (by rw [hx]; exact hfin)
  obtain ⟨n, rfl⟩ : ∃ n, seqlen = n + 1 := ⟨seqlen - 1, by omega⟩
  rw [skipZero_single
    (fun j => (apply_causal_softmax exp Q (n + 1) nhead (n + 1)).val
      (0 * nhead * (n + 1) + h * (n + 1) + j))
    (fun j => toFloat ((repeat_kv_heads vx0 vD (n + 1) nkvhead dv nhead).val
      (j * nhead * dv + h * dv + c))) n
    (by simp only []; rw [hw0]; exact hne)
    (fun j hj hjn => by
      simp only []
      rw [apply_causal_softmax_val exp Q (n + 1) nhead (n + 1) 0 h j hs hh hjn,
        if_pos (by omega)])]
  rw [hw0, repeat_kv_heads_val vx0 vD (n + 1) nkvhead dv nhead hdiv 0 h c hs hh hc, hmul, hadd,
    hround]

/-- C14 (as amended), the instance of the spec over the reals: `seqLen = totalLen = 1`,
`nHead = nKvHead = 1`, `q = [5]`, `k = [-3]`, `v = [7, 8]`, `scale = 2` gives
`attnVal[0,0,:] = [7, 8]`. -/
theorem single_visible_key_witness :
    (ops.self_attention (T := ℝ) id id Real.exp
      (Tensor.create [1, 1, 2] .F32 .CPU 0 0) (Tensor.create [1, 1, 1] .F32 .CPU 0 1)
      (Tensor.create [1, 1, 1] .F32 .CPU 0 2) (Tensor.create [1, 1, 2] .F32 .CPU 0 3)
      (Buf.fresh fun _ => 0) (fun _ => 5) (fun _ => -3) (fun k => if k = 0 then 7 else 8) 2
      (some (Buf.fresh fun _ => 0)) (some (Buf.fresh fun _ => 0))
      (some (Buf.fresh fun _ => 0))).out.val 0 = 7 ∧
    (ops.self_attention (T := ℝ) id id Real.exp
      (Tensor.create [1, 1, 2] .F32 .CPU 0 0) (Tensor.create [1, 1, 1] .F32 .CPU 0 1)
      (Tensor.create [1, 1, 1] .F32 .CPU 0 2) (Tensor.create [1, 1, 2] .F32 .CPU 0 3)
      (Buf.fresh fun _ => 0) (fun _ => 5) (fun _ => -3) (fun k => if k = 0 then 7 else 8) 2
      (some (Buf.fresh fun _ => 0)) (some (Buf.fresh fun _ => 0))
      (some (Buf.fresh fun _ => 0))).out.val 1 = 8 := by
  have h := fun c hc => (single_visible_key (T := ℝ) (F := ℝ) id id Real.exp
      (Tensor.create [1, 1, 2] .F32 .CPU 0 0) (Tensor.create [1, 1, 1] .F32 .CPU 0 1)
      (Tensor.create [1, 1, 1] .F32 .CPU 0 2) (Tensor.create [1, 1, 2] .F32 .CPU 0 3)
      (Buf.fresh fun _ => 0) (fun _ => 5) (fun _ => -3) (fun k => if k = 0 then 7 else 8) 2
      (Buf.fresh fun _ => 0) (Buf.fresh fun _ => 0) (Buf.fresh fun _ => 0) 1 1 1 1 2
      rfl rfl rfl rfl (by decide) (by decide) (by decide) (by decide) (by decide)
      (by decide) rfl rfl rfl rfl rfl rfl rfl (Or.inl rfl) rfl rfl rfl
      (by decide) (by decide) (by decide) (by decide) (fun _ => rfl)
      Real.exp_zero (zero_add 1) (div_one 1) one_ne_zero 0 c (by decide) hc
      (sub_self _) (one_mul _) (zero_add _)).2.1
  exact ⟨(h 0 (by decide)).trans (by simp), (h 1 (by decide)).trans (by simp)⟩

/-- C14 as stated fails for an infinite scale: with one query, one key, one head,
`q = [1]`, `k = [1]`, `v = [7]` and `scale = +∞` the score is `+∞`, the running maximum is
`+∞`, the exponent `+∞ - +∞` is a NaN and so are the exponential, the normalised weight
(which compares unequal to zero) and the accumulated output: the call stores a NaN, not
`v[0,0,0] = 7`. Evaluated in the sample format `XFloat`, for every `exp` that maps a NaN to a
NaN, as `std::exp` does. -/
theorem single_visible_key_infinite_scale :
    ¬ ∃ exp : XFloat → XFloat, exp .nan = .nan ∧
      (ops.self_attention (T := XFloat) (F := XFloat) id id exp
        (Tensor.create [1, 1, 1] .F32 .CPU 0 0) (Tensor.create [1, 1, 1] .F32 .CPU 0 1)
        (Tensor.create [1, 1, 1] .F32 .CPU 0 2) (Tensor.create [1, 1, 1] .F32 .CPU 0 3)
        (Buf.fresh fun _ => .num 0) (fun _ => .num 1) (fun _ => .num 1) (fun _ => .num 7)
        .pinf (some (Buf.fresh fun _ => .num 0)) (some (Buf.fresh fun _ => .num 0))
        (some (Buf.fresh fun _ => .num 0))).out.val (0 * 1 * 1 + 0 * 1 + 0) =
      (fun _ => XFloat.num 7) (0 * 1 * 1 + 0 / (1 / 1) * 1 + 0) := by
  rintro ⟨exp, hexp, h⟩
  rw [ops_self_attention_run (T := XFloat) (F := XFloat) id id exp
      (Tensor.create [1, 1, 1] .F32 .CPU 0 0) (Tensor.create [1, 1, 1] .F32 .CPU 0 1)
      (Tensor.create [1, 1, 1] .F32 .CPU 0 2) (Tensor.create [1, 1, 1] .F32 .CPU 0 3)
      (Buf.fresh fun _ => .num 0) (fun _ => .num 1) (fun _ => .num 1) (fun _ => .num 7)
      .pinf (some (Buf.fresh fun _ => .num 0)) (some (Buf.fresh fun _ => .num 0))
      (some (Buf.fresh fun _ => .num 0)) 1 1 1 1 1 1
      rfl rfl rfl rfl (by decide) (by decide) (by decide) (by decide) (by decide) (by decide)
      (by decide) (by decide) rfl rfl rfl rfl rfl rfl rfl (Or.inl rfl) rfl rfl rfl
      (by decide) (by decide) (by decide) (by decide)] at h
  simp [self_attention_, repeat_kv_heads, compute_qk_t, compute_attn_v, apply_causal_softmax,
    forLoop, Buf.store, Buf.fresh, Function.update, maxNegInf, finiteMax] at h
  have e : ((0 : XFloat) + XFloat.num 1 * XFloat.num 1) * XFloat.pinf -
      (0 + XFloat.num 1 * XFloat.num 1) * XFloat.pinf = XFloat.nan := by
    show XFloat.sub
      (XFloat.mul (XFloat.add (XFloat.num 0) (XFloat.mul (XFloat.num 1) (XFloat.num 1)))
        XFloat.pinf)
      (XFloat.mul (XFloat.add (XFloat.num 0) (XFloat.mul (XFloat.num 1) (XFloat.num 1)))
        XFloat.pinf) = XFloat.nan
    simp [XFloat.sub, XFloat.mul, XFloat.add, XFloat.neg, XFloat.sgn]
  rw [e, hexp] at h
  revert h
  decide

/-! ## self_attention: rejected calls -/

/-- C15 (as amended): selfAttention fails with InvalidArgument and leaves `attnVal` unwritten
whenever `nKvHead > 0` and `nHead` is not a multiple of `nKvHead`, or the shapes mismatch
(`attnVal` is not `[seqLen, nHead, dv]`, the last dimension of `k` differs from that of `q`, or
the first two dimensions of `v` are not `totalLen`, `nKvHead`), or `totalLen < seqLen` with
`nKvHead > 0` on the CPU device. The dimensions are read off the tensors as the operation
does: `seqLen, nHead, d` from `q`, `totalLen, nKvHead` from `k`, `dv` from `v`. The result
is the failure record with the output buffer untouched, so the kernel, and with it the
causal offset `total_len - seqlen`, is never evaluated. -/
theorem self_attention_rejects {T F : Type} [LinearOrderedField F] (cast : F → T)
    (toFloat : T → F) (exp : F → F) (attn_val q k v : Tensor) (attn_valD : Buf T)
    (qD kD vD : Nat → T) (scale : F) (k_alloc v_alloc : Option (Buf T))
    (qk_alloc : Option (Buf F))
    (hbad : (0 < k.shape.getD 1 0 ∧ q.shape.getD 1 0 % k.shape.getD 1 0 ≠ 0) ∨
      attn_val.shape ≠ [q.shape.getD 0 0, q.shape.getD 1 0, v.shape.getD 2 0] ∨
      k.shape.getD 2 0 ≠ q.shape.getD 2 0 ∨
      v.shape.getD 0 0 ≠ k.shape.getD 0 0 ∨ v.shape.getD 1 0 ≠ k.shape.getD 1 0 ∨
      (k.shape.getD 0 0 < q.shape.getD 0 0 ∧ 0 < k.shape.getD 1 0 ∧
        attn_val.deviceType = .CPU)) :
    (ops.self_attention cast toFloat exp attn_val q k v attn_valD qD kD vD scale
        k_alloc v_alloc qk_alloc).err = some .invalid_argument ∧
    (ops.self_attention cast toFloat exp attn_val q k v attn_valD qD kD vD scale
        k_alloc v_alloc qk_alloc).out = attn_valD := by
  unfold ops.self_attention
  by_cases h1 : attn_val.deviceType ≠ q.deviceType ∨ attn_val.deviceType ≠ k.deviceType ∨
      attn_val.deviceType ≠ v.deviceType ∨ attn_val.deviceId ≠ q.deviceId ∨
      attn_val.deviceId ≠ k.deviceId ∨ attn_val.deviceId ≠ v.deviceId
  · rw [if_pos h1]; exact ⟨rfl, rfl⟩
  rw [if_neg h1]
  by_cases h2 : attn_val.shape.length ≠ 3 ∨ q.shape.length ≠ 3 ∨ k.shape.length ≠ 3 ∨
      v.shape.length ≠ 3
  · rw [if_pos h2]; exact ⟨rfl, rfl⟩
  rw [if_neg h2]
  by_cases h3 : attn_val.shape ≠ [q.shape.getD 0 0, q.shape.getD 1 0, v.shape.getD 2 0]
  · rw [if_pos h3]; exact ⟨rfl, rfl⟩
  rw [if_neg h3]
  by_cases h4 : k.shape.getD 2 0 ≠ q.shape.getD 2 0
  · rw [if_pos h4]; exact ⟨rfl, rfl⟩
  rw [if_neg h4]
  by_cases h5 : v.shape.getD 0 0 ≠ k.shape.getD 0 0 ∨ v.shape.getD 1 0 ≠ k.shape.getD 1 0
  · rw [if_pos h5]; exact ⟨rfl, rfl⟩
  rw [if_neg h5]
  have hkv : ¬ (k.shape.getD 1 0 = 0) := by
    rcases hbad with h | h | h | h | h | h
    · omega
    · exact absurd h h3
    · exact absurd h h4
    · exact absurd (Or.inl h) h5
    · exact absurd (Or.inr h) h5
    · omega
  rw [if_neg hkv]
  by_cases h6 : q.shape.getD 1 0 % k.shape.getD 1 0 ≠ 0
  · rw [if_pos h6]; exact ⟨rfl, rfl⟩
  rw [if_neg h6]
  by_cases h7 : q.dtype ≠ attn_val.dtype ∨ k.dtype ≠ attn_val.dtype ∨ v.dtype ≠ attn_val.dtype
  · rw [if_pos h7]; exact ⟨rfl, rfl⟩
  rw [if_neg h7]
  by_cases h8 : ¬ attn_val.isContiguous ∨ ¬ q.isContiguous ∨ ¬ k.isContiguous ∨
      ¬ v.isContiguous
  · rw [if_pos h8]; exact ⟨rfl, rfl⟩
  rw [if_neg h8]
  have hlt : k.shape.getD 0 0 < q.shape.getD 0 0 ∧ attn_val.deviceType = .CPU := by
    rcases hbad with h | h | h | h | h | h
    · exact absurd h.2 h6
    · exact absurd h h3
    · exact absurd h h4
    · exact absurd (Or.inl h) h5
    · exact absurd (Or.inr h) h5
    · exact ⟨h.1, h.2.2⟩
  rw [if_pos hlt.2]
  unfold ops.cpu.self_attention
  by_cases h9 : q.shape.getD 0 0 = 0 ∨ q.shape.getD 1 0 = 0 ∨ q.shape.getD 2 0 = 0 ∨
      k.shape.getD 0 0 = 0 ∨ k.shape.getD 1 0 = 0 ∨ v.shape.getD 2 0 = 0
  · rw [if_pos h9]; exact ⟨rfl, rfl⟩
  rw [if_neg h9, if_neg h6, if_pos hlt.1]
  exact ⟨rfl, rfl⟩

theorem self_attention_rejects_witness :
    (ops.self_attention (T := ℝ) (F := ℝ) id id Real.exp
      (Tensor.create [2, 1, 1] .F32 .CPU 0 0) (Tensor.create [2, 1, 1] .F32 .CPU 0 1)
      (Tensor.create [1, 1, 1] .F32 .CPU 0 2) (Tensor.create [1, 1, 1] .F32 .CPU 0 3)
      (Buf.fresh fun _ => 0) (fun _ => 2) (fun _ => 3) (fun _ => 7) 1
      (some (Buf.fresh fun _ => 0)) (some (Buf.fresh fun _ => 0))
      (some (Buf.fresh fun _ => 0))).err = some .invalid_argument ∧
    (ops.self_attention (T := ℝ) (F := ℝ) id id Real.exp
      (Tensor.create [2, 1, 1] .F32 .CPU 0 0) (Tensor.create [2, 1, 1] .F32 .CPU 0 1)
      (Tensor.create [1, 1, 1] .F32 .CPU 0 2) (Tensor.create [1, 1, 1] .F32 .CPU 0 3)
      (Buf.fresh fun _ => 0) (fun _ => 2) (fun _ => 3) (fun _ => 7) 1
      (some (Buf.fresh fun _ => 0)) (some (Buf.fresh fun _ => 0))
      (some (Buf.fresh fun _ => 0))).out = Buf.fresh fun _ => 0 :=
  self_attention_rejects (T := ℝ) (F := ℝ) id id Real.exp
    (Tensor.create [2, 1, 1] .F32 .CPU 0 0) (Tensor.create [2, 1, 1] .F32 .CPU 0 1)
    (Tensor.create [1, 1, 1] .F32 .CPU 0 2) (Tensor.create [1, 1, 1] .F32 .CPU 0 3)
    (Buf.fresh fun _ => 0) (fun _ => 2) (fun _ => 3) (fun _ => 7) 1
    (some (Buf.fresh fun _ => 0)) (some (Buf.fresh fun _ => 0))
    (some (Buf.fresh fun _ => 0))
    (Or.inr (Or.inr (Or.inr (Or.inr (Or.inr ⟨by decide, by decide, rfl⟩)))))

/-- C15 as stated fails when `totalLen < seqLen` (here `seqLen = 2`, `totalLen = 1`, all
shapes consistent, one dtype, contiguous) in two ways. On a device other than the CPU the
test `total_len < seqlen`, which only `cpu::self_attention` performs, is never reached and the
call ends in the unsupported-device `std::runtime_error`. On the CPU with `nKvHead = 0`
(`k` and `v` of shape `[1, 0, 1]`) the operation evaluates `nhead % nkvhead` with a zero
divisor before any test of `total_len`. -/
theorem self_attention_short_cache_not_invalid :
    (ops.self_attention (T := ℝ) (F := ℝ) id id Real.exp
      (Tensor.create [2, 1, 1] .F32 .NVIDIA 0 0) (Tensor.create [2, 1, 1] .F32 .NVIDIA 0 1)
      (Tensor.create [1, 1, 1] .F32 .NVIDIA 0 2) (Tensor.create [1, 1, 1] .F32 .NVIDIA 0 3)
      (Buf.fresh fun _ => 0) (fun _ => 2) (fun _ => 3) (fun _ => 7) 1
      (some (Buf.fresh fun _ => 0)) (some (Buf.fresh fun _ => 0))
      (some (Buf.fresh fun _ => 0))).err = some .runtime_error ∧
    (ops.self_attention (T := ℝ) (F := ℝ) id id Real.exp
      (Tensor.create [2, 1, 1] .F32 .CPU 0 0) (Tensor.create [2, 1, 1] .F32 .CPU 0 1)
      (Tensor.create [1, 0, 1] .F32 .CPU 0 2) (Tensor.create [1, 0, 1] .F32 .CPU 0 3)
      (Buf.fresh fun _ => 0) (fun _ => 2) (fun _ => 3) (fun _ => 7) 1
      (some (Buf.fresh fun _ => 0)) (some (Buf.fresh fun _ => 0))
      (some (Buf.fresh fun _ => 0))).err = some .fault := by
  constructor
  · rfl
  · rfl

/-- C16 fails for `nKvHead = 0`: with `q` and `attn_val` of shape `[1, 1, 1]` and `k`, `v`
of shape `[1, 0, 1]`, all contiguous 32-bit float tensors on the CPU, every check that
precedes the modulo passes and `ops::self_attention` evaluates `nhead % nkvhead` with
`nkvhead = 0`; the nonzero test of `cpu::self_attention` comes after it. -/
theorem self_attention_zero_kv_heads_fault :
    (Tensor.create [1, 0, 1] .F32 .CPU 0 2).shape = [1, 0, 1] ∧
    (Tensor.create [1, 0, 1] .F32 .CPU 0 2).isContiguous = true ∧
    (ops.self_attention (T := ℝ) (F := ℝ) id id Real.exp
      (Tensor.create [1, 1, 1] .F32 .CPU 0 0) (Tensor.create [1, 1, 1] .F32 .CPU 0 1)
      (Tensor.create [1, 0, 1] .F32 .CPU 0 2) (Tensor.create [1, 0, 1] .F32 .CPU 0 3)
      (Buf.fresh fun _ => 0) (fun _ => 2) (fun _ => 3) (fun _ => 7) 1
      (some (Buf.fresh fun _ => 0)) (some (Buf.fresh fun _ => 0))
      (some (Buf.fresh fun _ => 0))).err = some .fault := by
  refine ⟨rfl, by decide, ?_⟩
  rfl

/-! ## linear: bias shape -/

/-- C17 (as amended): when a bias tensor with at least one element is supplied whose shape is
not exactly `[outFeatures]` (`outFeatures` being the first dimension of `weight`), linear
fails with InvalidArgument and leaves `out` unchanged. -/
theorem linear_bias_shape_rejected {T F : Type} [Add F] [Mul F] [Zero F] (cast : F → T)
    (toFloat : T → F) (out inp weight bias : Tensor) (outD : Buf T)
    (inD weightD biasD : Src T)
    (hnum : bias.numel ≠ 0) (hshape : bias.shape ≠ [weight.shape.getD 0 0]) :
    (ops.linear cast toFloat out inp weight (some bias) outD inD weightD biasD).err =
        some .invalid_argument ∧
    (ops.linear cast toFloat out inp weight (some bias) outD inD weightD biasD).out = outD := by
  have hnull : ¬ (ops.is_tensor_null (some bias) = true) := by
    simp [ops.is_tensor_null, hnum]
  unfold ops.linear
  by_cases h1 : out.deviceType ≠ inp.deviceType ∨ out.deviceType ≠ weight.deviceType ∨
      out.deviceId ≠ inp.deviceId ∨ out.deviceId ≠ weight.deviceId
  · rw [if_pos h1]; exact ⟨rfl, rfl⟩
  rw [if_neg h1]
  by_cases h2 : ¬ ops.is_tensor_null (some bias) = true ∧
      (out.deviceType ≠ ((some bias).getD out).deviceType ∨
        out.deviceId ≠ ((some bias).getD out).deviceId)
  · rw [if_pos h2]; exact ⟨rfl, rfl⟩
  rw [if_neg h2]
  by_cases h3 : out.shape.length ≠ 2
  · rw [if_pos h3]; exact ⟨rfl, rfl⟩
  rw [if_neg h3]
  by_cases h4 : inp.shape.length ≠ 2
  · rw [if_pos h4]; exact ⟨rfl, rfl⟩
  rw [if_neg h4]
  by_cases h5 : weight.shape.length ≠ 2
  · rw [if_pos h5]; exact ⟨rfl, rfl⟩
  rw [if_neg h5]
  by_cases h6 : ¬ ops.is_tensor_null (some bias) = true ∧
      ((some bias).getD out).shape.length ≠ 1
  · rw [if_pos h6]; exact ⟨rfl, rfl⟩
  rw [if_neg h6]
  by_cases h7 : inp.shape.getD 1 0 ≠ weight.shape.getD 1 0
  · rw [if_pos h7]; exact ⟨rfl, rfl⟩
  rw [if_neg h7]
  by_cases h8 : out.shape.getD 0 0 ≠ inp.shape.getD 0 0
  · rw [if_pos h8]; exact ⟨rfl, rfl⟩
  rw [if_neg h8]
  by_cases h9 : out.shape.getD 1 0 ≠ weight.shape.getD 0 0
  · rw [if_pos h9]; exact ⟨rfl, rfl⟩
  rw [if_neg h9]
  by_cases h10 : ¬ ops.is_tensor_null (some bias) = true ∧
      ((some bias).getD out).numel ≠ weight.shape.getD 0 0
  · rw [if_pos h10]; exact ⟨rfl, rfl⟩
  exfalso
  apply hshape
  have hlen : bias.meta.shape.length = 1 := by
    by_contra hc
    exact h6 ⟨hnull, hc⟩
  have hn : bias.numel = weight.shape.getD 0 0 := by
    by_contra hc
    exact h10 ⟨hnull, hc⟩
  obtain ⟨a, ha⟩ := List.length_eq_one.mp hlen
  have hs : bias.shape = [a] := ha
  rw [hs]
  have : bias.numel = a := by simp [Tensor.numel, ha]
  rw [← hn, this]

theorem linear_bias_shape_rejected_witness :
    (ops.linear (T := ℤ) (F := ℤ) id id
      (Tensor.create [2, 1] .F32 .CPU 0 0) (Tensor.create [2, 2] .F32 .CPU 0 1)
      (Tensor.create [1, 2] .F32 .CPU 0 2) (some (Tensor.create [2] .F32 .CPU 0 3))
      (Buf.fresh fun _ => 0) (Src.ofFun fun k => [1, 2, 3, 4].getD k 0)
      (Src.ofFun fun k => [5, 6].getD k 0) (Src.ofFun fun k => [7, 8].getD k 0)).err = some .invalid_argument ∧
    (ops.linear (T := ℤ) (F := ℤ) id id
      (Tensor.create [2, 1] .F32 .CPU 0 0) (Tensor.create [2, 2] .F32 .CPU 0 1)
      (Tensor.create [1, 2] .F32 .CPU 0 2) (some (Tensor.create [2] .F32 .CPU 0 3))
      (Buf.fresh fun _ => 0) (Src.ofFun fun k => [1, 2, 3, 4].getD k 0)
      (Src.ofFun fun k => [5, 6].getD k 0) (Src.ofFun fun k => [7, 8].getD k 0)).out = Buf.fresh fun _ => 0 :=
  linear_bias_shape_rejected (T := ℤ) (F := ℤ) id id
    (Tensor.create [2, 1] .F32 .CPU 0 0) (Tensor.create [2, 2] .F32 .CPU 0 1)
    (Tensor.create [1, 2] .F32 .CPU 0 2) (Tensor.create [2] .F32 .CPU 0 3)
    (Buf.fresh fun _ => 0) (Src.ofFun fun k => [1, 2, 3, 4].getD k 0)
    (Src.ofFun fun k => [5, 6].getD k 0) (Src.ofFun fun k => [7, 8].getD k 0) (by decide) (by decide)

/-- C17 as stated fails for a bias with zero elements: with `in = [[1, 2], [3, 4]]`,
`weight = [[5, 6]]` (`outFeatures = 1`) and a bias tensor of shape `[0]`, which is not
`[outFeatures]`, the call succeeds and computes the product without a bias
(`out[1, 0] = 3 * 5 + 4 * 6 = 39`): `is_tensor_null` treats a tensor without elements as an
absent one. -/
theorem linear_zero_element_bias_ignored :
    (Tensor.create [0] .F32 .CPU 0 3).shape ≠
      [(Tensor.create [1, 2] .F32 .CPU 0 2).shape.getD 0 0] ∧
    (ops.linear (T := ℤ) (F := ℤ) id id
      (Tensor.create [2, 1] .F32 .CPU 0 0) (Tensor.create [2, 2] .F32 .CPU 0 1)
      (Tensor.create [1, 2] .F32 .CPU 0 2) (some (Tensor.create [0] .F32 .CPU 0 3))
      (Buf.fresh fun _ => 0) (Src.ofFun fun k => [1, 2, 3, 4].getD k 0)
      (Src.ofFun fun k => [5, 6].getD k 0) (Src.ofFun fun _ => 0)).err = none ∧
    (ops.linear (T := ℤ) (F := ℤ) id id
      (Tensor.create [2, 1] .F32 .CPU 0 0) (Tensor.create [2, 2] .F32 .CPU 0 1)
      (Tensor.create [1, 2] .F32 .CPU 0 2) (some (Tensor.create [0] .F32 .CPU 0 3))
      (Buf.fresh fun _ => 0) (Src.ofFun fun k => [1, 2, 3, 4].getD k 0)
      (Src.ofFun fun k => [5, 6].getD k 0) (Src.ofFun fun _ => 0)).out.val 1 = 39 := by
  have hrun := ops_linear_null_bias (T := ℤ) (F := ℤ) id id
    (Tensor.create [2, 1] .F32 .CPU 0 0) (Tensor.create [2, 2] .F32 .CPU 0 1)
    (Tensor.create [1, 2] .F32 .CPU 0 2) (some (Tensor.create [0] .F32 .CPU 0 3))
    (Buf.fresh fun _ => 0) (Src.ofFun fun k => [1, 2, 3, 4].getD k 0)
    (Src.ofFun fun k => [5, 6].getD k 0) (Src.ofFun fun _ => 0) 2 2 1 (by decide) rfl rfl rfl (by decide) (by decide) (by decide)
    rfl rfl rfl rfl rfl (Or.inl rfl) rfl rfl (by decide) (by decide) (by decide)
  refine ⟨by decide, ?_, ?_⟩
  · rw [hrun]
  · rw [hrun]
    have h := linear_val (T := ℤ) (F := ℤ) id id (Buf.fresh fun _ => 0)
      (fun k => [1, 2, 3, 4].getD k 0) (fun k => [5, 6].getD k 0) none 2 2 1 1 0
      (by decide) (by decide)
    simp only [matmul_element_eq_sum] at h
    simpa [Finset.sum_range_succ] using h

/-! ## Contiguity validation -/

/-- A non-contiguous argument makes `ops::argmax` fail before the kernel runs. -/
theorem ops_argmax_noncontiguous {T F : Type} [LinearOrder F] (toFloat : T → F)
    (max_idx max_val vals : Tensor) (max_idxD : Buf Nat) (max_valD : Buf T) (valsD : Nat → T)
    (h : max_idx.isContiguous = false ∨ max_val.isContiguous = false ∨
      vals.isContiguous = false) :
    (ops.argmax toFloat max_idx max_val vals max_idxD max_valD valsD).err =
        some .invalid_argument ∧
    (ops.argmax toFloat max_idx max_val vals max_idxD max_valD valsD).out =
        (max_idxD, max_valD) := by
  unfold ops.argmax
  by_cases h1 : max_idx.deviceType ≠ max_val.deviceType ∨ max_idx.deviceType ≠ vals.deviceType ∨
      max_idx.deviceId ≠ max_val.deviceId ∨ max_idx.deviceId ≠ vals.deviceId
  · rw [if_pos h1]; exact ⟨rfl, rfl⟩
  rw [if_neg h1]
  by_cases h2 : max_val.dtype ≠ vals.dtype
  · rw [if_pos h2]; exact ⟨rfl, rfl⟩
  rw [if_neg h2]
  by_cases h3 : ¬ (vals.shape.length = 1)
  · rw [if_pos h3]; exact ⟨rfl, rfl⟩
  rw [if_neg h3]
  by_cases h4 : ¬ (max_idx.shape.length = 1 ∧ max_idx.numel = 1)
  · rw [if_pos h4]; exact ⟨rfl, rfl⟩
  rw [if_neg h4]
  by_cases h5 : ¬ (max_val.shape.length = 1 ∧ max_val.numel = 1)
  · rw [if_pos h5]; exact ⟨rfl, rfl⟩
  rw [if_neg h5]
  have hc : ¬ (max_idx.isContiguous = true ∧ max_val.isContiguous = true ∧
      vals.isContiguous = true) := by
    rintro ⟨a, b, c⟩
    rcases h with h | h | h <;> simp_all
  rw [if_pos hc]; exact ⟨rfl, rfl⟩

/-- A non-contiguous argument makes `ops::embedding` fail before the kernel runs. -/
theorem ops_embedding_noncontiguous {T : Type} (out index weight : Tensor) (outD : Buf T)
    (indexD : Nat → Int) (weightD : Src T)
    (h : out.isContiguous = false ∨ index.isContiguous = false ∨
      weight.isContiguous = false) :
    (ops.embedding out index weight outD indexD weightD).err = some .invalid_argument ∧
    (ops.embedding out index weight outD indexD weightD).out = outD := by
  unfold ops.embedding
  by_cases h1 : out.deviceType ≠ index.deviceType ∨ out.deviceType ≠ weight.deviceType ∨
      out.deviceId ≠ index.deviceId ∨ out.deviceId ≠ weight.deviceId
  · rw [if_pos h1]; exact ⟨rfl, rfl⟩
  rw [if_neg h1]
  by_cases h2 : out.shape.length ≠ 2
  · rw [if_pos h2]; exact ⟨rfl, rfl⟩
  rw [if_neg h2]
  by_cases h3 : index.shape.length ≠ 1
  · rw [if_pos h3]; exact ⟨rfl, rfl⟩
  rw [if_neg h3]
  by_cases h4 : weight.shape.length ≠ 2
  · rw [if_pos h4]; exact ⟨rfl, rfl⟩
  rw [if_neg h4]
  by_cases h5 : out.shape.getD 0 0 ≠ index.numel
  · rw [if_pos h5]; exact ⟨rfl, rfl⟩
  rw [if_neg h5]
  by_cases h6 : out.shape.getD 1 0 ≠ weight.shape.getD 1 0
  · rw [if_pos h6]; exact ⟨rfl, rfl⟩
  rw [if_neg h6]
  by_cases h7 : index.dtype ≠ ops.LLAISYS_DTYPE_INT64
  · rw [if_pos h7]; exact ⟨rfl, rfl⟩
  rw [if_neg h7]
  by_cases h8 : out.dtype ≠ weight.dtype
  · rw [if_pos h8]; exact ⟨rfl, rfl⟩
  rw [if_neg h8]
  have hc : ¬ out.isContiguous = true ∨ ¬ index.isContiguous = true ∨
      ¬ weight.isContiguous = true := by simpa using h
  rw [if_pos hc]; exact ⟨rfl, rfl⟩

/-- A non-contiguous `out`, `in` or `weight`, or a non-contiguous bias that has at least
one element, makes `ops::linear` fail before the kernel runs. -/
theorem ops_linear_noncontiguous {T F : Type} [Add F] [Mul F] [Zero F] (cast : F → T)
    (toFloat : T → F) (out inp weight : Tensor) (bias : Option Tensor) (outD : Buf T)
    (inD weightD biasD : Src T)
    (h : out.isContiguous = false ∨ inp.isContiguous = false ∨ weight.isContiguous = false ∨
      ∃ b, bias = some b ∧ b.numel ≠ 0 ∧ b.isContiguous = false) :
    (ops.linear cast toFloat out inp weight bias outD inD weightD biasD).err =
        some .invalid_argument ∧
    (ops.linear cast toFloat out inp weight bias outD inD weightD biasD).out = outD := by
  unfold ops.linear
  by_cases h1 : out.deviceType ≠ inp.deviceType ∨ out.deviceType ≠ weight.deviceType ∨
      out.deviceId ≠ inp.deviceId ∨ out.deviceId ≠ weight.deviceId
  · rw [if_pos h1]; exact ⟨rfl, rfl⟩
  rw [if_neg h1]
  by_cases h2 : ¬ ops.is_tensor_null bias = true ∧
      (out.deviceType ≠ (bias.getD out).deviceType ∨ out.deviceId ≠ (bias.getD out).deviceId)
  · rw [if_pos h2]; exact ⟨rfl, rfl⟩
  rw [if_neg h2]
  by_cases h3 : out.shape.length ≠ 2
  · rw [if_pos h3]; exact ⟨rfl, rfl⟩
  rw [if_neg h3]
  by_cases h4 : inp.shape.length ≠ 2
  · rw [if_pos h4]; exact ⟨rfl, rfl⟩
  rw [if_neg h4]
  by_cases h5 : weight.shape.length ≠ 2
  · rw [if_pos h5]; exact ⟨rfl, rfl⟩
  rw [if_neg h5]
  by_cases h6 : ¬ ops.is_tensor_null bias = true ∧ (bias.getD out).shape.length ≠ 1
  · rw [if_pos h6]; exact ⟨rfl, rfl⟩
  rw [if_neg h6]
  by_cases h7 : inp.shape.getD 1 0 ≠ weight.shape.getD 1 0
  · rw [if_pos h7]; exact ⟨rfl, rfl⟩
  rw [if_neg h7]
  by_cases h8 : out.shape.getD 0 0 ≠ inp.shape.getD 0 0
  · rw [if_pos h8]; exact ⟨rfl, rfl⟩
  rw [if_neg h8]
  by_cases h9 : out.shape.getD 1 0 ≠ weight.shape.getD 0 0
  · rw [if_pos h9]; exact ⟨rfl, rfl⟩
  rw [if_neg h9]
  by_cases h10 : ¬ ops.is_tensor_null bias = true ∧ (bias.getD out).numel ≠ weight.shape.getD 0 0
  · rw [if_pos h10]; exact ⟨rfl, rfl⟩
  rw [if_neg h10]
  by_cases h11 : inp.dtype ≠ out.dtype ∨ weight.dtype ≠ out.dtype
  · rw [if_pos h11]; exact ⟨rfl, rfl⟩
  rw [if_neg h11]
  by_cases h12 : ¬ ops.is_tensor_null bias = true ∧ (bias.getD out).dtype ≠ out.dtype
  · rw [if_pos h12]; exact ⟨rfl, rfl⟩
  rw [if_neg h12]
  by_cases h13 : ¬ out.isContiguous = true ∨ ¬ inp.isContiguous = true ∨ ¬ weight.isContiguous = true
  · rw [if_pos h13]; exact ⟨rfl, rfl⟩
  rw [if_neg h13]
  have hc : ¬ ops.is_tensor_null bias = true ∧ ¬ (bias.getD out).isContiguous = true := by
    rcases h with h | h | h | ⟨b, hb, hn, hcb⟩
    · exact absurd (Or.inl (by simp [h])) h13
    · exact absurd (Or.inr (Or.inl (by simp [h]))) h13
    · exact absurd (Or.inr (Or.inr (by simp [h]))) h13
    · subst hb
      exact ⟨by simp [ops.is_tensor_null, hn], by simp [hcb]⟩
  rw [if_pos hc]; exact ⟨rfl, rfl⟩

/-- A non-contiguous argument makes `ops::rms_norm` fail before the kernel runs. -/
theorem ops_rms_norm_noncontiguous {T F : Type} [Field F] (cast : F → T) (toFloat : T → F)
    (sqrt : F → F) (out inp weight : Tensor) (outD : Buf T) (inD weightD : Nat → T) (eps : F)
    (h : out.isContiguous = false ∨ inp.isContiguous = false ∨ weight.isContiguous = false) :
    (ops.rms_norm cast toFloat sqrt out inp weight outD inD weightD eps).err =
        some .invalid_argument ∧
    (ops.rms_norm cast toFloat sqrt out inp weight outD inD weightD eps).out = outD := by
  unfold ops.rms_norm
  by_cases h1 : out.deviceType ≠ inp.deviceType ∨ out.deviceType ≠ weight.deviceType ∨
      out.deviceId ≠ inp.deviceId ∨ out.deviceId ≠ weight.deviceId
  · rw [if_pos h1]; exact ⟨rfl, rfl⟩
  rw [if_neg h1]
  by_cases h2 : out.shape.length ≠ 2 ∨ inp.shape.length ≠ 2
  · rw [if_pos h2]; exact ⟨rfl, rfl⟩
  rw [if_neg h2]
  by_cases h3 : weight.shape.length ≠ 1
  · rw [if_pos h3]; exact ⟨rfl, rfl⟩
  rw [if_neg h3]
  by_cases h4 : out.shape.getD 0 0 ≠ inp.shape.getD 0 0 ∨ out.shape.getD 1 0 ≠ inp.shape.getD 1 0
  · rw [if_pos h4]; exact ⟨rfl, rfl⟩
  rw [if_neg h4]
  by_cases h5 : weight.shape.getD 0 0 ≠ inp.shape.getD 1 0
  · rw [if_pos h5]; exact ⟨rfl, rfl⟩
  rw [if_neg h5]
  by_cases h6 : inp.dtype ≠ out.dtype ∨ weight.dtype ≠ out.dtype
  · rw [if_pos h6]; exact ⟨rfl, rfl⟩
  rw [if_neg h6]
  have hc : ¬ out.isContiguous = true ∨ ¬ inp.isContiguous = true ∨
      ¬ weight.isContiguous = true := by simpa using h
  rw [if_pos hc]; exact ⟨rfl, rfl⟩

/-- A non-contiguous argument makes `ops::rope` fail before the kernel runs. -/
theorem ops_rope_noncontiguous {T F : Type} [Add F] [Sub F] [Mul F] [Div F] [OfNat F 2]
    (cast : F → T) (toFloat : T → F) (sizeToFloat : Nat → F)
    (cos sin : F → F) (pow : F → F → F) (out inp pos_ids : Tensor) (outD : Buf T)
    (inD : Src T) (pos_idsD : Nat → Int) (theta : F)
    (h : out.isContiguous = false ∨ inp.isContiguous = false ∨
      pos_ids.isContiguous = false) :
    (ops.rope cast toFloat sizeToFloat cos sin pow out inp pos_ids outD inD pos_idsD
        theta).err = some .invalid_argument ∧
    (ops.rope cast toFloat sizeToFloat cos sin pow out inp pos_ids outD inD pos_idsD
        theta).out = outD := by
  unfold ops.rope
  by_cases h1 : out.deviceType ≠ inp.deviceType ∨ out.deviceType ≠ pos_ids.deviceType ∨
      out.deviceId ≠ inp.deviceId ∨ out.deviceId ≠ pos_ids.deviceId
  · rw [if_pos h1]; exact ⟨rfl, rfl⟩
  rw [if_neg h1]
  by_cases h2 : out.shape.length ≠ 3 ∨ inp.shape.length ≠ 3 ∨ pos_ids.shape.length ≠ 1
  · rw [if_pos h2]; exact ⟨rfl, rfl⟩
  rw [if_neg h2]
  by_cases h3 : out.shape ≠ inp.shape
  · rw [if_pos h3]; exact ⟨rfl, rfl⟩
  rw [if_neg h3]
  by_cases h4 : pos_ids.shape.getD 0 0 ≠ inp.shape.getD 0 0
  · rw [if_pos h4]; exact ⟨rfl, rfl⟩
  rw [if_neg h4]
  by_cases h5 : inp.shape.getD 2 0 % 2 ≠ 0
  · rw [if_pos h5]; exact ⟨rfl, rfl⟩
  rw [if_neg h5]
  by_cases h6 : inp.dtype ≠ out.dtype
  · rw [if_pos h6]; exact ⟨rfl, rfl⟩
  rw [if_neg h6]
  have hc : ¬ out.isContiguous = true ∨ ¬ inp.isContiguous = true ∨
      ¬ pos_ids.isContiguous = true := by simpa using h
  rw [if_pos hc]; exact ⟨rfl, rfl⟩

/-- A non-contiguous argument makes `ops::self_attention` fail before the kernel runs, as
long as the kv head count is nonzero (so that the modulo of the validation is defined). -/
theorem ops_self_attention_noncontiguous {T F : Type} [LinearOrderedField F] (cast : F → T)
    (toFloat : T → F) (exp : F → F) (attn_val q k v : Tensor) (attn_valD : Buf T)
    (qD kD vD : Nat → T) (scale : F) (k_alloc v_alloc : Option (Buf T))
    (qk_alloc : Option (Buf F)) (hkv : k.shape.getD 1 0 ≠ 0)
    (h : attn_val.isContiguous = false ∨ q.isContiguous = false ∨ k.isContiguous = false ∨
      v.isContiguous = false) :
    (ops.self_attention cast toFloat exp attn_val q k v attn_valD qD kD vD scale
        k_alloc v_alloc qk_alloc).err = some .invalid_argument ∧
    (ops.self_attention cast toFloat exp attn_val q k v attn_valD qD kD vD scale
        k_alloc v_alloc qk_alloc).out = attn_valD := by
  unfold ops.self_attention
  by_cases h1 : attn_val.deviceType ≠ q.deviceType ∨ attn_val.deviceType ≠ k.deviceType ∨
      attn_val.deviceType ≠ v.deviceType ∨ attn_val.deviceId ≠ q.deviceId ∨
      attn_val.deviceId ≠ k.deviceId ∨ attn_val.deviceId ≠ v.deviceId
  · rw [if_pos h1]; exact ⟨rfl, rfl⟩
  rw [if_neg h1]
  by_cases h2 : attn_val.shape.length ≠ 3 ∨ q.shape.length ≠ 3 ∨ k.shape.length ≠ 3 ∨
      v.shape.length ≠ 3
  · rw [if_pos h2]; exact ⟨rfl, rfl⟩
  rw [if_neg h2]
  by_cases h3 : attn_val.shape ≠ [q.shape.getD 0 0, q.shape.getD 1 0, v.shape.getD 2 0]
  · rw [if_pos h3]; exact ⟨rfl, rfl⟩
  rw [if_neg h3]
  by_cases h4 : k.shape.getD 2 0 ≠ q.shape.getD 2 0
  · rw [if_pos h4]; exact ⟨rfl, rfl⟩
  rw [if_neg h4]
  by_cases h5 : v.shape.getD 0 0 ≠ k.shape.getD 0 0 ∨ v.shape.getD 1 0 ≠ k.shape.getD 1 0
  · rw [if_pos h5]; exact ⟨rfl, rfl⟩
  rw [if_neg h5]
  rw [if_neg hkv]
  by_cases h6 : q.shape.getD 1 0 % k.shape.getD 1 0 ≠ 0
  · rw [if_pos h6]; exact ⟨rfl, rfl⟩
  rw [if_neg h6]
  by_cases h7 : q.dtype ≠ attn_val.dtype ∨ k.dtype ≠ attn_val.dtype ∨ v.dtype ≠ attn_val.dtype
  · rw [if_pos h7]; exact ⟨rfl, rfl⟩
  rw [if_neg h7]
  have hc : ¬ attn_val.isContiguous = true ∨ ¬ q.isContiguous = true ∨
      ¬ k.isContiguous = true ∨ ¬ v.isContiguous = true := by simpa using h
  rw [if_pos hc]; exact ⟨rfl, rfl⟩

/-- A non-contiguous argument makes `ops::swiglu` fail before the kernel runs. -/
theorem ops_swiglu_noncontiguous {T F : Type} [Field F] (cast : F → T) (toFloat : T → F)
    (exp : F → F) (out gate up : Tensor) (outD : Buf T) (gateD upD : Nat → T)
    (h : out.isContiguous = false ∨ gate.isContiguous = false ∨ up.isContiguous = false) :
    (ops.swiglu cast toFloat exp out gate up outD gateD upD).err = some .invalid_argument ∧
    (ops.swiglu cast toFloat exp out gate up outD gateD upD).out = outD := by
  unfold ops.swiglu
  by_cases h1 : out.deviceType ≠ gate.deviceType ∨ out.deviceType ≠ up.deviceType ∨
      out.deviceId ≠ gate.deviceId ∨ out.deviceId ≠ up.deviceId
  · rw [if_pos h1]; exact ⟨rfl, rfl⟩
  rw [if_neg h1]
  by_cases h2 : out.shape.length ≠ 2 ∨ gate.shape.length ≠ 2 ∨ up.shape.length ≠ 2
  · rw [if_pos h2]; exact ⟨rfl, rfl⟩
  rw [if_neg h2]
  by_cases h3 : gate.shape ≠ out.shape ∨ up.shape ≠ out.shape
  · rw [if_pos h3]; exact ⟨rfl, rfl⟩
  rw [if_neg h3]
  by_cases h4 : gate.dtype ≠ out.dtype ∨ up.dtype ≠ out.dtype
  · rw [if_pos h4]; exact ⟨rfl, rfl⟩
  rw [if_neg h4]
  have hc : ¬ out.isContiguous = true ∨ ¬ gate.isContiguous = true ∨
      ¬ up.isContiguous = true := by simpa using h
  rw [if_pos hc]; exact ⟨rfl, rfl⟩

/-- C18 (as amended): argmax, embedding, linear, rmsNorm, rope, selfAttention and swiglu
validate contiguity before touching data: whenever a tensor argument of the call is
non-contiguous according to `isContiguous`, the operation fails with InvalidArgument and the
output buffers are left as they were. For linear the bias counts as an argument when it has
at least one element; for selfAttention the statement is for a nonzero `nKvHead`. (rearrange
is not in the list: it never looks at `isContiguous`.) -/
theorem contiguity_validated {T F : Type} [LinearOrderedField F] (cast : F → T)
    (toFloat : T → F) (exp sqrt cos sin : F → F) (pow : F → F → F) (sizeToFloat : Nat → F) :
    (∀ (max_idx max_val vals : Tensor) (max_idxD : Buf Nat) (max_valD : Buf T)
        (valsD : Nat → T),
      (max_idx.isContiguous = false ∨ max_val.isContiguous = false ∨
        vals.isContiguous = false) →
      (ops.argmax toFloat max_idx max_val vals max_idxD max_valD valsD).err =
          some .invalid_argument ∧
      (ops.argmax toFloat max_idx max_val vals max_idxD max_valD valsD).out =
          (max_idxD, max_valD)) ∧
    (∀ (out index weight : Tensor) (outD : Buf T) (indexD : Nat → Int) (weightD : Src T),
      (out.isContiguous = false ∨ index.isContiguous = false ∨
        weight.isContiguous = false) →
      (ops.embedding out index weight outD indexD weightD).err = some .invalid_argument ∧
      (ops.embedding out index weight outD indexD weightD).out = outD) ∧
    (∀ (out inp weight : Tensor) (bias : Option Tensor) (outD : Buf T)
        (inD weightD biasD : Src T),
      (out.isContiguous = false ∨ inp.isContiguous = false ∨ weight.isContiguous = false ∨
        ∃ b, bias = some b ∧ b.numel ≠ 0 ∧ b.isContiguous = false) →
      (ops.linear cast toFloat out inp weight bias outD inD weightD biasD).err =
          some .invalid_argument ∧
      (ops.linear cast toFloat out inp weight bias outD inD weightD biasD).out = outD) ∧
    (∀ (out inp weight : Tensor) (outD : Buf T) (inD weightD : Nat → T) (eps : F),
      (out.isContiguous = false ∨ inp.isContiguous = false ∨ weight.isContiguous = false) →
      (ops.rms_norm cast toFloat sqrt out inp weight outD inD weightD eps).err =
          some .invalid_argument ∧
      (ops.rms_norm cast toFloat sqrt out inp weight outD inD weightD eps).out = outD) ∧
    (∀ (out inp pos_ids : Tensor) (outD : Buf T) (inD : Src T) (pos_idsD : Nat → Int)
        (theta : F),
      (out.isContiguous = false ∨ inp.isContiguous = false ∨
        pos_ids.isContiguous = false) →
      (ops.rope cast toFloat sizeToFloat cos sin pow out inp pos_ids outD inD pos_idsD
          theta).err = some .invalid_argument ∧
      (ops.rope cast toFloat sizeToFloat cos sin pow out inp pos_ids outD inD pos_idsD
          theta).out = outD) ∧
    (∀ (attn_val q k v : Tensor) (attn_valD : Buf T) (qD kD vD : Nat → T) (scale : F)
        (k_alloc v_alloc : Option (Buf T)) (qk_alloc : Option (Buf F)),
      k.shape.getD 1 0 ≠ 0 →
      (attn_val.isContiguous = false ∨ q.isContiguous = false ∨ k.isContiguous = false ∨
        v.isContiguous = false) →
      (ops.self_attention cast toFloat exp attn_val q k v attn_valD qD kD vD scale
          k_alloc v_alloc qk_alloc).err = some .invalid_argument ∧
      (ops.self_attention cast toFloat exp attn_val q k v attn_valD qD kD vD scale
          k_alloc v_alloc qk_alloc).out = attn_valD) ∧
    (∀ (out gate up : Tensor) (outD : Buf T) (gateD upD : Nat → T),
      (out.isContiguous = false ∨ gate.isContiguous = false ∨ up.isContiguous = false) →
      (ops.swiglu cast toFloat exp out gate up outD gateD upD).err =
          some .invalid_argument ∧
      (ops.swiglu cast toFloat exp out gate up outD gateD upD).out = outD) :=
  ⟨fun max_idx max_val vals max_idxD max_valD valsD h =>
      ops_argmax_noncontiguous toFloat max_idx max_val vals max_idxD max_valD valsD h,
    fun out index weight outD indexD weightD h =>
      ops_embedding_noncontiguous out index weight outD indexD weightD h,
    fun out inp weight bias outD inD weightD biasD h =>
      ops_linear_noncontiguous cast toFloat out inp weight bias outD inD weightD biasD h,
    fun out inp weight outD inD weightD eps h =>
      ops_rms_norm_noncontiguous cast toFloat sqrt out inp weight outD inD weightD eps h,
    fun out inp pos_ids outD inD pos_idsD theta h =>
      ops_rope_noncontiguous cast toFloat sizeToFloat cos sin pow out inp pos_ids outD inD
        pos_idsD theta h,
    fun attn_val q k v attn_valD qD kD vD scale k_alloc v_alloc qk_alloc hkv h =>
      ops_self_attention_noncontiguous cast toFloat exp attn_val q k v attn_valD qD kD vD
        scale k_alloc v_alloc qk_alloc hkv h,
    fun out gate up outD gateD upD h =>
      ops_swiglu_noncontiguous cast toFloat exp out gate up outD gateD upD h⟩

theorem contiguity_validated_witness :
    transposed2x2.isContiguous = false ∧
    (ops.swiglu (T := ℝ) (F := ℝ) id id Real.exp (Tensor.create [2, 2] .F32 .CPU 0 0)
      transposed2x2 (Tensor.create [2, 2] .F32 .CPU 0 2) (Buf.fresh fun _ => 0)
      (fun _ => 1) (fun _ => 1)).err = some .invalid_argument ∧
    (ops.swiglu (T := ℝ) (F := ℝ) id id Real.exp (Tensor.create [2, 2] .F32 .CPU 0 0)
      transposed2x2 (Tensor.create [2, 2] .F32 .CPU 0 2) (Buf.fresh fun _ => 0)
      (fun _ => 1) (fun _ => 1)).out = Buf.fresh fun _ => 0 :=
  ⟨by decide,
    (contiguity_validated (T := ℝ) (F := ℝ) id id Real.exp Real.sqrt Real.cos Real.sin
      (fun x y => x ^ y) (fun n => (n : ℝ))).2.2.2.2.2.2 (Tensor.create [2, 2] .F32 .CPU 0 0)
      transposed2x2 (Tensor.create [2, 2] .F32 .CPU 0 2) (Buf.fresh fun _ => 0)
      (fun _ => 1) (fun _ => 1) (Or.inr (Or.inl (by decide)))⟩

/-- C18 as stated fails for rearrange: with `in` the transpose view (shape `[2, 2]`, strides
`[1, 2]`, not contiguous) of a buffer holding `10, 11, 12, 13` and `out` a fresh contiguous
`[2, 2]` tensor over zeros, the call succeeds and writes the output (`out` holds `11` at flat
index 1 afterwards). -/
theorem rearrange_accepts_noncontiguous :
    transposed2x2.isContiguous = false ∧
    (ops.rearrange (T := ℤ) (Tensor.create [2, 2] .F32 .CPU 0 0) transposed2x2
      (Buf.fresh fun _ => 0) (Src.ofFun fun k => [10, 11, 12, 13].getD k 0)).err = none ∧
    (ops.rearrange (T := ℤ) (Tensor.create [2, 2] .F32 .CPU 0 0) transposed2x2
      (Buf.fresh fun _ => 0) (Src.ofFun fun k => [10, 11, 12, 13].getD k 0)).out.val 1 = 11 ∧
    (Buf.fresh fun _ => (0 : ℤ)).val 1 = 0 := by
  have hrun := ops_rearrange_run (T := ℤ) (Tensor.create [2, 2] .F32 .CPU 0 0) transposed2x2
    (Buf.fresh fun _ => 0) (Src.ofFun fun k => [10, 11, 12, 13].getD k 0) rfl (by decide) rfl rfl rfl
    (Or.inl rfl) rfl
  refine ⟨by decide, ?_, ?_, rfl⟩
  · rw [hrun]
  · rw [hrun]
    simp only []
    rw [copy_elementwise_val]
    decide

/-! ## Index tensor dtypes -/

/-- C19 fails: `ops::rope` accepts a `pos_ids` tensor that is not 64-bit integer. With `out`
and `in` of shape `[1, 1, 2]` (32-bit float, CPU, contiguous) and `pos_ids` of shape `[1]`
and dtype 32-bit integer, respectively 32-bit float, every check passes and the kernel runs:
the call succeeds and stores both elements of `out`, computed from the 64-bit word found at
the start of the `pos_ids` buffer. -/
theorem rope_accepts_int32_positions :
    (Tensor.create [1] .I32 .CPU 0 2).dtype ≠ ops.LLAISYS_DTYPE_INT64 ∧
    (ops.rope (T := ℝ) (F := ℝ) id id (fun n => (n : ℝ)) Real.cos Real.sin (fun x y => x ^ y)
      (Tensor.create [1, 1, 2] .F32 .CPU 0 0) (Tensor.create [1, 1, 2] .F32 .CPU 0 1)
      (Tensor.create [1] .I32 .CPU 0 2) (Buf.fresh fun _ => 0)
      (Src.ofFun fun k => if k = 0 then 1 else 0) (fun _ => 1) 1).err = none ∧
    (ops.rope (T := ℝ) (F := ℝ) id id (fun n => (n : ℝ)) Real.cos Real.sin (fun x y => x ^ y)
      (Tensor.create [1, 1, 2] .F32 .CPU 0 0) (Tensor.create [1, 1, 2] .F32 .CPU 0 1)
      (Tensor.create [1] .I32 .CPU 0 2) (Buf.fresh fun _ => 0)
      (Src.ofFun fun k => if k = 0 then 1 else 0) (fun _ => 1) 1).out.stores 0 = 1 ∧
    (ops.rope (T := ℝ) (F := ℝ) id id (fun n => (n : ℝ)) Real.cos Real.sin (fun x y => x ^ y)
      (Tensor.create [1, 1, 2] .F32 .CPU 0 0) (Tensor.create [1, 1, 2] .F32 .CPU 0 1)
      (Tensor.create [1] .I32 .CPU 0 2) (Buf.fresh fun _ => 0)
      (Src.ofFun fun k => if k = 0 then 1 else 0) (fun _ => 1) 1).out.stores 1 = 1 ∧
    (Tensor.create [1] .F32 .CPU 0 2).dtype ≠ ops.LLAISYS_DTYPE_INT64 ∧
    (ops.rope (T := ℝ) (F := ℝ) id id (fun n => (n : ℝ)) Real.cos Real.sin (fun x y => x ^ y)
      (Tensor.create [1, 1, 2] .F32 .CPU 0 0) (Tensor.create [1, 1, 2] .F32 .CPU 0 1)
      (Tensor.create [1] .F32 .CPU 0 2) (Buf.fresh fun _ => 0)
      (Src.ofFun fun k => if k = 0 then 1 else 0) (fun _ => 1) 1).err = none := by
  have hrun := ops_rope_run (T := ℝ) (F := ℝ) id id (fun n => (n : ℝ)) Real.cos Real.sin
      (fun x y => x ^ y)
      (Tensor.create [1, 1, 2] .F32 .CPU 0 0) (Tensor.create [1, 1, 2] .F32 .CPU 0 1)
      (Tensor.create [1] .I32 .CPU 0 2) (Buf.fresh fun _ => 0)
      (Src.ofFun fun k => if k = 0 then 1 else 0) (fun _ => 1) 1 1 1 2 rfl rfl rfl
      (by decide) (by decide) (by decide) (by decide) rfl rfl rfl rfl rfl (Or.inl rfl) rfl
      (by decide) (by decide)
  have hrun2 := ops_rope_run (T := ℝ) (F := ℝ) id id (fun n => (n : ℝ)) Real.cos Real.sin
      (fun x y => x ^ y)
      (Tensor.create [1, 1, 2] .F32 .CPU 0 0) (Tensor.create [1, 1, 2] .F32 .CPU 0 1)
      (Tensor.create [1] .F32 .CPU 0 2) (Buf.fresh fun _ => 0)
      (Src.ofFun fun k => if k = 0 then 1 else 0) (fun _ => 1) 1 1 1 2 rfl rfl rfl
      (by decide) (by decide) (by decide) (by decide) rfl rfl rfl rfl rfl (Or.inl rfl) rfl
      (by decide) (by decide)
  refine ⟨by decide, ?_, ?_, ?_, by decide, ?_⟩
  · rw [hrun]
  · rw [hrun]
    simp only []
    rw [rope_stores _ _ _ _ _ _ _ _ _ _ _ _ _ (by decide)]
    rfl
  · rw [hrun]
    simp only []
    rw [rope_stores _ _ _ _ _ _ _ _ _ _ _ _ _ (by decide)]
    rfl
  · rw [hrun2]

/-- C20 fails: `ops::argmax` accepts a `max_idx` tensor that is not 64-bit integer. With
`max_idx` of shape `[1]` and dtype 32-bit integer, `max_val` of shape `[1]` and
`vals = [3, 5, 1]` (32-bit float, CPU), every check passes and the kernel runs: the call
succeeds and stores the index `1` as one `size_t` word at the start of the `max_idx`
buffer. -/
theorem argmax_accepts_int32_index :
    (Tensor.create [1] .I32 .CPU 0 0).dtype ≠ ops.LLAISYS_DTYPE_INT64 ∧
    (ops.argmax (T := ℤ) (F := ℤ) id (Tensor.create [1] .I32 .CPU 0 0)
      (Tensor.create [1] .F32 .CPU 0 1) (Tensor.create [3] .F32 .CPU 0 2)
      (Buf.fresh fun _ => 9) (Buf.fresh fun _ => 0) (fun k => [3, 5, 1].getD k 0)).err = none ∧
    (ops.argmax (T := ℤ) (F := ℤ) id (Tensor.create [1] .I32 .CPU 0 0)
      (Tensor.create [1] .F32 .CPU 0 1) (Tensor.create [3] .F32 .CPU 0 2)
      (Buf.fresh fun _ => 9) (Buf.fresh fun _ => 0)
      (fun k => [3, 5, 1].getD k 0)).out.1.stores 0 = 1 ∧
    (ops.argmax (T := ℤ) (F := ℤ) id (Tensor.create [1] .I32 .CPU 0 0)
      (Tensor.create [1] .F32 .CPU 0 1) (Tensor.create [3] .F32 .CPU 0 2)
      (Buf.fresh fun _ => 9) (Buf.fresh fun _ => 0)
      (fun k => [3, 5, 1].getD k 0)).out.1.val 0 = 1 := by
  have hrun := ops_argmax_run (T := ℤ) (F := ℤ) id (Tensor.create [1] .I32 .CPU 0 0)
      (Tensor.create [1] .F32 .CPU 0 1) (Tensor.create [3] .F32 .CPU 0 2)
      (Buf.fresh fun _ => 9) (Buf.fresh fun _ => 0) (fun k => [3, 5, 1].getD k 0) 3
      rfl (by decide) rfl rfl rfl rfl rfl rfl rfl (Or.inl rfl) rfl
  refine ⟨by decide, ?_, ?_, ?_⟩
  · rw [hrun]
  · rw [hrun]; decide
  · rw [hrun]; decide

/-! ## create -/

theorem rowMajorStrides_length (shape : List Nat) :
    (rowMajorStrides shape).length = shape.length := by
  induction shape with
  | nil => rfl
  | cons a rest ih => simp [rowMajorStrides, ih]

/-- Entry `i` of the canonical strides is the product of the sizes that follow dimension
`i`. -/
theorem rowMajorStrides_getD (shape : List Nat) (i : Nat) (hi : i < shape.length) :
    (rowMajorStrides shape).getD i 0 = ((shape.drop (i + 1)).prod : Int) := by
  induction shape generalizing i with
  | nil => simp at hi
  | cons a rest ih =>
    cases i with
    | zero => simp [rowMajorStrides]
    | succ i =>
      have hi' : i < rest.length := by simpa using hi
      simpa [rowMajorStrides] using ih i hi'

theorem drop_prod_step (shape : List Nat) (i : Nat) (hi : i < shape.length) :
    (shape.drop i).prod = shape.getD i 0 * (shape.drop (i + 1)).prod := by
  rw [List.drop_eq_getElem_cons hi, List.prod_cons, List.getD_eq_getElem _ _ hi]

/-- C23: for every shape (any rank, sizes possibly zero) `create` returns a tensor with that
shape, the requested dtype, offset 0 and the canonical row-major strides: as many strides as
dimensions, the last one 1, and `strides[i] = strides[i+1] * shape[i+1]` for every
`i < ndim - 1`; the storage it requests has `product(shape) * elementSize(dtype)` bytes
(sizes are natural numbers, so `size_t` overflow is left aside). -/
theorem create_spec (shape : List Nat) (dtype : llaisysDataType_t)
    (device_type : llaisysDeviceType_t) (device : Int) (memory : Nat) :
    (Tensor.create shape dtype device_type device memory).shape = shape ∧
    (Tensor.create shape dtype device_type device memory).dtype = dtype ∧
    (Tensor.create shape dtype device_type device memory).offset = 0 ∧
    (Tensor.create shape dtype device_type device memory).strides.length = shape.length ∧
    (∀ i, i + 1 = shape.length →
      (Tensor.create shape dtype device_type device memory).strides.getD i 0 = 1) ∧
    (∀ i, i + 1 < shape.length →
      (Tensor.create shape dtype device_type device memory).strides.getD i 0 =
        (Tensor.create shape dtype device_type device memory).strides.getD (i + 1) 0 *
          (shape.getD (i + 1) 0 : Int)) ∧
    (Tensor.create shape dtype device_type device memory).storage.size =
      shape.prod * utils.dsize dtype ∧
    (Tensor.create shape dtype device_type device memory).numel = shape.prod := by
  have hs : (Tensor.create shape dtype device_type device memory).strides =
      rowMajorStrides shape := by
    simp only [Tensor.create, Tensor.strides, strideLoop_eq]
  have hsh : (Tensor.create shape dtype device_type device memory).shape = shape := rfl
  refine ⟨rfl, rfl, rfl, ?_, ?_, ?_, ?_, ?_⟩
  · rw [hs, rowMajorStrides_length]
  · intro i hi
    rw [hs, rowMajorStrides_getD shape i (by omega), hi, List.drop_length]
    simp
  · intro i hi
    rw [hs, rowMajorStrides_getD shape i (by omega),
      rowMajorStrides_getD shape (i + 1) (by omega), drop_prod_step shape (i + 1) (by omega)]
    push_cast
    ring
  · simp only [Tensor.create, strideLoop_eq]
  · rw [numel_eq_prod, hsh]

/-! ## isContiguous -/

theorem take_succ_drop_prod (shape : List Nat) (n dim : Nat) (hn : n < shape.length)
    (hd : dim < n) :
    (((shape.take (n + 1)).drop (dim + 1)).prod : Int) =
      (((shape.take n).drop (dim + 1)).prod : Int) * (shape.getD n 0 : Int) := by
  rw [List.take_succ, List.getElem?_eq_getElem hn, Option.toList_some,
    List.drop_append_of_le_length (by rw [List.length_take]; omega), List.prod_append,
    List.getD_eq_getElem _ _ hn]
  simp

/-- The backward walk accepts exactly when every stride below `n` is the expected stride times
the sizes between its dimension and `n`. -/
theorem isContiguousLoop_iff (shape_ : List Nat) (strides_ : List Int) (n : Nat)
    (hn : n ≤ shape_.length) (e : Int) :
    Tensor.isContiguousLoop shape_ strides_ n e = true ↔
      ∀ dim, dim < n →
        strides_.getD dim 0 = e * (((shape_.take n).drop (dim + 1)).prod : Int) := by
  induction n generalizing e with
  | zero => simp [Tensor.isContiguousLoop]
  | succ n ih =>
    unfold Tensor.isContiguousLoop
    by_cases hs : strides_.getD n 0 = e
    · rw [if_neg (by simpa using hs), ih (by omega)]
      constructor
      · intro h dim hdim
        by_cases hdn : dim = n
        · subst hdn
          rw [List.drop_of_length_le (by rw [List.length_take]; omega)]
          simpa using hs
        · have hlt : dim < n := by omega
          rw [h dim hlt, if_pos (by omega), take_succ_drop_prod shape_ n dim (by omega) hlt]
          ring
      · intro h dim hdim
        rw [h dim (by omega), if_pos (by omega),
          take_succ_drop_prod shape_ n dim (by omega) hdim]
        ring
    · rw [if_pos (by simpa using hs)]
      constructor
      · intro h; exact absurd h (by simp)
      · intro h
        exfalso
        apply hs
        rw [h n (Nat.lt_succ_self n),
          List.drop_of_length_le (by rw [List.length_take]; omega)]
        simp

/-- C24: `isContiguous` returns true for every tensor of rank at most 1; for rank at least 2
it returns true if and only if `strides[ndim-1] = 1` and, for every `i < ndim - 1`,
`strides[i]` is the product of `shape[i+1..ndim-1]`. -/
theorem isContiguous_spec (t : Tensor) :
    (t.ndim ≤ 1 → t.isContiguous = true) ∧
    (2 ≤ t.ndim →
      (t.isContiguous = true ↔
        t.strides.getD (t.ndim - 1) 0 = 1 ∧
        ∀ i, i < t.ndim - 1 → t.strides.getD i 0 = ((t.shape.drop (i + 1)).prod : Int))) := by
  constructor
  · intro h
    unfold Tensor.isContiguous
    rw [if_pos h]
  · intro h
    have hnd : t.ndim = t.shape.length := rfl
    unfold Tensor.isContiguous
    rw [if_neg (by omega), hnd, isContiguousLoop_iff t.shape t.strides t.shape.length
      (Nat.le_refl _) 1, List.take_length]
    constructor
    · intro hall
      refine ⟨?_, fun i hi => ?_⟩
      · rw [hall (t.shape.length - 1) (by omega),
          List.drop_of_length_le (by omega)]
        simp
      · rw [hall i (by omega), one_mul]
    · rintro ⟨hlast, hrest⟩ dim hdim
      by_cases hd : dim = t.shape.length - 1
      · subst hd
        rw [hlast, List.drop_of_length_le (by omega)]
        simp
      · rw [hrest dim (by omega), one_mul]

/-- C24, two instances: the rank-1 tensor `[7]` is contiguous, and the transpose view with
strides `[1, 2]` is not, its last stride being `2`. -/
theorem isContiguous_spec_witness :
    (Tensor.create [7] .F32 .CPU 0 0).isContiguous = true ∧
    ¬ transposed2x2.isContiguous = true :=
  ⟨(isContiguous_spec (Tensor.create [7] .F32 .CPU 0 0)).1 (by decide),
    fun h => absurd (((isContiguous_spec transposed2x2).2 (by decide)).mp h).1 (by decide)⟩

/-! ## permute -/

theorem getD_set_flag (used : List Bool) (d x : Nat) (hd : d < used.length) :
    (used.set d true).getD x false = if x = d then true else used.getD x false := by
  by_cases h : x = d
  · subst h
    simp [List.getD_eq_getElem?_getD, List.getElem?_set, hd]
  · rw [if_neg h]
    have h' : ¬ d = x := fun e => h e.symm
    simp [List.getD_eq_getElem?_getD, List.getElem?_set, h']

/-- The validation loop of `permute` accepts exactly the duplicate-free lists of in-range
dimensions none of which is flagged already. -/
theorem permuteCheck_none_iff (n : Nat) (order : List Nat) (used : List Bool)
    (hu : used.length = n) :
    Tensor.permuteCheck n order used = none ↔
      (∀ x ∈ order, x < n ∧ used.getD x false = false) ∧ order.Nodup := by
  induction order generalizing used with
  | nil => simp [Tensor.permuteCheck]
  | cons dim rest ih =>
    unfold Tensor.permuteCheck
    by_cases h1 : dim ≥ n
    · rw [if_pos h1]
      constructor
      · intro h; exact absurd h (by simp)
      · rintro ⟨h, _⟩
        have := (h dim (List.mem_cons_self _ _)).1
        omega
    rw [if_neg h1]
    by_cases h2 : used.getD dim false = true
    · rw [if_pos h2]
      constructor
      · intro h; exact absurd h (by simp)
      · rintro ⟨h, _⟩
        have := (h dim (List.mem_cons_self _ _)).2
        rw [h2] at this
        exact absurd this (by simp)
    rw [if_neg h2, ih (used.set dim true) (by simpa using hu)]
    have hd : dim < used.length := by omega
    have h2' : used.getD dim false = false := by simpa using h2
    constructor
    · rintro ⟨hall, hnd⟩
      refine ⟨fun x hx => ?_, List.nodup_cons.mpr ⟨fun hmem => ?_, hnd⟩⟩
      · rcases List.mem_cons.mp hx with rfl | hx
        · exact ⟨by omega, h2'⟩
        · obtain ⟨hlt, hf⟩ := hall x hx
          rw [getD_set_flag used dim x hd] at hf
          by_cases hxd : x = dim
          · rw [if_pos hxd] at hf; exact absurd hf (by simp)
          · rw [if_neg hxd] at hf; exact ⟨hlt, hf⟩
      · have hf := (hall dim hmem).2
        rw [getD_set_flag used dim dim hd, if_pos rfl] at hf
        exact absurd hf (by simp)
    · rintro ⟨hall, hnd⟩
      obtain ⟨hnot, hnd'⟩ := List.nodup_cons.mp hnd
      refine ⟨fun x hx => ?_, hnd'⟩
      obtain ⟨hlt, hf⟩ := hall x (List.mem_cons_of_mem _ hx)
      refine ⟨hlt, ?_⟩
      rw [getD_set_flag used dim x hd, if_neg (fun (e : x = dim) => hnot (e ▸ hx))]
      exact hf

theorem permuteCheck_error (n : Nat) (order : List Nat) (used : List Bool) (e : Error)
    (h : Tensor.permuteCheck n order used = some e) : e = .invalid_argument := by
  induction order generalizing used with
  | nil => simp [Tensor.permuteCheck] at h
  | cons dim rest ih =>
    unfold Tensor.permuteCheck at h
    split_ifs at h with h1 h2
    · exact (Option.some.inj h).symm
    · exact (Option.some.inj h).symm
    · exact ih _ h

theorem getD_replicate_false (n x : Nat) : (List.replicate n false).getD x false = false := by
  simp only [List.getD_eq_getElem?_getD, List.getElem?_replicate]
  split_ifs <;> rfl

/-- A list is a permutation of `[0..n)` exactly when it has length `n`, entries below `n` and
no duplicate. -/
theorem perm_range_iff (order : List Nat) (n : Nat) :
    order.Perm (List.range n) ↔
      order.length = n ∧ (∀ x ∈ order, x < n) ∧ order.Nodup := by
  constructor
  · intro h
    refine ⟨by simpa using h.length_eq, fun x hx => ?_, (h.nodup_iff).mpr (List.nodup_range n)⟩
    exact List.mem_range.mp (h.mem_iff.mp hx)
  · rintro ⟨hl, hlt, hnd⟩
    exact (List.subperm_of_subset hnd
      (fun x hx => List.mem_range.mpr (hlt x hx))).perm_of_length_le (by simp [hl])

/-- When `permute` returns: exactly for the valid orders. -/
theorem permute_isOk_iff (t : Tensor) (order : List Nat) :
    (∃ r, t.permute order = .ok r) ↔
      order.length = t.ndim ∧ (∀ x ∈ order, x < t.ndim) ∧ order.Nodup := by
  unfold Tensor.permute
  simp only []
  by_cases hl : order.length ≠ t.ndim
  · rw [if_pos hl]
    constructor
    · rintro ⟨r, hr⟩; exact absurd hr (by simp)
    · rintro ⟨h, _⟩; exact absurd h hl
  rw [if_neg hl]
  have hl' : order.length = t.ndim := by simpa using hl
  have hiff := permuteCheck_none_iff t.ndim order (List.replicate t.ndim false) (by simp)
  cases hc : Tensor.permuteCheck t.ndim order (List.replicate t.ndim false) with
  | some e =>
    simp only []
    constructor
    · rintro ⟨r, hr⟩; exact absurd hr (by simp)
    · rintro ⟨_, hlt, hnd⟩
      have := hiff.mpr ⟨fun x hx => ⟨hlt x hx, getD_replicate_false _ _⟩, hnd⟩
      rw [hc] at this
      exact absurd this (by simp)
  | none =>
    simp only []
    obtain ⟨hall, hnd⟩ := hiff.mp hc
    exact ⟨fun _ => ⟨hl', fun x hx => (hall x hx).1, hnd⟩, fun _ => ⟨_, rfl⟩⟩

theorem permute_error (t : Tensor) (order : List Nat) (e : Error)
    (h : t.permute order = .error e) : e = .invalid_argument := by
  unfold Tensor.permute at h
  simp only [] at h
  split_ifs at h with hl
  · exact (Except.error.inj h).symm
  · cases hc : Tensor.permuteCheck t.ndim order (List.replicate t.ndim false) with
    | some e' =>
      rw [hc] at h
      have he := permuteCheck_error _ _ _ _ hc
      rw [← Except.error.inj h, he]
    | none =>
      rw [hc] at h
      exact absurd h (by simp)

/-- C25: `permute(order)` returns a tensor if and only if `order` is a permutation of
`[0..ndim)`; it fails exactly when the length of `order` differs from `ndim`, or some entry is
`≥ ndim`, or some entry occurs more than once, and the failure is `std::invalid_argument`
(no tensor is produced; the method is `const`, the source is a value it only reads). -/
theorem permute_succeeds_iff (t : Tensor) (order : List Nat) :
    ((∃ r, t.permute order = .ok r) ↔ order.Perm (List.range t.ndim)) ∧
    ((∃ e, t.permute order = .error e) ↔
      (order.length ≠ t.ndim ∨ (∃ x ∈ order, t.ndim ≤ x) ∨ ¬ order.Nodup)) ∧
    (∀ e, t.permute order = .error e → e = .invalid_argument) := by
  have hok := permute_isOk_iff t order
  refine ⟨by rw [hok, perm_range_iff], ?_, fun e he => permute_error t order e he⟩
  have hdich : (∃ e, t.permute order = .error e) ↔ ¬ ∃ r, t.permute order = .ok r := by
    cases t.permute order with
    | error e => simp
    | ok r => simp
  rw [hdich, hok]
  constructor
  · intro h
    by_contra hc
    push_neg at hc
    exact h ⟨hc.1, fun x hx => hc.2.1 x hx, hc.2.2⟩
  · rintro (h | ⟨x, hx, hge⟩ | h) ⟨hl, hlt, hnd⟩
    · exact h hl
    · have := hlt x hx
      omega
    · exact h hnd

/-- C25, three instances on a rank-2 tensor: the order `[1, 0]` is accepted, the orders
`[0, 0]` (duplicate) and `[0, 2]` (out of range) are rejected. -/
theorem permute_succeeds_iff_witness :
    (∃ r, (Tensor.create [2, 3] .F32 .CPU 0 0).permute [1, 0] = .ok r) ∧
    (∃ e, (Tensor.create [2, 3] .F32 .CPU 0 0).permute [0, 0] = .error e) ∧
    (∃ e, (Tensor.create [2, 3] .F32 .CPU 0 0).permute [0, 2] = .error e) :=
  ⟨(permute_succeeds_iff (Tensor.create [2, 3] .F32 .CPU 0 0) [1, 0]).1.mpr (by decide),
    (permute_succeeds_iff (Tensor.create [2, 3] .F32 .CPU 0 0) [0, 0]).2.1.mpr
      (Or.inr (Or.inr (by decide))),
    (permute_succeeds_iff (Tensor.create [2, 3] .F32 .CPU 0 0) [0, 2]).2.1.mpr
      (Or.inr (Or.inl ⟨2, by decide, by decide⟩))⟩

theorem setLoop_length {α : Type} (f : Nat → α) (k : Nat) (l : List α) :
    (forLoop k (fun i (m : List α) => m.set i (f i)) l).length = l.length := by
  induction k with
  | zero => rfl
  | succ k ih => rw [forLoop_succ, List.length_set, ih]

/-- A loop that stores `f i` at every index `i < k` of a vector. -/
theorem setLoop_getElem? {α : Type} (f : Nat → α) (k : Nat) (l : List α) (j : Nat) :
    (forLoop k (fun i (m : List α) => m.set i (f i)) l)[j]? =
      if j < k ∧ j < l.length then some (f j) else l[j]? := by
  induction k with
  | zero => simp [forLoop]
  | succ k ih =>
    rw [forLoop_succ, List.getElem?_set, setLoop_length, ih]
    by_cases hjk : k = j
    · subst hjk
      by_cases hl : k < l.length
      · simp [hl]
      · have hnone : l[k]? = none := List.getElem?_eq_none (by omega)
        simp [hl, hnone]
    · rw [if_neg hjk]
      by_cases h : j < k ∧ j < l.length
      · rw [if_pos h, if_pos ⟨by omega, h.2⟩]
      · rw [if_neg h, if_neg (by omega)]

theorem resize_length {α : Type} [Zero α] (l : List α) (n : Nat) :
    (Tensor.resize l n).length = n := by
  simp [Tensor.resize]
  omega

theorem resize_self {α : Type} [Zero α] (l : List α) : Tensor.resize l l.length = l := by
  simp [Tensor.resize]

/-- The reordering loop of `permute` works on the shape and on the strides separately and
leaves the dtype alone. -/
theorem permuteLoop_eq (t : Tensor) (order : List Nat) (k : Nat) (m0 : TensorMeta) :
    forLoop k
      (fun i (m : TensorMeta) =>
        { m with shape := m.shape.set i (t.meta.shape.getD (order.getD i 0) 0)
                 strides := m.strides.set i (t.meta.strides.getD (order.getD i 0) 0) }) m0 =
    { dtype := m0.dtype
      shape := forLoop k (fun i (m : List Nat) =>
        m.set i (t.meta.shape.getD (order.getD i 0) 0)) m0.shape
      strides := forLoop k (fun i (m : List Int) =>
        m.set i (t.meta.strides.getD (order.getD i 0) 0)) m0.strides } := by
  induction k with
  | zero => rfl
  | succ k ih => rw [forLoop_succ, forLoop_succ, forLoop_succ, ih]

/-- The tensor `permute` returns for a valid order. -/
theorem permute_ok (t : Tensor) (order : List Nat) (hl : order.length = t.ndim)
    (hlt : ∀ x ∈ order, x < t.ndim) (hnd : order.Nodup) :
    t.permute order = .ok
      { meta :=
          { dtype := t.meta.dtype
            shape := forLoop t.ndim (fun i (m : List Nat) =>
              m.set i (t.meta.shape.getD (order.getD i 0) 0)) (Tensor.resize t.meta.shape t.ndim)
            strides := forLoop t.ndim (fun i (m : List Int) =>
              m.set i (t.meta.strides.getD (order.getD i 0) 0))
              (Tensor.resize t.meta.strides t.ndim) }
        storage := t.storage
        offset := t.offset } := by
  have hc : Tensor.permuteCheck t.ndim order (List.replicate t.ndim false) = none :=
    (permuteCheck_none_iff t.ndim order (List.replicate t.ndim false) (by simp)).mpr
      ⟨fun x hx => ⟨hlt x hx, getD_replicate_false _ _⟩, hnd⟩
  unfold Tensor.permute
  simp only []
  rw [if_neg (by simpa using hl), hc]
  simp only []
  rw [permuteLoop_eq]

theorem getD_range (n j : Nat) (hj : j < n) : (List.range n).getD j 0 = j := by
  rw [List.getD_eq_getElem _ _ (by simpa using hj)]
  simp

theorem getD_of_getElem? {α : Type} (l : List α) (j : Nat) (d a : α) (h : l[j]? = some a) :
    l.getD j d = a := by
  rw [List.getD_eq_getElem?_getD, h]
  rfl

/-- C26: for a valid order (length `ndim`, entries below `ndim`, no duplicate) `permute`
returns a tensor of the same rank with `shape[i] = T.shape[order[i]]` and
`strides[i] = T.strides[order[i]]` for every `i < ndim`, and the dtype, offset and storage of
`T` (the method is `const`: `T` is only read). For the identity order the result is `T`
itself, for a tensor that has one stride per dimension. -/
theorem permute_spec (t : Tensor) (order : List Nat) (hl : order.length = t.ndim)
    (hlt : ∀ x ∈ order, x < t.ndim) (hnd : order.Nodup) :
    (∃ r, t.permute order = .ok r ∧ r.ndim = t.ndim ∧ r.strides.length = t.ndim ∧
      (∀ i, i < t.ndim →
        r.shape.getD i 0 = t.shape.getD (order.getD i 0) 0 ∧
        r.strides.getD i 0 = t.strides.getD (order.getD i 0) 0) ∧
      r.dtype = t.dtype ∧ r.offset = t.offset ∧ r.storage = t.storage) ∧
    (t.strides.length = t.ndim → t.permute (List.range t.ndim) = .ok t) := by
  constructor
  · refine ⟨_, permute_ok t order hl hlt hnd, ?_, ?_, fun i hi => ⟨?_, ?_⟩, rfl, rfl, rfl⟩
    · simp only [Tensor.ndim]
      rw [setLoop_length, resize_length]
    · simp only [Tensor.strides]
      rw [setLoop_length, resize_length]
    · simp only [Tensor.shape]
      exact getD_of_getElem? _ _ _ _ (by
        rw [setLoop_getElem?, if_pos ⟨hi, by rw [resize_length]; exact hi⟩])
    · simp only [Tensor.strides]
      exact getD_of_getElem? _ _ _ _ (by
        rw [setLoop_getElem?, if_pos ⟨hi, by rw [resize_length]; exact hi⟩])
  · intro hs
    rw [permute_ok t (List.range t.ndim) (by simp) (fun x hx => List.mem_range.mp hx)
      (List.nodup_range _)]
    have hshape : forLoop t.ndim (fun i (m : List Nat) =>
        m.set i (t.meta.shape.getD ((List.range t.ndim).getD i 0) 0))
        (Tensor.resize t.meta.shape t.ndim) = t.meta.shape := by
      apply List.ext_getElem?
      intro j
      have hr : Tensor.resize t.meta.shape t.ndim = t.meta.shape := resize_self _
      rw [setLoop_getElem?, hr]
      by_cases hj : j < t.ndim ∧ j < t.meta.shape.length
      · rw [if_pos hj, getD_range _ _ hj.1, List.getD_eq_getElem _ _ hj.2,
          List.getElem?_eq_getElem hj.2]
      · rw [if_neg hj]
    have hstr : forLoop t.ndim (fun i (m : List Int) =>
        m.set i (t.meta.strides.getD ((List.range t.ndim).getD i 0) 0))
        (Tensor.resize t.meta.strides t.ndim) = t.meta.strides := by
      apply List.ext_getElem?
      intro j
      have hs' : t.meta.strides.length = t.ndim := hs
      have hr : Tensor.resize t.meta.strides t.ndim = t.meta.strides := by
        rw [← hs']; exact resize_self _
      rw [setLoop_getElem?, hr]
      by_cases hj : j < t.ndim ∧ j < t.meta.strides.length
      · rw [if_pos hj, getD_range _ _ hj.1, List.getD_eq_getElem _ _ hj.2,
          List.getElem?_eq_getElem hj.2]
      · rw [if_neg hj]
    rw [hshape, hstr]

/-- C26, an instance: permuting the contiguous `[2, 3]` tensor (strides `[3, 1]`) with the
order `[1, 0]` gives shape `[3, 2]` and strides `[1, 3]` over the same storage. -/
theorem permute_spec_witness :
    ∃ r, (Tensor.create [2, 3] .F32 .CPU 0 5).permute [1, 0] = .ok r ∧
      r.shape.getD 0 0 = 3 ∧ r.shape.getD 1 0 = 2 ∧
      r.strides.getD 0 0 = 1 ∧ r.strides.getD 1 0 = 3 ∧
      r.storage = (Tensor.create [2, 3] .F32 .CPU 0 5).storage := by
  obtain ⟨r, hr, _, _, hdims, _, _, hst⟩ :=
    (permute_spec (Tensor.create [2, 3] .F32 .CPU 0 5) [1, 0] rfl (by decide) (by decide)).1
  refine ⟨r, hr, ?_, ?_, ?_, ?_, hst⟩
  · exact (hdims 0 (by decide)).1.trans (by decide)
  · exact (hdims 1 (by decide)).1.trans (by decide)
  · exact (hdims 0 (by decide)).2.trans (by decide)
  · exact (hdims 1 (by decide)).2.trans (by decide)

/-! ## view -/

/-- The two successful branches of `view` build the same tensor. -/
theorem view_eq (t : Tensor) (new_shape : List Nat) :
    t.view new_shape =
      if new_shape.prod ≠ t.numel ∨ (t.numel ≠ 0 ∧ t.isContiguous = false) then
        .error .invalid_argument
      else
        .ok { meta := { dtype := t.meta.dtype, shape := new_shape,
                        strides := rowMajorStrides new_shape }
              storage := t.storage, offset := t.offset } := by
  have hp : List.foldl (fun acc s => acc * s) 1 new_shape = new_shape.prod :=
    (List.prod_eq_foldl).symm
  unfold Tensor.view
  simp only [hp, strideLoop_eq]
  by_cases h1 : t.numel ≠ new_shape.prod
  · rw [if_pos h1, if_pos (Or.inl (fun e => h1 e.symm))]
  rw [if_neg h1]
  have h1' : t.numel = new_shape.prod := by simpa using h1
  by_cases h2 : t.numel = 0
  · rw [if_pos h2, if_neg (by
      rintro (h | ⟨h, _⟩)
      · exact h h1'.symm
      · exact h h2)]
  rw [if_neg h2]
  by_cases h3 : t.isContiguous = true
  · rw [if_neg (by simpa using h3), if_neg (by
      rintro (h | ⟨_, h⟩)
      · exact h h1'.symm
      · rw [h3] at h; exact absurd h (by simp))]
  · rw [if_pos (by simpa using h3), if_pos (Or.inr ⟨h2, by simpa using h3⟩)]

/-- C28: `view(newShape)` fails, with the `std::invalid_argument` of the incompatible-view
error, if and only if `product(newShape) ≠ numel`, or `numel ≠ 0` and the tensor is not
contiguous; otherwise it returns a tensor with shape `newShape`, its canonical row-major
strides (one per dimension, entry `i` the product of the sizes after dimension `i`, so the
last one is 1) and the offset, dtype and storage of the source. -/
theorem view_spec (t : Tensor) (new_shape : List Nat) :
    ((∃ e, t.view new_shape = .error e) ↔
      (new_shape.prod ≠ t.numel ∨ (t.numel ≠ 0 ∧ t.isContiguous = false))) ∧
    (∀ e, t.view new_shape = .error e → e = .invalid_argument) ∧
    (¬ (new_shape.prod ≠ t.numel ∨ (t.numel ≠ 0 ∧ t.isContiguous = false)) →
      ∃ r, t.view new_shape = .ok r ∧ r.shape = new_shape ∧
        r.strides = rowMajorStrides new_shape ∧
        r.strides.length = new_shape.length ∧
        (∀ i, i < new_shape.length →
          r.strides.getD i 0 = ((new_shape.drop (i + 1)).prod : Int)) ∧
        r.offset = t.offset ∧ r.dtype = t.dtype ∧ r.storage = t.storage) := by
  rw [view_eq]
  by_cases h : new_shape.prod ≠ t.numel ∨ (t.numel ≠ 0 ∧ t.isContiguous = false)
  · rw [if_pos h]
    refine ⟨⟨fun _ => h, fun _ => ⟨_, rfl⟩⟩, fun e he => (Except.error.inj he).symm,
      fun hn => absurd h hn⟩
  · rw [if_neg h]
    refine ⟨⟨?_, fun h' => absurd h' h⟩, fun e he => absurd he (by simp), fun _ =>
      ⟨_, rfl, rfl, rfl, rowMajorStrides_length _, fun i hi => rowMajorStrides_getD _ i hi,
        rfl, rfl, rfl⟩⟩
    rintro ⟨e, he⟩
    exact absurd he (by simp)

/-- C28, two instances: viewing the contiguous `[2, 3]` tensor as `[3, 2]` gives strides
`[2, 1]`; viewing it as `[4]` fails. -/
theorem view_spec_witness :
    (∃ r, (Tensor.create [2, 3] .F32 .CPU 0 0).view [3, 2] = .ok r ∧ r.shape = [3, 2] ∧
      r.strides = [2, 1]) ∧
    (∃ e, (Tensor.create [2, 3] .F32 .CPU 0 0).view [4] = .error e) := by
  obtain ⟨r, hr, hs, hst, _⟩ :=
    (view_spec (Tensor.create [2, 3] .F32 .CPU 0 0) [3, 2]).2.2 (by decide)
  exact ⟨⟨r, hr, hs, hst.trans (by decide)⟩,
    (view_spec (Tensor.create [2, 3] .F32 .CPU 0 0) [4]).1.mpr (Or.inl (by decide))⟩

/-- C27 (as amended): `view` fails on every non-contiguous source that has at least one
element, whatever the new shape is; the failure is `std::invalid_argument`. -/
theorem view_noncontiguous_fails (t : Tensor) (new_shape : List Nat)
    (hc : t.isContiguous = false) (hn : t.numel ≠ 0) :
    t.view new_shape = .error .invalid_argument := by
  rw [view_eq, if_pos (Or.inr ⟨hn, hc⟩)]

theorem view_noncontiguous_fails_witness :
    transposed2x2.view [4] = .error .invalid_argument :=
  view_noncontiguous_fails transposed2x2 [4] (by decide) (by decide)

/-- C27 as stated fails for an empty source: the transpose view of the empty `[0, 2]` tensor
(shape `[2, 0]`, strides `[1, 2]`) is not contiguous, and viewing it as `[0]` succeeds, since
`view` returns for a tensor without elements before it looks at the layout. -/
theorem view_empty_noncontiguous_succeeds :
    (Tensor.create [0, 2] .F32 .CPU 0 1).permute [1, 0] = .ok emptyTransposed ∧
    emptyTransposed.isContiguous = false ∧
    ∃ r, emptyTransposed.view [0] = .ok r ∧ r.shape = [0] := by
  refine ⟨rfl, by decide, ⟨_, rfl, rfl⟩⟩

/-! ## slice -/

/-- The outcome of `slice`, check by check. -/
theorem slice_eq (t : Tensor) (dim start end_ : Nat) :
    t.slice dim start end_ =
      if dim < t.ndim ∧ start ≤ end_ ∧ end_ ≤ t.shape.getD dim 0 then
        .ok { meta := { dtype := t.meta.dtype, shape := t.meta.shape.set dim (end_ - start),
                        strides := t.meta.strides }
              storage := t.storage
              offset := if start = end_ then t.offset
                else (t.offset + start * toSizeT (t.meta.strides.getD dim 0) *
                  utils.dsize t.meta.dtype) % 2 ^ 64 }
      else .error .out_of_range := by
  unfold Tensor.slice
  simp only []
  by_cases h1 : dim ≥ t.ndim
  · rw [if_pos h1, if_neg (by omega)]
  rw [if_neg h1]
  by_cases h2 : start > end_
  · rw [if_pos h2, if_neg (by omega)]
  rw [if_neg h2]
  by_cases h3 : end_ > t.shape.getD dim 0
  · rw [if_pos h3, if_neg (by omega)]
  rw [if_neg h3, if_pos (show dim < t.ndim ∧ start ≤ end_ ∧ end_ ≤ t.shape.getD dim 0 from
    ⟨by omega, by omega, by omega⟩)]
  by_cases h4 : start = end_
  · rw [if_pos h4, if_pos h4, h4, Nat.sub_self]
  · rw [if_neg h4, if_neg h4]

/-- C29: `slice(dim, start, end)` returns a tensor if and only if `dim < ndim` and
`start ≤ end ≤ shape[dim]`; it fails exactly when `dim ≥ ndim`, or `start > end`, or
`end > shape[dim]`. -/
theorem slice_succeeds_iff (t : Tensor) (dim start end_ : Nat) :
    ((∃ r, t.slice dim start end_ = .ok r) ↔
      (dim < t.ndim ∧ start ≤ end_ ∧ end_ ≤ t.shape.getD dim 0)) ∧
    ((∃ e, t.slice dim start end_ = .error e) ↔
      (dim ≥ t.ndim ∨ start > end_ ∨ end_ > t.shape.getD dim 0)) := by
  rw [slice_eq]
  by_cases h : dim < t.ndim ∧ start ≤ end_ ∧ end_ ≤ t.shape.getD dim 0
  · rw [if_pos h]
    refine ⟨⟨fun _ => h, fun _ => ⟨_, rfl⟩⟩, ⟨?_, fun h' => ?_⟩⟩
    · rintro ⟨e, he⟩
      exact absurd he (by simp)
    · omega
  · rw [if_neg h]
    refine ⟨⟨?_, fun h' => absurd h' h⟩, ⟨fun _ => ?_, fun _ => ⟨_, rfl⟩⟩⟩
    · rintro ⟨r, hr⟩
      exact absurd hr (by simp)
    · by_contra hc
      exact h (by omega)

/-- C29, instances on the `[2, 3]` tensor: `slice(1, 1, 3)` and the empty `slice(1, 2, 2)`
succeed; `slice(2, 0, 1)`, `slice(1, 2, 1)` and `slice(1, 0, 4)` fail. -/
theorem slice_succeeds_iff_witness :
    (∃ r, (Tensor.create [2, 3] .F32 .CPU 0 0).slice 1 1 3 = .ok r) ∧
    (∃ r, (Tensor.create [2, 3] .F32 .CPU 0 0).slice 1 2 2 = .ok r) ∧
    (∃ e, (Tensor.create [2, 3] .F32 .CPU 0 0).slice 2 0 1 = .error e) ∧
    (∃ e, (Tensor.create [2, 3] .F32 .CPU 0 0).slice 1 2 1 = .error e) ∧
    (∃ e, (Tensor.create [2, 3] .F32 .CPU 0 0).slice 1 0 4 = .error e) :=
  ⟨(slice_succeeds_iff (Tensor.create [2, 3] .F32 .CPU 0 0) 1 1 3).1.mpr (by decide),
    (slice_succeeds_iff (Tensor.create [2, 3] .F32 .CPU 0 0) 1 2 2).1.mpr (by decide),
    (slice_succeeds_iff (Tensor.create [2, 3] .F32 .CPU 0 0) 2 0 1).2.mpr (by decide),
    (slice_succeeds_iff (Tensor.create [2, 3] .F32 .CPU 0 0) 1 2 1).2.mpr (by decide),
    (slice_succeeds_iff (Tensor.create [2, 3] .F32 .CPU 0 0) 1 0 4).2.mpr (by decide)⟩

theorem getD_set_eq {α : Type} (l : List α) (i j : Nat) (a d : α) :
    (l.set i a).getD j d = if i = j ∧ i < l.length then a else l.getD j d := by
  rw [List.getD_eq_getElem?_getD, List.getElem?_set, List.getD_eq_getElem?_getD]
  by_cases h : i = j
  · subst h
    by_cases hl : i < l.length
    · simp [hl]
    · have hnone : l[i]? = none := List.getElem?_eq_none (by omega)
      simp [hl, hnone]
  · simp [h]

/-- C30: for every valid slice (`dim < ndim`, `start ≤ end ≤ shape[dim]`) the result has the
rank of the source, `shape[dim] = end - start`, every other size unchanged, the strides, the
dtype and the storage of the source; when `start = end` the result has no element. -/
theorem slice_spec (t : Tensor) (dim start end_ : Nat) (hd : dim < t.ndim)
    (hse : start ≤ end_) (hes : end_ ≤ t.shape.getD dim 0) :
    ∃ r, t.slice dim start end_ = .ok r ∧
      r.ndim = t.ndim ∧
      r.shape.getD dim 0 = end_ - start ∧
      (∀ i, i ≠ dim → r.shape.getD i 0 = t.shape.getD i 0) ∧
      r.strides = t.strides ∧ r.dtype = t.dtype ∧ r.storage = t.storage ∧
      (start = end_ → r.numel = 0) := by
  rw [slice_eq, if_pos ⟨hd, hse, hes⟩]
  have hd' : dim < t.meta.shape.length := hd
  refine ⟨_, rfl, ?_, ?_, fun i hi => ?_, rfl, rfl, rfl, fun hs => ?_⟩
  · simp only [Tensor.ndim, List.length_set]
  · simp only [Tensor.shape]
    rw [getD_set_eq, if_pos ⟨rfl, hd'⟩]
  · simp only [Tensor.shape]
    rw [getD_set_eq, if_neg (fun h => hi h.1.symm)]
  · rw [numel_eq_prod]
    simp only [Tensor.shape]
    apply List.prod_eq_zero
    rw [hs, Nat.sub_self]
    exact List.mem_iff_getElem.mpr ⟨dim, by simpa using hd', by simp⟩

/-- C30, two instances on the `[2, 3]` tensor: `slice(1, 1, 3)` has shape `[2, 2]` and
strides `[3, 1]`; `slice(1, 2, 2)` has no element. -/
theorem slice_spec_witness :
    (∃ r, (Tensor.create [2, 3] .F32 .CPU 0 0).slice 1 1 3 = .ok r ∧
      r.shape.getD 0 0 = 2 ∧ r.shape.getD 1 0 = 2 ∧ r.strides = [3, 1]) ∧
    (∃ r, (Tensor.create [2, 3] .F32 .CPU 0 0).slice 1 2 2 = .ok r ∧ r.numel = 0) := by
  obtain ⟨r, hr, _, h1, h2, h3, _⟩ :=
    slice_spec (Tensor.create [2, 3] .F32 .CPU 0 0) 1 1 3 (by decide) (by decide) (by decide)
  obtain ⟨r', hr', _, _, _, _, _, _, h0⟩ :=
    slice_spec (Tensor.create [2, 3] .F32 .CPU 0 0) 1 2 2 (by decide) (by decide) (by decide)
  exact ⟨⟨r, hr, (h2 0 (by decide)).trans (by decide), h1, h3.trans (by decide)⟩,
    ⟨r', hr', h0 rfl⟩⟩

/-! ## Failed validation leaves the outputs alone -/

theorem embedding_err_kind {T : Type} (out : Buf T) (index : Nat → Int) (weight : Src T)
    (batch hidden vocab : Nat) (x : Error)
    (h : (embedding_ out index weight batch hidden vocab).err = some x) :
    x = .out_of_range := by
  unfold embedding_ at h
  obtain ⟨i, _, hi⟩ := forLoopE_err_some batch _
    (fun i => if index i < 0 ∨ vocab ≤ (index i).toNat then some Error.out_of_range else none)
    (fun i t => by
      by_cases hb : index i < 0 ∨ vocab ≤ (index i).toNat
      · simp only [if_pos hb]
      · simp only [if_neg hb]) out x h
  by_cases hb : index i < 0 ∨ vocab ≤ (index i).toNat
  · rw [if_pos hb] at hi
    exact (Option.some.inj hi).symm
  · rw [if_neg hb] at hi
    exact absurd hi (by simp)

theorem self_attention_err_kind {T F : Type} [LinearOrderedField F] (cast : F → T)
    (toFloat : T → F) (exp : F → F) (attn_val : Buf T) (q k v : Nat → T)
    (seqlen nhead d total_len nkvhead dv : Nat) (scale : F)
    (k_alloc v_alloc : Option (Buf T)) (qk_alloc : Option (Buf F))
    (h : (self_attention_ cast toFloat exp attn_val q k v seqlen nhead d total_len nkvhead dv
      scale k_alloc v_alloc qk_alloc).err = some .invalid_argument) : False := by
  unfold self_attention_ at h
  cases k_alloc <;> cases v_alloc <;> cases qk_alloc <;> simp at h

theorem cpu_rearrange_frame {T : Type} (out : Buf T) (inp : Src T)
    (data_type : llaisysDataType_t)
    (total_elements elem_size : Nat) :
    ((ops.cpu.rearrange out inp data_type total_elements elem_size).err = some .invalid_argument →
      (ops.cpu.rearrange out inp data_type total_elements elem_size).out = out) := by
  unfold ops.cpu.rearrange
  by_cases hz : total_elements = 0 ∨ elem_size = 0
  · rw [if_pos hz]; exact fun _ => rfl
  rw [if_neg hz]
  cases data_type <;> first | exact fun _ => rfl | (intro h; exact absurd h (by simp))

theorem cpu_linear_frame {T F : Type} [Add F] [Mul F] [Zero F] (cast : F → T) (toFloat : T → F)
    (out : Buf T) (inp weight : Src T) (bias : Option (Src T))
    (data_type : llaisysDataType_t) (N in_features out_features : Nat) :
    ((ops.cpu.linear cast toFloat out inp weight bias data_type N in_features out_features).err = some .invalid_argument →
      (ops.cpu.linear cast toFloat out inp weight bias data_type N in_features out_features).out = out) := by
  unfold ops.cpu.linear
  by_cases hz : N = 0 ∨ in_features = 0 ∨ out_features = 0
  · rw [if_pos hz]; exact fun _ => rfl
  rw [if_neg hz]
  cases data_type <;> first | exact fun _ => rfl | (intro h; exact absurd h (by simp))

theorem cpu_embedding_frame {T : Type} (out : Buf T) (index : Nat → Int) (weight : Src T)
    (data_type : llaisysDataType_t) (batch_size hidden_dim vocab_size : Nat) :
    ((ops.cpu.embedding out index weight data_type batch_size hidden_dim vocab_size).err = some .invalid_argument →
      (ops.cpu.embedding out index weight data_type batch_size hidden_dim vocab_size).out = out) := by
  unfold ops.cpu.embedding
  by_cases hz : batch_size = 0 ∨ hidden_dim = 0 ∨ vocab_size = 0
  · rw [if_pos hz]; exact fun _ => rfl
  rw [if_neg hz]
  cases data_type <;> first | exact fun _ => rfl | (intro h; exact absurd (embedding_err_kind _ _ _ _ _ _ _ h) (by simp))

theorem cpu_rms_norm_frame {T F : Type} [Field F] (cast : F → T) (toFloat : T → F) (sqrt : F → F)
    (out : Buf T) (inp weight : Nat → T) (data_type : llaisysDataType_t)
    (batch_size hidden_dim : Nat) (eps : F) :
    ((ops.cpu.rms_norm cast toFloat sqrt out inp weight data_type batch_size hidden_dim eps).err = some .invalid_argument →
      (ops.cpu.rms_norm cast toFloat sqrt out inp weight data_type batch_size hidden_dim eps).out = out) := by
  unfold ops.cpu.rms_norm
  by_cases hz : batch_size = 0 ∨ hidden_dim = 0
  · rw [if_pos hz]; exact fun _ => rfl
  rw [if_neg hz]
  cases data_type <;> first | exact fun _ => rfl | (intro h; exact absurd h (by simp))

theorem cpu_rope_frame {T F : Type} [Add F] [Sub F] [Mul F] [Div F] [OfNat F 2]
    (cast : F → T) (toFloat : T → F) (sizeToFloat : Nat → F)
    (cos sin : F → F) (pow : F → F → F) (out : Buf T) (inp : Src T) (pos_ids : Nat → Int)
    (data_type : llaisysDataType_t) (seq_len n_head d : Nat) (theta : F) :
    ((ops.cpu.rope cast toFloat sizeToFloat cos sin pow out inp pos_ids data_type seq_len n_head
        d theta).err = some .invalid_argument →
      (ops.cpu.rope cast toFloat sizeToFloat cos sin pow out inp pos_ids data_type seq_len n_head
        d theta).out = out) := by
  unfold ops.cpu.rope
  by_cases hz : seq_len = 0 ∨ n_head = 0 ∨ d = 0 ∨ d % 2 ≠ 0
  · rw [if_pos hz]; exact fun _ => rfl
  rw [if_neg hz]
  cases data_type <;> first | exact fun _ => rfl | (intro h; exact absurd h (by simp))

theorem cpu_swiglu_frame {T F : Type} [Field F] (cast : F → T) (toFloat : T → F) (exp : F → F)
    (out : Buf T) (gate up : Nat → T) (data_type : llaisysDataType_t)
    (seqlen intermediate_size : Nat) :
    ((ops.cpu.swiglu cast toFloat exp out gate up data_type seqlen intermediate_size).err = some .invalid_argument →
      (ops.cpu.swiglu cast toFloat exp out gate up data_type seqlen intermediate_size).out = out) := by
  unfold ops.cpu.swiglu
  by_cases hz : seqlen = 0 ∨ intermediate_size = 0
  · rw [if_pos hz]; exact fun _ => rfl
  rw [if_neg hz]
  cases data_type <;> first | exact fun _ => rfl | (intro h; exact absurd h (by simp))

theorem cpu_argmax_frame {T F : Type} [LinearOrder F] (toFloat : T → F)
    (max_idx : Buf Nat) (max_val : Buf T) (vals : Nat → T) (val_type : llaisysDataType_t)
    (numel : Nat) :
    ((ops.cpu.argmax toFloat max_idx max_val vals val_type numel).err =
        some .invalid_argument →
      (ops.cpu.argmax toFloat max_idx max_val vals val_type numel).out =
        (max_idx, max_val)) := by
  unfold ops.cpu.argmax
  by_cases hz : numel = 0
  · rw [if_pos hz]; exact fun _ => rfl
  rw [if_neg hz]
  cases val_type <;> first | exact fun _ => rfl | (intro h; exact absurd h (by simp))

theorem cpu_self_attention_frame {T F : Type} [LinearOrderedField F] (cast : F → T)
    (toFloat : T → F) (exp : F → F) (attn_val : Buf T) (q k v : Nat → T)
    (data_type : llaisysDataType_t) (seqlen nhead d total_len nkvhead dv : Nat) (scale : F)
    (k_alloc v_alloc : Option (Buf T)) (qk_alloc : Option (Buf F)) :
    ((ops.cpu.self_attention cast toFloat exp attn_val q k v data_type seqlen nhead d
        total_len nkvhead dv scale k_alloc v_alloc qk_alloc).err = some .invalid_argument →
      (ops.cpu.self_attention cast toFloat exp attn_val q k v data_type seqlen nhead d
        total_len nkvhead dv scale k_alloc v_alloc qk_alloc).out = attn_val) := by
  unfold ops.cpu.self_attention
  by_cases hz : seqlen = 0 ∨ nhead = 0 ∨ d = 0 ∨ total_len = 0 ∨ nkvhead = 0 ∨ dv = 0
  · rw [if_pos hz]; exact fun _ => rfl
  rw [if_neg hz]
  by_cases hm : nhead % nkvhead ≠ 0
  · rw [if_pos hm]; exact fun _ => rfl
  rw [if_neg hm]
  by_cases hl : total_len < seqlen
  · rw [if_pos hl]; exact fun _ => rfl
  rw [if_neg hl]
  cases data_type <;>
    first | exact fun _ => rfl | (intro h; exact absurd h (self_attention_err_kind _ _ _ _ _ _ _ _ _ _ _ _ _ _ _ _ _))

/-- An InvalidArgument failure of `ops::argmax` leaves both outputs as they were. -/
theorem ops_argmax_frame {T F : Type} [LinearOrder F] (toFloat : T → F)
    (max_idx max_val vals : Tensor) (max_idxD : Buf Nat) (max_valD : Buf T) (valsD : Nat → T) :
    ((ops.argmax toFloat max_idx max_val vals max_idxD max_valD valsD).err = some .invalid_argument →
      (ops.argmax toFloat max_idx max_val vals max_idxD max_valD valsD).out = (max_idxD, max_valD)) := by
  unfold ops.argmax
  by_cases h1 : max_idx.deviceType ≠ max_val.deviceType ∨ max_idx.deviceType ≠ vals.deviceType ∨
      max_idx.deviceId ≠ max_val.deviceId ∨ max_idx.deviceId ≠ vals.deviceId
  · rw [if_pos h1]; exact fun _ => rfl
  rw [if_neg h1]
  by_cases h2 : max_val.dtype ≠ vals.dtype
  · rw [if_pos h2]; exact fun _ => rfl
  rw [if_neg h2]
  by_cases h3 : ¬ (vals.shape.length = 1)
  · rw [if_pos h3]; exact fun _ => rfl
  rw [if_neg h3]
  by_cases h4 : ¬ (max_idx.shape.length = 1 ∧ max_idx.numel = 1)
  · rw [if_pos h4]; exact fun _ => rfl
  rw [if_neg h4]
  by_cases h5 : ¬ (max_val.shape.length = 1 ∧ max_val.numel = 1)
  · rw [if_pos h5]; exact fun _ => rfl
  rw [if_neg h5]
  by_cases h6 : ¬ (max_idx.isContiguous = true ∧ max_val.isContiguous = true ∧
      vals.isContiguous = true)
  · rw [if_pos h6]; exact fun _ => rfl
  rw [if_neg h6]
  by_cases hcpu : vals.deviceType = .CPU
  · rw [if_pos hcpu]
    exact cpu_argmax_frame toFloat max_idxD max_valD valsD vals.dtype vals.numel
  · rw [if_neg hcpu]; exact fun _ => rfl

/-- An InvalidArgument failure of `ops::embedding` leaves `out` as it was. -/
theorem ops_embedding_frame {T : Type} (out index weight : Tensor) (outD : Buf T)
    (indexD : Nat → Int) (weightD : Src T) :
    ((ops.embedding out index weight outD indexD weightD).err = some .invalid_argument →
      (ops.embedding out index weight outD indexD weightD).out = outD) := by
  unfold ops.embedding
  by_cases h1 : out.deviceType ≠ index.deviceType ∨ out.deviceType ≠ weight.deviceType ∨
      out.deviceId ≠ index.deviceId ∨ out.deviceId ≠ weight.deviceId
  · rw [if_pos h1]; exact fun _ => rfl
  rw [if_neg h1]
  by_cases h2 : out.shape.length ≠ 2
  · rw [if_pos h2]; exact fun _ => rfl
  rw [if_neg h2]
  by_cases h3 : index.shape.length ≠ 1
  · rw [if_pos h3]; exact fun _ => rfl
  rw [if_neg h3]
  by_cases h4 : weight.shape.length ≠ 2
  · rw [if_pos h4]; exact fun _ => rfl
  rw [if_neg h4]
  by_cases h5 : out.shape.getD 0 0 ≠ index.numel
  · rw [if_pos h5]; exact fun _ => rfl
  rw [if_neg h5]
  by_cases h6 : out.shape.getD 1 0 ≠ weight.shape.getD 1 0
  · rw [if_pos h6]; exact fun _ => rfl
  rw [if_neg h6]
  by_cases h7 : index.dtype ≠ ops.LLAISYS_DTYPE_INT64
  · rw [if_pos h7]; exact fun _ => rfl
  rw [if_neg h7]
  by_cases h8 : out.dtype ≠ weight.dtype
  · rw [if_pos h8]; exact fun _ => rfl
  rw [if_neg h8]
  by_cases h9 : ¬ out.isContiguous = true ∨ ¬ index.isContiguous = true ∨
      ¬ weight.isContiguous = true
  · rw [if_pos h9]; exact fun _ => rfl
  rw [if_neg h9]
  by_cases hcpu : out.deviceType = .CPU
  · rw [if_pos hcpu]
    exact cpu_embedding_frame outD indexD weightD weight.dtype _ _ _
  · rw [if_neg hcpu]; exact fun _ => rfl

/-- An InvalidArgument failure of `ops::linear` leaves `out` as it was. -/
theorem ops_linear_frame {T F : Type} [Add F] [Mul F] [Zero F] (cast : F → T)
    (toFloat : T → F) (out inp weight : Tensor) (bias : Option Tensor) (outD : Buf T)
    (inD weightD biasD : Src T) :
    ((ops.linear cast toFloat out inp weight bias outD inD weightD biasD).err = some .invalid_argument →
      (ops.linear cast toFloat out inp weight bias outD inD weightD biasD).out = outD) := by
  unfold ops.linear
  by_cases h1 : out.deviceType ≠ inp.deviceType ∨ out.deviceType ≠ weight.deviceType ∨
      out.deviceId ≠ inp.deviceId ∨ out.deviceId ≠ weight.deviceId
  · rw [if_pos h1]; exact fun _ => rfl
  rw [if_neg h1]
  by_cases h2 : ¬ ops.is_tensor_null bias = true ∧
      (out.deviceType ≠ (bias.getD out).deviceType ∨ out.deviceId ≠ (bias.getD out).deviceId)
  · rw [if_pos h2]; exact fun _ => rfl
  rw [if_neg h2]
  by_cases h3 : out.shape.length ≠ 2
  · rw [if_pos h3]; exact fun _ => rfl
  rw [if_neg h3]
  by_cases h4 : inp.shape.length ≠ 2
  · rw [if_pos h4]; exact fun _ => rfl
  rw [if_neg h4]
  by_cases h5 : weight.shape.length ≠ 2
  · rw [if_pos h5]; exact fun _ => rfl
  rw [if_neg h5]
  by_cases h6 : ¬ ops.is_tensor_null bias = true ∧ (bias.getD out).shape.length ≠ 1
  · rw [if_pos h6]; exact fun _ => rfl
  rw [if_neg h6]
  by_cases h7 : inp.shape.getD 1 0 ≠ weight.shape.getD 1 0
  · rw [if_pos h7]; exact fun _ => rfl
  rw [if_neg h7]
  by_cases h8 : out.shape.getD 0 0 ≠ inp.shape.getD 0 0
  · rw [if_pos h8]; exact fun _ => rfl
  rw [if_neg h8]
  by_cases h9 : out.shape.getD 1 0 ≠ weight.shape.getD 0 0
  · rw [if_pos h9]; exact fun _ => rfl
  rw [if_neg h9]
  by_cases h10 : ¬ ops.is_tensor_null bias = true ∧ (bias.getD out).numel ≠ weight.shape.getD 0 0
  · rw [if_pos h10]; exact fun _ => rfl
  rw [if_neg h10]
  by_cases h11 : inp.dtype ≠ out.dtype ∨ weight.dtype ≠ out.dtype
  · rw [if_pos h11]; exact fun _ => rfl
  rw [if_neg h11]
  by_cases h12 : ¬ ops.is_tensor_null bias = true ∧ (bias.getD out).dtype ≠ out.dtype
  · rw [if_pos h12]; exact fun _ => rfl
  rw [if_neg h12]
  by_cases h13 : ¬ out.isContiguous = true ∨ ¬ inp.isContiguous = true ∨ ¬ weight.isContiguous = true
  · rw [if_pos h13]; exact fun _ => rfl
  rw [if_neg h13]
  by_cases h14 : ¬ ops.is_tensor_null bias = true ∧ ¬ (bias.getD out).isContiguous = true
  · rw [if_pos h14]; exact fun _ => rfl
  rw [if_neg h14]
  by_cases hcpu : out.deviceType = .CPU
  · rw [if_pos hcpu]
    exact cpu_linear_frame cast toFloat outD inD weightD _ out.dtype _ _ _
  · rw [if_neg hcpu]; exact fun _ => rfl

/-- An InvalidArgument failure of `ops::rearrange` leaves `out` as it was. -/
theorem ops_rearrange_frame {T : Type} (out inp : Tensor) (outD : Buf T) (inD : Src T) :
    ((ops.rearrange out inp outD inD).err = some .invalid_argument →
      (ops.rearrange out inp outD inD).out = outD) := by
  unfold ops.rearrange
  by_cases h1 : out.deviceType ≠ inp.deviceType ∨ out.deviceId ≠ inp.deviceId
  · rw [if_pos h1]; exact fun _ => rfl
  rw [if_neg h1]
  by_cases h2 : out.shape ≠ inp.shape
  · rw [if_pos h2]; exact fun _ => rfl
  rw [if_neg h2]
  by_cases h3 : inp.dtype ≠ out.dtype
  · rw [if_pos h3]; exact fun _ => rfl
  rw [if_neg h3]
  cases ops.get_dtype_size out.dtype with
  | none => exact fun _ => rfl
  | some elem_size =>
    by_cases hcpu : out.deviceType = .CPU
    · simp only [if_pos hcpu]
      exact cpu_rearrange_frame outD inD out.dtype _ elem_size
    · simp only [if_neg hcpu]
      exact fun _ => trivial

/-- An InvalidArgument failure of `ops::rms_norm` leaves `out` as it was. -/
theorem ops_rms_norm_frame {T F : Type} [Field F] (cast : F → T) (toFloat : T → F)
    (sqrt : F → F) (out inp weight : Tensor) (outD : Buf T) (inD weightD : Nat → T) (eps : F) :
    ((ops.rms_norm cast toFloat sqrt out inp weight outD inD weightD eps).err = some .invalid_argument →
      (ops.rms_norm cast toFloat sqrt out inp weight outD inD weightD eps).out = outD) := by
  unfold ops.rms_norm
  by_cases h1 : out.deviceType ≠ inp.deviceType ∨ out.deviceType ≠ weight.deviceType ∨
      out.deviceId ≠ inp.deviceId ∨ out.deviceId ≠ weight.deviceId
  · rw [if_pos h1]; exact fun _ => rfl
  rw [if_neg h1]
  by_cases h2 : out.shape.length ≠ 2 ∨ inp.shape.length ≠ 2
  · rw [if_pos h2]; exact fun _ => rfl
  rw [if_neg h2]
  by_cases h3 : weight.shape.length ≠ 1
  · rw [if_pos h3]; exact fun _ => rfl
  rw [if_neg h3]
  by_cases h4 : out.shape.getD 0 0 ≠ inp.shape.getD 0 0 ∨ out.shape.getD 1 0 ≠ inp.shape.getD 1 0
  · rw [if_pos h4]; exact fun _ => rfl
  rw [if_neg h4]
  by_cases h5 : weight.shape.getD 0 0 ≠ inp.shape.getD 1 0
  · rw [if_pos h5]; exact fun _ => rfl
  rw [if_neg h5]
  by_cases h6 : inp.dtype ≠ out.dtype ∨ weight.dtype ≠ out.dtype
  · rw [if_pos h6]; exact fun _ => rfl
  rw [if_neg h6]
  by_cases h7 : ¬ out.isContiguous = true ∨ ¬ inp.isContiguous = true ∨
      ¬ weight.isContiguous = true
  · rw [if_pos h7]; exact fun _ => rfl
  rw [if_neg h7]
  by_cases hcpu : out.deviceType = .CPU
  · rw [if_pos hcpu]
    exact cpu_rms_norm_frame cast toFloat sqrt outD inD weightD out.dtype _ _ eps
  · rw [if_neg hcpu]; exact fun _ => rfl

/-- An InvalidArgument failure of `ops::rope` leaves `out` as it was. -/
theorem ops_rope_frame {T F : Type} [Add F] [Sub F] [Mul F] [Div F] [OfNat F 2]
    (cast : F → T) (toFloat : T → F) (sizeToFloat : Nat → F)
    (cos sin : F → F) (pow : F → F → F) (out inp pos_ids : Tensor) (outD : Buf T)
    (inD : Src T) (pos_idsD : Nat → Int) (theta : F) :
    ((ops.rope cast toFloat sizeToFloat cos sin pow out inp pos_ids outD inD pos_idsD
        theta).err = some .invalid_argument →
      (ops.rope cast toFloat sizeToFloat cos sin pow out inp pos_ids outD inD pos_idsD
        theta).out = outD) := by
  unfold ops.rope
  by_cases h1 : out.deviceType ≠ inp.deviceType ∨ out.deviceType ≠ pos_ids.deviceType ∨
      out.deviceId ≠ inp.deviceId ∨ out.deviceId ≠ pos_ids.deviceId
  · rw [if_pos h1]; exact fun _ => rfl
  rw [if_neg h1]
  by_cases h2 : out.shape.length ≠ 3 ∨ inp.shape.length ≠ 3 ∨ pos_ids.shape.length ≠ 1
  · rw [if_pos h2]; exact fun _ => rfl
  rw [if_neg h2]
  by_cases h3 : out.shape ≠ inp.shape
  · rw [if_pos h3]; exact fun _ => rfl
  rw [if_neg h3]
  by_cases h4 : pos_ids.shape.getD 0 0 ≠ inp.shape.getD 0 0
  · rw [if_pos h4]; exact fun _ => rfl
  rw [if_neg h4]
  by_cases h5 : inp.shape.getD 2 0 % 2 ≠ 0
  · rw [if_pos h5]; exact fun _ => rfl
  rw [if_neg h5]
  by_cases h6 : inp.dtype ≠ out.dtype
  · rw [if_pos h6]; exact fun _ => rfl
  rw [if_neg h6]
  by_cases h7 : ¬ out.isContiguous = true ∨ ¬ inp.isContiguous = true ∨
      ¬ pos_ids.isContiguous = true
  · rw [if_pos h7]; exact fun _ => rfl
  rw [if_neg h7]
  by_cases hcpu : out.deviceType = .CPU
  · rw [if_pos hcpu]
    exact cpu_rope_frame cast toFloat sizeToFloat cos sin pow outD inD pos_idsD out.dtype
      _ _ _ theta
  · rw [if_neg hcpu]; exact fun _ => rfl

/-- An InvalidArgument failure of `ops::self_attention` leaves `attn_val` as it was. -/
theorem ops_self_attention_frame {T F : Type} [LinearOrderedField F] (cast : F → T)
    (toFloat : T → F) (exp : F → F) (attn_val q k v : Tensor) (attn_valD : Buf T)
    (qD kD vD : Nat → T) (scale : F) (k_alloc v_alloc : Option (Buf T))
    (qk_alloc : Option (Buf F)) :
    ((ops.self_attention cast toFloat exp attn_val q k v attn_valD qD kD vD scale
        k_alloc v_alloc qk_alloc).err = some .invalid_argument →
      (ops.self_attention cast toFloat exp attn_val q k v attn_valD qD kD vD scale
        k_alloc v_alloc qk_alloc).out = attn_valD) := by
  unfold ops.self_attention
  by_cases h1 : attn_val.deviceType ≠ q.deviceType ∨ attn_val.deviceType ≠ k.deviceType ∨
      attn_val.deviceType ≠ v.deviceType ∨ attn_val.deviceId ≠ q.deviceId ∨
      attn_val.deviceId ≠ k.deviceId ∨ attn_val.deviceId ≠ v.deviceId
  · rw [if_pos h1]; exact fun _ => rfl
  rw [if_neg h1]
  by_cases h2 : attn_val.shape.length ≠ 3 ∨ q.shape.length ≠ 3 ∨ k.shape.length ≠ 3 ∨
      v.shape.length ≠ 3
  · rw [if_pos h2]; exact fun _ => rfl
  rw [if_neg h2]
  by_cases h3 : attn_val.shape ≠ [q.shape.getD 0 0, q.shape.getD 1 0, v.shape.getD 2 0]
  · rw [if_pos h3]; exact fun _ => rfl
  rw [if_neg h3]
  by_cases h4 : k.shape.getD 2 0 ≠ q.shape.getD 2 0
  · rw [if_pos h4]; exact fun _ => rfl
  rw [if_neg h4]
  by_cases h5 : v.shape.getD 0 0 ≠ k.shape.getD 0 0 ∨ v.shape.getD 1 0 ≠ k.shape.getD 1 0
  · rw [if_pos h5]; exact fun _ => rfl
  rw [if_neg h5]
  by_cases h6 : k.shape.getD 1 0 = 0
  · rw [if_pos h6]; exact fun _ => rfl
  rw [if_neg h6]
  by_cases h7 : q.shape.getD 1 0 % k.shape.getD 1 0 ≠ 0
  · rw [if_pos h7]; exact fun _ => rfl
  rw [if_neg h7]
  by_cases h8 : q.dtype ≠ attn_val.dtype ∨ k.dtype ≠ attn_val.dtype ∨ v.dtype ≠ attn_val.dtype
  · rw [if_pos h8]; exact fun _ => rfl
  rw [if_neg h8]
  by_cases h9 : ¬ attn_val.isContiguous = true ∨ ¬ q.isContiguous = true ∨
      ¬ k.isContiguous = true ∨ ¬ v.isContiguous = true
  · rw [if_pos h9]; exact fun _ => rfl
  rw [if_neg h9]
  by_cases hcpu : attn_val.deviceType = .CPU
  · rw [if_pos hcpu]
    exact cpu_self_attention_frame cast toFloat exp attn_valD qD kD vD attn_val.dtype _ _ _ _ _ _
      scale k_alloc v_alloc qk_alloc
  · rw [if_neg hcpu]; exact fun _ => rfl

/-- An InvalidArgument failure of `ops::swiglu` leaves `out` as it was. -/
theorem ops_swiglu_frame {T F : Type} [Field F] (cast : F → T) (toFloat : T → F)
    (exp : F → F) (out gate up : Tensor) (outD : Buf T) (gateD upD : Nat → T) :
    ((ops.swiglu cast toFloat exp out gate up outD gateD upD).err = some .invalid_argument →
      (ops.swiglu cast toFloat exp out gate up outD gateD upD).out = outD) := by
  unfold ops.swiglu
  by_cases h1 : out.deviceType ≠ gate.deviceType ∨ out.deviceType ≠ up.deviceType ∨
      out.deviceId ≠ gate.deviceId ∨ out.deviceId ≠ up.deviceId
  · rw [if_pos h1]; exact fun _ => rfl
  rw [if_neg h1]
  by_cases h2 : out.shape.length ≠ 2 ∨ gate.shape.length ≠ 2 ∨ up.shape.length ≠ 2
  · rw [if_pos h2]; exact fun _ => rfl
  rw [if_neg h2]
  by_cases h3 : gate.shape ≠ out.shape ∨ up.shape ≠ out.shape
  · rw [if_pos h3]; exact fun _ => rfl
  rw [if_neg h3]
  by_cases h4 : gate.dtype ≠ out.dtype ∨ up.dtype ≠ out.dtype
  · rw [if_pos h4]; exact fun _ => rfl
  rw [if_neg h4]
  by_cases h5 : ¬ out.isContiguous = true ∨ ¬ gate.isContiguous = true ∨
      ¬ up.isContiguous = true
  · rw [if_pos h5]; exact fun _ => rfl
  rw [if_neg h5]
  by_cases hcpu : out.deviceType = .CPU
  · rw [if_pos hcpu]
    exact cpu_swiglu_frame cast toFloat exp outD gateD upD out.dtype _ _
  · rw [if_neg hcpu]; exact fun _ => rfl

/-- C21: for each of the eight public operations, whenever the call fails with
InvalidArgument the output buffers (values and store counts) are exactly what they were
before the call: every `std::invalid_argument` is thrown by a check that precedes the
kernel body. -/
theorem invalid_argument_no_side_effect {T F : Type} [LinearOrderedField F] (cast : F → T)
    (toFloat : T → F) (exp sqrt cos sin : F → F) (pow : F → F → F) (sizeToFloat : Nat → F) :
    (∀ (max_idx max_val vals : Tensor) (max_idxD : Buf Nat) (max_valD : Buf T)
        (valsD : Nat → T),
      (ops.argmax toFloat max_idx max_val vals max_idxD max_valD valsD).err =
          some .invalid_argument →
      (ops.argmax toFloat max_idx max_val vals max_idxD max_valD valsD).out =
          (max_idxD, max_valD)) ∧
    (∀ (out index weight : Tensor) (outD : Buf T) (indexD : Nat → Int) (weightD : Src T),
      (ops.embedding out index weight outD indexD weightD).err = some .invalid_argument →
      (ops.embedding out index weight outD indexD weightD).out = outD) ∧
    (∀ (out inp weight : Tensor) (bias : Option Tensor) (outD : Buf T)
        (inD weightD biasD : Src T),
      (ops.linear cast toFloat out inp weight bias outD inD weightD biasD).err =
          some .invalid_argument →
      (ops.linear cast toFloat out inp weight bias outD inD weightD biasD).out = outD) ∧
    (∀ (out inp : Tensor) (outD : Buf T) (inD : Src T),
      (ops.rearrange out inp outD inD).err = some .invalid_argument →
      (ops.rearrange out inp outD inD).out = outD) ∧
    (∀ (out inp weight : Tensor) (outD : Buf T) (inD weightD : Nat → T) (eps : F),
      (ops.rms_norm cast toFloat sqrt out inp weight outD inD weightD eps).err =
          some .invalid_argument →
      (ops.rms_norm cast toFloat sqrt out inp weight outD inD weightD eps).out = outD) ∧
    (∀ (out inp pos_ids : Tensor) (outD : Buf T) (inD : Src T) (pos_idsD : Nat → Int)
        (theta : F),
      (ops.rope cast toFloat sizeToFloat cos sin pow out inp pos_ids outD inD pos_idsD
          theta).err = some .invalid_argument →
      (ops.rope cast toFloat sizeToFloat cos sin pow out inp pos_ids outD inD pos_idsD
          theta).out = outD) ∧
    (∀ (attn_val q k v : Tensor) (attn_valD : Buf T) (qD kD vD : Nat → T) (scale : F)
        (k_alloc v_alloc : Option (Buf T)) (qk_alloc : Option (Buf F)),
      (ops.self_attention cast toFloat exp attn_val q k v attn_valD qD kD vD scale
          k_alloc v_alloc qk_alloc).err = some .invalid_argument →
      (ops.self_attention cast toFloat exp attn_val q k v attn_valD qD kD vD scale
          k_alloc v_alloc qk_alloc).out = attn_valD) ∧
    (∀ (out gate up : Tensor) (outD : Buf T) (gateD upD : Nat → T),
      (ops.swiglu cast toFloat exp out gate up outD gateD upD).err =
          some .invalid_argument →
      (ops.swiglu cast toFloat exp out gate up outD gateD upD).out = outD) :=
  ⟨fun max_idx max_val vals max_idxD max_valD valsD =>
      ops_argmax_frame toFloat max_idx max_val vals max_idxD max_valD valsD,
    fun out index weight outD indexD weightD =>
      ops_embedding_frame out index weight outD indexD weightD,
    fun out inp weight bias outD inD weightD biasD =>
      ops_linear_frame cast toFloat out inp weight bias outD inD weightD biasD,
    fun out inp outD inD => ops_rearrange_frame out inp outD inD,
    fun out inp weight outD inD weightD eps =>
      ops_rms_norm_frame cast toFloat sqrt out inp weight outD inD weightD eps,
    fun out inp pos_ids outD inD pos_idsD theta =>
      ops_rope_frame cast toFloat sizeToFloat cos sin pow out inp pos_ids outD inD pos_idsD
        theta,
    fun attn_val q k v attn_valD qD kD vD scale k_alloc v_alloc qk_alloc =>
      ops_self_attention_frame cast toFloat exp attn_val q k v attn_valD qD kD vD scale
        k_alloc v_alloc qk_alloc,
    fun out gate up outD gateD upD =>
      ops_swiglu_frame cast toFloat exp out gate up outD gateD upD⟩

/-- C21, an instance: a linear call whose `in` has 3 columns against a weight with 2 fails
with InvalidArgument, and `out` is the buffer it was given. -/
theorem invalid_argument_no_side_effect_witness :
    (ops.linear (T := ℝ) (F := ℝ) id id
      (Tensor.create [2, 1] .F32 .CPU 0 0) (Tensor.create [2, 3] .F32 .CPU 0 1)
      (Tensor.create [1, 2] .F32 .CPU 0 2) none (Buf.fresh fun _ => 0)
      (Src.ofFun fun _ => 1) (Src.ofFun fun _ => 1) (Src.ofFun fun _ => 0)).err = some .invalid_argument ∧
    (ops.linear (T := ℝ) (F := ℝ) id id
      (Tensor.create [2, 1] .F32 .CPU 0 0) (Tensor.create [2, 3] .F32 .CPU 0 1)
      (Tensor.create [1, 2] .F32 .CPU 0 2) none (Buf.fresh fun _ => 0)
      (Src.ofFun fun _ => 1) (Src.ofFun fun _ => 1) (Src.ofFun fun _ => 0)).out = Buf.fresh fun _ => 0 :=
  ⟨rfl, (invalid_argument_no_side_effect (T := ℝ) (F := ℝ) id id Real.exp Real.sqrt Real.cos
      Real.sin (fun x y => x ^ y) (fun n => (n : ℝ))).2.2.1
      (Tensor.create [2, 1] .F32 .CPU 0 0)
      (Tensor.create [2, 3] .F32 .CPU 0 1) (Tensor.create [1, 2] .F32 .CPU 0 2) none
      (Buf.fresh fun _ => 0) (Src.ofFun fun _ => 1) (Src.ofFun fun _ => 1)
      (Src.ofFun fun _ => 0) rfl⟩

/-! ## rearrange as a flat copy -/

/-- C22 (as amended): for `in` and `out` of identical shape and a supported dtype on the CPU
device, with `numel > 0`, rearrange succeeds, stores once into each of the first `numel`
elements of `out`'s buffer and leaves the elements from `numel` on untouched; when the
`numel` elements of `in` lie outside the output buffer, `out`'s buffer element `e` is
afterwards `in`'s buffer element `e` for every `e < numel`, unconverted, and every element
of `in` reads after the call as it did before. It fails with InvalidArgument, leaving `out`
alone, when the shapes differ, when the dtypes differ, and, for a supported dtype on the CPU
device, when the tensor has no element. -/
theorem rearrange_flat_copy {T : Type} (out inp : Tensor) (outD : Buf T) (inD : Src T) :
    (out.shape = inp.shape → 0 < out.numel →
      out.isContiguous = true → inp.isContiguous = true →
      out.deviceType = .CPU → inp.deviceType = .CPU → inp.deviceId = out.deviceId →
      (out.dtype = .F32 ∨ out.dtype = .F16 ∨ out.dtype = .BF16) → inp.dtype = out.dtype →
      (ops.rearrange out inp outD inD).err = none ∧
      (∀ e, e < out.numel → (ops.rearrange out inp outD inD).out.stores e =
        outD.stores e + 1) ∧
      (∀ e, out.numel ≤ e → (ops.rearrange out inp outD inD).out.val e = outD.val e) ∧
      (inD.Apart out.numel →
        (∀ e, e < out.numel → (ops.rearrange out inp outD inD).out.val e = inD.mem e) ∧
        (∀ e, e < out.numel →
          inD.read (ops.rearrange out inp outD inD).out e = inD.read outD e))) ∧
    (out.shape ≠ inp.shape →
      (ops.rearrange out inp outD inD).err = some .invalid_argument ∧
      (ops.rearrange out inp outD inD).out = outD) ∧
    (out.dtype ≠ inp.dtype →
      (ops.rearrange out inp outD inD).err = some .invalid_argument ∧
      (ops.rearrange out inp outD inD).out = outD) ∧
    (out.numel = 0 → (out.dtype = .F32 ∨ out.dtype = .F16 ∨ out.dtype = .BF16) →
      out.deviceType = .CPU →
      (ops.rearrange out inp outD inD).err = some .invalid_argument ∧
      (ops.rearrange out inp outD inD).out = outD) := by
  refine ⟨fun hshape hnum _ _ hcpu hdi hii hdt hti => ?_, fun hshape => ?_, fun hdt => ?_,
    fun hz hdt hcpu => ?_⟩
  · rw [ops_rearrange_run out inp outD inD hshape hnum hcpu hdi hii hdt hti]
    refine ⟨rfl, fun e he => ?_, fun e he => ?_, fun hsep => ⟨fun e he => ?_, fun e he => ?_⟩⟩
    · simp only []
      rw [copy_elementwise_stores, if_pos he]
    · exact copy_elementwise_frame outD inD out.numel e he
    · simp only []
      rw [copy_elementwise_apart outD inD out.numel hsep, copy_elementwise_val, if_pos he]
    · rw [Src.read_of_apart inD _ hsep _ e he, Src.read_of_apart inD _ hsep _ e he]
  · unfold ops.rearrange
    by_cases h1 : out.deviceType ≠ inp.deviceType ∨ out.deviceId ≠ inp.deviceId
    · rw [if_pos h1]; exact ⟨rfl, rfl⟩
    rw [if_neg h1, if_pos hshape]; exact ⟨rfl, rfl⟩
  · unfold ops.rearrange
    by_cases h1 : out.deviceType ≠ inp.deviceType ∨ out.deviceId ≠ inp.deviceId
    · rw [if_pos h1]; exact ⟨rfl, rfl⟩
    rw [if_neg h1]
    by_cases h2 : out.shape ≠ inp.shape
    · rw [if_pos h2]; exact ⟨rfl, rfl⟩
    rw [if_neg h2, if_pos (fun e => hdt e.symm)]; exact ⟨rfl, rfl⟩
  · have hfold : List.foldl (fun acc dim => acc * dim) 1 out.shape = 0 := hz
    unfold ops.rearrange
    by_cases h1 : out.deviceType ≠ inp.deviceType ∨ out.deviceId ≠ inp.deviceId
    · rw [if_pos h1]; exact ⟨rfl, rfl⟩
    rw [if_neg h1]
    by_cases h2 : out.shape ≠ inp.shape
    · rw [if_pos h2]; exact ⟨rfl, rfl⟩
    rw [if_neg h2]
    by_cases h3 : inp.dtype ≠ out.dtype
    · rw [if_pos h3]; exact ⟨rfl, rfl⟩
    rw [if_neg h3]
    rcases hdt with h | h | h <;>
      simp [h, hcpu, hfold, ops.get_dtype_size, ops.cpu.rearrange]

/-- C22 (as amended), an instance: copying the buffer `10, 11, 12, 13` of a `[2, 2]` tensor
into a fresh `[2, 2]` tensor in a buffer of its own gives `12` at flat index 2. -/
theorem rearrange_flat_copy_witness :
    (ops.rearrange (T := ℤ) (Tensor.create [2, 2] .F32 .CPU 0 0)
      (Tensor.create [2, 2] .F32 .CPU 0 1) (Buf.fresh fun _ => 0)
      (Src.ofFun fun k => [10, 11, 12, 13].getD k 0)).out.val 2 = 12 :=
  ((((rearrange_flat_copy (T := ℤ) (Tensor.create [2, 2] .F32 .CPU 0 0)
      (Tensor.create [2, 2] .F32 .CPU 0 1) (Buf.fresh fun _ => 0)
      (Src.ofFun fun k => [10, 11, 12, 13].getD k 0)).1 rfl (by decide) (by decide)
      (by decide) rfl rfl rfl (Or.inl rfl) rfl).2.2.2 (Src.apart_ofFun _ _)).1 2
      (by decide)).trans (by decide)

/-- C22 as stated fails for empty tensors of an unsupported dtype: with `in` and `out` of
shape `[0]` and dtype 64-bit integer on the CPU, `get_dtype_size` throws the
unsupported-dtype `std::runtime_error` before the element count is looked at. -/
theorem rearrange_empty_unsupported_dtype :
    (Tensor.create [0] .I64 .CPU 0 0).numel = 0 ∧
    (ops.rearrange (T := ℤ) (Tensor.create [0] .I64 .CPU 0 0)
      (Tensor.create [0] .I64 .CPU 0 1) (Buf.fresh fun _ => 0) (Src.ofFun fun _ => 0)).err =
      some .runtime_error := by
  constructor
  · decide
  · rfl

/-! ## slice: the error raised -/

/-- C33 (as amended): every failing slice call raises the out-of-range error,
`std::out_of_range`: for a malformed range (`start > end` or `end > shape[dim]`) as for a
dimension `dim ≥ ndim`. -/
theorem slice_error_kind (t : Tensor) (dim start end_ : Nat)
    (h : start > end_ ∨ end_ > t.shape.getD dim 0 ∨ dim ≥ t.ndim) :
    t.slice dim start end_ = .error .out_of_range := by
  rw [slice_eq, if_neg (by omega)]

theorem slice_error_kind_witness :
    (Tensor.create [2, 3] .F32 .CPU 0 0).slice 1 0 4 = .error .out_of_range :=
  slice_error_kind (Tensor.create [2, 3] .F32 .CPU 0 0) 1 0 4 (Or.inr (Or.inl (by decide)))

/-- C33 as stated fails: on the `[2, 3]` tensor `slice(1, 2, 1)` (`start > end`) and
`slice(1, 0, 4)` (`end > shape[dim]`) raise `std::out_of_range`, not `std::invalid_argument`. -/
theorem slice_malformed_range_out_of_range :
    (Tensor.create [2, 3] .F32 .CPU 0 0).slice 1 2 1 = .error .out_of_range ∧
    (Tensor.create [2, 3] .F32 .CPU 0 0).slice 1 2 1 ≠ .error .invalid_argument ∧
    (Tensor.create [2, 3] .F32 .CPU 0 0).slice 1 0 4 = .error .out_of_range ∧
    (Tensor.create [2, 3] .F32 .CPU 0 0).slice 1 0 4 ≠ .error .invalid_argument := by
  have h1 : (Tensor.create [2, 3] .F32 .CPU 0 0).slice 1 2 1 = .error .out_of_range := rfl
  have h2 : (Tensor.create [2, 3] .F32 .CPU 0 0).slice 1 0 4 = .error .out_of_range := rfl
  refine ⟨h1, ?_, h2, ?_⟩
  · rw [h1]; intro h; cases h
  · rw [h2]; intro h; cases h

/-! ## GQA expansion -/

/-- The expansion stores once at every index below `total_len * nhead * d` and nowhere
else. -/
theorem repeat_kv_heads_stores {T : Type} (o : Buf T) (kv : Nat → T)
    (total_len nkvhead d nhead : Nat) (hdiv : nhead % nkvhead = 0) (p : Nat) :
    (repeat_kv_heads o kv total_len nkvhead d nhead).stores p =
      o.stores p + if p < total_len * nhead * d then 1 else 0 := by
  have hg : nkvhead * (nhead / nkvhead) = nhead :=
    Nat.mul_div_cancel' (Nat.dvd_of_mod_eq_zero hdiv)
  unfold repeat_kv_heads
  simp only [forLoop_flatten]
  generalize nhead / nkvhead = g at hg ⊢
  subst hg
  refine (idxStore_stores _ _ _ (fun r _ => ?_) _ _).trans ?_
  · exact decode4 r nkvhead g d
  · have e : total_len * (nkvhead * (g * d)) = total_len * (nkvhead * g) * d := by ring
    rw [e]

/-- C34: for `nKvHead > 0` and `nHead` a multiple of `nKvHead`, with
`groupSize = nHead / nKvHead`, `repeat_kv_heads` stores exactly once at every element
`[t, h, c]` of the expanded tensor (`t < totalLen`, `h < nHead`, `c < d`), nowhere else, and
leaves there `kv[t, h / groupSize, c]`; so the heads `g * groupSize ≤ h < (g+1) * groupSize`
read kv head `g`. -/
theorem repeat_kv_heads_spec {T : Type} (o : Buf T) (kv : Nat → T)
    (total_len nkvhead d nhead : Nat) (_hkv : 0 < nkvhead) (hdiv : nhead % nkvhead = 0) :
    (∀ t h c, t < total_len → h < nhead → c < d →
      (repeat_kv_heads o kv total_len nkvhead d nhead).val (t * nhead * d + h * d + c) =
        kv (t * nkvhead * d + h / (nhead / nkvhead) * d + c) ∧
      (repeat_kv_heads o kv total_len nkvhead d nhead).stores (t * nhead * d + h * d + c) =
        o.stores (t * nhead * d + h * d + c) + 1) ∧
    (∀ p, total_len * nhead * d ≤ p →
      (repeat_kv_heads o kv total_len nkvhead d nhead).stores p = o.stores p) ∧
    (∀ t g h c, t < total_len → g < nkvhead → c < d →
      g * (nhead / nkvhead) ≤ h → h < (g + 1) * (nhead / nkvhead) →
      (repeat_kv_heads o kv total_len nkvhead d nhead).val (t * nhead * d + h * d + c) =
        kv (t * nkvhead * d + g * d + c)) := by
  have hg : nkvhead * (nhead / nkvhead) = nhead :=
    Nat.mul_div_cancel' (Nat.dvd_of_mod_eq_zero hdiv)
  refine ⟨fun t h c ht hh hc => ⟨?_, ?_⟩, fun p hp => ?_, fun t g h c ht hgk hc hlo hhi => ?_⟩
  · exact repeat_kv_heads_val o kv total_len nkvhead d nhead hdiv t h c ht hh hc
  · rw [repeat_kv_heads_stores o kv total_len nkvhead d nhead hdiv,
      if_pos (by
        have := flat_lt ht (flat_lt hh hc)
        rw [Nat.mul_assoc, Nat.mul_assoc, Nat.add_assoc]
        exact this)]
  · rw [repeat_kv_heads_stores o kv total_len nkvhead d nhead hdiv, if_neg (by omega)]
    rfl
  · have hpos : 0 < nhead / nkvhead := by
      rcases Nat.eq_zero_or_pos (nhead / nkvhead) with h0 | h0
      · rw [h0] at hlo hhi; omega
      · exact h0
    have hh : h < nhead := by
      calc h < (g + 1) * (nhead / nkvhead) := hhi
        _ ≤ nkvhead * (nhead / nkvhead) := Nat.mul_le_mul_right _ hgk
        _ = nhead := hg
    have hq : h / (nhead / nkvhead) = g := by
      apply Nat.div_eq_of_lt_le
      · exact hlo
      · exact hhi
    rw [repeat_kv_heads_val o kv total_len nkvhead d nhead hdiv t h c ht hh hc, hq]

/-- C34, the instance `nKvHead = 2`, `nHead = 4`, `d = 1`, one row `kv = [10, 20]`: heads 0
and 1 read kv head 0, heads 2 and 3 read kv head 1. -/
theorem repeat_kv_heads_spec_witness :
    (repeat_kv_heads (T := ℤ) (Buf.fresh fun _ => 0) (fun k => [10, 20].getD k 0) 1 2 1 4).val 0
      = 10 ∧
    (repeat_kv_heads (T := ℤ) (Buf.fresh fun _ => 0) (fun k => [10, 20].getD k 0) 1 2 1 4).val 1
      = 10 ∧
    (repeat_kv_heads (T := ℤ) (Buf.fresh fun _ => 0) (fun k => [10, 20].getD k 0) 1 2 1 4).val 2
      = 20 ∧
    (repeat_kv_heads (T := ℤ) (Buf.fresh fun _ => 0) (fun k => [10, 20].getD k 0) 1 2 1 4).val 3
      = 20 := by
  have h := (repeat_kv_heads_spec (T := ℤ) (Buf.fresh fun _ => 0)
    (fun k => [10, 20].getD k 0) 1 2 1 4 (by decide) (by decide)).1
  exact ⟨(h 0 0 0 (by decide) (by decide) (by decide)).1.trans (by decide),
    (h 0 1 0 (by decide) (by decide) (by decide)).1.trans (by decide),
    (h 0 2 0 (by decide) (by decide) (by decide)).1.trans (by decide),
    (h 0 3 0 (by decide) (by decide) (by decide)).1.trans (by decide)⟩

/-! ## The causal softmax as a plain masked softmax -/

/-- The running maximum over `x 0, …, x n` is an upper bound that is attained. -/
theorem runningMax_spec {F : Type} [LinearOrderedField F] (x : Nat → F) (n : Nat) :
    (∀ j, j ≤ n → x j ≤ finiteMax (forLoop (n + 1) (fun j m => maxNegInf m (x j)) none)) ∧
    ∃ j, j ≤ n ∧ x j = finiteMax (forLoop (n + 1) (fun j m => maxNegInf m (x j)) none) := by
  have key : ∀ n, ∃ M, forLoop (n + 1) (fun j m => maxNegInf m (x j)) none = some M ∧
      (∀ j, j ≤ n → x j ≤ M) ∧ ∃ j, j ≤ n ∧ x j = M := by
    intro n
    induction n with
    | zero =>
      refine ⟨x 0, rfl, fun j hj => ?_, ⟨0, Nat.le_refl _, rfl⟩⟩
      have : j = 0 := by omega
      rw [this]
    | succ n ih =>
      obtain ⟨M, hM, hub, j0, hj0, hx0⟩ := ih
      refine ⟨max M (x (n + 1)), ?_, fun j hj => ?_, ?_⟩
      · rw [forLoop_succ, hM]
        rfl
      · by_cases hjn : j = n + 1
        · rw [hjn]; exact le_max_right _ _
        · exact le_trans (hub j (by omega)) (le_max_left _ _)
      · by_cases hle : M ≤ x (n + 1)
        · exact ⟨n + 1, Nat.le_refl _, (max_eq_right hle).symm⟩
        · exact ⟨j0, by omega, by rw [hx0, max_eq_left (le_of_not_le hle)]⟩
  obtain ⟨M, hM, hub, hatt⟩ := key n
  rw [hM]
  exact ⟨hub, hatt⟩

/-- After subtracting an attained upper bound the exponentials sum to at least 1. -/
theorem sum_exp_shift_ge_one (x : Nat → ℝ) (n : Nat) (M : ℝ)
    (hatt : ∃ j, j ≤ n ∧ x j = M) :
    1 ≤ ∑ j in Finset.range (n + 1), Real.exp (x j - M) := by
  obtain ⟨j0, hj0, hx0⟩ := hatt
  have h1 : Real.exp (x j0 - M) = 1 := by rw [hx0, sub_self, Real.exp_zero]
  rw [← h1]
  exact Finset.single_le_sum (f := fun j => Real.exp (x j - M))
    (fun j _ => le_of_lt (Real.exp_pos _)) (Finset.mem_range.mpr (by omega))

theorem sum_masked (a : Nat → ℝ) (B n : Nat) (hB : B < n) :
    ∑ j in Finset.range n, (if j > B then 0 else a j) = ∑ j in Finset.range (B + 1), a j := by
  have h := sum_causal a (fun _ => (1 : ℝ)) B n hB
  simpa using h

/-- C35: in a score tensor with `seqLen ≤ totalLen`, for every row `(i, h)` with bound
`B = totalLen - seqLen + i`, the value `m` the kernel computes as the running maximum of the
row's scores `x_j`, `j ≤ B` (`std::max` from `-infinity`) is their maximum: an upper bound
that one of them attains. With this `m`, `apply_causal_softmax` leaves at each `j ≤ B` the
value `exp(x_j - m) / Σ_{j' ≤ B} exp(x_j' - m)`, which is `exp(x_j) / Σ_{j' ≤ B} exp(x_j')`;
every weight of the row is non-negative and the weights of the row sum to exactly 1 (over the
reals). -/
theorem causal_softmax_equiv (Q : Buf ℝ) (seqlen nhead total_len i h : Nat)
    (hlen : seqlen ≤ total_len) (hi : i < seqlen) (hh : h < nhead) :
    (∀ j, j ≤ total_len - seqlen + i →
      Q.val (i * nhead * total_len + h * total_len + j) ≤
        finiteMax (forLoop (total_len - seqlen + i + 1)
          (fun j m => maxNegInf m (Q.val (i * nhead * total_len + h * total_len + j)))
          none)) ∧
    (∃ j, j ≤ total_len - seqlen + i ∧
      Q.val (i * nhead * total_len + h * total_len + j) =
        finiteMax (forLoop (total_len - seqlen + i + 1)
          (fun j m => maxNegInf m (Q.val (i * nhead * total_len + h * total_len + j)))
          none)) ∧
    (∀ j, j ≤ total_len - seqlen + i →
      (apply_causal_softmax Real.exp Q seqlen nhead total_len).val
          (i * nhead * total_len + h * total_len + j) =
        Real.exp (Q.val (i * nhead * total_len + h * total_len + j) -
            finiteMax (forLoop (total_len - seqlen + i + 1)
              (fun j m => maxNegInf m (Q.val (i * nhead * total_len + h * total_len + j)))
              none)) /
          ∑ j' in Finset.range (total_len - seqlen + i + 1),
            Real.exp (Q.val (i * nhead * total_len + h * total_len + j') -
              finiteMax (forLoop (total_len - seqlen + i + 1)
                (fun j m => maxNegInf m (Q.val (i * nhead * total_len + h * total_len + j)))
                none)) ∧
      (apply_causal_softmax Real.exp Q seqlen nhead total_len).val
          (i * nhead * total_len + h * total_len + j) =
        Real.exp (Q.val (i * nhead * total_len + h * total_len + j)) /
          ∑ j' in Finset.range (total_len - seqlen + i + 1),
            Real.exp (Q.val (i * nhead * total_len + h * total_len + j'))) ∧
    (∀ j, j < total_len →
      0 ≤ (apply_causal_softmax Real.exp Q seqlen nhead total_len).val
        (i * nhead * total_len + h * total_len + j)) ∧
    ∑ j in Finset.range total_len,
      (apply_causal_softmax Real.exp Q seqlen nhead total_len).val
        (i * nhead * total_len + h * total_len + j) = 1 := by
  obtain ⟨hub, hatt⟩ := runningMax_spec
    (fun j => Q.val (i * nhead * total_len + h * total_len + j)) (total_len - seqlen + i)
  have hB : total_len - seqlen + i < total_len := by omega
  have hval : ∀ j, j < total_len →
      (apply_causal_softmax Real.exp Q seqlen nhead total_len).val
          (i * nhead * total_len + h * total_len + j) =
        if j > total_len - seqlen + i then 0
        else Real.exp (Q.val (i * nhead * total_len + h * total_len + j) -
            finiteMax (forLoop (total_len - seqlen + i + 1)
              (fun j m => maxNegInf m (Q.val (i * nhead * total_len + h * total_len + j)))
              none)) /
          ∑ j' in Finset.range (total_len - seqlen + i + 1),
            Real.exp (Q.val (i * nhead * total_len + h * total_len + j') -
              finiteMax (forLoop (total_len - seqlen + i + 1)
                (fun j m => maxNegInf m (Q.val (i * nhead * total_len + h * total_len + j)))
                none)) := by
    intro j hj
    rw [apply_causal_softmax_val Real.exp Q seqlen nhead total_len i h j hi hh hj, forLoop_sum]
  generalize finiteMax (forLoop (total_len - seqlen + i + 1)
    (fun j m => maxNegInf m (Q.val (i * nhead * total_len + h * total_len + j))) none) = m
    at hub hatt hval ⊢
  have hSpos : 0 < ∑ j' in Finset.range (total_len - seqlen + i + 1),
      Real.exp (Q.val (i * nhead * total_len + h * total_len + j') - m) :=
    lt_of_lt_of_le one_pos (sum_exp_shift_ge_one _ _ m hatt)
  refine ⟨hub, hatt, fun j hj => ?_, fun j hj => ?_, ?_⟩
  · have e := hval j (by omega)
    rw [if_neg (by omega)] at e
    refine ⟨e, ?_⟩
    rw [e]
    exact softmax_shift Real.exp Real.exp_sub Real.exp_ne_zero
      (fun j => Q.val (i * nhead * total_len + h * total_len + j)) m _ j
  · rw [hval j hj]
    split_ifs
    · exact le_refl _
    · exact div_nonneg (le_of_lt (Real.exp_pos _)) (le_of_lt hSpos)
  · rw [Finset.sum_congr rfl (fun j hj => hval j (Finset.mem_range.mp hj)),
      sum_masked _ _ _ hB, ← Finset.sum_div]
    exact div_self (ne_of_gt hSpos)

/-- C35, an instance: two queries over two keys with scores `0, 0, 3, 5`; for query 1, which
sees both keys, the kernel's maximum is `5`, and the two weights are
`exp 3 / (exp 3 + exp 5)` and `exp 5 / (exp 3 + exp 5)`. -/
theorem causal_softmax_equiv_witness :
    finiteMax (forLoop (2 - 2 + 1 + 1)
      (fun j m => maxNegInf m ((Buf.fresh fun k => ([0, 0, 3, 5] : List ℝ).getD k 0).val
        (1 * 1 * 2 + 0 * 2 + j))) none) = 5 ∧
    (apply_causal_softmax Real.exp (Buf.fresh fun k => ([0, 0, 3, 5] : List ℝ).getD k 0)
      2 1 2).val 2 = Real.exp 3 / (Real.exp 3 + Real.exp 5) ∧
    (apply_causal_softmax Real.exp (Buf.fresh fun k => ([0, 0, 3, 5] : List ℝ).getD k 0)
      2 1 2).val 3 = Real.exp 5 / (Real.exp 3 + Real.exp 5) := by
  obtain ⟨_, _, hv, _, _⟩ :=
    causal_softmax_equiv (Buf.fresh fun k => ([0, 0, 3, 5] : List ℝ).getD k 0) 2 1 2 1 0
      (by decide) (by decide) (by decide)
  have h0 := (hv 0 (by decide)).2
  have h1 := (hv 1 (by decide)).2
  refine ⟨?_, ?_, ?_⟩
  · have e : max (3 : ℝ) 5 = 5 := max_eq_right (by norm_num)
    simp [forLoop, maxNegInf, finiteMax, Buf.fresh, e]
  · refine h0.trans ?_
    simp [Buf.fresh, Finset.sum_range_succ]
  · refine h1.trans ?_
    simp [Buf.fresh, Finset.sum_range_succ]

/-- C40: under `totalLen ≥ seqLen ≥ 1`, for every query `i < seqLen` the causal bound
`B = totalLen - seqLen + i` is below `totalLen`, so the key positions `0..B` the softmax
reads are a non-empty part of the score row; the divisor the kernel uses for row `(i, h)`,
the sum over `j ≤ B` of `exp(x_j - max)`, is at least 1 over the reals, and it is the value
every weight `j ≤ B` of the row is divided by. The entry point `cpu::self_attention` lets the
kernel run only when `seqLen ≥ 1` and `totalLen ≥ seqLen`. -/
theorem softmax_divisor_ge_one (Q : Buf ℝ) (seqlen nhead total_len i h : Nat)
    (hlen : seqlen ≤ total_len) (hi : i < seqlen) (hh : h < nhead) :
    1 ≤ seqlen ∧
    total_len - seqlen + i < total_len ∧
    1 ≤ forLoop (total_len - seqlen + i + 1)
      (fun j sum_exp => sum_exp +
        Real.exp (Q.val (i * nhead * total_len + h * total_len + j) -
          finiteMax (forLoop (total_len - seqlen + i + 1)
            (fun j m => maxNegInf m (Q.val (i * nhead * total_len + h * total_len + j)))
            none))) 0 ∧
    (∀ j, j ≤ total_len - seqlen + i →
      (apply_causal_softmax Real.exp Q seqlen nhead total_len).val
          (i * nhead * total_len + h * total_len + j) =
        Real.exp (Q.val (i * nhead * total_len + h * total_len + j) -
          finiteMax (forLoop (total_len - seqlen + i + 1)
            (fun j m => maxNegInf m (Q.val (i * nhead * total_len + h * total_len + j)))
            none)) /
        forLoop (total_len - seqlen + i + 1)
          (fun j sum_exp => sum_exp +
            Real.exp (Q.val (i * nhead * total_len + h * total_len + j) -
              finiteMax (forLoop (total_len - seqlen + i + 1)
                (fun j m => maxNegInf m (Q.val (i * nhead * total_len + h * total_len + j)))
                none))) 0) ∧
    (∀ (T : Type) (cast : ℝ → T) (toFloat : T → ℝ) (attn_val : Buf T) (q k v : Nat → T)
        (data_type : llaisysDataType_t) (seqlen' nhead' d total_len' nkvhead dv : Nat)
        (scale : ℝ) (k_alloc v_alloc : Option (Buf T)) (qk_alloc : Option (Buf ℝ)),
      (ops.cpu.self_attention cast toFloat Real.exp attn_val q k v data_type seqlen' nhead' d
        total_len' nkvhead dv scale k_alloc v_alloc qk_alloc).err = none →
      1 ≤ seqlen' ∧ seqlen' ≤ total_len') := by
  obtain ⟨_, hatt⟩ := runningMax_spec
    (fun j => Q.val (i * nhead * total_len + h * total_len + j)) (total_len - seqlen + i)
  refine ⟨by omega, by omega, ?_, fun j hj => ?_, ?_⟩
  · rw [forLoop_sum]
    exact sum_exp_shift_ge_one _ _ _ hatt
  · rw [apply_causal_softmax_val Real.exp Q seqlen nhead total_len i h j hi hh (by omega),
      if_neg (by omega)]
  · intro T cast toFloat attn_val q k v data_type seqlen' nhead' d total_len' nkvhead dv scale
      k_alloc v_alloc qk_alloc
    unfold ops.cpu.self_attention
    by_cases hz : seqlen' = 0 ∨ nhead' = 0 ∨ d = 0 ∨ total_len' = 0 ∨ nkvhead = 0 ∨ dv = 0
    · rw [if_pos hz]; intro h; exact absurd h (by simp)
    rw [if_neg hz]
    by_cases hm : nhead' % nkvhead ≠ 0
    · rw [if_pos hm]; intro h; exact absurd h (by simp)
    rw [if_neg hm]
    by_cases hl : total_len' < seqlen'
    · rw [if_pos hl]; intro h; exact absurd h (by simp)
    · intro _
      omega

/-- C40, an instance: one query over two keys with scores `0` and `0` (`seqLen = 1`,
`totalLen = 2`): the bound is 1 and the divisor, `exp(0) + exp(0)`, is at least 1. -/
theorem softmax_divisor_ge_one_witness :
    2 - 1 + 0 < 2 ∧
    1 ≤ forLoop (2 - 1 + 0 + 1)
      (fun j sum_exp => sum_exp +
        Real.exp ((Buf.fresh fun _ => (0 : ℝ)).val (0 * 1 * 2 + 0 * 2 + j) -
          finiteMax (forLoop (2 - 1 + 0 + 1)
            (fun j m => maxNegInf m ((Buf.fresh fun _ => (0 : ℝ)).val (0 * 1 * 2 + 0 * 2 + j)))
            none))) 0 :=
  ⟨(softmax_divisor_ge_one (Buf.fresh fun _ => 0) 1 1 2 0 0 (by decide) (by decide)
      (by decide)).2.1,
    (softmax_divisor_ge_one (Buf.fresh fun _ => 0) 1 1 2 0 0 (by decide) (by decide)
      (by decide)).2.2.1⟩

/-! ## Causality as non-interference -/

/-- C36: two validated selfAttention runs on the same tensors with the same `q` and `scale`
(scratch allocations succeeding, real exponential) whose `k` and `v` buffers agree at every
key position `j ≤ totalLen - seqLen + i` both succeed and produce the same output row
`attnVal[i, :, :]`, whatever `k` and `v` hold beyond that bound. -/
theorem causal_noninterference {T : Type} (cast : ℝ → T) (toFloat : T → ℝ)
    (attn_val q k v : Tensor) (attn_valD attn_valD' : Buf T) (qD kD vD kD' vD' : Nat → T)
    (scale : ℝ) (kx0 vx0 kx0' vx0' : Buf T) (qk0 qk0' : Buf ℝ)
    (seqlen nhead d total_len nkvhead dv : Nat)
    (hq : q.shape = [seqlen, nhead, d]) (hk : k.shape = [total_len, nkvhead, d])
    (hv : v.shape = [total_len, nkvhead, dv]) (ho : attn_val.shape = [seqlen, nhead, dv])
    (hs : 0 < seqlen) (hn : 0 < nhead) (hd : 0 < d) (ht : 0 < total_len) (hkv : 0 < nkvhead)
    (hdv : 0 < dv) (hdiv : nhead % nkvhead = 0) (hlen : seqlen ≤ total_len)
    (hcpu : attn_val.deviceType = .CPU) (hdq : q.deviceType = .CPU) (hdk : k.deviceType = .CPU)
    (hdvv : v.deviceType = .CPU)
    (hiq : q.deviceId = attn_val.deviceId) (hik : k.deviceId = attn_val.deviceId)
    (hiv : v.deviceId = attn_val.deviceId)
    (hdt : attn_val.dtype = .F32 ∨ attn_val.dtype = .F16 ∨ attn_val.dtype = .BF16)
    (htq : q.dtype = attn_val.dtype) (htk : k.dtype = attn_val.dtype)
    (htv : v.dtype = attn_val.dtype)
    (hco : attn_val.isContiguous = true) (hcq : q.isContiguous = true)
    (hck : k.isContiguous = true) (hcv : v.isContiguous = true)
    (i : Nat) (hi : i < seqlen)
    (hkeq : ∀ j g t, j ≤ total_len - seqlen + i → g < nkvhead → t < d →
      kD' (j * nkvhead * d + g * d + t) = kD (j * nkvhead * d + g * d + t))
    (hveq : ∀ j g c, j ≤ total_len - seqlen + i → g < nkvhead → c < dv →
      vD' (j * nkvhead * dv + g * dv + c) = vD (j * nkvhead * dv + g * dv + c)) :
    (ops.self_attention cast toFloat Real.exp attn_val q k v attn_valD qD kD vD scale
        (some kx0) (some vx0) (some qk0)).err = none ∧
    (ops.self_attention cast toFloat Real.exp attn_val q k v attn_valD' qD kD' vD' scale
        (some kx0') (some vx0') (some qk0')).err = none ∧
    ∀ h c, h < nhead → c < dv →
      (ops.self_attention cast toFloat Real.exp attn_val q k v attn_valD' qD kD' vD' scale
          (some kx0') (some vx0') (some qk0')).out.val (i * nhead * dv + h * dv + c) =
        (ops.self_attention cast toFloat Real.exp attn_val q k v attn_valD qD kD vD scale
          (some kx0) (some vx0) (some qk0)).out.val (i * nhead * dv + h * dv + c) := by
  rw [ops_self_attention_run cast toFloat Real.exp attn_val q k v attn_valD qD kD vD scale
    (some kx0) (some vx0) (some qk0) seqlen nhead d total_len nkvhead dv hq hk hv ho hs hn hd
    ht hkv hdv hdiv hlen hcpu hdq hdk hdvv hiq hik hiv hdt htq htk htv hco hcq hck hcv,
    ops_self_attention_run cast toFloat Real.exp attn_val q k v attn_valD' qD kD' vD' scale
    (some kx0') (some vx0') (some qk0') seqlen nhead d total_len nkvhead dv hq hk hv ho hs hn
    hd ht hkv hdv hdiv hlen hcpu hdq hdk hdvv hiq hik hiv hdt htq htk htv hco hcq hck hcv]
  refine ⟨rfl, rfl, fun h c hh hc => ?_⟩
  have hg : nkvhead * (nhead / nkvhead) = nhead :=
    Nat.mul_div_cancel' (Nat.dvd_of_mod_eq_zero hdiv)
  have hgrp : h / (nhead / nkvhead) < nkvhead := by
    apply Nat.div_lt_of_lt_mul
    rw [Nat.mul_comm, hg]
    exact hh
  have hscore : ∀ j, j ≤ total_len - seqlen + i →
      (∑ t in Finset.range d, toFloat (qD (i * nhead * d + h * d + t)) *
        toFloat (kD' (j * nkvhead * d + h / (nhead / nkvhead) * d + t))) =
      ∑ t in Finset.range d, toFloat (qD (i * nhead * d + h * d + t)) *
        toFloat (kD (j * nkvhead * d + h / (nhead / nkvhead) * d + t)) := by
    intro j hj
    apply Finset.sum_congr rfl
    intro t htm
    rw [hkeq j _ t hj hgrp (Finset.mem_range.mp htm)]
  rw [self_attention_val cast toFloat Real.exp Real.exp_sub Real.exp_ne_zero attn_valD'
      qD kD' vD' seqlen nhead d total_len nkvhead dv scale kx0' vx0' qk0' hdiv hlen i h c hi
      hh hc,
    self_attention_val cast toFloat Real.exp Real.exp_sub Real.exp_ne_zero attn_valD
      qD kD vD seqlen nhead d total_len nkvhead dv scale kx0 vx0 qk0 hdiv hlen i h c hi
      hh hc]
  congr 1
  have hden : (∑ j' in Finset.range (total_len - seqlen + i + 1),
      Real.exp (scale * ∑ t in Finset.range d, toFloat (qD (i * nhead * d + h * d + t)) *
        toFloat (kD' (j' * nkvhead * d + h / (nhead / nkvhead) * d + t)))) =
      ∑ j' in Finset.range (total_len - seqlen + i + 1),
      Real.exp (scale * ∑ t in Finset.range d, toFloat (qD (i * nhead * d + h * d + t)) *
        toFloat (kD (j' * nkvhead * d + h / (nhead / nkvhead) * d + t))) := by
    apply Finset.sum_congr rfl
    intro j hj
    rw [hscore j (by have := Finset.mem_range.mp hj; omega)]
  rw [hden]
  apply Finset.sum_congr rfl
  intro j hj
  have hjle : j ≤ total_len - seqlen + i := by have := Finset.mem_range.mp hj; omega
  rw [hscore j hjle, hveq j _ c hjle hgrp hc]

/-- C36, an instance: two queries over two keys (`seqLen = totalLen = 2`, one head,
`d = dv = 1`); the two runs differ in `k[1]` and `v[1]` only, which lie beyond the causal
bound of query 0, and give the same `attnVal[0, 0, 0]`. -/
theorem causal_noninterference_witness :
    (ops.self_attention (T := ℝ) id id Real.exp
      (Tensor.create [2, 1, 1] .F32 .CPU 0 0) (Tensor.create [2, 1, 1] .F32 .CPU 0 1)
      (Tensor.create [2, 1, 1] .F32 .CPU 0 2) (Tensor.create [2, 1, 1] .F32 .CPU 0 3)
      (Buf.fresh fun _ => 0) (fun _ => 1) (fun j => if j = 0 then 1 else 9)
      (fun j => if j = 0 then 3 else 8) 1
      (some (Buf.fresh fun _ => 0)) (some (Buf.fresh fun _ => 0))
      (some (Buf.fresh fun _ => 0))).out.val 0 =
    (ops.self_attention (T := ℝ) id id Real.exp
      (Tensor.create [2, 1, 1] .F32 .CPU 0 0) (Tensor.create [2, 1, 1] .F32 .CPU 0 1)
      (Tensor.create [2, 1, 1] .F32 .CPU 0 2) (Tensor.create [2, 1, 1] .F32 .CPU 0 3)
      (Buf.fresh fun _ => 0) (fun _ => 1) (fun j => if j = 0 then 1 else 5)
      (fun j => if j = 0 then 3 else 4) 1
      (some (Buf.fresh fun _ => 0)) (some (Buf.fresh fun _ => 0))
      (some (Buf.fresh fun _ => 0))).out.val 0 :=
  (causal_noninterference (T := ℝ) id id
    (Tensor.create [2, 1, 1] .F32 .CPU 0 0) (Tensor.create [2, 1, 1] .F32 .CPU 0 1)
    (Tensor.create [2, 1, 1] .F32 .CPU 0 2) (Tensor.create [2, 1, 1] .F32 .CPU 0 3)
    (Buf.fresh fun _ => 0) (Buf.fresh fun _ => 0) (fun _ => 1)
    (fun j => if j = 0 then 1 else 5) (fun j => if j = 0 then 3 else 4)
    (fun j => if j = 0 then 1 else 9) (fun j => if j = 0 then 3 else 8) 1
    (Buf.fresh fun _ => 0) (Buf.fresh fun _ => 0) (Buf.fresh fun _ => 0)
    (Buf.fresh fun _ => 0) (Buf.fresh fun _ => 0) (Buf.fresh fun _ => 0) 2 1 1 2 1 1
    rfl rfl rfl rfl (by decide) (by decide) (by decide) (by decide) (by decide) (by decide)
    (by decide) (by decide) rfl rfl rfl rfl rfl rfl rfl (Or.inl rfl) rfl rfl rfl
    (by decide) (by decide) (by decide) (by decide) 0 (by decide)
    (fun j g t hj hg ht => by
      have hj0 : j = 0 := by omega
      have hg0 : g = 0 := by omega
      have ht0 : t = 0 := by omega
      subst hj0; subst hg0; subst ht0
      rfl)
    (fun j g c hj hg hc => by
      have hj0 : j = 0 := by omega
      have hg0 : g = 0 := by omega
      have hc0 : c = 0 := by omega
      subst hj0; subst hg0; subst hc0
      rfl)).2.2 0 0 (by decide) (by decide)

/-! ## embedding: writes before the failing index -/

/-- A throwing loop stops at the first iteration that throws. -/
theorem forLoopE_stop {σ : Type} (n p : Nat) (body : Nat → σ → Outcome σ) (s : σ)
    (hp : p < n) (hok : (forLoopE p body s).err = none)
    (hbad : ∃ e, (body p (forLoopE p body s).out).err = some e) :
    forLoopE n body s = body p (forLoopE p body s).out := by
  induction n with
  | zero => omega
  | succ n ih =>
    rw [forLoopE_succ]
    by_cases hpn : p = n
    · subst hpn
      rw [hok]
    · have h := ih (by omega)
      obtain ⟨e, he⟩ := hbad
      rw [h, he]

/-- A loop over rows of width `w` in which iteration `i` leaves everything outside row `i`
alone does not touch the rows from `n` on. -/
theorem forLoop_rowwise_frame {T : Type} (w : Nat) (body : Nat → Buf T → Buf T) (n : Nat)
    (hbody : ∀ i, i < n → ∀ o p, ¬ (i * w ≤ p ∧ p < i * w + w) → (body i o).val p = o.val p)
    (o : Buf T) (p : Nat) (hp : n * w ≤ p) : (forLoop n body o).val p = o.val p := by
  induction n with
  | zero => rfl
  | succ n ih =>
    rw [Nat.succ_mul] at hp
    rw [forLoop_succ, hbody n (Nat.lt_succ_self n) _ p (by omega)]
    exact ih (fun i hi => hbody i (Nat.lt_succ_of_lt hi)) (by omega)

/-- The kernel with its first offending index at `p`: the exception is raised with the
buffer as the first `p` row copies left it. -/
theorem embedding_stop {T : Type} (out : Buf T) (index : Nat → Int) (weight : Src T)
    (batch hidden vocab p : Nat) (hp : p < batch)
    (hfirst : ∀ i, i < p → 0 ≤ index i ∧ index i < vocab)
    (hbad : index p < 0 ∨ (vocab : Int) ≤ index p) :
    embedding_ out index weight batch hidden vocab =
      ⟨some .out_of_range,
        forLoop p (fun i o => copy_embedding_row o (i * hidden) weight
          ((index i).toNat * hidden) hidden) out⟩ := by
  have hpre : forLoopE p (fun i o =>
      if index i < 0 ∨ vocab ≤ (index i).toNat then
        (⟨some .out_of_range, o⟩ : Outcome (Buf T))
      else ⟨none, copy_embedding_row o (i * hidden) weight ((index i).toNat * hidden)
        hidden⟩) out =
      ⟨none, forLoop p (fun i o => copy_embedding_row o (i * hidden) weight
          ((index i).toNat * hidden) hidden) out⟩ := by
    rw [forLoopE_ok]
    · congr 1
      apply forLoop_congr
      intro i hi t
      have := hfirst i hi
      rw [if_neg (by omega)]
    · intro i hi t
      have := hfirst i hi
      rw [if_neg (by omega)]
  have hcond : index p < 0 ∨ vocab ≤ (index p).toNat := by omega
  unfold embedding_
  rw [forLoopE_stop batch p _ out hp (by rw [hpre])
    ⟨.out_of_range, by simp only []; rw [if_pos hcond]⟩]
  simp only []
  rw [if_pos hcond, hpre]

/-- C37 (as amended): in a validated embedding call whose first offending index (negative or
`≥ vocab`) is at position `p`, the call fails with OutOfRange after rows `0..p-1` of `out`
have been overwritten, each element once, while everything from row `p` on keeps its previous
contents; when the rows of `weight` lie outside the output buffer, row `i < p` has been
overwritten with `weight[index[i], :]`. -/
theorem embedding_not_atomic {T : Type} (out index weight : Tensor) (outD : Buf T)
    (indexD : Nat → Int) (weightD : Src T) (batch hidden vocab : Nat)
    (hidx : index.shape = [batch]) (hw : weight.shape = [vocab, hidden])
    (hout : out.shape = [batch, hidden])
    (hb : 0 < batch) (hh : 0 < hidden) (hv : 0 < vocab)
    (hcpu : out.deviceType = .CPU) (hdi : index.deviceType = .CPU) (hdw : weight.deviceType = .CPU)
    (hii : index.deviceId = out.deviceId) (hiw : weight.deviceId = out.deviceId)
    (hti : index.dtype = .I64)
    (hdt : weight.dtype = .F32 ∨ weight.dtype = .F16 ∨ weight.dtype = .BF16)
    (hto : out.dtype = weight.dtype)
    (hco : out.isContiguous = true) (hcw : weight.isContiguous = true)
    (p : Nat) (hp : p < batch)
    (hfirst : ∀ i, i < p → 0 ≤ indexD i ∧ indexD i < vocab)
    (hbad : indexD p < 0 ∨ (vocab : Int) ≤ indexD p) :
    (ops.embedding out index weight outD indexD weightD).err = some .out_of_range ∧
    (∀ i c, i < p → c < hidden →
      (ops.embedding out index weight outD indexD weightD).out.stores (i * hidden + c) =
        outD.stores (i * hidden + c) + 1) ∧
    (∀ e, p * hidden ≤ e →
      (ops.embedding out index weight outD indexD weightD).out.val e = outD.val e ∧
      (ops.embedding out index weight outD indexD weightD).out.stores e = outD.stores e) ∧
    (weightD.Apart (vocab * hidden) → ∀ i c, i < p → c < hidden →
      (ops.embedding out index weight outD indexD weightD).out.val (i * hidden + c) =
        weightD.mem ((indexD i).toNat * hidden + c)) := by
  rw [ops_embedding_run out index weight outD indexD weightD batch hidden vocab hidx hw hout
    hb hh hv hcpu hdi hdw hii hiw hti hdt hto hco hcw]
  have hst := forLoop_rowwise_stores hidden
    (fun i o => copy_embedding_row o (i * hidden) weightD ((indexD i).toNat * hidden) hidden)
    p (fun r _ o q => copy_embedding_row_stores o (r * hidden) weightD _ hidden q) outD
  have hfr := forLoop_rowwise_frame hidden
    (fun i o => copy_embedding_row o (i * hidden) weightD ((indexD i).toNat * hidden) hidden)
    p (fun r _ o q hq => copy_embedding_row_frame o (r * hidden) weightD _ hidden q hq) outD
  refine ⟨?_, fun i c hi hc => ?_, fun e he => ⟨?_, ?_⟩, fun hsep i c hi hc => ?_⟩
  · rw [embedding_stop outD indexD weightD batch hidden vocab p hp hfirst hbad]
  · rw [embedding_stop outD indexD weightD batch hidden vocab p hp hfirst hbad]
    simp only []
    rw [hst, if_pos (flat_lt hi hc)]
  · rw [embedding_stop outD indexD weightD batch hidden vocab p hp hfirst hbad]
    exact hfr e he
  · rw [embedding_stop outD indexD weightD batch hidden vocab p hp hfirst hbad]
    simp only []
    rw [hst, if_neg (by omega)]
    rfl
  · rw [embedding_apart outD indexD weightD batch hidden vocab hsep,
      embedding_stop outD indexD (Src.ofFun weightD.mem) batch hidden vocab p hp hfirst hbad]
    simp only []
    rw [forLoop_rowwise_val hidden
      (fun i o => copy_embedding_row o (i * hidden) (Src.ofFun weightD.mem)
        ((indexD i).toNat * hidden) hidden)
      (fun i _ c => weightD.mem ((indexD i).toNat * hidden + c)) p
      (fun r _ o q => copy_embedding_row_val o (r * hidden) weightD.mem _ hidden q) outD,
      if_pos (flat_lt hi hc), flat_div hc, flat_mod hc]

/-- C37 (as amended), an instance: `vocab = 2`, `index = [1, 5]`,
`weight = [[10, 11], [20, 21]]` in a buffer of its own and `out` holding `7` everywhere: the
call fails, row 0 of `out` has become `[20, 21]` and row 1 still holds `7`. -/
theorem embedding_not_atomic_witness :
    (ops.embedding (T := ℤ) (Tensor.create [2, 2] .F32 .CPU 0 0)
      (Tensor.create [2] .I64 .CPU 0 1) (Tensor.create [2, 2] .F32 .CPU 0 2)
      (Buf.fresh fun _ => 7) (fun k => [1, 5].getD k 0)
      (Src.ofFun fun k => [10, 11, 20, 21].getD k 0)).err = some .out_of_range ∧
    (ops.embedding (T := ℤ) (Tensor.create [2, 2] .F32 .CPU 0 0)
      (Tensor.create [2] .I64 .CPU 0 1) (Tensor.create [2, 2] .F32 .CPU 0 2)
      (Buf.fresh fun _ => 7) (fun k => [1, 5].getD k 0)
      (Src.ofFun fun k => [10, 11, 20, 21].getD k 0)).out.val 1 = 21 ∧
    (ops.embedding (T := ℤ) (Tensor.create [2, 2] .F32 .CPU 0 0)
      (Tensor.create [2] .I64 .CPU 0 1) (Tensor.create [2, 2] .F32 .CPU 0 2)
      (Buf.fresh fun _ => 7) (fun k => [1, 5].getD k 0)
      (Src.ofFun fun k => [10, 11, 20, 21].getD k 0)).out.val 2 = 7 := by
  obtain ⟨h1, _, h3, h4⟩ := embedding_not_atomic (T := ℤ) (Tensor.create [2, 2] .F32 .CPU 0 0)
    (Tensor.create [2] .I64 .CPU 0 1) (Tensor.create [2, 2] .F32 .CPU 0 2)
    (Buf.fresh fun _ => 7) (fun k => [1, 5].getD k 0)
    (Src.ofFun fun k => [10, 11, 20, 21].getD k 0) 2 2 2 rfl rfl rfl
    (by decide) (by decide) (by decide) rfl rfl rfl rfl rfl rfl (Or.inl rfl) rfl
    (by decide) (by decide) 1 (by decide)
    (fun i hi => by
      have hi0 : i = 0 := by omega
      subst hi0
      decide)
    (Or.inr (by decide))
  exact ⟨h1, (h4 (Src.apart_ofFun _ _) 0 1 (by decide) (by decide)).trans (by decide),
    (h3 2 (by decide)).1⟩

/-- C37 as stated fails when the output tensor is also the weight table: with
`out = weight = [[10],[20],[30]]` and `index = [1, 0, 5]` the call passes every check and
fails with OutOfRange at position 2; row 0 has become `[20]`, and row 1 was then copied from
the overwritten row 0, so `out[1,0] = 20`, whereas `weight[index[1], 0] = weight[0, 0] = 10`. -/
theorem embedding_not_atomic_output_is_weight :
    (ops.embedding (T := ℤ) (Tensor.create [3, 1] .F32 .CPU 0 0)
      (Tensor.create [3] .I64 .CPU 0 1) (Tensor.create [3, 1] .F32 .CPU 0 0)
      (Buf.fresh fun k => [10, 20, 30].getD k 0) (fun i => [1, 0, 5].getD i 0)
      { overlap := fun k => some k, mem := fun k => [10, 20, 30].getD k 0 }).err =
        some .out_of_range ∧
    (ops.embedding (T := ℤ) (Tensor.create [3, 1] .F32 .CPU 0 0)
      (Tensor.create [3] .I64 .CPU 0 1) (Tensor.create [3, 1] .F32 .CPU 0 0)
      (Buf.fresh fun k => [10, 20, 30].getD k 0) (fun i => [1, 0, 5].getD i 0)
      { overlap := fun k => some k, mem := fun k => [10, 20, 30].getD k 0 }).out.val
        (1 * 1 + 0) ≠
    [10, 20, 30].getD (([1, 0, 5].getD 1 (0 : ℤ)).toNat * 1 + 0) (0 : ℤ) := by
  rw [ops_embedding_run (T := ℤ) (Tensor.create [3, 1] .F32 .CPU 0 0)
      (Tensor.create [3] .I64 .CPU 0 1) (Tensor.create [3, 1] .F32 .CPU 0 0)
      (Buf.fresh fun k => [10, 20, 30].getD k 0) (fun i => [1, 0, 5].getD i 0)
      { overlap := fun k => some k, mem := fun k => [10, 20, 30].getD k 0 } 3 1 3 rfl rfl rfl
      (by decide) (by decide) (by decide) rfl rfl rfl rfl rfl rfl (Or.inl rfl) rfl
      (by decide) (by decide)]
  simp [embedding_, forLoopE, copy_embedding_row, forLoop, Src.read, Buf.fresh]

/-! ## Views over a shared buffer -/

/-- The element offset as a sum over the positions of the multi-index; a missing stride
counts as 0. -/
theorem zipWith_sum_range (idx : List Nat) (ss : List Int) :
    (List.zipWith (fun (i : Nat) (s : Int) => (i : Int) * s) idx ss).sum =
      ∑ k in Finset.range idx.length, (idx.getD k 0 : Int) * ss.getD k 0 := by
  induction idx generalizing ss with
  | nil => simp
  | cons a rest ih =>
    cases ss with
    | nil => simp
    | cons b ss' =>
      rw [List.zipWith_cons_cons, List.sum_cons, ih ss', List.length_cons,
        Finset.sum_range_succ']
      simp only [List.getD_cons_succ, List.getD_cons_zero]
      ring

theorem elemOffset_eq_sum (t : Tensor) (idx : List Nat) :
    t.elemOffset idx =
      ∑ k in Finset.range idx.length, (idx.getD k 0 : Int) * t.strides.getD k 0 :=
  zipWith_sum_range idx t.strides

/-- Storing `f (order[i])` at every index `i` of a vector as long as `order` yields the image
of `order` under `f`. -/
theorem setLoop_eq_map {α : Type} (f : Nat → α) (order : List Nat) (l : List α)
    (hl : l.length = order.length) :
    forLoop order.length (fun i (m : List α) => m.set i (f (order.getD i 0))) l =
      order.map f := by
  apply List.ext_getElem?
  intro j
  rw [setLoop_getElem?, List.getElem?_map]
  by_cases hj : j < order.length
  · rw [if_pos ⟨hj, by omega⟩, List.getElem?_eq_getElem hj, List.getD_eq_getElem _ _ hj]
    rfl
  · rw [if_neg (by omega), List.getElem?_eq_none (by omega), List.getElem?_eq_none (by omega)]
    rfl

/-- The tensor `permute` returns for a valid order, with the reordered shape and strides as
images of `order`. -/
theorem permute_ok_map (t : Tensor) (order : List Nat) (hl : order.length = t.ndim)
    (hlt : ∀ x ∈ order, x < t.ndim) (hnd : order.Nodup) :
    t.permute order = .ok
      { meta :=
          { dtype := t.meta.dtype
            shape := order.map (fun k => t.meta.shape.getD k 0)
            strides := order.map (fun k => t.meta.strides.getD k 0) }
        storage := t.storage
        offset := t.offset } := by
  rw [permute_ok t order hl hlt hnd, ← hl,
    setLoop_eq_map (fun k => t.meta.shape.getD k 0) order _ (resize_length _ _),
    setLoop_eq_map (fun k => t.meta.strides.getD k 0) order _ (resize_length _ _)]

theorem rowMajorStrides_nonneg (shape : List Nat) : ∀ s ∈ rowMajorStrides shape, 0 ≤ s := by
  induction shape with
  | nil => simp [rowMajorStrides]
  | cons a rest ih =>
    intro s hs
    simp only [rowMajorStrides, List.mem_cons] at hs
    rcases hs with rfl | hs
    · positivity
    · exact ih s hs

/-- Canonical strides satisfy the representation invariant. -/
theorem valid_of_rowMajor (t : Tensor) (h : t.strides = rowMajorStrides t.shape) :
    t.Valid := by
  refine ⟨?_, ?_, ?_⟩
  · rw [h, rowMajorStrides_length]; rfl
  · rw [h]; exact rowMajorStrides_nonneg _
  · intro h1
    have hlen : t.shape.length = 1 := h1
    obtain ⟨a, ha⟩ := List.length_eq_one.mp hlen
    rw [h, ha]
    simp [rowMajorStrides]

theorem valid_create (shape : List Nat) (dtype : llaisysDataType_t)
    (device_type : llaisysDeviceType_t) (device : Int) (memory : Nat) :
    (Tensor.create shape dtype device_type device memory).Valid :=
  valid_of_rowMajor _ (by simp only [Tensor.create, Tensor.strides, Tensor.shape, strideLoop_eq])

theorem valid_view (t r : Tensor) (new_shape : List Nat) (h : t.view new_shape = .ok r) :
    r.Valid := by
  rw [view_eq] at h
  split_ifs at h
  have hr := Except.ok.inj h
  subst hr
  exact valid_of_rowMajor _ rfl

theorem valid_slice (t r : Tensor) (dim start end_ : Nat) (hv : t.Valid)
    (h : t.slice dim start end_ = .ok r) : r.Valid := by
  rw [slice_eq] at h
  by_cases hc : dim < t.ndim ∧ start ≤ end_ ∧ end_ ≤ t.shape.getD dim 0
  · rw [if_pos hc] at h
    have hr := Except.ok.inj h
    subst hr
    obtain ⟨h1, h2, h3⟩ := hv
    refine ⟨?_, h2, ?_⟩
    · simp only [Tensor.strides, Tensor.ndim, List.length_set]
      exact h1
    · intro hn
      apply h3
      simpa [Tensor.ndim] using hn
  · rw [if_neg hc] at h
    exact absurd h (by simp)

theorem valid_permute (t r : Tensor) (order : List Nat) (hv : t.Valid)
    (h : t.permute order = .ok r) : r.Valid := by
  obtain ⟨hl, hlt, hnd⟩ := (permute_isOk_iff t order).mp ⟨r, h⟩
  rw [permute_ok_map t order hl hlt hnd] at h
  have hr := Except.ok.inj h
  subst hr
  obtain ⟨h1, h2, h3⟩ := hv
  refine ⟨?_, ?_, ?_⟩
  · simp [Tensor.strides, Tensor.ndim]
  · intro s hs
    simp only [Tensor.strides, List.mem_map] at hs
    obtain ⟨k, _, rfl⟩ := hs
    by_cases hk : k < t.meta.strides.length
    · rw [List.getD_eq_getElem _ _ hk]
      exact h2 _ (List.getElem_mem _)
    · rw [List.getD_eq_default _ _ (by omega)]
  · intro hn
    have hn' : order.length = 1 := by simpa [Tensor.ndim] using hn
    obtain ⟨a, ha⟩ := List.length_eq_one.mp hn'
    have ht1 : t.ndim = 1 := by rw [← hl, hn']
    have ha0 : a = 0 := by
      have := hlt a (by rw [ha]; exact List.mem_singleton_self a)
      omega
    have hs1 := h3 ht1
    have hs1' : t.meta.strides = [1] := hs1
    simp [Tensor.strides, ha, ha0, hs1']

/-- The byte offset of a non-empty slice when the stride is non-negative and the sum does not
wrap. -/
theorem slice_offset_bytes (t : Tensor) (dim start : Nat)
    (hs : 0 ≤ t.meta.strides.getD dim 0)
    (hno : t.offset + start * (t.meta.strides.getD dim 0).toNat * utils.dsize t.meta.dtype
      < 2 ^ 64) :
    (t.offset + start * toSizeT (t.meta.strides.getD dim 0) * utils.dsize t.meta.dtype)
        % 2 ^ 64 =
      t.offset + start * (t.meta.strides.getD dim 0).toNat * utils.dsize t.meta.dtype := by
  by_cases hz : start * utils.dsize t.meta.dtype = 0
  · rcases Nat.mul_eq_zero.mp hz with h0 | h0
    · rw [h0] at hno ⊢
      simp only [Nat.zero_mul, Nat.add_zero] at hno ⊢
      exact Nat.mod_eq_of_lt hno
    · rw [h0] at hno ⊢
      simp only [Nat.mul_zero, Nat.add_zero] at hno ⊢
      exact Nat.mod_eq_of_lt hno
  · have hpos : 0 < start * utils.dsize t.meta.dtype := Nat.pos_of_ne_zero hz
    have hle : (t.meta.strides.getD dim 0).toNat ≤
        start * (t.meta.strides.getD dim 0).toNat * utils.dsize t.meta.dtype := by
      have e : start * (t.meta.strides.getD dim 0).toNat * utils.dsize t.meta.dtype =
          (t.meta.strides.getD dim 0).toNat * (start * utils.dsize t.meta.dtype) := by ring
      rw [e]
      exact Nat.le_mul_of_pos_right _ hpos
    have hlt : (t.meta.strides.getD dim 0).toNat < 2 ^ 64 := by omega
    have hsz : toSizeT (t.meta.strides.getD dim 0) = (t.meta.strides.getD dim 0).toNat := by
      unfold toSizeT
      rw [Int.emod_eq_of_lt hs (by
        have : ((t.meta.strides.getD dim 0).toNat : Int) < 2 ^ 64 := by exact_mod_cast hlt
        rwa [Int.toNat_of_nonneg hs] at this)]
    rw [hsz]
    exact Nat.mod_eq_of_lt hno

/-- C31: for a valid slice with `start < end` of a tensor with non-negative strides, as long
as the byte offset does not wrap around `2^64`, `data()` of the result lies
`start * strides[dim]` elements after `data()` of the source: the `_offset` field, which the
code keeps in bytes, grows by `start * strides[dim] * elementSize`, so a source offset of `o`
elements (`_offset = o * elementSize`) becomes an offset of `o + start * strides[dim]`
elements. For `start = end` the offset is unchanged. -/
theorem slice_offset (t : Tensor) (dim start end_ : Nat) (hd : dim < t.ndim)
    (hes : end_ ≤ t.shape.getD dim 0) (hv : t.Valid)
    (hno : t.offset + start * (t.strides.getD dim 0).toNat * t.elementSize < 2 ^ 64) :
    (start < end_ →
      ∃ r, t.slice dim start end_ = .ok r ∧
        (r.offset : Int) = (t.offset : Int) +
          (start : Int) * t.strides.getD dim 0 * (t.elementSize : Int) ∧
        (r.data : Int) = (t.data : Int) +
          (start : Int) * t.strides.getD dim 0 * (t.elementSize : Int) ∧
        ∀ o : Nat, t.offset = o * t.elementSize →
          (r.offset : Int) =
            ((o : Int) + (start : Int) * t.strides.getD dim 0) * (t.elementSize : Int)) ∧
    (start = end_ → ∃ r, t.slice dim start end_ = .ok r ∧ r.offset = t.offset) := by
  have hsn : 0 ≤ t.meta.strides.getD dim 0 := by
    have hlen : dim < t.meta.strides.length := by
      have := hv.1
      simp only [Tensor.strides] at this
      omega
    rw [List.getD_eq_getElem _ _ hlen]
    exact hv.2.1 _ (List.getElem_mem _)
  constructor
  · intro hlt
    rw [slice_eq, if_pos ⟨hd, by omega, hes⟩]
    have hoff : (t.offset + start * toSizeT (t.meta.strides.getD dim 0) *
        utils.dsize t.meta.dtype) % 2 ^ 64 =
        t.offset + start * (t.meta.strides.getD dim 0).toNat * utils.dsize t.meta.dtype :=
      slice_offset_bytes t dim start hsn hno
    have hcast : (((t.meta.strides.getD dim 0).toNat : Nat) : Int) =
        t.meta.strides.getD dim 0 := Int.toNat_of_nonneg hsn
    have hoffs : ((if start = end_ then t.offset
        else (t.offset + start * toSizeT (t.meta.strides.getD dim 0) *
          utils.dsize t.meta.dtype) % 2 ^ 64 : Nat) : Int) =
        (t.offset : Int) + (start : Int) * t.meta.strides.getD dim 0 *
          (utils.dsize t.meta.dtype : Int) := by
      rw [if_neg (by omega), hoff]
      push_cast
      rw [hcast]
    refine ⟨_, rfl, hoffs, ?_, fun o ho => ?_⟩
    · simp only [Tensor.data, Tensor.strides, Tensor.elementSize]
      rw [Nat.cast_add, hoffs, Nat.cast_add]
      ring
    · simp only [Tensor.strides, Tensor.elementSize] at ho ⊢
      rw [hoffs, ho]
      push_cast
      ring
  · intro heq
    rw [slice_eq, if_pos ⟨hd, by omega, hes⟩]
    exact ⟨_, rfl, by simp only [if_pos heq]⟩

/-- C31, an instance: rows 1..2 of the contiguous 32-bit float `[3, 4]` tensor (strides
`[4, 1]`, 4-byte elements): the byte offset becomes `1 * 4 * 4 = 16`, i.e. 4 elements. -/
theorem slice_offset_witness :
    ∃ r, (Tensor.create [3, 4] .F32 .CPU 0 0).slice 0 1 3 = .ok r ∧ (r.offset : Int) = 16 := by
  obtain ⟨r, hr, hoff, _⟩ := (slice_offset (Tensor.create [3, 4] .F32 .CPU 0 0) 0 1 3
    (by decide) (by decide) (valid_create _ _ _ _ _) (by decide)).1 (by decide)
  exact ⟨r, hr, hoff.trans (by decide)⟩

/-- Shifting one coordinate of a multi-index by `start` shifts the element offset by
`start * strides[dim]`. -/
theorem elemOffset_shift (ss : List Int) (idx idx' : List Nat) (dim start n : Nat)
    (hdim : dim < n) (hl : idx.length = n) (hl' : idx'.length = n)
    (hat : idx'.getD dim 0 = idx.getD dim 0 + start)
    (hrest : ∀ k, k ≠ dim → idx'.getD k 0 = idx.getD k 0) :
    (List.zipWith (fun (i : Nat) (s : Int) => (i : Int) * s) idx' ss).sum =
      (List.zipWith (fun (i : Nat) (s : Int) => (i : Int) * s) idx ss).sum +
        (start : Int) * ss.getD dim 0 := by
  rw [zipWith_sum_range, zipWith_sum_range, hl, hl']
  have hterm : ∀ k ∈ Finset.range n, (idx'.getD k 0 : Int) * ss.getD k 0 =
      (idx.getD k 0 : Int) * ss.getD k 0 +
        (if k = dim then (start : Int) * ss.getD dim 0 else 0) := by
    intro k _
    by_cases hk : k = dim
    · subst hk
      rw [if_pos rfl, hat]
      push_cast
      ring
    · rw [if_neg hk, hrest k hk, add_zero]
  rw [Finset.sum_congr rfl hterm, Finset.sum_add_distrib, Finset.sum_ite_eq',
    if_pos (Finset.mem_range.mpr hdim)]

/-- C32: for a valid slice `S = T.slice(dim, start, end)` with `start < end` of a tensor with
non-negative strides (the byte offset not wrapping around `2^64`) and every multi-index `idx`
of `S`, the byte address of `S`'s element `idx`
(`S.data() + Σ idx[i] * strides[i] * elementSize`) is the byte address of `T`'s element
`idx'`, where `idx'[dim] = idx[dim] + start` and `idx'[k] = idx[k]` for `k ≠ dim`. -/
theorem slice_reads_subrange (t : Tensor) (dim start end_ : Nat) (hd : dim < t.ndim)
    (hse : start < end_) (hes : end_ ≤ t.shape.getD dim 0) (hv : t.Valid)
    (hno : t.offset + start * (t.strides.getD dim 0).toNat * t.elementSize < 2 ^ 64) :
    ∃ r, t.slice dim start end_ = .ok r ∧
      ∀ idx idx' : List Nat, idx.length = t.ndim → idx'.length = t.ndim →
        idx'.getD dim 0 = idx.getD dim 0 + start →
        (∀ k, k ≠ dim → idx'.getD k 0 = idx.getD k 0) →
        r.elemAddr idx = t.elemAddr idx' := by
  have hsn : 0 ≤ t.meta.strides.getD dim 0 := by
    have hlen : dim < t.meta.strides.length := by
      have := hv.1
      simp only [Tensor.strides] at this
      omega
    rw [List.getD_eq_getElem _ _ hlen]
    exact hv.2.1 _ (List.getElem_mem _)
  have hoff : (t.offset + start * toSizeT (t.meta.strides.getD dim 0) *
      utils.dsize t.meta.dtype) % 2 ^ 64 =
      t.offset + start * (t.meta.strides.getD dim 0).toNat * utils.dsize t.meta.dtype :=
    slice_offset_bytes t dim start hsn hno
  have hcast : (((t.meta.strides.getD dim 0).toNat : Nat) : Int) =
      t.meta.strides.getD dim 0 := Int.toNat_of_nonneg hsn
  rw [slice_eq, if_pos ⟨hd, by omega, hes⟩]
  refine ⟨_, rfl, fun idx idx' hl hl' hat hrest => ?_⟩
  have hshift := elemOffset_shift t.meta.strides idx idx' dim start t.ndim hd hl hl' hat hrest
  simp only [Tensor.elemAddr, Tensor.data, Tensor.elemOffset, Tensor.strides,
    Tensor.elementSize]
  rw [hshift, if_neg (by omega), hoff]
  push_cast
  rw [hcast]
  ring

/-- C32, an instance: in rows 1..2 of the contiguous 32-bit float `[3, 4]` tensor at address
1000, element `[0, 2]` of the slice is element `[1, 2]` of the source, at byte
`1000 + (4 + 2) * 4`. -/
theorem slice_reads_subrange_witness :
    ∃ r, (Tensor.create [3, 4] .F32 .CPU 0 1000).slice 0 1 3 = .ok r ∧
      r.elemAddr [0, 2] = 1024 := by
  obtain ⟨r, hr, h⟩ := slice_reads_subrange (Tensor.create [3, 4] .F32 .CPU 0 1000) 0 1 3
    (by decide) (by decide) (by decide) (valid_create _ _ _ _ _) (by decide)
  refine ⟨r, hr, (h [0, 2] [1, 2] rfl rfl rfl (fun k hk => ?_)).trans (by decide)⟩
  cases k with
  | zero => exact absurd rfl hk
  | succ k => rfl

/-- Summing over the entries of a permutation of `[0..n)` is summing over `[0..n)`. -/
theorem sum_over_order (order : List Nat) (n : Nat) (hl : order.length = n)
    (hlt : ∀ x ∈ order, x < n) (hnd : order.Nodup) (F : Nat → Int) :
    ∑ i in Finset.range n, F (order.getD i 0) = ∑ k in Finset.range n, F k := by
  have hperm : order.Perm (List.range n) := (perm_range_iff order n).mpr ⟨hl, hlt, hnd⟩
  have h1 : ∑ i in Finset.range n, F (order.getD i 0) = (order.map F).sum := by
    subst hl
    clear hlt hnd hperm
    induction order using List.reverseRecOn with
    | nil => simp
    | append_singleton l a ih =>
      rw [List.length_append, List.length_singleton, Finset.sum_range_succ, List.map_append,
        List.sum_append]
      have e1 : ∀ i ∈ Finset.range l.length, F ((l ++ [a]).getD i 0) = F (l.getD i 0) := by
        intro i hi
        have hi' := Finset.mem_range.mp hi
        rw [List.getD_eq_getElem _ _ (by simp; omega), List.getD_eq_getElem _ _ hi',
          List.getElem_append_left hi']
      rw [Finset.sum_congr rfl e1, ih]
      have e2 : (l ++ [a]).getD l.length 0 = a := by
        rw [List.getD_eq_getElem _ _ (by simp)]
        simp
      rw [e2]
      simp
  have h2 : ∑ k in Finset.range n, F k = ((List.range n).map F).sum := by
    clear h1 hperm hl hlt hnd
    induction n with
    | zero => simp
    | succ n ih =>
      rw [Finset.sum_range_succ, List.range_succ, List.map_append, List.sum_append, ih]
      simp
  rw [h1, h2]
  exact (hperm.map F).sum_eq

theorem getD_map_of_lt {α : Type} (order : List Nat) (f : Nat → α) (i : Nat) (d : α)
    (hi : i < order.length) : (order.map f).getD i d = f (order.getD i 0) := by
  rw [List.getD_eq_getElem _ _ (by simpa using hi), List.getElem_map,
    List.getD_eq_getElem _ _ hi]

/-- C38: for every tensor `T` and valid order `p` the tensor `P = T.permute(p)` has the
storage, the offset (hence `data()`) and the element count of `T`, and for every multi-index
`idx` of `P` the location of `P`'s element `idx`, `Σ idx[i] * P.strides[i]` elements from
`data()`, is the location of `T`'s element `idx'`, where `idx'[p[i]] = idx[i]` for every
`i`. -/
theorem permute_reindex (t : Tensor) (order : List Nat) (hl : order.length = t.ndim)
    (hlt : ∀ x ∈ order, x < t.ndim) (hnd : order.Nodup) :
    ∃ P, t.permute order = .ok P ∧ P.numel = t.numel ∧ P.storage = t.storage ∧
      P.offset = t.offset ∧ P.data = t.data ∧
      ∀ idx idx' : List Nat, idx.length = t.ndim → idx'.length = t.ndim →
        (∀ i, i < t.ndim → idx'.getD (order.getD i 0) 0 = idx.getD i 0) →
        P.elemOffset idx = t.elemOffset idx' ∧ P.elemAddr idx = t.elemAddr idx' := by
  refine ⟨_, permute_ok_map t order hl hlt hnd, ?_, rfl, rfl, rfl, fun idx idx' hi hi' hre => ?_⟩
  · rw [numel_eq_prod, numel_eq_prod]
    simp only [Tensor.shape]
    have hperm : order.Perm (List.range t.ndim) :=
      (perm_range_iff order t.ndim).mpr ⟨hl, hlt, hnd⟩
    have hshape : t.meta.shape = (List.range t.ndim).map (fun k => t.meta.shape.getD k 0) := by
      apply List.ext_getElem?
      intro j
      rw [List.getElem?_map]
      by_cases hj : j < t.meta.shape.length
      · rw [List.getElem?_eq_getElem hj,
          List.getElem?_eq_getElem (by simpa [Tensor.ndim] using hj)]
        simp [List.getElem?_eq_getElem hj]
      · rw [List.getElem?_eq_none (by omega),
          List.getElem?_eq_none (by simp [Tensor.ndim]; omega)]
        rfl
    conv_rhs => rw [hshape]
    exact (hperm.map _).prod_eq
  · have hoff : (List.zipWith (fun (i : Nat) (s : Int) => (i : Int) * s) idx
        (order.map (fun k => t.meta.strides.getD k 0))).sum =
        (List.zipWith (fun (i : Nat) (s : Int) => (i : Int) * s) idx' t.meta.strides).sum := by
      rw [zipWith_sum_range, zipWith_sum_range, hi, hi']
      have e1 : ∀ i ∈ Finset.range t.ndim,
          (idx.getD i 0 : Int) * (order.map (fun k => t.meta.strides.getD k 0)).getD i 0 =
          (fun k => (idx'.getD k 0 : Int) * t.meta.strides.getD k 0) (order.getD i 0) := by
        intro i him
        have hil := Finset.mem_range.mp him
        rw [getD_map_of_lt order _ i 0 (by omega), ← hre i hil]
      rw [Finset.sum_congr rfl e1]
      exact sum_over_order order t.ndim hl hlt hnd
        (fun k => (idx'.getD k 0 : Int) * t.meta.strides.getD k 0)
    refine ⟨hoff, ?_⟩
    simp only [Tensor.elemAddr, Tensor.elemOffset, Tensor.strides, Tensor.data,
      Tensor.elementSize]
    rw [hoff]

/-- C38, an instance: in the transpose of the contiguous `[2, 3]` tensor, element `[2, 1]` is
element `[1, 2]` of the source, 5 elements from `data()`; both have 6 elements. -/
theorem permute_reindex_witness :
    ∃ P, (Tensor.create [2, 3] .F32 .CPU 0 0).permute [1, 0] = .ok P ∧
      P.numel = 6 ∧ P.elemOffset [2, 1] = 5 := by
  obtain ⟨P, hP, hn, _, _, _, h⟩ := permute_reindex (Tensor.create [2, 3] .F32 .CPU 0 0)
    [1, 0] rfl (by decide) (by decide)
  refine ⟨P, hP, hn.trans (by decide), (h [2, 1] [1, 2] rfl rfl (fun i hi => ?_)).1.trans
    (by decide)⟩
  have hi' : i < 2 := hi
  interval_cases i <;> rfl

/-- Canonical strides pass the contiguity test. -/
theorem isContiguous_of_rowMajor (t : Tensor) (h : t.strides = rowMajorStrides t.shape) :
    t.isContiguous = true := by
  unfold Tensor.isContiguous
  by_cases h1 : t.ndim ≤ 1
  · rw [if_pos h1]
  · rw [if_neg h1]
    have hnd : t.ndim = t.shape.length := rfl
    rw [hnd, isContiguousLoop_iff t.shape t.strides t.shape.length (Nat.le_refl _) 1,
      List.take_length]
    intro dim hdim
    rw [h, rowMajorStrides_getD t.shape dim hdim, one_mul]

/-- A contiguous tensor that satisfies the representation invariant has the canonical
strides of its shape. -/
theorem contiguous_strides_eq (t : Tensor) (hv : t.Valid) (hc : t.isContiguous = true) :
    t.strides = rowMajorStrides t.shape := by
  obtain ⟨hlen, _, h1⟩ := hv
  have hnd : t.ndim = t.shape.length := rfl
  by_cases hr : t.ndim ≤ 1
  · by_cases h0 : t.ndim = 0
    · have hs : t.strides = [] := List.length_eq_zero.mp (by omega)
      have hsh : t.shape = [] := List.length_eq_zero.mp (by omega)
      rw [hs, hsh]
      rfl
    · have hone : t.ndim = 1 := by omega
      obtain ⟨a, ha⟩ := List.length_eq_one.mp (hnd ▸ hone)
      rw [h1 hone, ha]
      simp [rowMajorStrides]
  · unfold Tensor.isContiguous at hc
    rw [if_neg hr, hnd, isContiguousLoop_iff t.shape t.strides t.shape.length
      (Nat.le_refl _) 1, List.take_length] at hc
    apply List.ext_getElem?
    intro j
    by_cases hj : j < t.shape.length
    · have hjs : j < t.strides.length := by omega
      have hjr : j < (rowMajorStrides t.shape).length := by
        rw [rowMajorStrides_length]; exact hj
      have e1 := hc j hj
      rw [one_mul, ← rowMajorStrides_getD t.shape j hj, List.getD_eq_getElem _ _ hjs,
        List.getD_eq_getElem _ _ hjr] at e1
      rw [List.getElem?_eq_getElem hjs, List.getElem?_eq_getElem hjr, e1]
    · rw [List.getElem?_eq_none (by omega),
        List.getElem?_eq_none (by rw [rowMajorStrides_length]; omega)]

/-- C39: for every non-empty contiguous tensor `T` (satisfying the representation invariant
of the view engine) and every `newShape` with `product(newShape) = numel`, `view` succeeds,
its result `V` is contiguous according to `isContiguous` and starts at `data()` of `T`; the
element of `V` at a multi-index of row-major rank `r` lies `r` elements from `data()`, and so
does the element of `T` at a multi-index of row-major rank `r`: elements of equal rank have
the same address. -/
theorem view_row_major (t : Tensor) (new_shape : List Nat) (hv : t.Valid)
    (hc : t.isContiguous = true) (_hn : t.numel ≠ 0) (hp : new_shape.prod = t.numel) :
    ∃ V, t.view new_shape = .ok V ∧ V.isContiguous = true ∧ V.data = t.data ∧
      (∀ idx, V.elemOffset idx = rowMajorRank new_shape idx) ∧
      (∀ idx, t.elemOffset idx = rowMajorRank t.shape idx) ∧
      (∀ idxV idxT, rowMajorRank new_shape idxV = rowMajorRank t.shape idxT →
        V.elemAddr idxV = t.elemAddr idxT) := by
  have hts := contiguous_strides_eq t hv hc
  have htoff : ∀ idx, t.elemOffset idx = rowMajorRank t.shape idx := by
    intro idx
    simp only [Tensor.elemOffset, rowMajorRank, hts]
  rw [view_eq, if_neg (by
    rintro (h | ⟨_, h⟩)
    · exact h hp
    · rw [hc] at h; exact absurd h (by simp))]
  refine ⟨_, rfl, isContiguous_of_rowMajor _ rfl, rfl, fun idx => rfl, htoff,
    fun idxV idxT hr => ?_⟩
  simp only [Tensor.elemAddr, Tensor.data, Tensor.elementSize]
  rw [htoff idxT, ← hr]
  rfl

/-- C39, an instance: viewing the contiguous `[2, 3]` tensor as `[3, 2]`, element `[2, 1]` of
the view and element `[1, 2]` of the source both have row-major rank 5 and share their
address. -/
theorem view_row_major_witness :
    ∃ V, (Tensor.create [2, 3] .F32 .CPU 0 0).view [3, 2] = .ok V ∧
      V.isContiguous = true ∧
      V.elemAddr [2, 1] = (Tensor.create [2, 3] .F32 .CPU 0 0).elemAddr [1, 2] := by
  obtain ⟨V, hV, hcV, _, _, _, h⟩ := view_row_major (Tensor.create [2, 3] .F32 .CPU 0 0) [3, 2]
    (valid_create _ _ _ _ _) (by decide) (by decide) (by decide)
  exact ⟨V, hV, hcV, h [2, 1] [1, 2] (by decide)⟩

end llaisys
